import Mathlib

/-!
# Syrem: sub-term recognizers and next-occurrence arithmetic

A shallow embedding of `src/lib/terms.cpp` (the `Expressions` sub-terms: their
`apply` / `fixup` calendar arithmetic and their recognizers) together with the
part of the Qt value classes (`QDate`, `QTime`, `QDateTime`) the sub-terms call.

## Conventions of the Qt model

* `QDate` is a Julian day number, as in Qt; the null date is `none`.  The
  calendar is the proleptic Gregorian calendar without a year 0, computed with
  the same formulas as `qdatetime.cpp` (`julianDayFromDate`,
  `getDateFromJulianDay`).  Qt's helper `floordiv` is mathematical floor
  division; with a positive divisor this is `/` on `Int`.  The model is
  unbounded: the representable range of `qint64` Julian days is not modelled.
* `QTime` is a number of milliseconds since midnight, `-1` for the null time.
* `QDateTime` is a date plus a time of day in a time specification without
  daylight-saving transitions (UTC or a fixed offset); instants are compared
  through their milliseconds since the epoch, as Qt does.
-/

namespace Qt

/-! ## QDate -/

/-- Result of `getDateFromJulianDay`: a calendar year, month and day. -/
structure ParsedDate where
  year : Int
  month : Int
  day : Int
deriving DecidableEq, Repr

/-- `julianDayFromDate` of qdatetime.cpp. -/
def julianDayFromDate (year month day : Int) : Int :=
  let year := if year < 0 then year + 1 else year
  let a := (14 - month) / 12
  let y := year + 4800 - a
  let m := month + 12 * a - 3
  day + (153 * m + 2) / 5 + 365 * y + y / 4 - y / 100 + y / 400 - 32045

/-- `getDateFromJulianDay` of qdatetime.cpp. -/
def getDateFromJulianDay (julianDay : Int) : ParsedDate :=
  let a := julianDay + 32044
  let b := (4 * a + 3) / 146097
  let c := a - (146097 * b) / 4
  let d := (4 * c + 3) / 1461
  let e := c - (1461 * d) / 4
  let m := (5 * e + 2) / 153
  let day := e - (153 * m + 2) / 5 + 1
  let month := m + 3 - 12 * (m / 10)
  let year := 100 * b + d - 4800 + m / 10
  let year := if year ≤ 0 then year - 1 else year
  { year := year, month := month, day := day }

/-- `QDate::isLeapYear`: there is no year 0, so -1, -5, -9 ... are leap years. -/
def isLeapYear (y : Int) : Bool :=
  let y := if y < 1 then y + 1 else y
  (y % 4 == 0 && y % 100 != 0) || y % 400 == 0

/-- The table `monthDays` of qdatetime.cpp (index 0 unused). -/
def monthDays (month : Int) : Int :=
  if month = 2 then 28
  else if month = 4 ∨ month = 6 ∨ month = 9 ∨ month = 11 then 30
  else if 1 ≤ month ∧ month ≤ 12 then 31
  else 0

/-- `QDate::isValid(int year, int month, int day)`. -/
def isValidYMD (year month day : Int) : Bool :=
  if year = 0 then false
  else
    (decide (0 < day) && decide (0 < month) && decide (month ≤ 12)) &&
      (decide (day ≤ monthDays month) ||
        (decide (day = 29) && decide (month = 2) && isLeapYear year))

/-- A `QDate`: the Julian day number, `none` for the null date. -/
abbrev QDate := Option Int

namespace QDate

/-- The null date `QDate()`. -/
def null : QDate := none

/-- `QDate::isValid() const`. -/
def isValid (d : QDate) : Bool := d.isSome

/-- `QDate::QDate(int y, int m, int d)`: the null date when the triple is not a date. -/
def ofYMD (y m d : Int) : QDate :=
  if isValidYMD y m d then some (julianDayFromDate y m d) else none

/-- `QDate::year()`: 0 for the null date. -/
def year : QDate → Int
  | none => 0
  | some jd => (getDateFromJulianDay jd).year

/-- `QDate::month()`: 0 for the null date. -/
def month : QDate → Int
  | none => 0
  | some jd => (getDateFromJulianDay jd).month

/-- `QDate::day()`: 0 for the null date. -/
def day : QDate → Int
  | none => 0
  | some jd => (getDateFromJulianDay jd).day

/-- `QDate::dayOfWeek()`: 1 = Monday .. 7 = Sunday, 0 for the null date.  Qt
computes `jd % 7 + 1` for `jd >= 0` and `(jd + 1) % 7 + 7` below, which is the
floor remainder plus one in both branches. -/
def dayOfWeek : QDate → Int
  | none => 0
  | some jd => jd % 7 + 1

/-- `QDate::daysInMonth()`: 0 for the null date. -/
def daysInMonth : QDate → Int
  | none => 0
  | some jd =>
    let pd := getDateFromJulianDay jd
    if pd.month = 2 ∧ isLeapYear pd.year = true then 29 else monthDays pd.month

/-- `QDate::addDays`. -/
def addDays (d : QDate) (ndays : Int) : QDate :=
  match d with
  | none => none
  | some jd => some (jd + ndays)

/-- The static helper `fixedDate(y, m, d)`: the day is cut down to the length
of the target month. -/
def fixedDate (y m d : Int) : QDate :=
  let result := ofYMD y m 1
  ofYMD y m (min d result.daysInMonth)

/-- The `while (nmonths != 0)` loop of `QDate::addMonths` on the pair
(year, month); every round moves `nmonths` twelve closer to zero, sets it to
zero, or (once) turns month 12 into month 0 of the next year. -/
def addMonthsLoop : Nat → Int → Int → Int → Int × Int
  | 0, y, m, _ => (y, m)
  | fuel + 1, y, m, nmonths =>
    if nmonths = 0 then (y, m)
    else if nmonths < 0 ∧ nmonths + 12 ≤ 0 then addMonthsLoop fuel (y - 1) m (nmonths + 12)
    else if nmonths < 0 then
      let m := m + nmonths
      if m ≤ 0 then (y - 1, m + 12) else (y, m)
    else if nmonths - 12 ≥ 0 then addMonthsLoop fuel (y + 1) m (nmonths - 12)
    else if m = 12 then addMonthsLoop fuel (y + 1) 0 nmonths
    else
      let m := m + nmonths
      if m > 12 then (y + 1, m - 12) else (y, m)

/-- `QDate::addMonths`. -/
def addMonths (d : QDate) (nmonths : Int) : QDate :=
  match d with
  | none => none
  | some jd =>
    if nmonths = 0 then some jd
    else
      let pd := getDateFromJulianDay jd
      let old_y := pd.year
      let ym := addMonthsLoop (nmonths.natAbs + 2) pd.year pd.month nmonths
      let y := ym.1
      -- was there a sign change?
      let y := if (old_y > 0 ∧ y ≤ 0) ∨ (old_y < 0 ∧ y ≥ 0) then
          (if nmonths > 0 then y + 1 else y - 1) else y
      fixedDate y ym.2 pd.day

/-- `QDate::addYears`. -/
def addYears (d : QDate) (nyears : Int) : QDate :=
  match d with
  | none => none
  | some jd =>
    let pd := getDateFromJulianDay jd
    let old_y := pd.year
    let y := pd.year + nyears
    let y := if (old_y > 0 ∧ y ≤ 0) ∨ (old_y < 0 ∧ y ≥ 0) then
        (if nyears > 0 then y + 1 else y - 1) else y
    fixedDate y pd.month pd.day

end QDate

/-! ## QTime -/

/-- Milliseconds in a day. -/
def MSECS_PER_DAY : Int := 86400000

/-- A `QTime`: milliseconds since midnight, `-1` (`NullTime`) for the null time. -/
structure QTime where
  mds : Int
deriving DecidableEq, Repr

namespace QTime

/-- The null time `QTime()`. -/
def null : QTime := ⟨-1⟩

/-- `QTime::isValid() const`. -/
def isValid (t : QTime) : Bool := decide (-1 < t.mds) && decide (t.mds < MSECS_PER_DAY)

/-- `QTime::isValid(int h, int m, int s, int ms)`. -/
def isValidHMS (h m s ms : Int) : Bool :=
  decide (0 ≤ h) && decide (h < 24) && decide (0 ≤ m) && decide (m < 60) &&
    decide (0 ≤ s) && decide (s < 60) && decide (0 ≤ ms) && decide (ms < 1000)

/-- `QTime::QTime(int h, int m, int s, int ms)`. -/
def ofHMS (h m s ms : Int) : QTime :=
  if isValidHMS h m s ms then ⟨(h * 3600 + m * 60 + s) * 1000 + ms⟩ else null

/-- `QTime::hour()`: -1 for an invalid time. -/
def hour (t : QTime) : Int := if t.isValid then t.mds / 3600000 else -1

/-- `QTime::minute()`: -1 for an invalid time. -/
def minute (t : QTime) : Int := if t.isValid then (t.mds % 3600000) / 60000 else -1

end QTime

/-! ## QDateTime -/

/-- A `QDateTime`: what `date()` and `time()` return. -/
structure QDateTime where
  date : QDate
  time : QTime
deriving DecidableEq, Repr

/-- Julian day of 1970-01-01. -/
def JULIAN_DAY_FOR_EPOCH : Int := 2440588

namespace QDateTime

/-- `QDateTime::isValid()`. -/
def isValid (dt : QDateTime) : Bool := dt.date.isValid && dt.time.isValid

/-- The static helper `setDateTime`: with a valid date an invalid time becomes
midnight; an invalid part is stored as null. -/
def setDateTime (date : QDate) (time : QTime) : QDateTime :=
  let useTime := if !time.isValid && date.isValid then (⟨0⟩ : QTime) else time
  { date := date, time := if useTime.isValid then useTime else QTime.null }

/-- `QDateTime::QDateTime(const QDate &, const QTime &)`. -/
def ofDateTime (date : QDate) (time : QTime) : QDateTime := setDateTime date time

/-- `QDateTime::setDate`. -/
def setDate (dt : QDateTime) (date : QDate) : QDateTime := setDateTime date dt.time

/-- `QDateTime::setTime`. -/
def setTime (dt : QDateTime) (time : QTime) : QDateTime := setDateTime dt.date time

/-- `QDateTime::toMSecsSinceEpoch()`; an invalid date counts as day 0 and an
invalid time as 0 ms, as in `setDateTime`. -/
def toMSecsSinceEpoch (dt : QDateTime) : Int :=
  let days := match dt.date with
    | none => 0
    | some jd => jd - JULIAN_DAY_FOR_EPOCH
  let ds := if dt.time.isValid then dt.time.mds else 0
  days * MSECS_PER_DAY + ds

/-- `QDateTime::addDays`. -/
def addDays (dt : QDateTime) (ndays : Int) : QDateTime :=
  setDateTime (dt.date.addDays ndays) dt.time

/-- `QDateTime::addMonths`. -/
def addMonths (dt : QDateTime) (nmonths : Int) : QDateTime :=
  setDateTime (dt.date.addMonths nmonths) dt.time

/-- `QDateTime::addYears`. -/
def addYears (dt : QDateTime) (nyears : Int) : QDateTime :=
  setDateTime (dt.date.addYears nyears) dt.time

/-- `QDateTime::addMSecs`: the null date-time for an invalid one. -/
def addMSecs (dt : QDateTime) (msecs : Int) : QDateTime :=
  if dt.isValid then
    let total := dt.toMSecsSinceEpoch + msecs
    { date := some (JULIAN_DAY_FOR_EPOCH + total / MSECS_PER_DAY),
      time := ⟨total % MSECS_PER_DAY⟩ }
  else { date := QDate.null, time := QTime.null }

/-- `QDateTime::addSecs`. -/
def addSecs (dt : QDateTime) (s : Int) : QDateTime := dt.addMSecs (s * 1000)

/-- `operator<` on `QDateTime`. -/
instance : LT QDateTime := ⟨fun a b => a.toMSecsSinceEpoch < b.toMSecsSinceEpoch⟩

/-- `operator<=` on `QDateTime`. -/
instance : LE QDateTime := ⟨fun a b => a.toMSecsSinceEpoch ≤ b.toMSecsSinceEpoch⟩

instance (a b : QDateTime) : Decidable (a < b) :=
  inferInstanceAs (Decidable (a.toMSecsSinceEpoch < b.toMSecsSinceEpoch))

instance (a b : QDateTime) : Decidable (a ≤ b) :=
  inferInstanceAs (Decidable (a.toMSecsSinceEpoch ≤ b.toMSecsSinceEpoch))

end QDateTime

end Qt

/-! # Text and regular expressions (`QString`, `QRegularExpression`)

Texts are lists of characters.  `QRegularExpression` is modelled for the part
of the PCRE syntax that `terms.cpp` writes: literal characters, the escapes
`\d`, `\s` and backslash-punctuation, the anchor `^`, groups `( )`, `(?: )`,
`(?<name> )`, alternation, and the greedy quantifiers `?`, `*`, `+`, `{n}`,
`{n,}`, `{n,m}` on a single character or class and `?` on a group.  Matching is
backtracking in PCRE's order of preference (leftmost alternative first, longest
repetition first).  All patterns are used with `CaseInsensitiveOption` and
`UseUnicodePropertiesOption`: the classes `\d` and `\s` are the Unicode ones,
and a letter of a pattern (all of them are ASCII) matches in either case, `k`
also the Kelvin sign and `s` also the long s.
-/

namespace Qt

/-- A `QString` / `QStringRef`: its characters. -/
abbrev Text := List Char

namespace Text

/-- The parts of a text between occurrences of `sep`; `cur` is the part being read, reversed. -/
def splitAux (sep : Char) : List Char → List Char → List (List Char)
  | [], cur => [cur.reverse]
  | c :: rest, cur =>
    if c = sep then cur.reverse :: splitAux sep rest [] else splitAux sep rest (c :: cur)

/-- `QString::split(sep)` (`KeepEmptyParts`). -/
def split (s : Text) (sep : Char) : List Text := splitAux sep s []

/-- `QString::split(sep, QString::SkipEmptyParts)`. -/
def splitSkipEmpty (s : Text) (sep : Char) : List Text :=
  (split s sep).filter (fun p => !p.isEmpty)

/-- `QStringList::join(sep)`. -/
def join : List Text → Text → Text
  | [], _ => []
  | [p], _ => p
  | p :: q :: rest, sep => p ++ sep ++ join (q :: rest) sep

/-- `QChar::toLower()` on an ASCII letter and on the Kelvin sign U+212A, whose
lower case is `k`: the one character beyond ASCII whose lower case is an ASCII
letter.  Any other character is left as it is. -/
def lowerChar (c : Char) : Char := if c = '\u212a' then 'k' else c.toLower

/-- `QString::toLower()`, for texts that are compared with ASCII texts: see
`lowerChar`. -/
def toLower (s : Text) : Text := s.map lowerChar

/-- `QString::arg(a1, a2)`: one pass that replaces the place markers `%1` by
`a1` and `%2` by `a2`. -/
def arg2 : Text → Text → Text → Text
  | '%' :: '1' :: rest, a1, a2 => a1 ++ arg2 rest a1 a2
  | '%' :: '2' :: rest, a1, a2 => a2 ++ arg2 rest a1 a2
  | c :: rest, a1, a2 => c :: arg2 rest a1 a2
  | [], _, _ => []

/-- `QString::arg(a)` on a text whose lowest place marker is `%1`: every `%1`
is replaced by `a`. -/
def arg1 : Text → Text → Text
  | '%' :: '1' :: rest, a => a ++ arg1 rest a
  | c :: rest, a => c :: arg1 rest a
  | [], _ => []

/-- Whether `p` starts the text, compared case-insensitively when `ci` is set. -/
def startsWith (s p : Text) (ci : Bool) : Bool :=
  match p, s with
  | [], _ => true
  | _ :: _, [] => false
  | a :: p, b :: s => (if ci then a.toLower == b.toLower else a == b) && startsWith s p ci

/-- `QString::indexOf(sub, from)`, as an offset from position `pos` of the
scan; `none` stands for -1. -/
def indexOfAux (sub : Text) : Text → Nat → Option Nat
  | [], pos => if sub.isEmpty then some pos else none
  | c :: rest, pos => if startsWith (c :: rest) sub false then some pos else indexOfAux sub rest (pos + 1)

/-- `QString::indexOf(sub, from)`; `none` stands for -1. -/
def indexOf (s sub : Text) (start : Nat) : Option Nat := indexOfAux sub (s.drop start) start

/-- `QString::mid(pos, len)`. -/
def mid (s : Text) (pos len : Nat) : Text := (s.drop pos).take len

/-- `QString::replace(pos, len, after)`. -/
def replaceAt (s : Text) (pos len : Nat) (after : Text) : Text :=
  s.take pos ++ after ++ s.drop (pos + len)

/-- Scan of `QString::replace(before, after, cs)`: `skip` characters of an
occurrence just replaced are still to be passed over. -/
def replaceAllAux (before after : Text) (ci : Bool) : Text → Nat → Text
  | [], _ => []
  | _ :: rest, skip + 1 => if skip = 0 then replaceAllAux before after ci rest 0
      else replaceAllAux before after ci rest skip
  | c :: rest, 0 =>
    if startsWith (c :: rest) before ci then
      after ++ replaceAllAux before after ci rest (before.length - 1)
    else c :: replaceAllAux before after ci rest 0

/-- `QString::replace(before, after, cs)` for a non-empty `before`: every
occurrence, left to right, without overlap. -/
def replaceAll (s before after : Text) (ci : Bool) : Text := replaceAllAux before after ci s 0

/-- Value of a run of decimal digits read left to right, `none` on any other character. -/
def digitsValue : List Char → Nat → Option Nat
  | [], acc => some acc
  | c :: rest, acc => if c.isDigit then digitsValue rest (acc * 10 + (c.toNat - 48)) else none

/-- `QString::toInt(&ok)` on an optional sign followed by decimal digits:
`none` stands for `ok == false` (no digits, another character, or a value
outside the range of `int`). -/
def toInt (s : Text) : Option Int :=
  let signed : Bool × List Char := match s with
    | '-' :: rest => (true, rest)
    | '+' :: rest => (false, rest)
    | _ => (false, s)
  if signed.2.isEmpty then none
  else
    match digitsValue signed.2 0 with
    | none => none
    | some n =>
      let v : Int := if signed.1 then -(n : Int) else (n : Int)
      if -2147483648 ≤ v ∧ v ≤ 2147483647 then some v else none

end Text

/-- `QRegularExpression::escape`: a backslash before every character that is
not an ASCII letter, digit or underscore. -/
def regexEscape : Text → Text
  | [] => []
  | c :: rest =>
    if c.isAlphanum || c = '_' then c :: regexEscape rest else '\\' :: c :: regexEscape rest

/-! ## Regular expressions -/

/-- What one pattern character or class matches. -/
inductive CharSet where
  | lit (c : Char)
  | digit
  | space
deriving DecidableEq, Repr

/-- The decimal digits beyond ASCII (general category Nd of Unicode 14), as the
first and the last code point of each range. -/
def unicodeDigitRanges : List (Nat × Nat) :=
  [(0x660, 0x669), (0x6F0, 0x6F9), (0x7C0, 0x7C9), (0x966, 0x96F), (0x9E6, 0x9EF),
   (0xA66, 0xA6F), (0xAE6, 0xAEF), (0xB66, 0xB6F), (0xBE6, 0xBEF), (0xC66, 0xC6F),
   (0xCE6, 0xCEF), (0xD66, 0xD6F), (0xDE6, 0xDEF), (0xE50, 0xE59), (0xED0, 0xED9),
   (0xF20, 0xF29), (0x1040, 0x1049), (0x1090, 0x1099), (0x17E0, 0x17E9), (0x1810, 0x1819),
   (0x1946, 0x194F), (0x19D0, 0x19D9), (0x1A80, 0x1A89), (0x1A90, 0x1A99), (0x1B50, 0x1B59),
   (0x1BB0, 0x1BB9), (0x1C40, 0x1C49), (0x1C50, 0x1C59), (0xA620, 0xA629), (0xA8D0, 0xA8D9),
   (0xA900, 0xA909), (0xA9D0, 0xA9D9), (0xA9F0, 0xA9F9), (0xAA50, 0xAA59), (0xABF0, 0xABF9),
   (0xFF10, 0xFF19), (0x104A0, 0x104A9), (0x10D30, 0x10D39), (0x11066, 0x1106F),
   (0x110F0, 0x110F9), (0x11136, 0x1113F), (0x111D0, 0x111D9), (0x112F0, 0x112F9),
   (0x11450, 0x11459), (0x114D0, 0x114D9), (0x11650, 0x11659), (0x116C0, 0x116C9),
   (0x11730, 0x11739), (0x118E0, 0x118E9), (0x11950, 0x11959), (0x11C50, 0x11C59),
   (0x11D50, 0x11D59), (0x11DA0, 0x11DA9), (0x16A60, 0x16A69), (0x16AC0, 0x16AC9),
   (0x16B50, 0x16B59), (0x1D7CE, 0x1D7FF), (0x1E140, 0x1E149), (0x1E2F0, 0x1E2F9),
   (0x1E950, 0x1E959), (0x1FBF0, 0x1FBF9)]

/-- What `\d` matches under `UseUnicodePropertiesOption`: a character with the
Unicode property Nd, the ASCII digits and the decimal digits of other scripts. -/
def isDecimalDigit (c : Char) : Bool :=
  c.isDigit ||
    (decide (128 ≤ c.toNat) &&
      unicodeDigitRanges.any (fun r => decide (r.1 ≤ c.toNat) && decide (c.toNat ≤ r.2)))

/-- What `\s` matches under `UseUnicodePropertiesOption`: the horizontal and
vertical whitespace characters and the characters of the Unicode category Z
(U+0009..U+000D, U+0020, U+0085, U+00A0, U+1680, U+180E, U+2000..U+200A, U+2028,
U+2029, U+202F, U+205F, U+3000). -/
def isWhitespace (c : Char) : Bool :=
  (decide (9 ≤ c.toNat) && decide (c.toNat ≤ 13)) || c.toNat == 0x20 || c.toNat == 0x85 ||
    c.toNat == 0xA0 || c.toNat == 0x1680 || c.toNat == 0x180E ||
    (decide (0x2000 ≤ c.toNat) && decide (c.toNat ≤ 0x200A)) || c.toNat == 0x2028 ||
    c.toNat == 0x2029 || c.toNat == 0x202F || c.toNat == 0x205F || c.toNat == 0x3000

/-- Whether a character of the subject belongs to the set, as the patterns are
compiled with `CaseInsensitiveOption` and `UseUnicodePropertiesOption`: a
literal character of the pattern (all of them ASCII) in either case, where the
caseless set of `k` also holds the Kelvin sign U+212A and that of `s` the long s
U+017F; a Unicode decimal digit; Unicode whitespace. -/
def CharSet.test : CharSet → Char → Bool
  | .lit c, x =>
    x.toLower == c.toLower || (c.toLower == 'k' && x == '\u212a') ||
      (c.toLower == 's' && x == '\u017f')
  | .digit, x => isDecimalDigit x
  | .space, x => isWhitespace x

/-- A compiled pattern. -/
inductive Regex where
  | eps
  | bol
  | rep (cs : CharSet) (min : Nat) (max : Option Nat)
  | seq (a b : Regex)
  | alt (a b : Regex)
  | opt (r : Regex)
  | group (idx : Nat) (name : Text) (r : Regex)
deriving DecidableEq, Repr

/-- Reads a run of decimal digits off the front of a pattern. -/
def readNat : List Char → Nat → Nat × List Char
  | [], acc => (acc, [])
  | c :: rest, acc => if c.isDigit then readNat rest (acc * 10 + (c.toNat - 48)) else (acc, c :: rest)

/-- Reads a group name up to `>`. -/
def readName : List Char → List Char → Option (Text × List Char)
  | [], _ => none
  | c :: rest, acc => if c = '>' then some (acc.reverse, rest) else readName rest (c :: acc)

/-- Applies a quantifier of the pattern, when one follows, to the item just
read; `none` for a quantifier outside the modelled syntax. -/
def applyQuantifier (item : Regex) (s : List Char) : Option (Regex × List Char) :=
  match s with
  | '?' :: rest =>
    match item with
    | .rep cs 1 (some 1) => some (.rep cs 0 (some 1), rest)
    | .rep _ _ _ => none
    | r => some (.opt r, rest)
  | '*' :: rest =>
    match item with
    | .rep cs 1 (some 1) => some (.rep cs 0 none, rest)
    | _ => none
  | '+' :: rest =>
    match item with
    | .rep cs 1 (some 1) => some (.rep cs 1 none, rest)
    | _ => none
  | '{' :: rest =>
    match item with
    | .rep cs 1 (some 1) =>
      let lo := readNat rest 0
      match lo.2 with
      | '}' :: rest => some (.rep cs lo.1 (some lo.1), rest)
      | ',' :: '}' :: rest => some (.rep cs lo.1 none, rest)
      | ',' :: rest =>
        let hi := readNat rest 0
        match hi.2 with
        | '}' :: rest => some (.rep cs lo.1 (some hi.1), rest)
        | _ => none
      | _ => none
    | _ => none
  | _ => some (item, s)

mutual

/-- Alternation: `seq ('|' seq)*`; the result with the unread pattern and the
next capture index. -/
def parseAlt : Nat → List Char → Nat → Option (Regex × List Char × Nat)
  | 0, _, _ => none
  | fuel + 1, s, idx =>
    match parseSeq fuel s idx with
    | none => none
    | some (a, '|' :: rest, idx) =>
      match parseAlt fuel rest idx with
      | none => none
      | some (b, rest, idx) => some (.alt a b, rest, idx)
    | some r => some r

/-- Concatenation: items up to `|`, `)` or the end of the pattern. -/
def parseSeq : Nat → List Char → Nat → Option (Regex × List Char × Nat)
  | 0, _, _ => none
  | fuel + 1, s, idx =>
    match s with
    | [] => some (.eps, [], idx)
    | '|' :: _ => some (.eps, s, idx)
    | ')' :: _ => some (.eps, s, idx)
    | _ =>
      match parseAtom fuel s idx with
      | none => none
      | some (a, rest, idx) =>
        match applyQuantifier a rest with
        | none => none
        | some (a, rest) =>
          match parseSeq fuel rest idx with
          | none => none
          | some (.eps, rest, idx) => some (a, rest, idx)
          | some (b, rest, idx) => some (.seq a b, rest, idx)

/-- One item: an anchor, an escape, a group or a literal character. -/
def parseAtom : Nat → List Char → Nat → Option (Regex × List Char × Nat)
  | 0, _, _ => none
  | fuel + 1, s, idx =>
    match s with
    | [] => none
    | '^' :: rest => some (.bol, rest, idx)
    | '\\' :: 'd' :: rest => some (.rep .digit 1 (some 1), rest, idx)
    | '\\' :: 's' :: rest => some (.rep .space 1 (some 1), rest, idx)
    | '\\' :: c :: rest => if c.isAlphanum then none else some (.rep (.lit c) 1 (some 1), rest, idx)
    | '(' :: '?' :: ':' :: rest =>
      match parseAlt fuel rest idx with
      | some (r, ')' :: rest, idx) => some (r, rest, idx)
      | _ => none
    | '(' :: '?' :: '<' :: rest =>
      match readName rest [] with
      | none => none
      | some (name, rest) =>
        match parseAlt fuel rest (idx + 1) with
        | some (r, ')' :: rest, idx') => some (.group idx name r, rest, idx')
        | _ => none
    | '(' :: '?' :: _ => none
    | '(' :: rest =>
      match parseAlt fuel rest (idx + 1) with
      | some (r, ')' :: rest, idx') => some (.group idx [] r, rest, idx')
      | _ => none
    | c :: rest =>
      if c = '*' ∨ c = '+' ∨ c = '?' ∨ c = '{' ∨ c = '[' ∨ c = '.' ∨ c = '$' then none
      else some (.rep (.lit c) 1 (some 1), rest, idx)

end

/-- The pattern of a `QRegularExpression`, compiled; `none` for a pattern
outside the modelled syntax.  Capture groups are numbered from 1 in the order
of their opening parentheses. -/
def compile (pattern : Text) : Option Regex :=
  match parseAlt (3 * pattern.length + 3) pattern 1 with
  | some (r, [], _) => some r
  | _ => none

/-- A captured group: its number, its name (empty when unnamed) and its text. -/
structure Capture where
  idx : Nat
  name : Text
  text : Text
deriving DecidableEq, Repr

/-- A state of the matcher: the number of characters before the current
position, the rest of the subject, and the groups captured so far (latest first). -/
structure MState where
  pos : Nat
  rest : Text
  caps : List Capture
deriving DecidableEq, Repr

/-- The state `k` characters further. -/
def MState.advance (s : MState) (k : Nat) : MState :=
  { pos := s.pos + k, rest := s.rest.drop k, caps := s.caps }

/-- The repetition counts to try, from `n` down to `min` (greedy). -/
def countDown (min : Nat) : Nat → List Nat
  | 0 => if min = 0 then [0] else []
  | k + 1 => if k + 1 < min then [] else (k + 1) :: countDown min k

/-- Concatenation of the results of `f` on each state, in order. -/
def bindStates (l : List MState) (f : MState → List MState) : List MState :=
  match l with
  | [] => []
  | s :: rest => f s ++ bindStates rest f

/-- All ways to match a pattern at a state, in PCRE's order of preference: the
first is the match a backtracking matcher returns. -/
def matchAll : Regex → MState → List MState
  | .eps, s => [s]
  | .bol, s => if s.pos = 0 then [s] else []
  | .rep cs min max, s =>
    let run := (s.rest.takeWhile cs.test).length
    let n := match max with
      | some m => Nat.min run m
      | none => run
    (countDown min n).map s.advance
  | .seq a b, s => bindStates (matchAll a s) (fun s' => matchAll b s')
  | .alt a b, s => matchAll a s ++ matchAll b s
  | .opt r, s => matchAll r s ++ [s]
  | .group idx name r, s =>
    (matchAll r s).map (fun s' =>
      { s' with caps := ⟨idx, name, s.rest.take (s'.pos - s.pos)⟩ :: s'.caps })

/-- A `QRegularExpressionMatch`. -/
structure QRegularExpressionMatch where
  hasMatch : Bool
  capturedStart : Nat
  capturedEnd : Nat
  subject : Text
  caps : List Capture
deriving DecidableEq, Repr

namespace QRegularExpressionMatch

/-- The result of a failed match. -/
def noMatch (subject : Text) : QRegularExpressionMatch :=
  { hasMatch := false, capturedStart := 0, capturedEnd := 0, subject := subject, caps := [] }

/-- `captured(nth)`: the whole match for 0, the empty (null) text for a group
that took no part in the match. -/
def captured (m : QRegularExpressionMatch) (nth : Nat) : Text :=
  if nth = 0 then (m.subject.drop m.capturedStart).take (m.capturedEnd - m.capturedStart)
  else
    match m.caps.find? (fun c => c.idx == nth) with
    | some c => c.text
    | none => []

/-- `capturedLength(nth)`. -/
def capturedLength (m : QRegularExpressionMatch) (nth : Nat) : Nat := (m.captured nth).length

/-- `captured(name)`. -/
def capturedName (m : QRegularExpressionMatch) (name : Text) : Text :=
  match m.caps.find? (fun c => c.name == name) with
  | some c => c.text
  | none => []

end QRegularExpressionMatch

/-- The first offset, from `offset` on, at which the pattern matches, with the
preferred match there; `fuel` bounds the offsets tried. -/
def searchFrom (r : Regex) (subject : Text) : Nat → Nat → QRegularExpressionMatch
  | 0, _ => QRegularExpressionMatch.noMatch subject
  | fuel + 1, offset =>
    match matchAll r { pos := offset, rest := subject.drop offset, caps := [] } with
    | s :: _ =>
      { hasMatch := true, capturedStart := offset, capturedEnd := s.pos, subject := subject,
        caps := s.caps }
    | [] => searchFrom r subject fuel (offset + 1)

/-- The match of a compiled pattern on a subject (no match for `none`, a
pattern that did not compile). -/
def matchCompiled (r : Option Regex) (subject : Text) : QRegularExpressionMatch :=
  match r with
  | none => QRegularExpressionMatch.noMatch subject
  | some r => searchFrom r subject (subject.length + 1) 0

/-- `QRegularExpression(pattern, CaseInsensitiveOption | ...).match(subject)`. -/
def regexMatch (pattern : Text) (subject : Text) : QRegularExpressionMatch :=
  matchCompiled (compile pattern) subject

end Qt

/-! # The sub-terms of `src/lib/terms.cpp` -/

namespace Expressions

open Qt

/-! ## Flags (`eventexpressionparser.h`) -/

/-- `enum TypeFlag`: `InvalidType`. -/
def InvalidType : Nat := 0x00
/-- `enum TypeFlag`: `Timepoint`. -/
def Timepoint : Nat := 0x01
/-- `enum TypeFlag`: `Timespan`. -/
def Timespan : Nat := 0x02
/-- `enum TypeFlag`: `FlagAbsolute`. -/
def FlagAbsolute : Nat := 0x10
/-- `enum TypeFlag`: `FlagLooped`. -/
def FlagLooped : Nat := 0x20
/-- `enum TypeFlag`: `AbsoluteTimepoint = Timepoint | FlagAbsolute`. -/
def AbsoluteTimepoint : Nat := Timepoint ||| FlagAbsolute
/-- `enum TypeFlag`: `LoopedTimePoint = Timepoint | FlagLooped`. -/
def LoopedTimePoint : Nat := Timepoint ||| FlagLooped
/-- `enum TypeFlag`: `LoopedTimeSpan = Timespan | FlagLooped`. -/
def LoopedTimeSpan : Nat := Timespan ||| FlagLooped

/-- Modelled from the spec: `terms.h`, which declares the flag, is not among the
sources; the data model says a WeekDay sub-term "needs post-fix cleanup", a
property of its own next to Timepoint / Looped, so the flag is a bit distinct
from every `TypeFlag` bit of `eventexpressionparser.h`. -/
def FlagNeedsFixupCleanup : Nat := 0x40

/-- `enum ScopeFlag`: `InvalidScope`. -/
def InvalidScope : Nat := 0x00
/-- `enum ScopeFlag`: `Year`. -/
def Year : Nat := 0x01
/-- `enum ScopeFlag`: `Month`. -/
def Month : Nat := 0x02
/-- `enum ScopeFlag`: `Week`. -/
def Week : Nat := 0x04
/-- `enum ScopeFlag`: `Day`. -/
def Day : Nat := 0x08
/-- `enum ScopeFlag`: `WeekDay = Day`. -/
def WeekDay : Nat := Day
/-- `enum ScopeFlag`: `MonthDay = Week | Day`. -/
def MonthDay : Nat := Week ||| Day
/-- `enum ScopeFlag`: `Hour`. -/
def Hour : Nat := 0x10
/-- `enum ScopeFlag`: `Minute`. -/
def Minute : Nat := 0x20

/-- `QFlags::testFlag`. -/
def testFlag (i flag : Nat) : Bool := (i &&& flag == flag) && (flag != 0 || i == flag)

/-! ## TimeTerm -/

/-- `TimeTerm`: the `SubTerm` fields and `_time`. -/
structure TimeTerm where
  type : Nat
  scope : Nat
  _time : QTime
deriving DecidableEq, Repr

/-- `TimeTerm::TimeTerm(QTime time)`. -/
def TimeTerm.create (time : QTime) : TimeTerm :=
  { type := Timepoint, scope := Hour ||| Minute, _time := time }

/-- `TimeTerm::apply`. -/
def TimeTerm.apply (self : TimeTerm) (datetime : QDateTime) (_applyFenced : Bool) : QDateTime :=
  datetime.setTime self._time

/-- `TimeTerm::fixup`. -/
def TimeTerm.fixup (_self : TimeTerm) (datetime : QDateTime) : QDateTime :=
  datetime.addDays 1

/-! ## DateTerm -/

/-- `DateTerm`: the `SubTerm` fields and `_date`. -/
structure DateTerm where
  type : Nat
  scope : Nat
  _date : QDate
deriving DecidableEq, Repr

/-- `DateTerm::DateTerm(QDate date, bool hasYear, bool isLooped)`. -/
def DateTerm.create (date : QDate) (hasYear isLooped : Bool) : DateTerm :=
  { type := if hasYear then AbsoluteTimepoint else (if isLooped then LoopedTimePoint else Timepoint),
    scope := (if hasYear then Year else InvalidScope) ||| Month ||| MonthDay,
    _date := date }

/-- `DateTerm::apply`. -/
def DateTerm.apply (self : DateTerm) (datetime : QDateTime) (_applyFenced : Bool) : QDateTime :=
  if testFlag self.scope Year then -- set the whole date
    datetime.setDate self._date
  else -- set only day and month, keep year
    datetime.setDate (QDate.ofYMD datetime.date.year self._date.month self._date.day)

/-- `DateTerm::fixup`. -/
def DateTerm.fixup (self : DateTerm) (datetime : QDateTime) : QDateTime :=
  if !testFlag self.scope Year then datetime.addYears 1 else datetime

/-! ## InvertedTimeTerm -/

/-- `InvertedTimeTerm`: the `SubTerm` fields and `_time`. -/
structure InvertedTimeTerm where
  type : Nat
  scope : Nat
  _time : QTime
deriving DecidableEq, Repr

/-- `InvertedTimeTerm::InvertedTimeTerm(QTime time)`. -/
def InvertedTimeTerm.create (time : QTime) : InvertedTimeTerm :=
  { type := Timepoint, scope := Hour ||| Minute, _time := time }

/-- `InvertedTimeTerm::apply`. -/
def InvertedTimeTerm.apply (self : InvertedTimeTerm) (datetime : QDateTime)
    (_applyFenced : Bool) : QDateTime :=
  datetime.setTime self._time

/-- `InvertedTimeTerm::fixup`. -/
def InvertedTimeTerm.fixup (_self : InvertedTimeTerm) (datetime : QDateTime) : QDateTime :=
  datetime.addDays 1

/-! ## MonthDayTerm -/

/-- `MonthDayTerm`: the `SubTerm` fields and `_day`. -/
structure MonthDayTerm where
  type : Nat
  scope : Nat
  _day : Int
deriving DecidableEq, Repr

/-- `MonthDayTerm::MonthDayTerm(int day, bool looped)`. -/
def MonthDayTerm.create (day : Int) (looped : Bool) : MonthDayTerm :=
  { type := if looped then LoopedTimePoint else Timepoint, scope := MonthDay, _day := day }

/-- `MonthDayTerm::apply`. -/
def MonthDayTerm.apply (self : MonthDayTerm) (datetime : QDateTime) (_applyFenced : Bool) :
    QDateTime :=
  let date := datetime.date
  datetime.setDate
    (QDate.ofYMD date.year date.month (min self._day date.daysInMonth)) -- shorten day to target month

/-- `MonthDayTerm::fixup`. -/
def MonthDayTerm.fixup (self : MonthDayTerm) (datetime : QDateTime) : QDateTime :=
  let datetime := datetime.addMonths 1
  self.apply datetime false -- apply again to fix the day for cases like "every 31st"

/-! ## WeekDayTerm -/

/-- `WeekDayTerm`: the `SubTerm` fields and `_weekDay`. -/
structure WeekDayTerm where
  type : Nat
  scope : Nat
  _weekDay : Int
deriving DecidableEq, Repr

/-- `WeekDayTerm::WeekDayTerm(int weekDay, bool looped)`. -/
def WeekDayTerm.create (weekDay : Int) (looped : Bool) : WeekDayTerm :=
  { type := (if looped then LoopedTimePoint else Timepoint) ||| FlagNeedsFixupCleanup,
    scope := WeekDay, _weekDay := weekDay }

/-- The body of `WeekDayTerm::apply`: the new `datetime`, and whether every
`Q_ASSERT` on the executed path holds (a release build ignores the assertions
and stores the date all the same). -/
def WeekDayTerm.applyChecked (self : WeekDayTerm) (datetime : QDateTime) (applyFenced : Bool) :
    QDateTime × Bool :=
  let date := datetime.date
  -- get the number of days to add to reach the target date
  let date := date.addDays (self._weekDay - date.dayOfWeek)
  let shifted : QDate × Bool :=
    if applyFenced && decide (date.month < datetime.date.month) then
      let date := date.addDays 7
      (date, date.month == datetime.date.month)
    else if applyFenced && decide (date.month > datetime.date.month) then
      let date := date.addDays (-7)
      (date, date.month == datetime.date.month)
    else (date, true)
  (datetime.setDate shifted.1, shifted.2 && shifted.1.dayOfWeek == self._weekDay)

/-- `WeekDayTerm::apply` (the value it stores in `datetime`). -/
def WeekDayTerm.apply (self : WeekDayTerm) (datetime : QDateTime) (applyFenced : Bool) :
    QDateTime :=
  (self.applyChecked datetime applyFenced).1

/-- Whether all assertions of `WeekDayTerm::apply` hold on this input. -/
def WeekDayTerm.applyAsserts (self : WeekDayTerm) (datetime : QDateTime) (applyFenced : Bool) :
    Bool :=
  (self.applyChecked datetime applyFenced).2

/-- `WeekDayTerm::fixup`. -/
def WeekDayTerm.fixup (_self : WeekDayTerm) (datetime : QDateTime) : QDateTime :=
  datetime.addDays 7

/-- The body of `WeekDayTerm::fixupCleanup`: the new `datetime`, and whether
every `Q_ASSERT` of the `apply` it calls holds (none is reached when the instant
falls on the weekday already). -/
def WeekDayTerm.fixupCleanupChecked (self : WeekDayTerm) (datetime : QDateTime) :
    QDateTime × Bool :=
  if datetime.date.dayOfWeek ≠ self._weekDay then self.applyChecked datetime true
  else (datetime, true)

/-- `WeekDayTerm::fixupCleanup` (the value it stores in `datetime`). -/
def WeekDayTerm.fixupCleanup (self : WeekDayTerm) (datetime : QDateTime) : QDateTime :=
  (self.fixupCleanupChecked datetime).1

/-- Whether all assertions that `WeekDayTerm::fixupCleanup` reaches hold on this
input. -/
def WeekDayTerm.fixupCleanupAsserts (self : WeekDayTerm) (datetime : QDateTime) : Bool :=
  (self.fixupCleanupChecked datetime).2

/-! ## MonthTerm -/

/-- `MonthTerm`: the `SubTerm` fields and `_month`. -/
structure MonthTerm where
  type : Nat
  scope : Nat
  _month : Int
deriving DecidableEq, Repr

/-- `MonthTerm::MonthTerm(int month, bool looped)`. -/
def MonthTerm.create (month : Int) (looped : Bool) : MonthTerm :=
  { type := if looped then LoopedTimePoint else Timepoint, scope := Month, _month := month }

/-- `MonthTerm::apply`. -/
def MonthTerm.apply (self : MonthTerm) (datetime : QDateTime) (_applyFenced : Bool) : QDateTime :=
  let date := datetime.date
  -- always set to the first of the month. if a day was specified, that one is set after this
  datetime.setDate (QDate.ofYMD date.year self._month 1)

/-- `MonthTerm::fixup`. -/
def MonthTerm.fixup (_self : MonthTerm) (datetime : QDateTime) : QDateTime :=
  datetime.addYears 1

/-! ## YearTerm -/

/-- `YearTerm`: the `SubTerm` fields and `_year`. -/
structure YearTerm where
  type : Nat
  scope : Nat
  _year : Int
deriving DecidableEq, Repr

/-- `YearTerm::YearTerm(int year)`. -/
def YearTerm.create (year : Int) : YearTerm :=
  { type := AbsoluteTimepoint, scope := Year, _year := year }

/-- `YearTerm::apply`. -/
def YearTerm.apply (self : YearTerm) (datetime : QDateTime) (_applyFenced : Bool) : QDateTime :=
  -- set the year and reset month/date. They will be specified as needed
  datetime.setDate (QDate.ofYMD self._year 1 1)

/-! ## SequenceTerm -/

/-- `SequenceTerm::Sequence = QMap<ScopeFlag, int>`: the entries (key, value)
in ascending key order, as a `QMap` stores and iterates them. -/
abbrev Sequence := List (Nat × Int)

/-- `QMap::contains`. -/
def Sequence.contains (s : Sequence) (key : Nat) : Bool := s.any (fun e => e.1 == key)

/-- `QMap::insert`: the value of an existing key is replaced, a new key is put
at its place in the key order. -/
def Sequence.insert : Sequence → Nat → Int → Sequence
  | [], key, value => [(key, value)]
  | e :: rest, key, value =>
    if key < e.1 then (key, value) :: e :: rest
    else if key = e.1 then (key, value) :: rest
    else e :: Sequence.insert rest key value

/-- `QMap::value(key)` where the key is present. -/
def Sequence.value (s : Sequence) (key : Nat) : Option Int := s.lookup key

/-- The keys of a sequence, in iteration order. -/
def Sequence.keys (s : Sequence) : List Nat := s.map (fun e => e.1)

/-- `SequenceTerm`: the `SubTerm` fields and `_sequence`. -/
structure SequenceTerm where
  type : Nat
  scope : Nat
  _sequence : Sequence
deriving DecidableEq, Repr

/-- `SequenceTerm::SequenceTerm(Sequence &&sequence, bool looped)`: the scope is
the union of the keys. -/
def SequenceTerm.create (sequence : Sequence) (looped : Bool) : SequenceTerm :=
  { type := if looped then LoopedTimeSpan else Timespan,
    scope := sequence.foldl (fun scope e => scope ||| e.1) InvalidScope,
    _sequence := sequence }

/-- One round of the loop of `SequenceTerm::apply`: the `switch` on the key.
`none` stands for the `default:` branch, `Q_UNREACHABLE()`. -/
def SequenceTerm.applyEntry (applyFenced : Bool) (datetime : QDateTime) (e : Nat × Int) :
    Option QDateTime :=
  let delta := if applyFenced then e.2 - 1 else e.2
  if e.1 = Minute then some (datetime.addSecs (e.2 * 60))
  else if e.1 = Hour then some (datetime.addSecs (e.2 * 3600))
  else if e.1 = Day then some (datetime.addDays delta)
  else if e.1 = Week then some (datetime.addDays (delta * 7))
  else if e.1 = Month then some (datetime.addMonths delta)
  else if e.1 = Year then some (datetime.addYears delta)
  else none

/-- The loop of `SequenceTerm::apply` over the entries in key order. -/
def SequenceTerm.applyLoop (applyFenced : Bool) : List (Nat × Int) → QDateTime → Option QDateTime
  | [], datetime => some datetime
  | e :: rest, datetime =>
    match SequenceTerm.applyEntry applyFenced datetime e with
    | some datetime => SequenceTerm.applyLoop applyFenced rest datetime
    | none => none

/-- `SequenceTerm::apply`. -/
def SequenceTerm.apply (self : SequenceTerm) (datetime : QDateTime) (applyFenced : Bool) :
    Option QDateTime :=
  SequenceTerm.applyLoop applyFenced self._sequence datetime

end Expressions

/-! ## `QLocale::toTime` -/

namespace Qt

/-- A section of a Qt time format: `h` / `hh`, `m` / `mm`, `ap` / `AP`, or a
character that stands for itself. -/
inductive TimeSection where
  | hour (count : Nat)
  | minute (count : Nat)
  | amPm
  | literal (c : Char)
deriving DecidableEq, Repr

/-- The sections of a time format made of hours, minutes, AM/PM and separators. -/
def parseTimeFormat : Text → List TimeSection
  | 'h' :: 'h' :: rest => .hour 2 :: parseTimeFormat rest
  | 'h' :: rest => .hour 1 :: parseTimeFormat rest
  | 'm' :: 'm' :: rest => .minute 2 :: parseTimeFormat rest
  | 'm' :: rest => .minute 1 :: parseTimeFormat rest
  | 'a' :: 'p' :: rest => .amPm :: parseTimeFormat rest
  | 'A' :: 'P' :: rest => .amPm :: parseTimeFormat rest
  | c :: rest => .literal c :: parseTimeFormat rest
  | [] => []

/-- What the sections read so far gave. -/
structure TimeFields where
  hour : Option Nat
  minute : Option Nat
  pm : Option Bool
deriving DecidableEq, Repr

/-- A numeric section: one or two digits (exactly two for a two-letter
section); the value and the text left. -/
def readNumber (count : Nat) (s : Text) : Option (Nat × Text) :=
  let run := (s.takeWhile Char.isDigit).take 2
  if run.isEmpty ∨ (count = 2 ∧ run.length ≠ 2) then none
  else
    match Text.digitsValue run 0 with
    | none => none
    | some v => some (v, s.drop run.length)

/-- Reads a text section by section; `none` when the text does not fit. -/
def readTimeSections : List TimeSection → Text → TimeFields → Option TimeFields
  | [], s, f => if s.isEmpty then some f else none
  | .hour count :: rest, s, f =>
    match readNumber count s with
    | none => none
    | some (v, s) => readTimeSections rest s { f with hour := some v }
  | .minute count :: rest, s, f =>
    match readNumber count s with
    | none => none
    | some (v, s) => readTimeSections rest s { f with minute := some v }
  | .amPm :: rest, s, f =>
    if Text.startsWith s ['A', 'M'] true then readTimeSections rest (s.drop 2) { f with pm := some false }
    else if Text.startsWith s ['P', 'M'] true then
      readTimeSections rest (s.drop 2) { f with pm := some true }
    else none
  | .literal c :: rest, s, f =>
    match s with
    | x :: s => if x = c then readTimeSections rest s f else none
    | [] => none

/-- `QLocale::toTime(text, format)` in the C / English locale (AM/PM texts "AM"
and "PM") for formats of hours, minutes and AM/PM: the null time when the text
does not fit the format or a value is out of range.  With an AM/PM section the
hour is read on the 12-hour clock (0..12, 12 counting as 0, plus 12 for PM). -/
def toTime (text format : Text) : QTime :=
  let sections := parseTimeFormat format
  match readTimeSections sections text { hour := none, minute := none, pm := none } with
  | none => QTime.null
  | some f =>
    let hasAmPm := sections.any (fun sec => sec == TimeSection.amPm)
    let hour : Option Nat :=
      match f.hour with
      | none => some 0
      | some v =>
        if hasAmPm then
          if v > 12 then none
          else some ((if v = 12 then 0 else v) + (if f.pm = some true then 12 else 0))
        else some v
    match hour with
    | none => QTime.null
    | some h => QTime.ofHMS h (f.minute.getD 0) 0 0

end Qt

/-! # The recognizers of `src/lib/terms.cpp` -/

namespace Expressions

open Qt

/-- `enum WordKey` (with the limiter keys that `terms.cpp` uses). -/
inductive WordKey where
  | TimePrefix | TimeSuffix | TimePattern
  | DatePrefix | DateSuffix | DateLoopPrefix | DateLoopSuffix | DatePattern
  | InvTimeExprPattern | InvTimeHourPattern | InvTimeMinutePattern | InvTimeKeyword
  | MonthDayPrefix | MonthDaySuffix | MonthDayLoopPrefix | MonthDayLoopSuffix | MonthDayIndicator
  | WeekDayPrefix | WeekDaySuffix | WeekDayLoopPrefix | WeekDayLoopSuffix
  | MonthPrefix | MonthSuffix | MonthLoopPrefix | MonthLoopSuffix
  | YearPrefix | YearSuffix
  | SpanPrefix | SpanSuffix | SpanLoopPrefix | SpanConjuction
  | SpanKeyMinute | SpanKeyHour | SpanKeyDay | SpanKeyWeek | SpanKeyMonth | SpanKeyYear
  | KeywordDayspan
  | LimiterFromPrefix | LimiterUntilPrefix
  | ExpressionSeperator
deriving DecidableEq, Repr

/-- The source texts of the `switch` of `Expressions::trWord` (no translation loaded). -/
def trWordText : WordKey → String
  | .TimePrefix => "at "
  | .TimeSuffix => " o'clock"
  | .TimePattern => "hh:mm ap|h:mm ap|hh:m ap|h:m ap|hh ap|h ap|hh:mm AP|h:mm AP|hh:m AP|h:m AP|hh AP|h AP|hh:mm|h:mm|hh:m|h:m|hh|h"
  | .DatePrefix => "on |on the |the "
  | .DateSuffix => "###empty###"
  | .DateLoopPrefix => "every |any |all |on every |on any |on all "
  | .DateLoopSuffix => "###empty###"
  | .DatePattern => "dd.MM.yyyy|d.MM.yyyy|dd.M.yyyy|d.M.yyyy|dd. MM. yyyy|d. MM. yyyy|dd. M. yyyy|d. M. yyyy|dd-MM-yyyy|d-MM-yyyy|dd-M-yyyy|d-M-yyyy|dd.MM.yy|d.MM.yy|dd.M.yy|d.M.yy|dd. MM. yy|d. MM. yy|dd. M. yy|d. M. yy|dd-MM-yy|d-MM-yy|dd-M-yy|d-M-yy|dd.MM.|d.MM.|dd.M.|d.M.|dd. MM.|d. MM.|dd. M.|d. M.|dd-MM|d-MM|dd-M|d-M"
  | .InvTimeExprPattern => "%2 past %1:+|%2-past %1:+|%2 to %1:-"
  | .InvTimeHourPattern => "hh ap|h ap|hh AP|h AP|hh|h"
  | .InvTimeMinutePattern => "mm|m"
  | .InvTimeKeyword => "quarter:15|half:30"
  | .MonthDayPrefix => "on |on the |the |next |on next |on the next "
  | .MonthDaySuffix => " of"
  | .MonthDayLoopPrefix => "every |any |all |on every |on any |on all "
  | .MonthDayLoopSuffix => "###empty###"
  | .MonthDayIndicator => "_.|_th|_st|_nd|_rd"
  | .WeekDayPrefix => "on |next |on next |on the next "
  | .WeekDaySuffix => "###empty###"
  | .WeekDayLoopPrefix => "every |any |all |on every |on any |on all "
  | .WeekDayLoopSuffix => "###empty###"
  | .MonthPrefix => "in |on |next |on next |on the next |in next |in the next "
  | .MonthSuffix => "###empty###"
  | .MonthLoopPrefix => "every |any |all |on every |on any |on all "
  | .MonthLoopSuffix => "###empty###"
  | .YearPrefix => "in "
  | .YearSuffix => "###empty###"
  | .SpanPrefix => "in "
  | .SpanSuffix => "###empty###"
  | .SpanLoopPrefix => "every |all "
  | .SpanConjuction => " and"
  | .SpanKeyMinute => "min|mins|minute|minutes"
  | .SpanKeyHour => "hour|hours"
  | .SpanKeyDay => "day|days"
  | .SpanKeyWeek => "week|weeks"
  | .SpanKeyMonth => "mon|mons|month|months"
  | .SpanKeyYear => "year|years"
  | .KeywordDayspan => "today:0|tomorrow:1"
  | .LimiterFromPrefix => "from"
  | .LimiterUntilPrefix => "until|to"
  | .ExpressionSeperator => ";"

/-- `Expressions::trWord`. -/
def trWord (key : WordKey) (escape : Bool) : Text :=
  let word := (trWordText key).toList
  if word = "###empty###".toList then []
  else if escape then regexEscape word
  else word

/-- The `std::sort` of `trList` by decreasing length (`lhs.size() > rhs.size()`).
`std::sort` leaves the order of texts of equal length open; here they keep their
order, which is one of the orders it may give. -/
def sortByLength (l : List Text) : List Text :=
  l.insertionSort (fun lhs rhs => lhs.length ≥ rhs.length)

/-- `Expressions::trList`. -/
def trList (key : WordKey) (escape : Bool) (sort : Bool) : List Text :=
  let resList := Text.splitSkipEmpty (trWord key false) '|'
  let resList := if sort then sortByLength resList else resList
  if escape then resList.map regexEscape else resList

/-- One round of the `forever` loop of `Expressions::dateTimeFormatToRegex` and
the rounds after it. -/
def dateTimeFormatToRegexLoop (replacer : Text → Text) : Nat → Text → Nat → Bool → Text
  | 0, pattern, _, _ => pattern
  | fuel + 1, pattern, afterQuote, inQuote =>
    let nextQuote := Text.indexOf pattern ['\\', '\''] afterQuote -- \' because already regex escaped
    let replLen := match nextQuote with
      | none => pattern.length - afterQuote
      | some q => q - afterQuote
    if !inQuote then
      -- special case - quote after quote
      if nextQuote = some afterQuote then
        dateTimeFormatToRegexLoop replacer fuel pattern (afterQuote + 2) true
      else
        let replaced : Text × Nat :=
          if replLen > 0 then
            let subStr := replacer (Text.mid pattern afterQuote replLen)
            (Text.replaceAt pattern afterQuote replLen subStr,
              if nextQuote.isSome then afterQuote + subStr.length + 2 else afterQuote)
          else (pattern, afterQuote)
        if nextQuote.isNone then replaced.1
        else dateTimeFormatToRegexLoop replacer fuel replaced.1 replaced.2 (!inQuote)
    else
      match nextQuote with
      | some q =>
        dateTimeFormatToRegexLoop replacer fuel
          (Text.replaceAt pattern (afterQuote - 2) (replLen + 4) (Text.mid pattern afterQuote replLen))
          (q - 2) (!inQuote)
      | none => pattern

/-- `Expressions::dateTimeFormatToRegex`. -/
def dateTimeFormatToRegex (pattern : Text) (replacer : Text → Text) : Text :=
  let pattern := regexEscape pattern
  dateTimeFormatToRegexLoop replacer (pattern.length + 2) pattern 0 false

/-- The regular expression for the AM/PM texts of the locale,
`(?:%1|%2)` with `amText()` and `pmText()` escaped. -/
def amPmRegex : Text :=
  Text.arg2 "(?:%1|%2)".toList (regexEscape "AM".toList) (regexEscape "PM".toList)

/-- `InvertedTimeTerm::hourToRegex`. -/
def InvertedTimeTerm.hourToRegex (pattern : Text) : Text :=
  dateTimeFormatToRegex pattern (fun text =>
    Text.replaceAll
      (Text.replaceAll (Text.replaceAll text "hh".toList "\\d{2}".toList false)
        "h".toList "\\d{1,2}".toList false)
      "ap".toList amPmRegex true)

/-- `InvertedTimeTerm::minToRegex`. -/
def InvertedTimeTerm.minToRegex (pattern : Text) : Text :=
  dateTimeFormatToRegex pattern (fun text =>
    Text.replaceAll (Text.replaceAll text "mm".toList "\\d{2}".toList false)
      "m".toList "\\d{1,2}".toList false)

/-- The keyword table of `InvertedTimeTerm::parse`: `keywordMap` (as its list
of entries) and `keywordRegexStr`. -/
def InvertedTimeTerm.keywords : List (Text × Int) × Text :=
  (trList .InvTimeKeyword false true).foldl
    (fun acc mapping =>
      match Text.split mapping ':' with
      | [keyword, value] =>
        (acc.1 ++ [(keyword, (Text.toInt value).getD 0)], acc.2 ++ '|' :: regexEscape keyword)
      | _ => acc)
    ([], [])

/-- The pattern of the `QRegularExpression` of `InvertedTimeTerm::parse` for one
expression pattern (without its sign), hour regex and minute regex. -/
def InvertedTimeTerm.regexText (expr hourRegex minRegex : Text) : Text :=
  let prefixRx := Text.arg1 "(?:%1)?".toList (Text.join (trList .TimePrefix true true) ['|'])
  let suffixRx := Text.arg1 "(?:%1)?".toList (Text.join (trList .TimeSuffix true true) ['|'])
  '^' :: prefixRx ++
    Text.arg2 expr (Text.arg1 "(?<hours>%1)".toList hourRegex)
      (Text.arg2 "(?<minutes>%1%2)".toList minRegex InvertedTimeTerm.keywords.2) ++
    suffixRx ++ "\\s*".toList

/-- The body of the innermost loop of `InvertedTimeTerm::parse` once the
regular expression has been matched: `sign` is the sign of the expression
pattern, `hourFormat` and `minFormat` the Qt formats of the two groups. -/
def InvertedTimeTerm.fromMatch (m : QRegularExpressionMatch) (sign hourFormat minFormat : Text) :
    Option (InvertedTimeTerm × Nat) :=
  if m.hasMatch then
    -- extract minutes and hours from the expression
    let hours := (toTime (m.capturedName "hours".toList) hourFormat).hour
    let minutesStr := m.capturedName "minutes".toList
    let minutes := match InvertedTimeTerm.keywords.1.lookup minutesStr with
      | some v => v
      | none => (toTime minutesStr minFormat).minute
    -- negative minutes (i.e. 10 to 4 -> 3:50)
    let hm : Int × Int :=
      if sign = ['-'] then ((if hours = 0 then 23 else hours - 1), 60 - minutes)
      else (hours, minutes)
    let time := QTime.ofHMS hm.1 hm.2 0 0
    if time.isValid then some (InvertedTimeTerm.create time, m.capturedLength 0) else none
  else none

/-- The innermost loop body of `InvertedTimeTerm::parse` for one expression
pattern `expr:sign`, hour pattern and minute pattern (each a Qt format with its
regex). -/
def InvertedTimeTerm.tryPattern (expression : Text) (exprPattern : Text)
    (hourPattern minPattern : Text × Text) : Option (InvertedTimeTerm × Nat) :=
  match Text.split exprPattern ':' with
  | [expr, sign] =>
    InvertedTimeTerm.fromMatch
      (regexMatch (InvertedTimeTerm.regexText expr hourPattern.2 minPattern.2) expression)
      sign hourPattern.1 minPattern.1
  | _ => none

/-- `InvertedTimeTerm::parse`: the term and the number of characters consumed. -/
def InvertedTimeTerm.parse (expression : Text) : Option (InvertedTimeTerm × Nat) :=
  -- prepare hour/minute patterns
  let hourPatterns := (trList .InvTimeHourPattern false true).map
    (fun pattern => (pattern, InvertedTimeTerm.hourToRegex pattern))
  let minPatterns := (trList .InvTimeMinutePattern false true).map
    (fun pattern => (pattern, InvertedTimeTerm.minToRegex pattern))
  (trList .InvTimeExprPattern false true).findSome? (fun exprPattern =>
    hourPatterns.findSome? (fun hourPattern =>
      minPatterns.findSome? (fun minPattern =>
        InvertedTimeTerm.tryPattern expression exprPattern hourPattern minPattern)))

/-- The exits of the `forever` loop of `SequenceTerm::parse`: the `return` with
the term and the consumed length, a `break`, or not finished within the rounds
allowed. -/
inductive SequenceTerm.LoopExit where
  | returned (term : SequenceTerm) (consumed : Nat)
  | broke
  | unfinished
deriving DecidableEq, Repr

/-- `nameLookup` of `SequenceTerm::parse`: the unit names with their scope, in
the order they are inserted (the names are distinct). -/
def SequenceTerm.nameLookup : List (Text × Nat) :=
  ([(WordKey.SpanKeyMinute, Minute), (WordKey.SpanKeyHour, Hour), (WordKey.SpanKeyDay, Day),
    (WordKey.SpanKeyWeek, Week), (WordKey.SpanKeyMonth, Month),
    (WordKey.SpanKeyYear, Year)].map (fun scopeInfo =>
      (trList scopeInfo.1 false false).map (fun key => (key, scopeInfo.2)))).flatten

/-- `nameKey` of `SequenceTerm::parse`: the unit names, longest first, escaped
and joined by `|`. -/
def SequenceTerm.nameKey : Text :=
  -- sort by length to test the longest variants first, escape after sorting
  Text.join ((sortByLength (SequenceTerm.nameLookup.map (fun e => e.1))).map regexEscape) ['|']

/-- The pattern of the `<count> <unit>` regular expression of `SequenceTerm::parse`. -/
def SequenceTerm.regexText (looped : Bool) : Text :=
  let suffixRx := Text.arg1 "(%1)".toList (Text.join (trList .SpanSuffix true true) ['|'])
  let conjunctors := Text.arg1 "(%1)".toList (Text.join (trList .SpanConjuction true true) ['|'])
  '^' :: Text.arg1 "(?:(\\d+)\\s)%1".toList (if looped then ['?'] else []) ++
    '(' :: SequenceTerm.nameKey ++ ")(?:".toList ++ conjunctors ++ '|' :: suffixRx ++
    ")?\\s*".toList

/-- The `forever` loop of `SequenceTerm::parse`, iterating through all "and"
expressions from `offset` on. -/
def SequenceTerm.parseLoop (regex : Text) (looped : Bool) (expression : Text) :
    Nat → Nat → Sequence → SequenceTerm.LoopExit
  | 0, _, _ => .unfinished
  | fuel + 1, offset, sequence =>
    let m := regexMatch regex (expression.drop offset)
    if m.hasMatch then
      -- get the scope
      let scope := (SequenceTerm.nameLookup.lookup (Text.toLower (m.captured 2))).getD InvalidScope
      if scope = InvalidScope ∨ sequence.contains scope = true then .broke
      else
        -- get the amount of days
        let numDays : Option Int :=
          if looped && m.capturedLength 1 == 0 then some 1 else Text.toInt (m.captured 1)
        match numDays with
        | none => .broke
        | some numDays =>
          -- add to sequence
          let sequence := sequence.insert scope numDays
          -- check how to continue
          if m.capturedLength 3 > 0 then -- has found conjunction
            SequenceTerm.parseLoop regex looped expression fuel (offset + m.capturedLength 0)
              sequence
          else
            .returned (SequenceTerm.create sequence looped) (offset + m.capturedLength 0)
    else .broke

/-- `exprCombos` of `SequenceTerm::parse`: the loop prefix when one is defined,
then the plain prefix; each with its loop flag. -/
def SequenceTerm.exprCombos : List (Text × Bool) :=
  let prefixRx := Text.arg1 "(?:%1)?".toList (Text.join (trList .SpanPrefix true true) ['|'])
  let loopPrefix := trList .SpanLoopPrefix true true
  (if loopPrefix.isEmpty then []
    else [(Text.arg1 "(?:%1)".toList (Text.join loopPrefix ['|']), true)]) ++ [(prefixRx, false)]

/-- The body of the `for` loop of `SequenceTerm::parse` for one combination;
each round of the inner loop that goes on consumes at least one character, so
it gets one round more than the expression has characters. -/
def SequenceTerm.tryCombo (expression : Text) (loopCombo : Text × Bool) :
    Option (SequenceTerm × Nat) :=
  -- check for the prefix
  let prefixMatch := regexMatch ('^' :: loopCombo.1) expression
  if !prefixMatch.hasMatch then none
  else
    match SequenceTerm.parseLoop (SequenceTerm.regexText loopCombo.2) loopCombo.2 expression
        (expression.length + 1) (prefixMatch.capturedLength 0) [] with
    | .returned term consumed => some (term, consumed)
    | _ => none

/-- `SequenceTerm::parse`: the term and the number of characters consumed. -/
def SequenceTerm.parse (expression : Text) : Option (SequenceTerm × Nat) :=
  SequenceTerm.exprCombos.findSome? (SequenceTerm.tryCombo expression)

end Expressions

/-! # Definitions used to state and prove the properties -/

namespace Expressions

open Qt

/-- The units a span sequence can hold, coarsest first. -/
def spanUnits : List Nat := [Year, Month, Week, Day, Hour, Minute]

/-- An instant moved by an optional count, unchanged when the unit is absent. -/
def advanceIf (count : Option Int) (move : Int → QDateTime) (datetime : QDateTime) : QDateTime :=
  match count with
  | some n => move n
  | none => datetime

/-- The relative offset that optional counts per unit denote, in the words of
the specification: the instant advanced successively by the years, months,
weeks (as 7-day blocks), days, hours and minutes, coarsest unit first. -/
def advanceByCounts (count : Nat → Option Int) (datetime : QDateTime) : QDateTime :=
  let datetime := advanceIf (count Year) (fun n => datetime.addYears n) datetime
  let datetime := advanceIf (count Month) (fun n => datetime.addMonths n) datetime
  let datetime := advanceIf (count Week) (fun n => datetime.addDays (7 * n)) datetime
  let datetime := advanceIf (count Day) (fun n => datetime.addDays n) datetime
  let datetime := advanceIf (count Hour) (fun n => datetime.addSecs (3600 * n)) datetime
  let datetime := advanceIf (count Minute) (fun n => datetime.addSecs (60 * n)) datetime
  datetime

/-- The relative offset a sequence denotes: `advanceByCounts` of its stored counts. -/
def advanceBySequence (s : Sequence) (datetime : QDateTime) : QDateTime :=
  advanceByCounts (fun unit => s.value unit) datetime

/-- The evaluation of "weekday at time" on a reference instant: the WeekDay
sub-term applied unfenced, then the Time sub-term, then `WeekDayTerm::fixup`
when the result is not strictly after `since`. -/
def weekDayAtTime (wd : WeekDayTerm) (tt : TimeTerm) (since : QDateTime) : QDateTime :=
  let dt := tt.apply (wd.apply since false) false
  if since < dt then dt else wd.fixup dt

end Expressions

namespace Qt

/-- The day count of `julianDayFromDate` in March-based coordinates. -/
def jdCore (y m day : Int) : Int :=
  day + (153 * m + 2) / 5 + 365 * y + y / 4 - y / 100 + y / 400 - 32045

/-- Days before the March-based year `Y`, up to a constant. -/
def yearStart (Y : Int) : Int := 365 * Y + Y / 4 - Y / 100 + Y / 400

/-- Lexicographic order on (year, month, day). -/
def ymdLt (y1 m1 d1 y2 m2 d2 : Int) : Prop :=
  y1 < y2 ∨ (y1 = y2 ∧ (m1 < m2 ∨ (m1 = m2 ∧ d1 < d2)))

/-- Length of month `m` of year `y`, as `QDate::daysInMonth` computes it. -/
def daysIn (y m : Int) : Int :=
  if m = 2 ∧ isLeapYear y = true then 29 else monthDays m

/-- The year after `y` in a calendar without year 0. -/
def nextYear (y : Int) : Int := if y = -1 then 1 else y + 1

/-- The calendar month following month `m` of year `y`, as (year, month):
December rolls over into January of the next year. -/
def monthAfter (y m : Int) : Int × Int := if m = 12 then (nextYear y, 1) else (y, m + 1)

end Qt


/-! # Compiled recognizer tables, used in the proofs -/

namespace Qt

/-- The pattern that matches one literal character. -/
def Regex.char (c : Char) : Regex := .rep (.lit c) 1 (some 1)

/-- Concatenation of patterns, nested to the right as `compile` nests it. -/
def Regex.chain : List Regex → Regex
  | [] => .eps
  | [r] => r
  | r :: rest => .seq r (Regex.chain rest)

/-- Alternation of patterns, nested to the right as `compile` nests it. -/
def Regex.anyOf : List Regex → Regex
  | [] => .eps
  | [r] => r
  | r :: rest => .alt r (Regex.anyOf rest)

/-- The pattern of a literal text. -/
def Regex.text (s : String) : Regex := Regex.chain (s.toList.map Regex.char)

end Qt

namespace Expressions

open Qt

/-- One candidate of `InvertedTimeTerm::parse`: the compiled regular
expression, the sign, and the Qt formats of the hour and the minute group. -/
structure InvTimeCandidate where
  regex : Option Regex
  sign : Text
  hourFormat : Text
  minFormat : Text
deriving DecidableEq, Repr

/-- The candidate for one expression pattern, hour pattern and minute pattern. -/
def InvertedTimeTerm.candidate (exprPattern : Text) (hourPattern minPattern : Text × Text) :
    InvTimeCandidate :=
  match Text.split exprPattern ':' with
  | [expr, sign] =>
    { regex := compile (InvertedTimeTerm.regexText expr hourPattern.2 minPattern.2),
      sign := sign, hourFormat := hourPattern.1, minFormat := minPattern.1 }
  | _ => { regex := none, sign := [], hourFormat := [], minFormat := [] }

/-- The candidates of `InvertedTimeTerm::parse` in the order the loops try them. -/
def InvertedTimeTerm.candidates : List InvTimeCandidate :=
  ((trList .InvTimeExprPattern false true).map (fun exprPattern =>
    (((trList .InvTimeHourPattern false true).map
        (fun pattern => (pattern, InvertedTimeTerm.hourToRegex pattern))).map (fun hourPattern =>
      ((trList .InvTimeMinutePattern false true).map
          (fun pattern => (pattern, InvertedTimeTerm.minToRegex pattern))).map (fun minPattern =>
        InvertedTimeTerm.candidate exprPattern hourPattern minPattern))).flatten)).flatten

/-- A candidate tried on an expression. -/
def InvTimeCandidate.try (c : InvTimeCandidate) (expression : Text) :
    Option (InvertedTimeTerm × Nat) :=
  InvertedTimeTerm.fromMatch (matchCompiled c.regex expression) c.sign c.hourFormat c.minFormat

end Expressions

namespace Expressions

open Qt

/-- The compiled regular expression of `InvertedTimeTerm::parse` for the text
`sep` between the minute and the hour group. -/
def InvertedTimeTerm.compiledRegex (sep : String) (hourRx minRx : Regex) : Regex :=
  Regex.chain
    ([Regex.bol, Regex.opt (Regex.text "at "),
        Regex.group 1 "minutes".toList
          (Regex.anyOf [minRx, Regex.text "quarter", Regex.text "half"])] ++
      sep.toList.map Regex.char ++
      [Regex.group 2 "hours".toList hourRx, Regex.opt (Regex.text " o'clock"),
        Regex.rep CharSet.space 0 none])

/-- The hour formats with their compiled regular expressions. -/
def InvertedTimeTerm.compiledHours : List (String × Regex) :=
  [("hh ap", Regex.chain [Regex.rep CharSet.digit 2 (some 2), Regex.char ' ',
      Regex.anyOf [Regex.text "AM", Regex.text "PM"]]),
   ("hh AP", Regex.chain [Regex.rep CharSet.digit 2 (some 2), Regex.char ' ',
      Regex.anyOf [Regex.text "AM", Regex.text "PM"]]),
   ("h ap", Regex.chain [Regex.rep CharSet.digit 1 (some 2), Regex.char ' ',
      Regex.anyOf [Regex.text "AM", Regex.text "PM"]]),
   ("h AP", Regex.chain [Regex.rep CharSet.digit 1 (some 2), Regex.char ' ',
      Regex.anyOf [Regex.text "AM", Regex.text "PM"]]),
   ("hh", Regex.rep CharSet.digit 2 (some 2)),
   ("h", Regex.rep CharSet.digit 1 (some 2))]

/-- The minute formats with their compiled regular expressions. -/
def InvertedTimeTerm.compiledMinutes : List (String × Regex) :=
  [("mm", Regex.rep CharSet.digit 2 (some 2)), ("m", Regex.rep CharSet.digit 1 (some 2))]

/-- The candidates of `InvertedTimeTerm::parse`, written out. -/
def InvertedTimeTerm.compiledCandidates : List InvTimeCandidate :=
  ([(" past ", "+"), ("-past ", "+"), (" to ", "-")].map (fun e =>
    (InvertedTimeTerm.compiledHours.map (fun h =>
      InvertedTimeTerm.compiledMinutes.map (fun m =>
        ({ regex := some (InvertedTimeTerm.compiledRegex e.1 h.2 m.2), sign := e.2.toList,
           hourFormat := h.1.toList, minFormat := m.1.toList } : InvTimeCandidate)))).flatten)).flatten

end Expressions

namespace Qt

/-- A decimal numeral of one or two digits with its value (leading zero allowed). -/
def isNumeral (t : Text) (n : Nat) : Prop :=
  (t.length = 1 ∨ t.length = 2) ∧ (∀ c ∈ t, c.isDigit = true) ∧ Text.digitsValue t 0 = some n

end Qt

namespace Expressions

open Qt

/-- The items of the compiled pattern of `InvertedTimeTerm::parse` before the hour group. -/
def InvertedTimeTerm.headItems (sep : String) (minRx : Regex) : List Regex :=
  [Regex.opt (Regex.text "at "),
    Regex.group 1 "minutes".toList
      (Regex.anyOf [minRx, Regex.text "quarter", Regex.text "half"])] ++
  sep.toList.map Regex.char

/-- The items of the compiled pattern of `InvertedTimeTerm::parse` from the hour group on. -/
def InvertedTimeTerm.tailItems (hourRx : Regex) : List Regex :=
  [Regex.group 2 "hours".toList hourRx, Regex.opt (Regex.text " o'clock"),
    Regex.rep CharSet.space 0 none]

/-- What `InvertedTimeTerm::parse` makes of the results of the matcher at
offset 0: the first result is the match. -/
def InvertedTimeTerm.fromStates (l : List MState) (subject sign hourFormat minFormat : Text) :
    Option (InvertedTimeTerm × Nat) :=
  InvertedTimeTerm.fromMatch
    (match l with
      | s :: _ => { hasMatch := true, capturedStart := 0, capturedEnd := s.pos,
                    subject := subject, caps := s.caps }
      | [] => QRegularExpressionMatch.noMatch subject)
    sign hourFormat minFormat

end Expressions

namespace Expressions

open Qt

/-- The candidates of `InvertedTimeTerm::parse` for one expression pattern, in
the order of the two inner loops. -/
def InvertedTimeTerm.candidatesFor (sep : String) (sign : Text) : List InvTimeCandidate :=
  (InvertedTimeTerm.compiledHours.map (fun h =>
    InvertedTimeTerm.compiledMinutes.map (fun m =>
      ({ regex := some (InvertedTimeTerm.compiledRegex sep h.2 m.2), sign := sign,
         hourFormat := h.1.toList, minFormat := m.1.toList } : InvTimeCandidate)))).flatten

/-- A minute text with its value: a numeral of one or two digits, or one of
the keywords `quarter` and `half`. -/
def InvertedTimeTerm.isMinuteText (t : Text) (m : Nat) : Prop :=
  isNumeral t m ∨ (t = "quarter".toList ∧ m = 15) ∨ (t = "half".toList ∧ m = 30)

end Expressions

namespace Expressions

open Qt

/-- The compiled `<count> <unit>` pattern of `SequenceTerm::parse` for the plain
prefix, after the `^`: the count, one space, the unit names (longest first),
the optional conjunction or suffix, and trailing spaces. -/
def SequenceTerm.compiledPair : Regex :=
  .seq (.seq (.group 1 [] (.rep .digit 1 none)) (.rep .space 1 (some 1)))
    (.seq
      (.group 2 [] (Regex.anyOf (["minutes", "minute", "months", "hours", "weeks", "month",
        "years", "mins", "hour", "days", "week", "mons", "year", "min", "day", "mon"].map
        Regex.text)))
      (.seq (.opt (.alt (.group 3 [] (Regex.text " and")) (.group 4 [] .eps)))
        (.rep .space 0 none)))

end Expressions

/-! # The loop limits of `src/RemindMeCore/dateparser.cpp` -/

namespace Qt

/-- The `jd` member of a `QDate`: the null date holds
`std::numeric_limits<qint64>::min()`. -/
def QDate.rawJd : QDate → Int
  | none => -9223372036854775808
  | some jd => jd

/-- `QDate::operator<`: the Julian days are compared. -/
def QDate.lt (d other : QDate) : Bool := decide (QDate.rawJd d < QDate.rawJd other)

end Qt

namespace ParserTypes

open Qt

/-- `enum Datum::Scope`. -/
inductive Datum.Scope where
  | InvalidScope | WeekDayScope | DayScope | MonthScope | MonthDayScope
deriving DecidableEq, Repr

/-- `class Datum`: `scope` and `value`. -/
structure Datum where
  scope : Datum.Scope
  value : Int
deriving DecidableEq, Repr

/-- `enum TimePoint::Mode`. -/
inductive TimePoint.Mode where
  | InvalidMode | DateMode | DatumMode | YearMode
deriving DecidableEq, Repr

/-- `class TimePoint`: `mode`, `date` and `datum` (`none` for `nullptr`). -/
structure TimePoint where
  mode : TimePoint.Mode
  date : QDate
  datum : Option Datum
deriving DecidableEq, Repr

/-- `TimePoint::isLess(const TimePoint *other)`. -/
def TimePoint.isLess (self other : TimePoint) : Bool :=
  if self.mode = .InvalidMode ∨ other.mode = .InvalidMode then true
  else if self.mode = .DatumMode ∨ other.mode = .DatumMode then false
  else if self.mode = .DateMode ∧ other.mode = .DateMode then QDate.lt self.date other.date
  else decide (QDate.year self.date < QDate.year other.date)

/-- `TimePoint::TimePoint(QObject *parent)`. -/
def TimePoint.new : TimePoint := { mode := .InvalidMode, date := QDate.null, datum := none }

end ParserTypes

/-! # Further sub-terms and recognizers of `src/lib/terms.cpp` -/

namespace Qt

/-- The decimal digits of a number, most significant first, put in front of
`acc`; `fuel` bounds the number of digits. -/
def Text.ofNatAux : Nat → Nat → Text → Text
  | 0, _, acc => acc
  | fuel + 1, n, acc =>
    if n / 10 = 0 then Char.ofNat (48 + n % 10) :: acc
    else Text.ofNatAux fuel (n / 10) (Char.ofNat (48 + n % 10) :: acc)

/-- The decimal digits of a number, without leading zeros (`0` for zero). -/
def Text.ofNat (n : Nat) : Text := Text.ofNatAux (n + 1) n []

/-- `QString::number(n)` and `QString::arg(int)`: decimal, `-` before a
negative number. -/
def Text.number (n : Int) : Text :=
  if n < 0 then '-' :: Text.ofNat n.natAbs else Text.ofNat n.natAbs

/-- `QString("%1").arg(a, fieldWidth, 10, QLatin1Char('0'))`: with the fill
character `0` the number is formatted zero-padded
(`QLocaleData::longLongToString` with `ZeroPadded`): zeros are put in front of
the digits up to `fieldWidth` characters, one of which is left for the sign of a
negative number, and the sign is put in front. -/
def Text.argZeroPadded (a : Int) (fieldWidth : Nat) : Text :=
  let digits := Text.ofNat a.natAbs
  let numPadChars := fieldWidth - digits.length - (if a < 0 then 1 else 0)
  let digits := List.replicate numPadChars '0' ++ digits
  if a < 0 then '-' :: digits else digits

end Qt

namespace Expressions

open Qt

/-! ## MonthDayTerm -/

/-- `MonthDayTerm::describe`: `tr("%1.").arg(_day)`. -/
def MonthDayTerm.describe (self : MonthDayTerm) : Text :=
  Text.arg1 "%1.".toList (Text.number self._day)

/-- The `indicators` of `MonthDayTerm::parse`, prepared: the indicator texts
with `(\d{1,2})` at the place of the `_`. -/
def MonthDayTerm.indicators : List Text :=
  (trList .MonthDayIndicator false true).map (fun indicator =>
    match Text.split indicator '_' with
    | [before, after] => regexEscape before ++ "(\\d{1,2})".toList ++ regexEscape after
    | _ => indicator)

/-- `exprCombos` of `MonthDayTerm::parse`: `{loop, suffix}`, `{prefix, loop}`
or `{prefix, suffix}`, the first two only if a loop prefix or suffix is defined;
each with its loop flag. -/
def MonthDayTerm.exprCombos : List (Text × Text × Bool) :=
  let prefixRx := Text.arg1 "(?:%1)?".toList (Text.join (trList .MonthDayPrefix true true) ['|'])
  let suffixRx := Text.arg1 "(?:%1)?".toList (Text.join (trList .MonthDaySuffix true true) ['|'])
  let loopPrefix := trList .MonthDayLoopPrefix true true
  let loopSuffix := trList .MonthDayLoopSuffix true true
  (if loopPrefix.isEmpty then []
    else [(Text.arg1 "(?:%1)".toList (Text.join loopPrefix ['|']), suffixRx, true)]) ++
  (if loopSuffix.isEmpty then []
    else [(prefixRx, Text.arg1 "(?:%1)".toList (Text.join loopSuffix ['|']), true)]) ++
  [(prefixRx, suffixRx, false)]

/-- The body of the inner loop of `MonthDayTerm::parse` for one combination and
one indicator. -/
def MonthDayTerm.tryIndicator (expression : Text) (loopCombo : Text × Text × Bool)
    (indicator : Text) : Option (MonthDayTerm × Nat) :=
  let m := regexMatch ('^' :: loopCombo.1 ++ indicator ++ loopCombo.2.1 ++ "\\s*".toList)
    expression
  if m.hasMatch then
    match Text.toInt (m.captured 1) with
    | some day =>
      if day ≥ 1 ∧ day ≤ 31 then
        let isLoop := loopCombo.2.2
        some (MonthDayTerm.create day isLoop, m.capturedLength 0)
      else none
    | none => none
  else none

/-- `MonthDayTerm::parse`: the term and the number of characters consumed. -/
def MonthDayTerm.parse (expression : Text) : Option (MonthDayTerm × Nat) :=
  -- loop through all the combinations and try to find one
  MonthDayTerm.exprCombos.findSome? (fun loopCombo =>
    MonthDayTerm.indicators.findSome? (MonthDayTerm.tryIndicator expression loopCombo))

/-! ## YearTerm -/

/-- `YearTerm::describe`: `QStringLiteral("%1").arg(_year, 4, 10, QLatin1Char('0'))`. -/
def YearTerm.describe (self : YearTerm) : Text :=
  Text.arg1 "%1".toList (Text.argZeroPadded self._year 4)

/-- The pattern of the regular expression of `YearTerm::parse`. -/
def YearTerm.regexText : Text :=
  let prefixRx := Text.arg1 "(?:%1)?".toList (Text.join (trList .YearPrefix true true) ['|'])
  let suffixRx := Text.arg1 "(?:%1)?".toList (Text.join (trList .YearSuffix true true) ['|'])
  '^' :: prefixRx ++ "(-?\\d{4,})".toList ++ suffixRx ++ "\\s*".toList

/-- `YearTerm::parse`: the term and the number of characters consumed. -/
def YearTerm.parse (expression : Text) : Option (YearTerm × Nat) :=
  let m := regexMatch YearTerm.regexText expression
  if m.hasMatch then
    match Text.toInt (m.captured 1) with
    | some year => some (YearTerm.create year, m.capturedLength 0)
    | none => none
  else none

/-! ## KeywordTerm -/

/-- `KeywordTerm`: the `SubTerm` fields and `_days`. -/
structure KeywordTerm where
  type : Nat
  scope : Nat
  _days : Int
deriving DecidableEq, Repr

/-- `KeywordTerm::KeywordTerm(int days)`. -/
def KeywordTerm.create (days : Int) : KeywordTerm :=
  { type := Timespan, scope := Day, _days := days }

/-! ## LimiterTerm -/

/-- Modelled from the spec: `terms.h`, which declares the type, is not among
the sources; the data model gives a Limiter the type "FromSubterm/UntilSubterm",
a type of its own next to Timepoint and Timespan. -/
def FromSubterm : Nat := 0x04

/-- Modelled from the spec: `terms.h`, which declares the type, is not among
the sources; see `FromSubterm`. -/
def UntilSubTerm : Nat := 0x08

/-- `LimiterTerm`: the `SubTerm` fields (the nested `_limitTerm` is left out). -/
structure LimiterTerm where
  type : Nat
  scope : Nat
deriving DecidableEq, Repr

/-- `LimiterTerm::LimiterTerm(bool isFrom)`. -/
def LimiterTerm.create (isFrom : Bool) : LimiterTerm :=
  { type := if isFrom then FromSubterm else UntilSubTerm, scope := InvalidScope }

end Expressions

namespace Expressions

open Qt

/-- The compiled pattern of `YearTerm::parse`, after the `^`: the optional
prefix, the group of an optional `-` and four or more digits, the optional
(empty) suffix, and trailing spaces. -/
def YearTerm.compiledRegex : Regex :=
  .seq (.opt (Regex.text "in "))
    (.seq (.group 1 [] (.seq (.rep (.lit '-') 0 (some 1)) (.rep .digit 4 none)))
      (.seq (.opt .eps) (.rep .space 0 none)))

end Expressions

/-! ## `QLocale::toDate` and `QLocale::toString` for dates -/

namespace Qt

/-- A section of a Qt date format: `d` / `dd`, `M` / `MM`, `yy`, `yyyy`, or a
character that stands for itself. -/
inductive DateSection where
  | day (count : Nat)
  | month (count : Nat)
  | year2
  | year4
  | literal (c : Char)
deriving DecidableEq, Repr

/-- The sections of a date format made of days, months and years as numbers
and of separators. -/
def parseDateFormat : Text → List DateSection
  | 'd' :: 'd' :: rest => .day 2 :: parseDateFormat rest
  | 'd' :: rest => .day 1 :: parseDateFormat rest
  | 'M' :: 'M' :: rest => .month 2 :: parseDateFormat rest
  | 'M' :: rest => .month 1 :: parseDateFormat rest
  | 'y' :: 'y' :: 'y' :: 'y' :: rest => .year4 :: parseDateFormat rest
  | 'y' :: 'y' :: rest => .year2 :: parseDateFormat rest
  | c :: rest => .literal c :: parseDateFormat rest
  | [] => []

/-- What the sections read so far gave. -/
structure DateFields where
  year : Option Int
  month : Option Nat
  day : Option Nat
deriving DecidableEq, Repr

/-- Exactly `count` digits: the value and the text left. -/
def readDigits (count : Nat) (s : Text) : Option (Nat × Text) :=
  let run := s.take count
  if run.length = count ∧ run.all Char.isDigit then
    match Text.digitsValue run 0 with
    | none => none
    | some v => some (v, s.drop count)
  else none

/-- Reads a text section by section; `none` when the text does not fit. A
two-digit year counts from 1900; a four-digit year may carry a `-`. -/
def readDateSections : List DateSection → Text → DateFields → Option DateFields
  | [], s, f => if s.isEmpty then some f else none
  | .day count :: rest, s, f =>
    match readNumber count s with
    | none => none
    | some (v, s) => readDateSections rest s { f with day := some v }
  | .month count :: rest, s, f =>
    match readNumber count s with
    | none => none
    | some (v, s) => readDateSections rest s { f with month := some v }
  | .year2 :: rest, s, f =>
    match readDigits 2 s with
    | none => none
    | some (v, s) => readDateSections rest s { f with year := some (1900 + (v : Int)) }
  | .year4 :: rest, s, f =>
    match s with
    | '-' :: s =>
      match readDigits 4 s with
      | none => none
      | some (v, s) => readDateSections rest s { f with year := some (-(v : Int)) }
    | _ =>
      match readDigits 4 s with
      | none => none
      | some (v, s) => readDateSections rest s { f with year := some (v : Int) }
  | .literal c :: rest, s, f =>
    match s with
    | x :: s => if x = c then readDateSections rest s f else none
    | [] => none

/-- `QLocale::toDate(text, format)` for formats of days, months and years as
numbers: the null date when the text does not fit the format or the values are
not a date.  A field that the format lacks has the value of 1 January 1900. -/
def toDate (text format : Text) : QDate :=
  match readDateSections (parseDateFormat format) text
      { year := none, month := none, day := none } with
  | none => QDate.null
  | some f => QDate.ofYMD (f.year.getD 1900) (f.month.getD 1) (f.day.getD 1)

/-- A number in two digits, as `dd` and `MM` write it. -/
def Text.twoDigits (n : Nat) : Text := Text.argZeroPadded n 2

/-- One section of a date written out: `dd` and `MM` in two digits, `yyyy` in
four digits (five characters for a negative year), `yy` as the last two digits
of the year. -/
def DateSection.toText (date : QDate) : DateSection → Text
  | .day count => if count = 2 then Text.twoDigits date.day.toNat else Text.ofNat date.day.toNat
  | .month count =>
    if count = 2 then Text.twoDigits date.month.toNat else Text.ofNat date.month.toNat
  | .year2 => Text.twoDigits (date.year.natAbs % 100)
  | .year4 => Text.argZeroPadded date.year (if date.year < 0 then 5 else 4)
  | .literal c => [c]

/-- `QLocale::toString(date, format)` for formats of days, months and years as
numbers: the empty text for the null date. -/
def dateToString (date : QDate) (format : Text) : Text :=
  if date.isValid then ((parseDateFormat format).map (DateSection.toText date)).flatten else []

end Qt

/-! ## DateTerm: the recognizer -/

namespace Expressions

open Qt

/-- The same loop as `dateTimeFormatToRegexLoop` for a replacer that writes to a
captured variable, as the one of `DateTerm::toRegex` does: the variable is
passed to each call of the replacer and returned with the pattern. -/
def dateTimeFormatToRegexLoopWith (replacer : Bool → Text → Text × Bool) :
    Nat → Text → Nat → Bool → Bool → Text × Bool
  | 0, pattern, _, _, state => (pattern, state)
  | fuel + 1, pattern, afterQuote, inQuote, state =>
    let nextQuote := Text.indexOf pattern ['\\', '\''] afterQuote -- \' because already regex escaped
    let replLen := match nextQuote with
      | none => pattern.length - afterQuote
      | some q => q - afterQuote
    if !inQuote then
      -- special case - quote after quote
      if nextQuote = some afterQuote then
        dateTimeFormatToRegexLoopWith replacer fuel pattern (afterQuote + 2) true state
      else
        let replaced : Text × Nat × Bool :=
          if replLen > 0 then
            let subStr := replacer state (Text.mid pattern afterQuote replLen)
            (Text.replaceAt pattern afterQuote replLen subStr.1,
              if nextQuote.isSome then afterQuote + subStr.1.length + 2 else afterQuote,
              subStr.2)
          else (pattern, afterQuote, state)
        if nextQuote.isNone then (replaced.1, replaced.2.2)
        else dateTimeFormatToRegexLoopWith replacer fuel replaced.1 replaced.2.1 (!inQuote)
          replaced.2.2
    else
      match nextQuote with
      | some q =>
        dateTimeFormatToRegexLoopWith replacer fuel
          (Text.replaceAt pattern (afterQuote - 2) (replLen + 4) (Text.mid pattern afterQuote replLen))
          (q - 2) (!inQuote) state
      | none => (pattern, state)

/-- `QString::replace` with the regular expression `(?<!\\)((?:\\{2})*)d` and
the text `\1\d{1,2}`: a `d` is replaced by `\d{1,2}` when the backslashes right
before it are even in number (the pattern starts where no backslash precedes
and takes the backslashes in pairs), so that the `d` of a `\d` written by the
replacement before is left alone; `odd` tells whether the backslashes read
right before the position are odd in number. -/
def DateTerm.replaceDay : Text → Bool → Text
  | [], _ => []
  | c :: rest, odd =>
    if c = '\\' then c :: DateTerm.replaceDay rest (!odd)
    else if c = 'd' ∧ odd = false then "\\d{1,2}".toList ++ DateTerm.replaceDay rest false
    else c :: DateTerm.replaceDay rest false

/-- The replacer of `DateTerm::toRegex`, with its captured `hasYear`. -/
def DateTerm.replacer (hasYear : Bool) (text : Text) : Text × Bool :=
  let text := Text.replaceAll text "dd".toList "\\d{2}".toList false
  let text := DateTerm.replaceDay text false -- not the "\d" replaced before, but "\\d"
  let text := Text.replaceAll text "MM".toList "\\d{2}".toList false
  let text := Text.replaceAll text "M".toList "\\d{1,2}".toList false
  let oldLen := text.length
  let text := Text.replaceAll text "yyyy".toList "-?\\d{4}".toList false
  let text := Text.replaceAll text "yy".toList "\\d{2}".toList false
  (text, hasYear || (text.length != oldLen))

/-- `DateTerm::toRegex`: the regular expression and `hasYear`. -/
def DateTerm.toRegex (pattern : Text) : Text × Bool :=
  let hasYear := false
  let pattern := regexEscape pattern
  dateTimeFormatToRegexLoopWith DateTerm.replacer (pattern.length + 2) pattern 0 false hasYear

/-- `DateTerm::describe`. -/
def DateTerm.describe (self : DateTerm) : Text :=
  dateToString self._date
    (if testFlag self.scope Year then "yyyy-MM-dd".toList else "MM-dd".toList)

/-- The assertion of the constructor `DateTerm::DateTerm`. -/
def DateTerm.createAsserts (hasYear isLooped : Bool) : Bool := !(hasYear && isLooped)

/-- `patterns` of `DateTerm::parse`: the regular expression, the pattern and
`hasYear` of each date pattern. -/
def DateTerm.patterns : List (Text × Text × Bool) :=
  (trList .DatePattern false true).map (fun pattern =>
    let escaped := DateTerm.toRegex pattern
    (escaped.1, pattern, escaped.2))

/-- `exprCombos` of `DateTerm::parse`: `{loop, suffix}`, `{prefix, loop}` or
`{prefix, suffix}`, the first two only if a loop prefix or suffix is defined;
each with its loop flag. -/
def DateTerm.exprCombos : List (Text × Text × Bool) :=
  let prefixRx := Text.arg1 "(?:%1)?".toList (Text.join (trList .DatePrefix true true) ['|'])
  let suffixRx := Text.arg1 "(?:%1)?".toList (Text.join (trList .DateSuffix true true) ['|'])
  let loopPrefix := trList .DateLoopPrefix true true
  let loopSuffix := trList .DateLoopSuffix true true
  (if loopPrefix.isEmpty then []
    else [(Text.arg1 "(?:%1)".toList (Text.join loopPrefix ['|']), suffixRx, true)]) ++
  (if loopSuffix.isEmpty then []
    else [(prefixRx, Text.arg1 "(?:%1)".toList (Text.join loopSuffix ['|']), true)]) ++
  [(prefixRx, suffixRx, false)]

/-- The pattern of the regular expression of `DateTerm::parse` for one
combination and one date pattern. -/
def DateTerm.regexText (loopCombo : Text × Text × Bool) (patternInfo : Text × Text × Bool) :
    Text :=
  '^' :: loopCombo.1 ++ '(' :: patternInfo.1 ++ ')' :: loopCombo.2.1 ++ "\\s*".toList

/-- The body of the inner loop of `DateTerm::parse` for one combination
(prefix, suffix, isLooped) and one pattern (regex, pattern, hasYear). -/
def DateTerm.tryPattern (expression : Text) (loopCombo : Text × Text × Bool)
    (patternInfo : Text × Text × Bool) : Option (DateTerm × Nat) :=
  if loopCombo.2.2 && patternInfo.2.2 then none -- skip year expressions for loops
  else
    let m := regexMatch (DateTerm.regexText loopCombo patternInfo) expression
    if m.hasMatch then
      let date := toDate (m.captured 1) patternInfo.2.1
      if date.isValid then
        some (DateTerm.create date patternInfo.2.2 loopCombo.2.2, m.capturedLength 0)
      else none
    else none

/-- `DateTerm::parse`: the term and the number of characters consumed. -/
def DateTerm.parse (expression : Text) : Option (DateTerm × Nat) :=
  DateTerm.exprCombos.findSome? (fun loopCombo =>
    DateTerm.patterns.findSome? (DateTerm.tryPattern expression loopCombo))

end Expressions

namespace Expressions

open Qt

/-- One candidate of `DateTerm::parse`: the compiled regular expression (`none`
for a year pattern in a loop combination, which is skipped), the pattern, its
year flag and the loop flag of the combination. -/
structure DateCandidate where
  regex : Option Regex
  pattern : Text
  hasYear : Bool
  isLooped : Bool
deriving DecidableEq, Repr

/-- The candidate for one combination and one pattern. -/
def DateTerm.candidate (loopCombo : Text × Text × Bool) (patternInfo : Text × Text × Bool) :
    DateCandidate :=
  { regex := if loopCombo.2.2 && patternInfo.2.2 then none
      else compile (DateTerm.regexText loopCombo patternInfo),
    pattern := patternInfo.2.1, hasYear := patternInfo.2.2, isLooped := loopCombo.2.2 }

/-- The candidates of `DateTerm::parse` in the order the loops try them. -/
def DateTerm.candidates : List DateCandidate :=
  (DateTerm.exprCombos.map (fun loopCombo =>
    DateTerm.patterns.map (DateTerm.candidate loopCombo))).flatten

/-- What `DateTerm::parse` makes of one candidate. -/
def DateCandidate.try (c : DateCandidate) (expression : Text) : Option (DateTerm × Nat) :=
  let m := matchCompiled c.regex expression
  if m.hasMatch then
    let date := toDate (m.captured 1) c.pattern
    if date.isValid then some (DateTerm.create date c.hasYear c.isLooped, m.capturedLength 0)
    else none
  else none

/-- The items of the regular expression of one section of a date pattern. -/
def DateTerm.sectionItems : DateSection → List Regex
  | .day count => [.rep .digit (if count = 2 then 2 else 1) (some 2)]
  | .month count => [.rep .digit (if count = 2 then 2 else 1) (some 2)]
  | .year2 => [.rep .digit 2 (some 2)]
  | .year4 => [.rep (.lit '-') 0 (some 1), .rep .digit 4 (some 4)]
  | .literal c => [Regex.char c]

/-- The items of the regular expression of a date pattern. -/
def DateTerm.patternItems (pattern : Text) : List Regex :=
  ((parseDateFormat pattern).map DateTerm.sectionItems).flatten

/-- The compiled affix in front of the date: one of the loop prefixes, or
optionally one of the plain prefixes. -/
def DateTerm.compiledPrefix (isLooped : Bool) : Regex :=
  if isLooped then
    Regex.anyOf (["on every ", "on any ", "on all ", "every ", "any ", "all "].map Regex.text)
  else .opt (Regex.anyOf (["on the ", "the ", "on "].map Regex.text))

/-- The compiled regular expression of `DateTerm::parse` for a loop flag and a
date pattern. -/
def DateTerm.compiledRegex (isLooped : Bool) (pattern : Text) : Regex :=
  .seq .bol (.seq (DateTerm.compiledPrefix isLooped)
    (.seq (.group 1 [] (Regex.chain (DateTerm.patternItems pattern)))
      (.seq (.opt .eps) (.rep .space 0 none))))

/-- The candidates of `DateTerm::parse`, with the regular expressions put
together from the sections of the patterns. -/
def DateTerm.compiledCandidates : List DateCandidate :=
  ([true, false].map (fun isLooped =>
    (trList .DatePattern false true).map (fun pattern =>
      let hasYear := pattern.contains 'y'
      ({ regex := if isLooped && hasYear then none
            else some (DateTerm.compiledRegex isLooped pattern),
         pattern := pattern, hasYear := hasYear, isLooped := isLooped } : DateCandidate)))).flatten

end Expressions

namespace Expressions

open Qt

/-- The date patterns in the order `DateTerm::parse` tries them, each with its
year flag. -/
def DateTerm.patternTable : List (String × Bool) :=
  [("dd. MM. yyyy", true), ("d. MM. yyyy", true), ("dd. M. yyyy", true), ("dd.MM.yyyy", true),
   ("d. M. yyyy", true), ("dd-MM-yyyy", true), ("dd. MM. yy", true), ("d.MM.yyyy", true),
   ("dd.M.yyyy", true), ("d-MM-yyyy", true), ("dd-M-yyyy", true), ("d. MM. yy", true),
   ("dd. M. yy", true), ("d.M.yyyy", true), ("d-M-yyyy", true), ("dd.MM.yy", true),
   ("d. M. yy", true), ("dd-MM-yy", true), ("d.MM.yy", true), ("dd.M.yy", true),
   ("d-MM-yy", true), ("dd-M-yy", true), ("dd. MM.", false), ("d.M.yy", true),
   ("d-M-yy", true), ("dd.MM.", false), ("d. MM.", false), ("dd. M.", false), ("d.MM.", false),
   ("dd.M.", false), ("d. M.", false), ("dd-MM", false), ("d.M.", false), ("d-MM", false),
   ("dd-M", false), ("d-M", false)]

/-- The candidate of a loop flag and an entry of the pattern table. -/
def DateTerm.tableCandidate (isLooped : Bool) (entry : String × Bool) : DateCandidate :=
  { regex := if isLooped && entry.2 then none
      else some (DateTerm.compiledRegex isLooped entry.1.toList),
    pattern := entry.1.toList, hasYear := entry.2, isLooped := isLooped }

/-- What `DateTerm::parse` makes of a candidate without loop prefix, given the
results of the group of the pattern at the start of the text: the rest of the
regular expression is matched from each, and the first result is the match. -/
def DateTerm.fromStates (l : List MState) (subject pattern : Text) (hasYear : Bool) :
    Option (DateTerm × Nat) :=
  let m : QRegularExpressionMatch :=
    match bindStates l (matchAll (.seq (.opt .eps) (.rep .space 0 none))) with
    | s :: _ => { hasMatch := true, capturedStart := 0, capturedEnd := s.pos,
                  subject := subject, caps := s.caps }
    | [] => QRegularExpressionMatch.noMatch subject
  if m.hasMatch then
    let date := toDate (m.captured 1) pattern
    if date.isValid then some (DateTerm.create date hasYear false, m.capturedLength 0)
    else none
  else none

end Expressions

namespace Expressions

open Qt

/-- The result that the segments of a format pattern call for, in the words of
the specification: the segments are the parts of the pattern between its single
quotes, by turns outside and inside quotes, starting outside; a segment inside
quotes stands regex-escaped, a segment outside quotes is regex-escaped and
passed to the replacer (an empty part between two quotes, or at an end of the
pattern, is no segment and gives nothing), and the quotes are left out. -/
def dateTimeFormatToRegexSegments (replacer : Text → Text) : List Text → Bool → Text
  | [], _ => []
  | segment :: rest, inQuote =>
    (if inQuote then regexEscape segment
      else if segment.isEmpty then [] else replacer (regexEscape segment)) ++
    dateTimeFormatToRegexSegments replacer rest (!inQuote)

end Expressions

namespace Expressions

open Qt

/-- The year behind the prefix, stated in words (the wording of the
specification, with the decimal digits made precise): the text starts with an
optional `-` followed by at least four decimal digits, all the decimal digits at
that place being read (`CharSet.digit`: a character with the Unicode property
Nd); when every one of them is an ASCII digit and their value with the sign fits
an `int`, that is the year, and `prefixLength` characters, the sign, the digits
and the whitespace behind them are consumed.  Any other text gives no term. -/
def YearTerm.parseSpecAfter (prefixLength : Nat) (afterPrefix : Text) :
    Option (YearTerm × Nat) :=
  let signLength := if afterPrefix.head? = some '-' then 1 else 0
  let digits := (afterPrefix.drop signLength).takeWhile CharSet.digit.test
  if 4 ≤ digits.length ∧ digits.all Char.isDigit = true then
    match Text.toInt (afterPrefix.take (signLength + digits.length)) with
    | some year =>
      some (YearTerm.create year,
        prefixLength + signLength + digits.length +
          ((afterPrefix.drop (signLength + digits.length)).takeWhile CharSet.space.test).length)
    | none => none
  else none

/-- What `YearTerm::parse` is to return, stated in words: the year of
`parseSpecAfter` behind the optional prefix "in " (in letters of either case). -/
def YearTerm.parseSpec (expression : Text) : Option (YearTerm × Nat) :=
  if Text.startsWith expression "in ".toList true then
    YearTerm.parseSpecAfter 3 (expression.drop 3)
  else YearTerm.parseSpecAfter 0 expression

end Expressions

namespace Expressions

open Qt

/-! ## KeywordTerm and LimiterTerm: the recognizers -/

/-- The body of the loop of `KeywordTerm::parse` for one entry `keyword:value`
of the translation. -/
def KeywordTerm.tryInfo (expression : Text) (info : Text) : Option (KeywordTerm × Nat) :=
  match Text.split info ':' with
  | [keyword, value] =>
    let m := regexMatch ('^' :: regexEscape keyword ++ "\\s*".toList) expression
    if m.hasMatch then
      some (KeywordTerm.create ((Text.toInt value).getD 0), m.capturedLength 0)
    else none
  | _ => none

/-- `KeywordTerm::parse`: the term and the number of characters consumed. -/
def KeywordTerm.parse (expression : Text) : Option (KeywordTerm × Nat) :=
  (trList .KeywordDayspan false true).findSome? (KeywordTerm.tryInfo expression)

/-- The pattern of the regular expression of `LimiterTerm::parse` for one word key. -/
def LimiterTerm.regexText (key : WordKey) : Text :=
  '^' :: Text.arg1 "(?:%1)".toList (Text.join (trList key true true) ['|']) ++ "\\s*".toList

/-- The body of the loop of `LimiterTerm::parse` for one pair of a word key and
the flag `isFrom`. -/
def LimiterTerm.tryType (expression : Text) (type : WordKey × Bool) :
    Option (LimiterTerm × Nat) :=
  let m := regexMatch (LimiterTerm.regexText type.1) expression
  if m.hasMatch then some (LimiterTerm.create type.2, m.capturedLength 0) else none

/-- `LimiterTerm::parse`: the term and the number of characters consumed. -/
def LimiterTerm.parse (expression : Text) : Option (LimiterTerm × Nat) :=
  [(WordKey.LimiterFromPrefix, true), (WordKey.LimiterUntilPrefix, false)].findSome?
    (LimiterTerm.tryType expression)

end Expressions

/-! # The Time, WeekDay and Month recognizers of `src/lib/terms.cpp` -/

namespace Qt

/-- `QLocale::dayName(i, format)` and `QLocale::standaloneDayName(i, format)`
for `i` = 1..7 in the C / English locale (the two agree there): the long names
for `LongFormat`, the short ones for `ShortFormat`. -/
def dayNames (long : Bool) : List Text :=
  if long then
    ["Monday", "Tuesday", "Wednesday", "Thursday", "Friday", "Saturday", "Sunday"].map
      String.toList
  else ["Mon", "Tue", "Wed", "Thu", "Fri", "Sat", "Sun"].map String.toList

/-- `QLocale::monthName(i, format)` and `QLocale::standaloneMonthName(i, format)`
for `i` = 1..12 in the C / English locale (the two agree there). -/
def monthNames (long : Bool) : List Text :=
  if long then
    ["January", "February", "March", "April", "May", "June", "July", "August", "September",
      "October", "November", "December"].map String.toList
  else
    ["Jan", "Feb", "Mar", "Apr", "May", "Jun", "Jul", "Aug", "Sep", "Oct", "Nov", "Dec"].map
      String.toList

/-- The number (from 1) of the first name that equals the text, letter case
aside; `none` when there is none. -/
def nameIndex (names : List Text) (text : Text) : Option Nat :=
  match names.indexOf? (Text.toLower text) with
  | some i => some (i + 1)
  | none => none

/-- `QLocale::toDate(text, "dddd")` (`long`) and `QLocale::toDate(text, "ddd")`
on the name of a day, letter case aside: the first day of 1900 that falls on
that day of the week (1 January 1900 is a Monday); the null date for any other
text. -/
def toDateDayName (text : Text) (long : Bool) : QDate :=
  match nameIndex ((dayNames long).map Text.toLower) text with
  | some i => QDate.ofYMD 1900 1 i
  | none => QDate.null

/-- `QLocale::toDate(text, "MMMM")` (`long`) and `QLocale::toDate(text, "MMM")`
on the name of a month, letter case aside: the first day of that month of
1900; the null date for any other text. -/
def toDateMonthName (text : Text) (long : Bool) : QDate :=
  match nameIndex ((monthNames long).map Text.toLower) text with
  | some i => QDate.ofYMD 1900 i 1
  | none => QDate.null

end Qt

namespace Expressions

open Qt

/-- `TimeTerm::toRegex`. -/
def TimeTerm.toRegex (pattern : Text) : Text :=
  dateTimeFormatToRegex pattern (fun text =>
    let text := Text.replaceAll text "hh".toList "\\d{2}".toList false
    let text := Text.replaceAll text "h".toList "\\d{1,2}".toList false
    let text := Text.replaceAll text "mm".toList "\\d{2}".toList false
    let text := Text.replaceAll text "m".toList "\\d{1,2}".toList false
    let text := Text.replaceAll text "ss".toList "\\d{2}".toList false
    let text := Text.replaceAll text "s".toList "\\d{1,2}".toList false
    let text := Text.replaceAll text "zzz".toList "\\d{3}".toList false
    let text := Text.replaceAll text "z".toList "\\d{1,3}".toList false
    Text.replaceAll text "ap".toList amPmRegex true)

/-- The pattern of the regular expression of `TimeTerm::parse` for one time pattern. -/
def TimeTerm.regexText (pattern : Text) : Text :=
  let prefixRx := Text.arg1 "(?:%1)?".toList (Text.join (trList .TimePrefix true true) ['|'])
  let suffixRx := Text.arg1 "(?:%1)?".toList (Text.join (trList .TimeSuffix true true) ['|'])
  '^' :: prefixRx ++ '(' :: TimeTerm.toRegex pattern ++ ')' :: suffixRx ++ "\\s*".toList

/-- The body of the loop of `TimeTerm::parse` for one time pattern. -/
def TimeTerm.tryPattern (expression : Text) (pattern : Text) : Option (TimeTerm × Nat) :=
  let m := regexMatch (TimeTerm.regexText pattern) expression
  if m.hasMatch then
    let time := toTime (m.captured 1) pattern
    if time.isValid then some (TimeTerm.create time, m.capturedLength 0) else none
  else none

/-- `TimeTerm::parse`: the term and the number of characters consumed. -/
def TimeTerm.parse (expression : Text) : Option (TimeTerm × Nat) :=
  (trList .TimePattern false true).findSome? (TimeTerm.tryPattern expression)

/-- `shortDays` and `longDays` of `WeekDayTerm::parse`: the names of the days
and the standalone names, escaped, without duplicates, joined by `|`. -/
def WeekDayTerm.dayKey (long : Bool) : Text :=
  Text.join (((dayNames long).map (fun name => [regexEscape name, regexEscape name])).flatten).eraseDups
    ['|']

/-- `exprCombos` of `WeekDayTerm::parse`: `{loop, suffix}`, `{prefix, loop}`
or `{prefix, suffix}`, the first two only if a loop prefix or suffix is defined;
each with its loop flag. -/
def WeekDayTerm.exprCombos : List (Text × Text × Bool) :=
  let prefixRx := Text.arg1 "(?:%1)?".toList (Text.join (trList .WeekDayPrefix true true) ['|'])
  let suffixRx := Text.arg1 "(?:%1)?".toList (Text.join (trList .WeekDaySuffix true true) ['|'])
  let loopPrefix := trList .WeekDayLoopPrefix true true
  let loopSuffix := trList .WeekDayLoopSuffix true true
  (if loopPrefix.isEmpty then []
    else [(Text.arg1 "(?:%1)".toList (Text.join loopPrefix ['|']), suffixRx, true)]) ++
  (if loopSuffix.isEmpty then []
    else [(prefixRx, Text.arg1 "(?:%1)".toList (Text.join loopSuffix ['|']), true)]) ++
  [(prefixRx, suffixRx, false)]

/-- The pattern of the regular expression of `WeekDayTerm::parse` for one
combination and one kind of day names. -/
def WeekDayTerm.regexText (loopCombo : Text × Text × Bool) (long : Bool) : Text :=
  '^' :: loopCombo.1 ++ '(' :: WeekDayTerm.dayKey long ++ ')' :: loopCombo.2.1 ++ "\\s*".toList

/-- The body of the inner loop of `WeekDayTerm::parse` for one combination and
one kind of day names (the long names with the format `dddd`, the short ones
with `ddd`). -/
def WeekDayTerm.tryDayType (expression : Text) (loopCombo : Text × Text × Bool) (long : Bool) :
    Option (WeekDayTerm × Nat) :=
  let m := regexMatch (WeekDayTerm.regexText loopCombo long) expression
  if m.hasMatch then
    let dayName := m.captured 1
    let dDate := toDateDayName dayName long
    if dDate.isValid then
      let isLoop := loopCombo.2.2
      some (WeekDayTerm.create (QDate.dayOfWeek dDate) isLoop, m.capturedLength 0)
    else none
  else none

/-- `WeekDayTerm::parse`: the term and the number of characters consumed. -/
def WeekDayTerm.parse (expression : Text) : Option (WeekDayTerm × Nat) :=
  -- loop through all the combinations and try to find one
  WeekDayTerm.exprCombos.findSome? (fun loopCombo =>
    [true, false].findSome? (WeekDayTerm.tryDayType expression loopCombo))

/-- `shortMonths` and `longMonths` of `MonthTerm::parse`: the names of the
months and the standalone names, escaped, without duplicates, joined by `|`. -/
def MonthTerm.monthKey (long : Bool) : Text :=
  Text.join
    (((monthNames long).map (fun name => [regexEscape name, regexEscape name])).flatten).eraseDups
    ['|']

/-- `exprCombos` of `MonthTerm::parse`: `{loop, suffix}`, `{prefix, loop}` or
`{prefix, suffix}`, the first two only if a loop prefix or suffix is defined;
each with its loop flag. -/
def MonthTerm.exprCombos : List (Text × Text × Bool) :=
  let prefixRx := Text.arg1 "(?:%1)?".toList (Text.join (trList .MonthPrefix true true) ['|'])
  let suffixRx := Text.arg1 "(?:%1)?".toList (Text.join (trList .MonthSuffix true true) ['|'])
  let loopPrefix := trList .MonthLoopPrefix true true
  let loopSuffix := trList .MonthLoopSuffix true true
  (if loopPrefix.isEmpty then []
    else [(Text.arg1 "(?:%1)".toList (Text.join loopPrefix ['|']), suffixRx, true)]) ++
  (if loopSuffix.isEmpty then []
    else [(prefixRx, Text.arg1 "(?:%1)".toList (Text.join loopSuffix ['|']), true)]) ++
  [(prefixRx, suffixRx, false)]

/-- The pattern of the regular expression of `MonthTerm::parse` for one
combination and one kind of month names. -/
def MonthTerm.regexText (loopCombo : Text × Text × Bool) (long : Bool) : Text :=
  '^' :: loopCombo.1 ++ '(' :: MonthTerm.monthKey long ++ ')' :: loopCombo.2.1 ++ "\\s*".toList

/-- The body of the inner loop of `MonthTerm::parse` for one combination and
one kind of month names (the long names with the format `MMMM`, the short ones
with `MMM`). -/
def MonthTerm.tryMonthType (expression : Text) (loopCombo : Text × Text × Bool) (long : Bool) :
    Option (MonthTerm × Nat) :=
  let m := regexMatch (MonthTerm.regexText loopCombo long) expression
  if m.hasMatch then
    let monthName := m.captured 1
    let mDate := toDateMonthName monthName long
    if mDate.isValid then
      let isLoop := loopCombo.2.2
      some (MonthTerm.create (QDate.month mDate) isLoop, m.capturedLength 0)
    else none
  else none

/-- `MonthTerm::parse`: the term and the number of characters consumed. -/
def MonthTerm.parse (expression : Text) : Option (MonthTerm × Nat) :=
  -- loop through all the combinations and try to find one
  MonthTerm.exprCombos.findSome? (fun loopCombo =>
    [true, false].findSome? (MonthTerm.tryMonthType expression loopCombo))

end Expressions

/-! # Measures of a compiled pattern, used to state the progress of the recognizers -/

namespace Qt

/-- The least number of characters a match of the pattern takes. -/
def Regex.minLength : Regex → Nat
  | .eps => 0
  | .bol => 0
  | .rep _ min _ => min
  | .seq a b => Regex.minLength a + Regex.minLength b
  | .alt a b => Nat.min (Regex.minLength a) (Regex.minLength b)
  | .opt _ => 0
  | .group _ _ r => Regex.minLength r

/-- Whether the pattern ends in a greedy run of whitespace, the `\s*` that
closes the pattern of every recognizer. -/
def Regex.endsWithSpaces : Regex → Bool
  | .rep .space 0 none => true
  | .seq _ b => Regex.endsWithSpaces b
  | _ => false

/-- Whether a compiled pattern is anchored at the start, takes at least one
character and ends in `\s*`; a pattern that did not compile never matches and
passes. -/
def Regex.progressOk : Option Regex → Bool
  | none => true
  | some (.seq .bol r) => decide (1 ≤ Regex.minLength r) && Regex.endsWithSpaces r
  | some _ => false

/-- The progress of a recognizer that consumed the first `consumed` characters
of `expression`: at least one character, no more than there are, and the text
left does not start with whitespace. -/
def Progress (expression : Text) (consumed : Nat) : Prop :=
  1 ≤ consumed ∧ consumed ≤ expression.length ∧
    ∀ c, (expression.drop consumed).head? = some c → CharSet.space.test c = false

/-- A state of the matcher that lies further on in the subject of `s`: its
position is not before that of `s`, and its rest is the rest of `s` without the
characters in between. -/
def MState.Reaches (s t : MState) : Prop :=
  s.pos ≤ t.pos ∧ t.pos - s.pos ≤ s.rest.length ∧ t.rest = s.rest.drop (t.pos - s.pos)

end Qt

namespace Expressions

open Qt

/-- One of the ten recognizers returns a sub-term for the text `expression`,
with the consumed length `consumed`. -/
def Recognized (expression : Text) (consumed : Nat) : Prop :=
  (∃ t, TimeTerm.parse expression = some (t, consumed)) ∨
  (∃ t, DateTerm.parse expression = some (t, consumed)) ∨
  (∃ t, InvertedTimeTerm.parse expression = some (t, consumed)) ∨
  (∃ t, MonthDayTerm.parse expression = some (t, consumed)) ∨
  (∃ t, WeekDayTerm.parse expression = some (t, consumed)) ∨
  (∃ t, MonthTerm.parse expression = some (t, consumed)) ∨
  (∃ t, YearTerm.parse expression = some (t, consumed)) ∨
  (∃ t, SequenceTerm.parse expression = some (t, consumed)) ∨
  (∃ t, KeywordTerm.parse expression = some (t, consumed)) ∨
  (∃ t, LimiterTerm.parse expression = some (t, consumed))

end Expressions

/-! # The basic types and the validation of `src/RemindMeCore/dateparser.cpp` -/

namespace Qt

/-- `QChar::isSpace()`: the ASCII whitespace characters and the Unicode separators. -/
def isSpace (c : Char) : Bool :=
  c == ' ' || (decide (9 ≤ c.toNat) && decide (c.toNat ≤ 13)) || c.toNat == 0x85 ||
    c.toNat == 0xA0 || c.toNat == 0x1680 ||
    (decide (0x2000 ≤ c.toNat) && decide (c.toNat ≤ 0x200A)) || c.toNat == 0x2028 ||
    c.toNat == 0x2029 || c.toNat == 0x202F || c.toNat == 0x205F || c.toNat == 0x3000

/-- The words of a text, the parts between whitespace; `cur` is the word being
read, reversed. -/
def Text.wordsAux : Text → Text → List Text
  | [], cur => if cur.isEmpty then [] else [cur.reverse]
  | c :: rest, cur =>
    if isSpace c then
      if cur.isEmpty then Text.wordsAux rest [] else cur.reverse :: Text.wordsAux rest []
    else Text.wordsAux rest (c :: cur)

/-- `QString::simplified()`: whitespace removed from the start and the end,
each run of whitespace inside replaced by one space. -/
def Text.simplified (s : Text) : Text := Text.join (Text.wordsAux s []) [' ']

/-- A character of the class `\w` (without `UseUnicodePropertiesOption`): an
ASCII letter, a digit or the underscore. -/
def isWordChar (c : Char) : Bool := c.isAlphanum || c == '_'

end Qt

namespace ParserTypes

open Qt

/-- `enum Expression::Span`. -/
inductive Expression.Span where
  | InvalidSpan | MinuteSpan | HourSpan | DaySpan | WeekSpan | MonthSpan | YearSpan
deriving DecidableEq, Repr

/-- The value of an enumerator of `Datum::Scope`, by which `>` compares scopes. -/
def Datum.Scope.toInt : Datum.Scope → Int
  | .InvalidScope => 0
  | .WeekDayScope => 1
  | .DayScope => 2
  | .MonthScope => 3
  | .MonthDayScope => 4

/-- The `while` loop of the `DayScope` case of `Datum::nextDate`; `none` when
it has not come to its end within `fuel` tests of the condition. -/
def Datum.nextDateDayLoop (value : Int) : Nat → QDate → Option QDate
  | 0, _ => none
  | fuel + 1, wDate =>
    if QDate.daysInMonth wDate < value then
      Datum.nextDateDayLoop value fuel (QDate.addMonths wDate 1)
    else some wDate

/-- The month that the `MonthDayScope` case of `Datum::nextDate` reads from the
value, `(value >> 16) & 0x00FF`: bits 16 to 23 of the two's complement. -/
def Datum.monthOfValue (value : Int) : Int := (value / 65536) % 256

/-- The day that the `MonthDayScope` case of `Datum::nextDate` reads from the
value, `value & 0x00FF`: bits 0 to 7 of the two's complement. -/
def Datum.dayOfValue (value : Int) : Int := value % 256

/-- `Datum::nextDate(QDate wDate)` as a release build runs it (the assertions
compiled out); `none` when the loop of the `DayScope` case has not come to its
end within `fuel` tests of its condition. -/
def Datum.nextDate (self : Datum) (fuel : Nat) (wDate : QDate) : Option QDate :=
  match self.scope with
  | .InvalidScope => some QDate.null
  | .WeekDayScope =>
    if QDate.dayOfWeek wDate > self.value then
      some (QDate.addDays wDate (7 - (QDate.dayOfWeek wDate - self.value)))
    else some (QDate.addDays wDate (self.value - QDate.dayOfWeek wDate))
  | .DayScope =>
    let wDate :=
      if QDate.day wDate > self.value then
        QDate.addDays wDate ((QDate.daysInMonth wDate - QDate.day wDate) + 1)
      else wDate
    match Datum.nextDateDayLoop self.value fuel wDate with
    | none => none
    | some wDate => some (QDate.addDays wDate (self.value - QDate.day wDate))
  | .MonthScope =>
    if QDate.month wDate > self.value then
      some (QDate.addMonths wDate (12 - (QDate.month wDate - self.value)))
    else some (QDate.addMonths wDate (self.value - QDate.month wDate))
  | .MonthDayScope =>
    let month := Datum.monthOfValue self.value
    let day := Datum.dayOfValue self.value
    let nDate := QDate.ofYMD (QDate.year wDate) month day
    if QDate.lt nDate wDate then some (QDate.ofYMD (QDate.year wDate + 1) month day)
    else some nDate

/-- Whether the assertions (`Q_ASSERT_X`) that `Datum::nextDate` passes on its
way hold: `value > 0` and the upper limit of the scope, and for a
`MonthDayScope` the limits of the month and the day read from the value. -/
def Datum.nextDateAsserts (self : Datum) : Bool :=
  match self.scope with
  | .InvalidScope => true
  | .WeekDayScope => decide (self.value > 0) && decide (self.value ≤ 7)
  | .DayScope => decide (self.value > 0) && decide (self.value ≤ 31)
  | .MonthScope => decide (self.value > 0) && decide (self.value ≤ 12)
  | .MonthDayScope =>
    decide (self.value > 0) &&
      decide (Datum.monthOfValue self.value > 0) && decide (Datum.monthOfValue self.value ≤ 12) &&
      decide (Datum.dayOfValue self.value > 0) && decide (Datum.dayOfValue self.value ≤ 31)

/-- The value that `DateParser::parseDatum` stores for a month-day,
`((date.month() << 16) & 0xFF00) | (date.day() & 0x00FF)`; the month and the
day of a `QDate` are not negative. -/
def DateParser.monthDayValue (date : QDate) : Int :=
  ((((QDate.month date).toNat <<< 16) &&& 0xFF00) ||| ((QDate.day date).toNat &&& 0x00FF) : Nat)

/-- The datum that `DateParser::parseDatum` returns for a text that
`parseMonthDay` reads as `date`. -/
def DateParser.monthDayDatum (date : QDate) : Datum :=
  { scope := .MonthDayScope, value := DateParser.monthDayValue date }

/-- `class Type` (the name carries an underscore, `Type` being a keyword):
`isDatum`, `datum` (`none` for `nullptr`), `count` and `span`. -/
structure Type_ where
  isDatum : Bool
  datum : Option Datum
  count : Int
  span : Expression.Span
deriving DecidableEq, Repr

/-- `Type::Type(QObject *parent)`. -/
def Type_.new : Type_ := { isDatum := false, datum := none, count := 0, span := .InvalidSpan }

/-- The match of `^(?:(\d+) (\w+)|(.+?))$` in `DateParser::parseType` on a
simplified text: digits, one space and word characters up to the end give the
groups 1 and 2; any other text that is not empty and has no line break gives
the group 3. -/
def DateParser.parseTypeMatch (s : Text) : QRegularExpressionMatch :=
  let digits := s.takeWhile Char.isDigit
  let word := (s.drop digits.length).drop 1
  if !digits.isEmpty && (s.drop digits.length).head? == some ' ' && !word.isEmpty &&
      word.all isWordChar then
    { hasMatch := true, capturedStart := 0, capturedEnd := s.length, subject := s,
      caps := [⟨1, [], digits⟩, ⟨2, [], word⟩] }
  else if !s.isEmpty && s.all (fun c => c != '\n') then
    { hasMatch := true, capturedStart := 0, capturedEnd := s.length, subject := s,
      caps := [⟨3, [], s⟩] }
  else QRegularExpressionMatch.noMatch s

/-- `spanMap` of `DateParser::parseSpan`, as the list of its entries in the
order of the source. -/
def DateParser.spanMap : List (Text × Expression.Span) :=
  [("(?:minute|minutes)".toList, .MinuteSpan), ("(?:hour|hours)".toList, .HourSpan),
   ("(?:day|days)".toList, .DaySpan), ("(?:week|weeks)".toList, .WeekSpan),
   ("(?:month|months)".toList, .MonthSpan), ("(?:year|years)".toList, .YearSpan)]

/-- `DateParser::parseSpan`: the span of the first entry whose pattern matches
somewhere in the simplified text; the entries are tried in the order `order`
(the iteration order of the `QHash`).  The error stands for the `throw` of the
message. -/
def DateParser.parseSpan (order : List (Text × Expression.Span)) (data : Text) :
    Except String Expression.Span :=
  let sData := Text.simplified data
  match order.find? (fun entry => (regexMatch entry.1 sData).hasMatch) with
  | some entry => .ok entry.2
  | none => .error "Invalid time span"

/-- `DateParser::parseType`, with `parseDatum` and the iteration order of
`spanMap` as parameters.  The error stands for the `throw` of the message. -/
def DateParser.parseType (parseDatum : Text → Except String Datum)
    (order : List (Text × Expression.Span)) (data : Text) : Except String Type_ :=
  let m := DateParser.parseTypeMatch (Text.simplified data)
  if m.hasMatch then
    let type := Type_.new
    let span := m.captured 2
    if !span.isEmpty then
      match DateParser.parseSpan order span with
      | .error e => .error e
      | .ok sp =>
        .ok { type with isDatum := true, count := (Text.toInt (m.captured 1)).getD 0, span := sp }
    else
      match parseDatum (m.captured 3) with
      | .error e => .error e
      | .ok datum => .ok { type with isDatum := true, datum := some datum }
  else .error "Invalid type specified"

/-- `DateParser::validateDatumDatum`.  The error stands for the `throw` of the message. -/
def DateParser.validateDatumDatum (datum : Option Datum) (extraDatum : Option Datum) :
    Except String Unit :=
  match datum with
  | none => .error "Invalid datum"
  | some datum =>
    match datum.scope with
    | .InvalidScope => .error "Invalid scope"
    | .WeekDayScope | .DayScope | .MonthDayScope =>
      if extraDatum.isSome then
        .error "You cannot specify a datum for a scope of less then a month"
      else .ok ()
    | .MonthScope =>
      match extraDatum with
      | some extra =>
        if extra.scope.toInt > Datum.Scope.DayScope.toInt then
          .error "You cannot specify a datum for month(day)s on a span of a month"
        else .ok ()
      | none => .ok ()

/-- `DateParser::validateSpanDatum`.  The error stands for the `throw` of the message. -/
def DateParser.validateSpanDatum (span : Expression.Span) (datum : Option Datum) (time : QTime) :
    Except String Unit :=
  match span with
  | .InvalidSpan => .error "Invalid span"
  | .MinuteSpan | .HourSpan =>
    if time.isValid then .error "You cannot specify a time for a span less then a day"
    else if datum.isSome then .error "You cannot specify a datum for a span less then a week"
    else .ok ()
  | .DaySpan =>
    if datum.isSome then .error "You cannot specify a datum for a span less then a week"
    else .ok ()
  | .WeekSpan =>
    match datum with
    | some d =>
      if d.scope.toInt > Datum.Scope.WeekDayScope.toInt then
        .error "You cannot specify a datum for more than weekdays on a span of a week"
      else .ok ()
    | none => .ok ()
  | .MonthSpan =>
    match datum with
    | some d =>
      if d.scope.toInt > Datum.Scope.DayScope.toInt then
        .error "You cannot specify a datum for month(day)s on a span of a month"
      else .ok ()
    | none => .ok ()
  | .YearSpan => .ok ()

/-- The validation in `DateParser::tryParseLoop`, once the parts of the match
are parsed: `validateDatumDatum` for a type that is a datum, `validateSpanDatum`
for any other. -/
def DateParser.tryParseLoopValidate (type : Type_) (datum : Option Datum) (time : QTime) :
    Except String Unit :=
  if type.isDatum then DateParser.validateDatumDatum type.datum datum
  else DateParser.validateSpanDatum type.span datum time

/-- `class Loop`: `type` and `datum` (`none` for `nullptr`), `time`, `from` and
`until` (`none` for `nullptr`; the names carry an underscore, `from` being a
keyword). -/
structure Loop where
  type : Option Type_
  datum : Option Datum
  time : QTime
  from_ : Option TimePoint
  until_ : Option TimePoint
deriving DecidableEq, Repr

/-- `Loop::Loop(QObject *parent)`. -/
def Loop.new : Loop :=
  { type := none, datum := none, time := QTime.null, from_ := none, until_ := none }

/-- The date patterns of `DateParser::parseDate`. -/
def DateParser.datePatterns : List Text :=
  Text.split
    ("d. M. yyyy|dd. M. yyyy|d. MM. yyyy|dd. MM. yyyy|d. MMM yyyy|d. MMMM yyyy|" ++
      "dd. MMM yyyy|dd. MMMM yyyy|d-M-yyyy|d-MM-yyyy|dd-M-yyyy|dd-MM-yyyy").toList '|'

/-- `DateParser::parseDate`, with `QDate::fromString` as a parameter: the date
that the first pattern reads from the text, if one reads a valid date from it.
The error stands for the `throw` of the message. -/
def DateParser.parseDate (fromString : Text → Text → QDate) (data : Text) :
    Except String QDate :=
  match DateParser.datePatterns.find? (fun pattern => (fromString data pattern).isValid) with
  | some pattern => .ok (fromString data pattern)
  | none => .error "Invalid date specified"

/-- The match of `^(?:(today)|(tomorrow)|(\d{4})|(.*?))$`, case-insensitive, in
`DateParser::parseTimePoint` on a simplified text: a text without line break is
the group 1 when it is "today" and the group 2 when it is "tomorrow", in letters
of either case, the group 3 when it is four digits, and the group 4 in every
other case, also when it is empty. -/
def DateParser.parseTimePointMatch (s : Text) : QRegularExpressionMatch :=
  let group : Nat :=
    if Text.toLower s = "today".toList then 1
    else if Text.toLower s = "tomorrow".toList then 2
    else if s.length = 4 ∧ s.all Char.isDigit = true then 3
    else 4
  if s.all (fun c => c != '\n') then
    { hasMatch := true, capturedStart := 0, capturedEnd := s.length, subject := s,
      caps := [⟨group, [], s⟩] }
  else QRegularExpressionMatch.noMatch s

/-- `DateParser::parseTimePoint`, with `QDate::currentDate()`, `QDate::fromString`
and `parseDatum` as parameters; `date.setDate(year, 1, 1)` gives the null date
for the year 0.  The error stands for the `throw` of a message. -/
def DateParser.parseTimePoint (currentDate : QDate) (fromString : Text → Text → QDate)
    (parseDatum : Text → Except String Datum) (data : Text) : Except String TimePoint :=
  let m := DateParser.parseTimePointMatch (Text.simplified data)
  if m.hasMatch then
    let tp := TimePoint.new
    -- today
    let mRes := m.captured 1
    let tp := if !mRes.isEmpty then { tp with mode := .DateMode, date := currentDate } else tp
    -- tomorrow
    let mRes := m.captured 2
    let tp :=
      if !mRes.isEmpty then { tp with mode := .DateMode, date := QDate.addDays currentDate 1 }
      else tp
    -- year
    let mRes := m.captured 3
    let tp :=
      if !mRes.isEmpty then
        { tp with mode := .YearMode, date := QDate.ofYMD ((Text.toInt mRes).getD 0) 1 1 }
      else tp
    -- date/datum
    let mRes := m.captured 4
    if !mRes.isEmpty then
      match DateParser.parseDate fromString mRes with
      | .error e => .error e
      | .ok date =>
        if date.isValid then .ok { tp with mode := .DateMode, date := date }
        else
          match parseDatum mRes with
          | .error e => .error e
          | .ok datum => .ok { tp with mode := .DatumMode, datum := some datum }
    else .ok tp
  else .error "Invalid type specified"

/-- The last statements of `DateParser::tryParseLoop`: the check of the limits
and the `return`.  The error stands for the `throw` of the message. -/
def DateParser.tryParseLoopLimits (loop : Loop) : Except String Loop :=
  match loop.from_, loop.until_ with
  | some f, some u =>
    if TimePoint.isLess u f then
      .error "from must be an earlier timepoint than until"
    else .ok loop
  | _, _ => .ok loop

/-- The branch `if(match.hasMatch())` of `DateParser::tryParseLoop`, from the
five captured texts of the match on; `QDate::currentDate()`, `QDate::fromString`,
`parseDatum`, `parseTime` and the iteration order of `spanMap` are parameters.
The error stands for the `throw` of a message, by the function itself or by one
it calls. -/
def DateParser.tryParseLoopMatched (currentDate : QDate) (fromString : Text → Text → QDate)
    (parseDatum : Text → Except String Datum) (parseTime : Text → Except String QTime)
    (order : List (Text × Expression.Span)) (typeStr dateStr timeStr fromStr untilStr : Text) :
    Except String Loop :=
  let loop := Loop.new
  match DateParser.parseType parseDatum order typeStr with
  | .error e => .error e
  | .ok type =>
    let loop := { loop with type := some type }
    match (if !dateStr.isEmpty then (parseDatum dateStr).map some else .ok loop.datum) with
    | .error e => .error e
    | .ok datum =>
      let loop := { loop with datum := datum }
      match (if !timeStr.isEmpty then parseTime timeStr else .ok loop.time) with
      | .error e => .error e
      | .ok time =>
        let loop := { loop with time := time }
        match (if !fromStr.isEmpty then
            (DateParser.parseTimePoint currentDate fromString parseDatum fromStr).map some
          else .ok loop.from_) with
        | .error e => .error e
        | .ok from_ =>
          let loop := { loop with from_ := from_ }
          match (if !untilStr.isEmpty then
              (DateParser.parseTimePoint currentDate fromString parseDatum untilStr).map some
            else .ok loop.until_) with
          | .error e => .error e
          | .ok until_ =>
            let loop := { loop with until_ := until_ }
            match DateParser.tryParseLoopValidate type loop.datum loop.time with
            | .error e => .error e
            | .ok _ => DateParser.tryParseLoopLimits loop

end ParserTypes
/-! # Calendar facts about the Qt model -/

namespace Qt

theorem isLeapYear_iff (y : Int) :
    isLeapYear y = true ↔
      (((if y < 1 then y + 1 else y) % 4 = 0 ∧ (if y < 1 then y + 1 else y) % 100 ≠ 0) ∨
        (if y < 1 then y + 1 else y) % 400 = 0) := by
  simp [isLeapYear]

theorem getDate_month (jd : Int) :
    1 ≤ (getDateFromJulianDay jd).month ∧ (getDateFromJulianDay jd).month ≤ 12 := by
  simp only [getDateFromJulianDay]
  generalize hb : (4 * (jd + 32044) + 3) / 146097 = b
  generalize hc : jd + 32044 - 146097 * b / 4 = c
  have h1 : 0 ≤ c ∧ c ≤ 36524 := by omega
  generalize hd : (4 * c + 3) / 1461 = d
  generalize he : c - 1461 * d / 4 = e
  have h3 : 0 ≤ e ∧ e ≤ 365 := by omega
  generalize hm : (5 * e + 2) / 153 = m
  have h4 : 0 ≤ m ∧ m ≤ 11 := by omega
  obtain ⟨h5, h6⟩ := h4
  clear hm
  interval_cases m <;> omega

theorem julianDayFromDate_eq (year month day : Int) :
    julianDayFromDate year month day =
      jdCore ((if year < 0 then year + 1 else year) + 4800 - (14 - month) / 12)
        (month + 12 * ((14 - month) / 12) - 3) day := rfl

theorem jd_getDate (jd : Int) :
    julianDayFromDate (getDateFromJulianDay jd).year (getDateFromJulianDay jd).month
      (getDateFromJulianDay jd).day = jd := by
  rw [julianDayFromDate_eq]
  simp only [getDateFromJulianDay]
  generalize hb : (4 * (jd + 32044) + 3) / 146097 = b
  generalize hc : jd + 32044 - 146097 * b / 4 = c
  have h1 : 0 ≤ c ∧ c ≤ 36524 := by omega
  generalize hd : (4 * c + 3) / 1461 = d
  have h2 : 0 ≤ d ∧ d ≤ 99 := by omega
  generalize he : c - 1461 * d / 4 = e
  have h3 : 0 ≤ e ∧ e ≤ 365 := by omega
  generalize hm : (5 * e + 2) / 153 = m
  have h4 : 0 ≤ m ∧ m ≤ 11 := by omega
  obtain ⟨h5, h6⟩ := h4
  have hm' : 153 * m ≤ 5 * e + 2 ∧ 5 * e + 2 < 153 * m + 153 := by omega
  have k1 : 146097 * b / 4 = 36524 * b + b / 4 := by omega
  have k2 : 1461 * d / 4 = 365 * d + d / 4 := by omega
  have k3 : (100 * b + d) / 100 = b := by omega
  have k4 : (100 * b + d) / 400 = b / 4 := by omega
  have k5 : (100 * b + d) / 4 = 25 * b + d / 4 := by omega
  clear hm
  trans jdCore (100 * b + d) m (e - (153 * m + 2) / 5 + 1)
  · congr 1
    · interval_cases m <;> split_ifs <;> omega
    · interval_cases m <;> omega
  · simp only [jdCore, k3, k4, k5]
    omega

theorem isValidYMD_iff (y m d : Int) :
    isValidYMD y m d = true ↔
      y ≠ 0 ∧ 0 < d ∧ 0 < m ∧ m ≤ 12 ∧
        (d ≤ monthDays m ∨ (d = 29 ∧ m = 2 ∧ isLeapYear y = true)) := by
  simp [isValidYMD, and_assoc]

theorem getDate_year_ne_zero (jd : Int) : (getDateFromJulianDay jd).year ≠ 0 := by
  simp only [getDateFromJulianDay]
  split_ifs <;> omega

theorem getDate_cases (jd : Int) :
    ∃ b d e m : Int,
      146097 * b ≤ 4 * (jd + 32044) + 3 ∧ 4 * (jd + 32044) + 3 < 146097 * b + 146097 ∧
      0 ≤ d ∧ d ≤ 99 ∧
      1461 * d ≤ 4 * (jd + 32044 - 146097 * b / 4) + 3 ∧
      4 * (jd + 32044 - 146097 * b / 4) + 3 < 1461 * d + 1461 ∧
      e = jd + 32044 - 146097 * b / 4 - 1461 * d / 4 ∧ 0 ≤ e ∧ e ≤ 365 ∧
      0 ≤ m ∧ m ≤ 11 ∧ 153 * m ≤ 5 * e + 2 ∧ 5 * e + 2 < 153 * m + 153 ∧
      getDateFromJulianDay jd =
        ⟨if 100 * b + d - 4800 + m / 10 ≤ 0 then 100 * b + d - 4800 + m / 10 - 1
            else 100 * b + d - 4800 + m / 10,
          m + 3 - 12 * (m / 10), e - (153 * m + 2) / 5 + 1⟩ := by
  refine ⟨(4 * (jd + 32044) + 3) / 146097, _, _, _, ?_, ?_, ?_, ?_, ?_, ?_, rfl, ?_, ?_, ?_, ?_,
    ?_, ?_, rfl⟩
  all_goals
    generalize hb : (4 * (jd + 32044) + 3) / 146097 = b
    generalize hc : jd + 32044 - 146097 * b / 4 = c
    have h1 : 0 ≤ c ∧ c ≤ 36524 := by omega
    generalize hd : (4 * c + 3) / 1461 = d
    have h2 : 0 ≤ d ∧ d ≤ 99 := by omega
    generalize he : c - 1461 * d / 4 = e
    have h3 : 0 ≤ e ∧ e ≤ 365 := by omega
    omega

theorem adjYear_eq (Y : Int) :
    (if (if Y ≤ 0 then Y - 1 else Y) < 1 then (if Y ≤ 0 then Y - 1 else Y) + 1
      else (if Y ≤ 0 then Y - 1 else Y)) = Y := by
  split_ifs <;> omega

theorem div4_century (b : Int) : 146097 * b / 4 = 36524 * b + b / 4 := by omega

theorem div4_years (d : Int) : 1461 * d / 4 = 365 * d + d / 4 := by omega

theorem leap_of_last_day (jd b d e : Int)
    (hb2 : 4 * (jd + 32044) + 3 < 146097 * b + 146097)
    (hd1 : 0 ≤ d) (hd2 : d ≤ 99)
    (hd4 : 4 * (jd + 32044 - 146097 * b / 4) + 3 < 1461 * d + 1461)
    (he : e = jd + 32044 - 146097 * b / 4 - 1461 * d / 4) (h365 : e = 365) :
    ((100 * b + d - 4800 + 1) % 4 = 0 ∧ (100 * b + d - 4800 + 1) % 100 ≠ 0) ∨
      (100 * b + d - 4800 + 1) % 400 = 0 := by
  rw [div4_century] at hd4 he
  rw [div4_years] at he
  have hq : 4 * (b / 4) ≤ b ∧ b < 4 * (b / 4) + 4 := by clear hb2 hd4 he; omega
  have hp : 4 * (d / 4) ≤ d ∧ d < 4 * (d / 4) + 4 := by clear hb2 hd4 he; omega
  generalize b / 4 = q at *
  generalize d / 4 = p at *
  have hd3 : d = 4 * p + 3 := by omega
  by_cases h99 : d = 99
  · right
    have hb3 : b = 4 * q + 3 := by omega
    clear hb2 hd4 he hq hp hd3
    omega
  · left
    clear hb2 hd4 he hq
    omega

theorem getDate_day_pos (jd : Int) : 0 < (getDateFromJulianDay jd).day := by
  obtain ⟨b, d, e, m, hb1, hb2, hd1, hd2, hd3, hd4, he, he1, he2, hm1, hm2, hm3, hm4, heq⟩ :=
    getDate_cases jd
  rw [heq]
  clear heq he hb1 hb2 hd1 hd2 hd3 hd4
  simp only []
  interval_cases m <;> omega

theorem getDate_valid (jd : Int) :
    isValidYMD (getDateFromJulianDay jd).year (getDateFromJulianDay jd).month
      (getDateFromJulianDay jd).day = true := by
  rw [isValidYMD_iff]
  refine ⟨getDate_year_ne_zero jd, getDate_day_pos jd, by have := getDate_month jd; omega,
    (getDate_month jd).2, ?_⟩
  rw [isLeapYear_iff]
  obtain ⟨b, d, e, m, hb1, hb2, hd1, hd2, hd3, hd4, he, he1, he2, hm1, hm2, hm3, hm4, heq⟩ :=
    getDate_cases jd
  rw [heq]
  simp only [monthDays, adjYear_eq]
  have hleap := leap_of_last_day jd b d e hb2 hd1 hd2 hd4 he
  clear heq he hb1 hb2 hd1 hd2 hd3 hd4
  interval_cases m <;> simp <;> omega

theorem jdCore_eq (Y M d : Int) : jdCore Y M d = d + (153 * M + 2) / 5 + yearStart Y - 32045 := by
  simp only [jdCore, yearStart]; omega

theorem yearStart_succ_ge (Y : Int) : yearStart Y + 365 ≤ yearStart (Y + 1) := by
  simp only [yearStart]; omega

theorem yearStart_succ_leap (Y : Int)
    (h : ((Y + 1) % 4 = 0 ∧ (Y + 1) % 100 ≠ 0) ∨ (Y + 1) % 400 = 0) :
    yearStart (Y + 1) = yearStart Y + 366 := by
  simp only [yearStart]; omega

theorem yearStart_mono (Y : Int) (k : Nat) : yearStart Y + 365 * k ≤ yearStart (Y + k) := by
  induction k with
  | zero => simp
  | succ n ih =>
    have := yearStart_succ_ge (Y + n)
    have e : Y + ((n + 1 : Nat) : Int) = Y + n + 1 := by push_cast; ring
    rw [e]
    push_cast
    omega

/-- What validity of a calendar date says about its March-based coordinates. -/
theorem valid_offsets (y m d : Int) (h : isValidYMD y m d = true) :
    ∃ Y M : Int, julianDayFromDate y m d = d + (153 * M + 2) / 5 + yearStart Y - 32045 ∧
      Y = (if y < 0 then y + 1 else y) + 4800 - (14 - m) / 12 ∧
      M = m + 12 * ((14 - m) / 12) - 3 ∧
      0 ≤ M ∧ M ≤ 11 ∧ 1 ≤ d ∧ (M ≤ 10 → d + (153 * M + 2) / 5 ≤ (153 * (M + 1) + 2) / 5) ∧
      (d + (153 * M + 2) / 5 ≤ 365 ∨
        (d + (153 * M + 2) / 5 = 366 ∧ yearStart (Y + 1) = yearStart Y + 366)) := by
  rw [isValidYMD_iff, isLeapYear_iff] at h
  obtain ⟨hy, hd, hm1, hm2, hv⟩ := h
  refine ⟨_, _, ?_, rfl, rfl, ?_⟩
  · rw [julianDayFromDate_eq, jdCore_eq]
  · simp only [monthDays] at hv
    interval_cases m <;> simp at hv ⊢ <;> try omega
    rcases hv with hv | ⟨hv, hl⟩
    · exact ⟨by omega, Or.inl (by omega)⟩
    · refine ⟨by omega, Or.inr ⟨by omega, ?_⟩⟩
      have key := yearStart_succ_leap ((if y < 0 then y + 1 else y) + 4800 - 1)
        (by split_ifs at hl ⊢ <;> omega)
      rw [sub_add_cancel] at key
      exact key

theorem monthOffset_mono (M1 M2 : Int) (h : M1 ≤ M2) :
    (153 * M1 + 2) / 5 ≤ (153 * M2 + 2) / 5 := by
  omega

/-- `julianDayFromDate` is strictly increasing on valid dates. -/
theorem julianDayFromDate_lt {y1 m1 d1 y2 m2 d2 : Int}
    (h1 : isValidYMD y1 m1 d1 = true) (h2 : isValidYMD y2 m2 d2 = true)
    (hlt : ymdLt y1 m1 d1 y2 m2 d2) :
    julianDayFromDate y1 m1 d1 < julianDayFromDate y2 m2 d2 := by
  have hv1 := (isValidYMD_iff _ _ _).1 h1
  have hv2 := (isValidYMD_iff _ _ _).1 h2
  obtain ⟨Y1, M1, e1, hY1, hM1, a1, b1, c1, s1, l1⟩ := valid_offsets y1 m1 d1 h1
  obtain ⟨Y2, M2, e2, hY2, hM2, a2, b2, c2, s2, l2⟩ := valid_offsets y2 m2 d2 h2
  rw [e1, e2]
  have hm1 : 1 ≤ m1 ∧ m1 ≤ 12 := ⟨by omega, hv1.2.2.2.1⟩
  have hm2 : 1 ≤ m2 ∧ m2 ≤ 12 := ⟨by omega, hv2.2.2.2.1⟩
  have hy1 : y1 ≠ 0 := hv1.1
  have hy2 : y2 ≠ 0 := hv2.1
  clear hv1 hv2 h1 h2 e1 e2
  -- the March-based coordinates are ordered the same way
  have hlex : Y1 < Y2 ∨ (Y1 = Y2 ∧ (M1 < M2 ∨ (M1 = M2 ∧ d1 < d2))) := by
    unfold ymdLt at hlt
    clear s1 l1 s2 l2
    subst hY1 hY2 hM1 hM2
    split_ifs <;> omega
  clear hlt hY1 hY2 hM1 hM2 hm1 hm2 hy1 hy2
  rcases hlex with hY | ⟨hY, hM | ⟨hM, hd⟩⟩
  · obtain ⟨k, hk⟩ : ∃ k : Nat, Y2 = Y1 + 1 + k := ⟨(Y2 - Y1 - 1).toNat, by omega⟩
    have hmono := yearStart_mono (Y1 + 1) k
    have hstep := yearStart_succ_ge Y1
    rw [← hk] at hmono
    have hM2 : 0 ≤ (153 * M2 + 2) / 5 := by omega
    have hM1 : (153 * M1 + 2) / 5 ≤ 337 := by omega
    generalize (153 * M2 + 2) / 5 = f2 at *
    generalize (153 * M1 + 2) / 5 = f1 at *
    generalize yearStart Y2 = g2 at *
    generalize yearStart (Y1 + 1) = g1' at *
    generalize yearStart Y1 = g1 at *
    omega
  · subst hY
    have := monthOffset_mono (M1 + 1) M2 (by omega)
    have := s1 (by omega)
    omega
  · subst hY hM
    omega


end Qt

namespace Qt

theorem getDate_julianDayFromDate {y m d : Int} (h : isValidYMD y m d = true) :
    getDateFromJulianDay (julianDayFromDate y m d) = ⟨y, m, d⟩ := by
  generalize hpd : getDateFromJulianDay (julianDayFromDate y m d) = pd
  have hv := getDate_valid (julianDayFromDate y m d)
  have hj := jd_getDate (julianDayFromDate y m d)
  rw [hpd] at hv hj
  obtain ⟨y', m', d'⟩ := pd
  simp only at hv hj
  have h1 : ¬ ymdLt y' m' d' y m d := fun hlt => by
    have := julianDayFromDate_lt hv h hlt
    omega
  have h2 : ¬ ymdLt y m d y' m' d' := fun hlt => by
    have := julianDayFromDate_lt h hv hlt
    omega
  simp only [ymdLt] at h1 h2
  have : y' = y ∧ m' = m ∧ d' = d := by omega
  obtain ⟨rfl, rfl, rfl⟩ := this
  rfl

theorem isValidYMD_iff_daysIn (y m d : Int) :
    isValidYMD y m d = true ↔ y ≠ 0 ∧ 1 ≤ m ∧ m ≤ 12 ∧ 1 ≤ d ∧ d ≤ daysIn y m := by
  rw [isValidYMD_iff]
  simp only [daysIn, monthDays]
  constructor
  · rintro ⟨hy, hd, hm1, hm2, hv⟩
    refine ⟨hy, by omega, hm2, by omega, ?_⟩
    rcases hv with hv | ⟨hd29, hm, hl⟩
    · split_ifs at hv ⊢ <;> omega
    · rw [if_pos ⟨hm, hl⟩]; omega
  · rintro ⟨hy, hm1, hm2, hd1, hd2⟩
    refine ⟨hy, by omega, by omega, hm2, ?_⟩
    by_cases hc : m = 2 ∧ isLeapYear y = true
    · rw [if_pos hc] at hd2
      by_cases h29 : d = 29
      · exact Or.inr ⟨h29, hc.1, hc.2⟩
      · left; rw [if_pos hc.1]; omega
    · rw [if_neg hc] at hd2
      exact Or.inl hd2

theorem daysIn_bounds (y m : Int) (h1 : 1 ≤ m) (h2 : m ≤ 12) : 28 ≤ daysIn y m ∧ daysIn y m ≤ 31 := by
  simp only [daysIn, monthDays]
  split_ifs <;> omega

namespace QDate

theorem ofYMD_of_valid {y m d : Int} (h : isValidYMD y m d = true) :
    ofYMD y m d = some (julianDayFromDate y m d) := by
  simp [ofYMD, h]

theorem year_some (jd : Int) : year (some jd) = (getDateFromJulianDay jd).year := rfl
theorem month_some (jd : Int) : month (some jd) = (getDateFromJulianDay jd).month := rfl
theorem day_some (jd : Int) : day (some jd) = (getDateFromJulianDay jd).day := rfl

theorem daysInMonth_some (jd : Int) :
    daysInMonth (some jd) = daysIn (year (some jd)) (month (some jd)) := rfl

theorem some_eq_ofYMD (jd : Int) :
    (some jd : QDate) = ofYMD (year (some jd)) (month (some jd)) (day (some jd)) := by
  rw [year_some, month_some, day_some, ofYMD_of_valid (getDate_valid jd), jd_getDate]

theorem year_ofYMD {y m d : Int} (h : isValidYMD y m d = true) : year (ofYMD y m d) = y := by
  rw [ofYMD_of_valid h, year_some, getDate_julianDayFromDate h]

theorem month_ofYMD {y m d : Int} (h : isValidYMD y m d = true) : month (ofYMD y m d) = m := by
  rw [ofYMD_of_valid h, month_some, getDate_julianDayFromDate h]

theorem day_ofYMD {y m d : Int} (h : isValidYMD y m d = true) : day (ofYMD y m d) = d := by
  rw [ofYMD_of_valid h, day_some, getDate_julianDayFromDate h]

theorem year_ne_zero (jd : Int) : year (some jd) ≠ 0 := getDate_year_ne_zero jd

theorem month_range (jd : Int) : 1 ≤ month (some jd) ∧ month (some jd) ≤ 12 := getDate_month jd

theorem day_range (jd : Int) :
    1 ≤ day (some jd) ∧ day (some jd) ≤ daysIn (year (some jd)) (month (some jd)) := by
  have h := (isValidYMD_iff_daysIn _ _ _).1 (getDate_valid jd)
  exact ⟨h.2.2.2.1, h.2.2.2.2⟩

/-- A day of the month cut down to the month's length is a date. -/
theorem isValid_clamped {y m d : Int} (hy : y ≠ 0) (hm1 : 1 ≤ m) (hm2 : m ≤ 12) (hd : 1 ≤ d) :
    isValidYMD y m (min d (daysIn y m)) = true := by
  rw [isValidYMD_iff_daysIn]
  have := daysIn_bounds y m hm1 hm2
  exact ⟨hy, hm1, hm2, by omega, by omega⟩

theorem fixedDate_eq {y m d : Int} (hy : y ≠ 0) (hm1 : 1 ≤ m) (hm2 : m ≤ 12) :
    fixedDate y m d = ofYMD y m (min d (daysIn y m)) := by
  have h1 : isValidYMD y m 1 = true := by
    rw [isValidYMD_iff_daysIn]
    have := daysIn_bounds y m hm1 hm2
    exact ⟨hy, hm1, hm2, le_refl _, by omega⟩
  simp only [fixedDate]
  rw [ofYMD_of_valid h1, daysInMonth_some, ← ofYMD_of_valid h1, year_ofYMD h1, month_ofYMD h1]

end QDate

end Qt

namespace Qt

namespace QDateTime

theorem setDateTime_of_valid (date : QDate) {t : QTime} (ht : t.isValid = true) :
    setDateTime date t = ⟨date, t⟩ := by
  simp [setDateTime, ht]

theorem isValid_iff (dt : QDateTime) :
    dt.isValid = true ↔ ∃ jd, dt.date = some jd ∧ dt.time.isValid = true := by
  obtain ⟨date, t⟩ := dt
  cases date <;> simp [isValid, QDate.isValid]

end QDateTime

end Qt

namespace Expressions

open Qt

/-- C3. For every day d in 1..31 and every valid instant, `MonthDayTerm(d)::apply`
returns a valid instant with the same year, the same month and the same time of
day whose day-of-month is min(d, number of days in that month); the bound
d ≤ 31 is not needed. -/
theorem monthDay_apply_clamps (d : Int) (looped fenced : Bool) (dt : QDateTime)
    (hd1 : 1 ≤ d) (hdt : dt.isValid = true) :
    ((MonthDayTerm.create d looped).apply dt fenced).isValid = true ∧
    ((MonthDayTerm.create d looped).apply dt fenced).date.year = dt.date.year ∧
    ((MonthDayTerm.create d looped).apply dt fenced).date.month = dt.date.month ∧
    ((MonthDayTerm.create d looped).apply dt fenced).time = dt.time ∧
    ((MonthDayTerm.create d looped).apply dt fenced).date.day = min d dt.date.daysInMonth := by
  obtain ⟨jd, hjd, ht⟩ := (QDateTime.isValid_iff dt).1 hdt
  obtain ⟨date, t⟩ := dt
  simp only at hjd ht
  subst hjd
  have hv : isValidYMD (QDate.year (some jd)) (QDate.month (some jd))
      (min d (daysIn (QDate.year (some jd)) (QDate.month (some jd)))) = true :=
    QDate.isValid_clamped (QDate.year_ne_zero jd) (QDate.month_range jd).1 (QDate.month_range jd).2 hd1
  simp only [MonthDayTerm.apply, MonthDayTerm.create, QDateTime.setDate,
    QDateTime.setDateTime_of_valid _ ht, QDate.daysInMonth_some]
  refine ⟨?_, QDate.year_ofYMD hv, QDate.month_ofYMD hv, trivial, QDate.day_ofYMD hv⟩
  simp [QDateTime.isValid, QDate.ofYMD_of_valid hv, QDate.isValid, ht]

/-- C3, witness: day 31 applied to 2024-02-15T00:00 gives 2024-02-29T00:00, and
applied to 2024-04-10 (a 30-day month) gives day 30. -/
theorem monthDay_apply_clamps_witness :
    (MonthDayTerm.create 31 false).apply ⟨QDate.ofYMD 2024 2 15, QTime.ofHMS 0 0 0 0⟩ false
        = ⟨QDate.ofYMD 2024 2 29, QTime.ofHMS 0 0 0 0⟩ ∧
    ((MonthDayTerm.create 31 false).apply ⟨QDate.ofYMD 2024 4 10, QTime.ofHMS 0 0 0 0⟩ false).date
        = QDate.ofYMD 2024 4 30 ∧
    ((MonthDayTerm.create 31 false).apply
        ⟨QDate.ofYMD 2024 2 15, QTime.ofHMS 0 0 0 0⟩ false).date.day =
      min 31 (QDate.daysInMonth (QDate.ofYMD 2024 2 15)) :=
  ⟨by decide, by decide,
    (monthDay_apply_clamps 31 false false ⟨QDate.ofYMD 2024 2 15, QTime.ofHMS 0 0 0 0⟩
      (by decide) (by decide)).2.2.2.2⟩

end Expressions

namespace Qt

namespace QDate

theorem addMonthsLoop_one (y m : Int) (hm2 : m ≤ 12) :
    addMonthsLoop 3 y m 1 = if m = 12 then (y + 1, 1) else (y, m + 1) := by
  by_cases h12 : m = 12
  · subst h12
    simp [addMonthsLoop]
  · have : ¬ (12 < m + 1) := by omega
    simp [addMonthsLoop, h12, this]

/-- One month later: the following month, the day cut down to its length. -/
theorem addMonths_one (jd : Int) :
    addMonths (some jd) 1 =
      ofYMD (if month (some jd) = 12 then nextYear (year (some jd)) else year (some jd))
        (if month (some jd) = 12 then 1 else month (some jd) + 1)
        (min (day (some jd))
          (daysIn (if month (some jd) = 12 then nextYear (year (some jd)) else year (some jd))
            (if month (some jd) = 12 then 1 else month (some jd) + 1))) := by
  have hy := year_ne_zero jd
  have hm := month_range jd
  have e : addMonths (some jd) 1 =
      fixedDate
        (if (year (some jd) > 0 ∧ (addMonthsLoop 3 (year (some jd)) (month (some jd)) 1).1 ≤ 0) ∨
            (year (some jd) < 0 ∧ (addMonthsLoop 3 (year (some jd)) (month (some jd)) 1).1 ≥ 0)
          then (addMonthsLoop 3 (year (some jd)) (month (some jd)) 1).1 + 1
          else (addMonthsLoop 3 (year (some jd)) (month (some jd)) 1).1)
        (addMonthsLoop 3 (year (some jd)) (month (some jd)) 1).2 (day (some jd)) := by
    simp [addMonths, year_some, month_some, day_some]
  rw [e, addMonthsLoop_one _ _ hm.2]
  generalize year (some jd) = y at hy hm ⊢
  generalize month (some jd) = m at hy hm ⊢
  generalize day (some jd) = d
  by_cases h12 : m = 12
  · simp only [h12, if_true, nextYear]
    by_cases hy1 : y = -1
    · subst hy1
      norm_num
      rw [fixedDate_eq (by omega) (by omega) (by omega)]
    · have e1 : (if y = -1 then (1 : Int) else y + 1) = y + 1 := if_neg hy1
      have e2 : ¬ ((y > 0 ∧ y + 1 ≤ 0) ∨ (y < 0 ∧ y + 1 ≥ 0)) := by omega
      rw [e1, if_neg e2, fixedDate_eq (by omega) (by omega) (by omega)]
  · have e2 : ¬ ((y > 0 ∧ y ≤ 0) ∨ (y < 0 ∧ y ≥ 0)) := by omega
    simp only [h12, if_false, if_neg e2]
    rw [fixedDate_eq hy (by omega) (by omega)]

end QDate

end Qt

namespace Qt

namespace QDate

/-- One year later: the same month of the next year, the day cut down to its length. -/
theorem addYears_one (jd : Int) :
    addYears (some jd) 1 =
      ofYMD (nextYear (year (some jd))) (month (some jd))
        (min (day (some jd)) (daysIn (nextYear (year (some jd))) (month (some jd)))) := by
  have hy := year_ne_zero jd
  have hm := month_range jd
  have e : addYears (some jd) 1 =
      fixedDate
        (if (year (some jd) > 0 ∧ year (some jd) + 1 ≤ 0) ∨
            (year (some jd) < 0 ∧ year (some jd) + 1 ≥ 0)
          then year (some jd) + 1 + 1 else year (some jd) + 1)
        (month (some jd)) (day (some jd)) := by
    simp [addYears, year_some, month_some, day_some]
  rw [e]
  generalize year (some jd) = y at hy hm ⊢
  generalize month (some jd) = m at hy hm ⊢
  generalize day (some jd) = d
  simp only [nextYear]
  by_cases hy1 : y = -1
  · subst hy1
    norm_num
    rw [fixedDate_eq (by omega) hm.1 hm.2]
  · have e2 : ¬ ((y > 0 ∧ y + 1 ≤ 0) ∨ (y < 0 ∧ y + 1 ≥ 0)) := by omega
    rw [if_neg e2, if_neg hy1, fixedDate_eq (by omega) hm.1 hm.2]

theorem nextYear_ne_zero (y : Int) : nextYear y ≠ 0 := by
  simp only [nextYear]; split_ifs <;> omega

theorem lt_nextYear (y : Int) : y < nextYear y := by
  simp only [nextYear]; split_ifs <;> omega

/-- A valid date with a later (year, month, day) has a later Julian day. -/
theorem jd_lt_of_ymdLt (jd : Int) {y m d : Int} (h : isValidYMD y m d = true)
    (hlt : ymdLt (year (some jd)) (month (some jd)) (day (some jd)) y m d) :
    jd < julianDayFromDate y m d := by
  have := julianDayFromDate_lt (getDate_valid jd) h hlt
  rwa [jd_getDate] at this

end QDate

namespace QDateTime

theorem lt_def (a b : QDateTime) : a < b ↔ a.toMSecsSinceEpoch < b.toMSecsSinceEpoch := Iff.rfl

theorem le_def (a b : QDateTime) : a ≤ b ↔ a.toMSecsSinceEpoch ≤ b.toMSecsSinceEpoch := Iff.rfl

theorem not_lt_iff_le (a b : QDateTime) : ¬ a < b ↔ b ≤ a := by
  rw [lt_def, le_def]; omega

theorem isValid_mk (jd : Int) {t : QTime} (ht : t.isValid = true) :
    (QDateTime.mk (some jd) t).isValid = true := by
  simp [isValid, QDate.isValid, ht]

theorem mds_range {t : QTime} (ht : t.isValid = true) : 0 ≤ t.mds ∧ t.mds < 86400000 := by
  simp only [QTime.isValid, MSECS_PER_DAY, Bool.and_eq_true, decide_eq_true_eq] at ht
  omega

theorem toMSecs_mk (jd : Int) {t : QTime} (ht : t.isValid = true) :
    (QDateTime.mk (some jd) t).toMSecsSinceEpoch = (jd - 2440588) * 86400000 + t.mds := by
  simp [toMSecsSinceEpoch, ht, JULIAN_DAY_FOR_EPOCH, MSECS_PER_DAY]

/-- Valid instants are ordered by date, then by time of day. -/
theorem mk_lt_mk (j1 j2 : Int) {t1 t2 : QTime} (h1 : t1.isValid = true) (h2 : t2.isValid = true) :
    QDateTime.mk (some j1) t1 < QDateTime.mk (some j2) t2 ↔
      j1 < j2 ∨ (j1 = j2 ∧ t1.mds < t2.mds) := by
  rw [lt_def, toMSecs_mk j1 h1, toMSecs_mk j2 h2]
  have := mds_range h1
  have := mds_range h2
  omega

theorem mk_le_mk (j1 j2 : Int) {t1 t2 : QTime} (h1 : t1.isValid = true) (h2 : t2.isValid = true) :
    QDateTime.mk (some j1) t1 ≤ QDateTime.mk (some j2) t2 ↔
      j1 < j2 ∨ (j1 = j2 ∧ t1.mds ≤ t2.mds) := by
  rw [le_def, toMSecs_mk j1 h1, toMSecs_mk j2 h2]
  have := mds_range h1
  have := mds_range h2
  omega

theorem addDays_mk (jd n : Int) {t : QTime} (ht : t.isValid = true) :
    (QDateTime.mk (some jd) t).addDays n = ⟨some (jd + n), t⟩ := by
  simp [addDays, QDate.addDays, setDateTime_of_valid _ ht]

theorem addMonths_mk (jd n : Int) {t : QTime} (ht : t.isValid = true) :
    (QDateTime.mk (some jd) t).addMonths n = ⟨QDate.addMonths (some jd) n, t⟩ := by
  simp [addMonths, setDateTime_of_valid _ ht]

theorem addYears_mk (jd n : Int) {t : QTime} (ht : t.isValid = true) :
    (QDateTime.mk (some jd) t).addYears n = ⟨QDate.addYears (some jd) n, t⟩ := by
  simp [addYears, setDateTime_of_valid _ ht]

theorem setDate_mk (d : QDate) (d' : QDate) {t : QTime} (ht : t.isValid = true) :
    (QDateTime.mk d t).setDate d' = ⟨d', t⟩ := by
  simp [setDate, setDateTime_of_valid _ ht]

/-- `setTime` on a valid date: an invalid time is stored as midnight. -/
theorem setTime_mk (jd : Int) (t t' : QTime) :
    (QDateTime.mk (some jd) t).setTime t' = ⟨some jd, if t'.isValid then t' else ⟨0⟩⟩ := by
  by_cases h : t'.isValid = true
  · simp [setTime, setDateTime, h]
  · simp only [Bool.not_eq_true] at h
    have h0 : (QTime.mk 0).isValid = true := by decide
    simp only [setTime, setDateTime, h, QDate.isValid, Option.isSome_some, Bool.not_false,
      Bool.and_self, if_true, h0]
    simp

theorem isValid_midnight : (QTime.mk 0).isValid = true := by decide

end QDateTime

end Qt

namespace Qt

namespace QDate

theorem monthAfter_year_ne_zero (jd : Int) :
    (monthAfter (year (some jd)) (month (some jd))).1 ≠ 0 := by
  simp only [monthAfter]
  split_ifs
  · exact nextYear_ne_zero _
  · exact year_ne_zero jd

theorem monthAfter_month_range (jd : Int) :
    1 ≤ (monthAfter (year (some jd)) (month (some jd))).2 ∧
      (monthAfter (year (some jd)) (month (some jd))).2 ≤ 12 := by
  have hm := month_range jd
  simp only [monthAfter]
  split_ifs
  · simp
  · simp only []; omega

theorem addMonths_one_eq (jd : Int) :
    addMonths (some jd) 1 =
      ofYMD (monthAfter (year (some jd)) (month (some jd))).1
        (monthAfter (year (some jd)) (month (some jd))).2
        (min (day (some jd))
          (daysIn (monthAfter (year (some jd)) (month (some jd))).1
            (monthAfter (year (some jd)) (month (some jd))).2)) := by
  rw [addMonths_one]
  simp only [monthAfter]
  split_ifs <;> rfl

/-- Every day of the following month is later than every day of this month. -/
theorem jd_lt_monthAfter (jd : Int) {d : Int} (hd : 1 ≤ d) :
    jd < julianDayFromDate (monthAfter (year (some jd)) (month (some jd))).1
      (monthAfter (year (some jd)) (month (some jd))).2
      (min d (daysIn (monthAfter (year (some jd)) (month (some jd))).1
        (monthAfter (year (some jd)) (month (some jd))).2)) := by
  apply jd_lt_of_ymdLt jd
    (isValid_clamped (monthAfter_year_ne_zero jd) (monthAfter_month_range jd).1
      (monthAfter_month_range jd).2 hd)
  have := lt_nextYear (year (some jd))
  simp only [ymdLt, monthAfter]
  split_ifs
  · left; exact this
  · right; exact ⟨rfl, Or.inl (by omega)⟩

/-- Every day of the next year is later than every day of this year. -/
theorem jd_lt_nextYear (jd : Int) {m d : Int} (hm1 : 1 ≤ m) (hm2 : m ≤ 12) (hd : 1 ≤ d) :
    jd < julianDayFromDate (nextYear (year (some jd))) m
      (min d (daysIn (nextYear (year (some jd))) m)) := by
  apply jd_lt_of_ymdLt jd (isValid_clamped (nextYear_ne_zero _) hm1 hm2 hd)
  exact Or.inl (lt_nextYear _)

end QDate

end Qt

namespace Expressions

open Qt

/-- `MonthDayTerm::fixup` on a valid instant, in calendar terms. -/
theorem MonthDayTerm.fixup_mk (md : MonthDayTerm) (jd : Int) {t : QTime}
    (hd : 1 ≤ md._day) (ht : t.isValid = true) :
    md.fixup ⟨some jd, t⟩ =
      ⟨some (julianDayFromDate (monthAfter (QDate.year (some jd)) (QDate.month (some jd))).1
        (monthAfter (QDate.year (some jd)) (QDate.month (some jd))).2
        (min md._day (daysIn (monthAfter (QDate.year (some jd)) (QDate.month (some jd))).1
          (monthAfter (QDate.year (some jd)) (QDate.month (some jd))).2))), t⟩ := by
  have hya := QDate.monthAfter_year_ne_zero jd
  have hma := QDate.monthAfter_month_range jd
  have hadd := QDate.addMonths_one_eq jd
  generalize (monthAfter (QDate.year (some jd)) (QDate.month (some jd))).1 = y' at hya hadd ⊢
  generalize (monthAfter (QDate.year (some jd)) (QDate.month (some jd))).2 = m' at hma hadd ⊢
  have hv1 := QDate.isValid_clamped hya hma.1 hma.2 (QDate.day_range jd).1
  have hv2 := QDate.isValid_clamped hya hma.1 hma.2 hd
  simp only [MonthDayTerm.fixup, MonthDayTerm.apply,
    QDateTime.addMonths_mk jd 1 ht, hadd, QDateTime.setDate_mk _ _ ht]
  rw [QDate.ofYMD_of_valid hv1, QDate.daysInMonth_some, ← QDate.ofYMD_of_valid hv1,
    QDate.year_ofYMD hv1, QDate.month_ofYMD hv1, QDate.ofYMD_of_valid hv2]

/-- C4. For every day d ≥ 1 (in particular d in 1..31) and every valid instant dt,
`MonthDayTerm(d)::fixup` returns a valid instant in the calendar month
immediately following dt's month (December rolls over into January of the next
year) whose day-of-month is min(d, number of days in that following month) and
whose time of day is unchanged. -/
theorem monthDay_fixup_next_month (d : Int) (looped : Bool) (dt : QDateTime)
    (hd1 : 1 ≤ d) (hdt : dt.isValid = true) :
    ((MonthDayTerm.create d looped).fixup dt).isValid = true ∧
    ((MonthDayTerm.create d looped).fixup dt).date.year =
      (monthAfter dt.date.year dt.date.month).1 ∧
    ((MonthDayTerm.create d looped).fixup dt).date.month =
      (monthAfter dt.date.year dt.date.month).2 ∧
    ((MonthDayTerm.create d looped).fixup dt).date.day =
      min d (daysIn (monthAfter dt.date.year dt.date.month).1
        (monthAfter dt.date.year dt.date.month).2) ∧
    ((MonthDayTerm.create d looped).fixup dt).time = dt.time := by
  obtain ⟨jd, hjd, ht⟩ := (QDateTime.isValid_iff dt).1 hdt
  obtain ⟨date, t⟩ := dt
  simp only at hjd ht
  subst hjd
  have hv := QDate.isValid_clamped (QDate.monthAfter_year_ne_zero jd)
    (QDate.monthAfter_month_range jd).1 (QDate.monthAfter_month_range jd).2 hd1
  have hday : (MonthDayTerm.create d looped)._day = d := rfl
  rw [MonthDayTerm.fixup_mk _ jd (by exact hd1) ht, hday, ← QDate.ofYMD_of_valid hv]
  refine ⟨?_, QDate.year_ofYMD hv, QDate.month_ofYMD hv, QDate.day_ofYMD hv, rfl⟩
  rw [QDate.ofYMD_of_valid hv]
  exact QDateTime.isValid_mk _ ht

/-- C4, witness: d = 31 on 2024-03-31T00:01 gives 2024-04-30T00:01. -/
theorem monthDay_fixup_next_month_witness :
    (MonthDayTerm.create 31 true).fixup ⟨QDate.ofYMD 2024 3 31, QTime.ofHMS 0 1 0 0⟩
        = ⟨QDate.ofYMD 2024 4 30, QTime.ofHMS 0 1 0 0⟩ ∧
    ((MonthDayTerm.create 31 true).fixup ⟨QDate.ofYMD 2024 3 31, QTime.ofHMS 0 1 0 0⟩).date.day =
      min 31 (daysIn
        (monthAfter (QDate.year (QDate.ofYMD 2024 3 31)) (QDate.month (QDate.ofYMD 2024 3 31))).1
        (monthAfter (QDate.year (QDate.ofYMD 2024 3 31)) (QDate.month (QDate.ofYMD 2024 3 31))).2) :=
  ⟨by decide,
    (monthDay_fixup_next_month 31 true ⟨QDate.ofYMD 2024 3 31, QTime.ofHMS 0 1 0 0⟩
      (by decide) (by decide)).2.2.2.1⟩

end Expressions

namespace Expressions

open Qt

/-- `addYears(1)` on a valid instant, in calendar terms. -/
theorem addYears_one_mk (jd : Int) {t : QTime} (ht : t.isValid = true) :
    (QDateTime.mk (some jd) t).addYears 1 =
      ⟨some (julianDayFromDate (nextYear (QDate.year (some jd))) (QDate.month (some jd))
        (min (QDate.day (some jd))
          (daysIn (nextYear (QDate.year (some jd))) (QDate.month (some jd))))), t⟩ := by
  have hv := QDate.isValid_clamped (QDate.nextYear_ne_zero (QDate.year (some jd)))
    (QDate.month_range jd).1 (QDate.month_range jd).2 (QDate.day_range jd).1
  rw [QDateTime.addYears_mk jd 1 ht, QDate.addYears_one, QDate.ofYMD_of_valid hv]

end Expressions

namespace Expressions

open Qt

/-- Unfenced `WeekDayTerm::apply` on a valid instant: a shift inside the week. -/
theorem WeekDayTerm.apply_unfenced_mk (wd : WeekDayTerm) (jd : Int) {t : QTime}
    (ht : t.isValid = true) :
    wd.apply ⟨some jd, t⟩ false = ⟨some (jd + (wd._weekDay - (jd % 7 + 1))), t⟩ := by
  simp [WeekDayTerm.apply, WeekDayTerm.applyChecked, QDate.addDays, QDate.dayOfWeek,
    QDateTime.setDate_mk _ _ ht]

/-- `MonthDayTerm::apply` on a valid instant, in calendar terms. -/
theorem MonthDayTerm.apply_mk (md : MonthDayTerm) (jd : Int) {t : QTime} (fenced : Bool)
    (hd : 1 ≤ md._day) (ht : t.isValid = true) :
    md.apply ⟨some jd, t⟩ fenced =
      ⟨some (julianDayFromDate (QDate.year (some jd)) (QDate.month (some jd))
        (min md._day (daysIn (QDate.year (some jd)) (QDate.month (some jd))))), t⟩ := by
  have hv := QDate.isValid_clamped (QDate.year_ne_zero jd) (QDate.month_range jd).1
    (QDate.month_range jd).2 hd
  simp only [MonthDayTerm.apply, QDateTime.setDate_mk _ _ ht, QDate.daysInMonth_some]
  rw [QDate.ofYMD_of_valid hv]

/-- A (month, day) pair that exists in every year. -/
theorem isValid_every_year {y m d : Int} (hy : y ≠ 0) (hm1 : 1 ≤ m) (hm2 : m ≤ 12)
    (hd1 : 1 ≤ d) (hd2 : d ≤ monthDays m) : isValidYMD y m d = true := by
  rw [isValidYMD_iff]
  exact ⟨hy, by omega, by omega, hm2, Or.inl hd2⟩

/-- One fixup applied to apply(since) yields an instant strictly after `since`,
for each kind of sub-term that sets a part of the instant and has a fixup. -/
theorem fixup_after_apply (since : QDateTime) (hs : since.isValid = true) (fenced : Bool)
    (tt : TimeTerm) (it : InvertedTimeTerm) (wd : WeekDayTerm) (md : MonthDayTerm)
    (mt : MonthTerm) (dterm : DateTerm)
    (hwd : 1 ≤ wd._weekDay ∧ wd._weekDay ≤ 7) (hmd : 1 ≤ md._day)
    (hmt : 1 ≤ mt._month ∧ mt._month ≤ 12)
    (hd1 : testFlag dterm.scope Year = false) (hd2 : dterm._date.isValid = true)
    (hd3 : dterm._date.day ≤ monthDays dterm._date.month) :
    (¬ since < tt.apply since fenced → since < tt.fixup (tt.apply since fenced)) ∧
    (¬ since < it.apply since fenced → since < it.fixup (it.apply since fenced)) ∧
    (¬ since < wd.apply since false → since < wd.fixup (wd.apply since false)) ∧
    (¬ since < md.apply since fenced → since < md.fixup (md.apply since fenced)) ∧
    (¬ since < mt.apply since fenced → since < mt.fixup (mt.apply since fenced)) ∧
    (¬ since < dterm.apply since fenced → since < dterm.fixup (dterm.apply since fenced)) := by
  obtain ⟨jd, hjd, ht⟩ := (QDateTime.isValid_iff since).1 hs
  obtain ⟨date, t⟩ := since
  simp only at hjd ht
  subst hjd
  have hy := QDate.year_ne_zero jd
  have hm := QDate.month_range jd
  refine ⟨fun _ => ?_, fun _ => ?_, fun _ => ?_, fun _ => ?_, fun _ => ?_, fun _ => ?_⟩
  · -- Time: the next day at the term's time
    have ht' : (if tt._time.isValid then tt._time else (⟨0⟩ : QTime)).isValid = true := by
      split_ifs with h
      · exact h
      · exact QDateTime.isValid_midnight
    rw [TimeTerm.fixup, TimeTerm.apply, QDateTime.setTime_mk, QDateTime.addDays_mk _ _ ht',
      QDateTime.mk_lt_mk _ _ ht ht']
    left; omega
  · have ht' : (if it._time.isValid then it._time else (⟨0⟩ : QTime)).isValid = true := by
      split_ifs with h
      · exact h
      · exact QDateTime.isValid_midnight
    rw [InvertedTimeTerm.fixup, InvertedTimeTerm.apply, QDateTime.setTime_mk,
      QDateTime.addDays_mk _ _ ht', QDateTime.mk_lt_mk _ _ ht ht']
    left; omega
  · -- WeekDay: the shift inside the week is at least -6
    rw [WeekDayTerm.fixup, WeekDayTerm.apply_unfenced_mk wd jd ht, QDateTime.addDays_mk _ _ ht,
      QDateTime.mk_lt_mk _ _ ht ht]
    left; omega
  · -- MonthDay: the month after the month of `since`
    have hv := QDate.isValid_clamped hy hm.1 hm.2 hmd
    rw [MonthDayTerm.apply_mk md jd fenced hmd ht, MonthDayTerm.fixup_mk md _ hmd ht,
      ← QDate.ofYMD_of_valid hv, QDate.year_ofYMD hv, QDate.month_ofYMD hv,
      QDateTime.mk_lt_mk _ _ ht ht]
    exact Or.inl (QDate.jd_lt_monthAfter jd hmd)
  · -- Month: the first of that month in the next year
    have hv : isValidYMD (QDate.year (some jd)) mt._month 1 = true :=
      isValid_every_year hy hmt.1 hmt.2 (le_refl _) (by
        have := hmt.1; have := hmt.2
        simp only [monthDays]; split_ifs <;> omega)
    have happ : mt.apply ⟨some jd, t⟩ fenced =
        ⟨some (julianDayFromDate (QDate.year (some jd)) mt._month 1), t⟩ := by
      simp only [MonthTerm.apply, QDateTime.setDate_mk _ _ ht]
      rw [QDate.ofYMD_of_valid hv]
    rw [MonthTerm.fixup, happ, addYears_one_mk _ ht, ← QDate.ofYMD_of_valid hv,
      QDate.year_ofYMD hv, QDate.month_ofYMD hv, QDate.day_ofYMD hv,
      QDateTime.mk_lt_mk _ _ ht ht]
    exact Or.inl (QDate.jd_lt_nextYear jd hmt.1 hmt.2 (le_refl _))
  · -- year-less Date: the same day and month in the next year
    obtain ⟨j0, hj0⟩ : ∃ j0, dterm._date = some j0 := by
      cases h : dterm._date with
      | none => simp [h, QDate.isValid] at hd2
      | some j => exact ⟨j, rfl⟩
    rw [hj0] at hd3
    have hm0 := QDate.month_range j0
    have hday0 := QDate.day_range j0
    have hv : isValidYMD (QDate.year (some jd)) (QDate.month (some j0)) (QDate.day (some j0))
        = true := isValid_every_year hy hm0.1 hm0.2 hday0.1 hd3
    have happ : dterm.apply ⟨some jd, t⟩ fenced =
        ⟨some (julianDayFromDate (QDate.year (some jd)) (QDate.month (some j0))
          (QDate.day (some j0))), t⟩ := by
      simp only [DateTerm.apply, hd1, Bool.false_eq_true, if_false, QDateTime.setDate_mk _ _ ht,
        hj0]
      rw [QDate.ofYMD_of_valid hv]
    have hfix : ∀ x, dterm.fixup x = x.addYears 1 := fun x => by simp [DateTerm.fixup, hd1]
    rw [hfix, happ, addYears_one_mk _ ht, ← QDate.ofYMD_of_valid hv,
      QDate.year_ofYMD hv, QDate.month_ofYMD hv, QDate.day_ofYMD hv,
      QDateTime.mk_lt_mk _ _ ht ht]
    exact Or.inl (QDate.jd_lt_nextYear jd hm0.1 hm0.2 hday0.1)

end Expressions

namespace Expressions

open Qt

/-- C1. For every valid reference instant `since`, every weekday w in 1..7 and
every valid time t: WeekDayTerm(w) applied unfenced, then TimeTerm(t), then
`WeekDayTerm::fixup` when the result is not strictly after `since`, yields the
earliest instant strictly after `since` that falls on ISO weekday w at time t. -/
theorem weekDayAtTime_earliest (since : QDateTime) (hs : since.isValid = true)
    (w : Int) (looped : Bool) (t : QTime) (hw1 : 1 ≤ w) (hw7 : w ≤ 7) (ht : t.isValid = true) :
    (weekDayAtTime (WeekDayTerm.create w looped) (TimeTerm.create t) since).isValid = true ∧
    since < weekDayAtTime (WeekDayTerm.create w looped) (TimeTerm.create t) since ∧
    (weekDayAtTime (WeekDayTerm.create w looped) (TimeTerm.create t) since).date.dayOfWeek = w ∧
    (weekDayAtTime (WeekDayTerm.create w looped) (TimeTerm.create t) since).time = t ∧
    ∀ x : QDateTime, x.isValid = true → since < x → x.date.dayOfWeek = w → x.time = t →
      weekDayAtTime (WeekDayTerm.create w looped) (TimeTerm.create t) since ≤ x := by
  obtain ⟨jd, hjd, hts⟩ := (QDateTime.isValid_iff since).1 hs
  obtain ⟨date, ts⟩ := since
  simp only at hjd hts
  subst hjd
  have hday : (WeekDayTerm.create w looped)._weekDay = w := rfl
  have hdt : (TimeTerm.create t).apply ((WeekDayTerm.create w looped).apply ⟨some jd, ts⟩ false)
      false = ⟨some (jd + (w - (jd % 7 + 1))), t⟩ := by
    rw [WeekDayTerm.apply_unfenced_mk _ jd hts, hday, TimeTerm.apply, QDateTime.setTime_mk]
    simp [TimeTerm.create, ht]
  have hr : weekDayAtTime (WeekDayTerm.create w looped) (TimeTerm.create t) ⟨some jd, ts⟩ =
      if jd < jd + (w - (jd % 7 + 1)) ∨ (jd = jd + (w - (jd % 7 + 1)) ∧ ts.mds < t.mds)
      then ⟨some (jd + (w - (jd % 7 + 1))), t⟩
      else ⟨some (jd + (w - (jd % 7 + 1)) + 7), t⟩ := by
    simp only [weekDayAtTime, hdt, QDateTime.mk_lt_mk _ _ hts ht, WeekDayTerm.fixup,
      QDateTime.addDays_mk _ _ ht]
  rw [hr]
  split_ifs with hc
  · refine ⟨QDateTime.isValid_mk _ ht, (QDateTime.mk_lt_mk _ _ hts ht).2 hc, ?_, rfl, ?_⟩
    · show (jd + (w - (jd % 7 + 1))) % 7 + 1 = w
      omega
    · intro x hx hlt hdow hxt
      obtain ⟨jx, hjx, -⟩ := (QDateTime.isValid_iff x).1 hx
      obtain ⟨xd, xt⟩ := x
      simp only at hjx hxt hdow
      subst hjx hxt
      rw [QDateTime.mk_lt_mk _ _ hts ht] at hlt
      rw [QDateTime.mk_le_mk _ _ ht ht]
      have hdow' : jx % 7 + 1 = w := hdow
      omega
  · refine ⟨QDateTime.isValid_mk _ ht, (QDateTime.mk_lt_mk _ _ hts ht).2 (Or.inl (by omega)),
      ?_, rfl, ?_⟩
    · show (jd + (w - (jd % 7 + 1)) + 7) % 7 + 1 = w
      omega
    · intro x hx hlt hdow hxt
      obtain ⟨jx, hjx, -⟩ := (QDateTime.isValid_iff x).1 hx
      obtain ⟨xd, xt⟩ := x
      simp only at hjx hxt hdow
      subst hjx hxt
      rw [QDateTime.mk_lt_mk _ _ hts ht] at hlt
      rw [QDateTime.mk_le_mk _ _ ht ht]
      have hdow' : jx % 7 + 1 = w := hdow
      omega

/-- C1, witness: Monday at 09:00 from 2024-01-03T08:00:00 (a Wednesday) gives
2024-01-08T09:00:00. -/
theorem weekDayAtTime_earliest_witness :
    weekDayAtTime (WeekDayTerm.create 1 true) (TimeTerm.create (QTime.ofHMS 9 0 0 0))
        ⟨QDate.ofYMD 2024 1 3, QTime.ofHMS 8 0 0 0⟩
      = ⟨QDate.ofYMD 2024 1 8, QTime.ofHMS 9 0 0 0⟩ ∧
    QDate.dayOfWeek (QDate.ofYMD 2024 1 3) = 3 ∧
    (⟨QDate.ofYMD 2024 1 3, QTime.ofHMS 8 0 0 0⟩ : QDateTime) <
      weekDayAtTime (WeekDayTerm.create 1 true) (TimeTerm.create (QTime.ofHMS 9 0 0 0))
        ⟨QDate.ofYMD 2024 1 3, QTime.ofHMS 8 0 0 0⟩ :=
  ⟨by decide, by decide,
    (weekDayAtTime_earliest ⟨QDate.ofYMD 2024 1 3, QTime.ofHMS 8 0 0 0⟩ (by decide) 1 true
      (QTime.ofHMS 9 0 0 0) (by decide) (by decide) (by decide)).2.1⟩

end Expressions

namespace Expressions

open Qt

/-- C7, the code at the failing inputs.  Fenced apply of Sunday to Monday
2024-12-30 stores 2025-01-12 (another month and year) and the assertion after
the +7 shift fails; fenced apply of Monday to Wednesday 2025-01-01 stores
2024-12-23 and the assertion after the -7 shift fails. -/
theorem weekDay_fenced_year_boundary :
    (WeekDayTerm.create 7 false).apply ⟨QDate.ofYMD 2024 12 30, QTime.ofHMS 0 0 0 0⟩ true
        = ⟨QDate.ofYMD 2025 1 12, QTime.ofHMS 0 0 0 0⟩ ∧
    (WeekDayTerm.create 7 false).applyAsserts
        ⟨QDate.ofYMD 2024 12 30, QTime.ofHMS 0 0 0 0⟩ true = false ∧
    (WeekDayTerm.create 1 false).apply ⟨QDate.ofYMD 2025 1 1, QTime.ofHMS 0 0 0 0⟩ true
        = ⟨QDate.ofYMD 2024 12 23, QTime.ofHMS 0 0 0 0⟩ ∧
    (WeekDayTerm.create 1 false).applyAsserts
        ⟨QDate.ofYMD 2025 1 1, QTime.ofHMS 0 0 0 0⟩ true = false := by
  decide

end Expressions

namespace Expressions

open Qt

theorem Sequence.lookup_eq_none_of_lt (l : Sequence) (k : Nat)
    (h : ∀ key ∈ Sequence.keys l, k < key) : l.lookup k = none := by
  induction l with
  | nil => rfl
  | cons e rest ih =>
    obtain ⟨k1, v1⟩ := e
    have h1 : k < k1 := h k1 (by simp [Sequence.keys])
    have hne : (k == k1) = false := by
      simp only [beq_eq_false_iff_ne, ne_eq]; omega
    rw [List.lookup_cons, hne]
    exact ih (fun key hk => h key (by
      simp only [Sequence.keys, List.map_cons, List.mem_cons] at hk ⊢
      exact Or.inr hk))

/-- A map whose keys all belong to a sorted list of keys is that list of keys,
each present key paired with its value. -/
theorem Sequence.eq_filterMap_lookup (ks : List Nat) (hks : ks.Pairwise (· < ·)) :
    ∀ l : Sequence, (Sequence.keys l).Pairwise (· < ·) → (∀ key ∈ Sequence.keys l, key ∈ ks) →
      l = ks.filterMap (fun k => (l.lookup k).map (fun v => (k, v))) := by
  induction ks with
  | nil =>
    intro l _ hsub
    cases l with
    | nil => rfl
    | cons e rest => exact absurd (hsub e.1 (by simp [Sequence.keys])) (by simp)
  | cons k ks' ih =>
    intro l hl hsub
    rw [List.pairwise_cons] at hks
    obtain ⟨hk, hks'⟩ := hks
    cases l with
    | nil => simp
    | cons e rest =>
      obtain ⟨k1, v1⟩ := e
      simp only [Sequence.keys, List.map_cons, List.pairwise_cons] at hl
      obtain ⟨hk1, hrest⟩ := hl
      have hk1mem : k1 ∈ k :: ks' := hsub k1 (by simp [Sequence.keys])
      by_cases heq : k1 = k
      · subst heq
        have hsub' : ∀ key ∈ Sequence.keys rest, key ∈ ks' := by
          intro key hkey
          have h1 := hsub key (by simp only [Sequence.keys, List.map_cons, List.mem_cons]
                                  exact Or.inr hkey)
          have h2 : k1 < key := hk1 key hkey
          rcases List.mem_cons.1 h1 with h | h
          · omega
          · exact h
        have hcongr : ks'.filterMap (fun k => (List.lookup k ((k1, v1) :: rest)).map
            (fun v => (k, v))) = ks'.filterMap (fun k => (rest.lookup k).map (fun v => (k, v))) := by
          apply List.filterMap_congr
          intro k' hk'
          have hlt : k1 < k' := hk k' hk'
          have hne : (k' == k1) = false := by
            simp only [beq_eq_false_iff_ne, ne_eq]; omega
          rw [List.lookup_cons, hne]
        have hhead : List.lookup k1 ((k1, v1) :: rest) = some v1 := by
          simp [List.lookup_cons]
        rw [List.filterMap_cons, hhead, hcongr, ← ih hks' rest hrest hsub']
        rfl
      · have hk1' : k1 ∈ ks' := by
          rcases List.mem_cons.1 hk1mem with h | h
          · exact absurd h heq
          · exact h
        have hlt : k < k1 := hk k1 hk1'
        have hall : ∀ key ∈ Sequence.keys ((k1, v1) :: rest), k < key := by
          intro key hkey
          simp only [Sequence.keys, List.map_cons, List.mem_cons] at hkey
          rcases hkey with h | h
          · omega
          · have := hk1 key h; omega
        have hnone := Sequence.lookup_eq_none_of_lt ((k1, v1) :: rest) k hall
        have hsub' : ∀ key ∈ Sequence.keys ((k1, v1) :: rest), key ∈ ks' := by
          intro key hkey
          have h1 := hsub key hkey
          have h2 := hall key hkey
          rcases List.mem_cons.1 h1 with h | h
          · omega
          · exact h
        rw [List.filterMap_cons, hnone]
        show _ = List.filterMap _ ks'
        exact ih hks' ((k1, v1) :: rest)
          (by simp only [Sequence.keys, List.map_cons, List.pairwise_cons]; exact ⟨hk1, hrest⟩)
          hsub'

end Expressions

namespace Expressions

open Qt

/-- The loop of the unfenced `SequenceTerm::apply` over the units in key order. -/
theorem SequenceTerm.applyLoop_spanUnits (o : Nat → Option Int) (dt : QDateTime) :
    SequenceTerm.applyLoop false
        (spanUnits.filterMap (fun k => (o k).map (fun v => (k, v)))) dt =
      some (advanceByCounts o dt) := by
  simp only [spanUnits, advanceByCounts, List.filterMap_cons, List.filterMap_nil]
  generalize o Year = oy
  generalize o Month = om
  generalize o Week = ow
  generalize o Day = od
  generalize o Hour = oh
  generalize o Minute = omi
  have c1 : ∀ n : Int, n * 7 = 7 * n := fun n => by ring
  have c2 : ∀ n : Int, n * 3600 = 3600 * n := fun n => by ring
  have c3 : ∀ n : Int, n * 60 = 60 * n := fun n => by ring
  cases oy <;> cases om <;> cases ow <;> cases od <;> cases oh <;> cases omi <;>
    simp [SequenceTerm.applyLoop, SequenceTerm.applyEntry, advanceIf, Year, Month, Week, Day,
      Hour, Minute, c1, c2, c3]

/-- C2. `SequenceTerm::apply` with applyFenced = false treats the sequence as a
relative offset: for every instant and every sequence (a `QMap`, so with its
keys in ascending order, holding span units only), the loop reaches no
unreachable branch and its result is the instant advanced successively by the
stored years, months, weeks (as 7-day blocks), days, hours and minutes, in that
order. -/
theorem sequence_apply_unfenced (seq : Sequence) (looped : Bool) (dt : QDateTime)
    (hsorted : (Sequence.keys seq).Pairwise (· < ·))
    (hunits : ∀ key ∈ Sequence.keys seq, key ∈ spanUnits) :
    (SequenceTerm.create seq looped).apply dt false = some (advanceBySequence seq dt) := by
  have hl := Sequence.eq_filterMap_lookup spanUnits (by decide) seq hsorted hunits
  have := SequenceTerm.applyLoop_spanUnits (fun k => seq.lookup k) dt
  rw [← hl] at this
  exact this

/-- C2, witness: {Minute: 20} applied to 2024-01-01T10:00:00 gives
2024-01-01T10:20:00. -/
theorem sequence_apply_unfenced_witness :
    advanceBySequence [(Minute, 20)] ⟨QDate.ofYMD 2024 1 1, QTime.ofHMS 10 0 0 0⟩
      = ⟨QDate.ofYMD 2024 1 1, QTime.ofHMS 10 20 0 0⟩ ∧
    (SequenceTerm.create [(Minute, 20)] false).apply
        ⟨QDate.ofYMD 2024 1 1, QTime.ofHMS 10 0 0 0⟩ false
      = some (advanceBySequence [(Minute, 20)] ⟨QDate.ofYMD 2024 1 1, QTime.ofHMS 10 0 0 0⟩) :=
  ⟨by decide,
    sequence_apply_unfenced [(Minute, 20)] false ⟨QDate.ofYMD 2024 1 1, QTime.ofHMS 10 0 0 0⟩
      (by decide) (by decide)⟩

end Expressions


namespace Expressions

open Qt

theorem findSome_flatten_map {α β γ : Type} (l : List α) (f : α → List β) (g : β → Option γ) :
    (l.map f).flatten.findSome? g = l.findSome? (fun a => (f a).findSome? g) := by
  induction l with
  | nil => rfl
  | cons a rest ih =>
    simp only [List.map_cons, List.flatten_cons, List.findSome?_append, List.findSome?_cons, ih]
    cases (f a).findSome? g <;> rfl

theorem findSome_map_of_eq {α β γ : Type} (l : List α) (f : α → β) (g : β → Option γ)
    (h : α → Option γ) (hyp : ∀ a, g (f a) = h a) : (l.map f).findSome? g = l.findSome? h := by
  induction l with
  | nil => rfl
  | cons a rest ih => simp only [List.map_cons, List.findSome?_cons, hyp, ih]

theorem InvertedTimeTerm.candidate_try (expression exprPattern : Text)
    (hourPattern minPattern : Text × Text) :
    (InvertedTimeTerm.candidate exprPattern hourPattern minPattern).try expression =
      InvertedTimeTerm.tryPattern expression exprPattern hourPattern minPattern := by
  unfold InvertedTimeTerm.candidate InvertedTimeTerm.tryPattern InvTimeCandidate.try
  split
  · rfl
  · simp [matchCompiled, InvertedTimeTerm.fromMatch, QRegularExpressionMatch.noMatch]

set_option maxRecDepth 100000 in
theorem InvertedTimeTerm.candidates_eq :
    InvertedTimeTerm.candidates = InvertedTimeTerm.compiledCandidates := by decide!

/-- `InvertedTimeTerm::parse` tries the compiled candidates in order. -/
theorem InvertedTimeTerm.parse_eq_compiled (expression : Text) :
    InvertedTimeTerm.parse expression =
      InvertedTimeTerm.compiledCandidates.findSome? (fun c => c.try expression) := by
  rw [← InvertedTimeTerm.candidates_eq]
  unfold InvertedTimeTerm.parse InvertedTimeTerm.candidates
  rw [findSome_flatten_map]
  show List.findSome? _ _ = _
  congr 1
  funext exprPattern
  rw [findSome_flatten_map]
  congr 1
  funext hourPattern
  exact (findSome_map_of_eq _ _ _ _
    (fun minPattern =>
      InvertedTimeTerm.candidate_try expression exprPattern hourPattern minPattern)).symm

end Expressions


namespace Qt

theorem digit_toNat {a : Char} (ha : a.isDigit = true) : 48 ≤ a.toNat ∧ a.toNat ≤ 57 := by
  simp only [Char.isDigit, Bool.and_eq_true, decide_eq_true_eq, ge_iff_le] at ha
  obtain ⟨h1, h2⟩ := ha
  rw [UInt32.le_def] at h1 h2
  exact ⟨h1, h2⟩

theorem toLower_of_digit {a : Char} (ha : a.isDigit = true) : a.toLower = a := by
  have := digit_toNat ha
  simp only [Char.toLower]
  rw [if_neg (by omega)]

theorem digit_beq_of_not_digit {a : Char} (ha : a.isDigit = true) {c : Char}
    (hc : c.isDigit = false) : (a == c) = false := by
  rw [beq_eq_false_iff_ne]
  rintro rfl
  rw [ha] at hc
  exact Bool.noConfusion hc

theorem bindStates_nil (f : MState → List MState) : bindStates [] f = [] := rfl

theorem bindStates_cons (s : MState) (l : List MState) (f : MState → List MState) :
    bindStates (s :: l) f = f s ++ bindStates l f := rfl

theorem bindStates_append (l1 l2 : List MState) (f : MState → List MState) :
    bindStates (l1 ++ l2) f = bindStates l1 f ++ bindStates l2 f := by
  induction l1 with
  | nil => rfl
  | cons s rest ih => simp only [List.cons_append, bindStates_cons, ih, List.append_assoc]

theorem bindStates_assoc (l : List MState) (f g : MState → List MState) :
    bindStates (bindStates l f) g = bindStates l (fun s => bindStates (f s) g) := by
  induction l with
  | nil => rfl
  | cons s rest ih => simp only [bindStates_cons, bindStates_append, ih]

/-- Matching a concatenation of two non-empty lists of patterns: the first
list, then the second from each of its results. -/
theorem matchAll_chain_append (xs ys : List Regex) (hxs : xs ≠ []) (hys : ys ≠ []) (s : MState) :
    matchAll (Regex.chain (xs ++ ys)) s =
      bindStates (matchAll (Regex.chain xs) s) (matchAll (Regex.chain ys)) := by
  induction xs generalizing s with
  | nil => exact absurd rfl hxs
  | cons x rest ih =>
    cases rest with
    | nil =>
      cases ys with
      | nil => exact absurd rfl hys
      | cons y ys' => rfl
    | cons x' rest' =>
      have e1 : Regex.chain (x :: x' :: rest' ++ ys) = .seq x (Regex.chain (x' :: rest' ++ ys)) := rfl
      have e2 : Regex.chain (x :: x' :: rest') = .seq x (Regex.chain (x' :: rest')) := rfl
      rw [e1, e2]
      simp only [matchAll]
      rw [bindStates_assoc]
      congr 1
      funext s'
      exact ih (by simp) s'

/-- A pattern that starts with `^` can only match at offset 0. -/
theorem searchFrom_bol_pos (r : Regex) (subject : Text) (fuel offset : Nat) (h : 1 ≤ offset) :
    searchFrom (.seq .bol r) subject fuel offset = QRegularExpressionMatch.noMatch subject := by
  induction fuel generalizing offset with
  | zero => rfl
  | succ n ih =>
    have hne : ¬ offset = 0 := by omega
    simp only [searchFrom, matchAll, hne, if_false, bindStates_nil]
    exact ih (offset + 1) (by omega)

/-- The match of an anchored pattern. -/
theorem matchCompiled_bol (r : Regex) (subject : Text) :
    matchCompiled (some (.seq .bol r)) subject =
      match matchAll r ⟨0, subject, []⟩ with
      | s :: _ => { hasMatch := true, capturedStart := 0, capturedEnd := s.pos,
                    subject := subject, caps := s.caps }
      | [] => QRegularExpressionMatch.noMatch subject := by
  simp only [matchCompiled, searchFrom, matchAll, if_true, bindStates_cons, bindStates_nil,
    List.append_nil, List.drop_zero]
  cases matchAll r ⟨0, subject, []⟩ with
  | nil => exact searchFrom_bol_pos r subject _ 1 (le_refl _)
  | cons s rest => rfl

theorem matchAll_char_nil (c : Char) (p : Nat) (caps : List Capture) :
    matchAll (Regex.char c) ⟨p, [], caps⟩ = [] := by
  simp [Regex.char, matchAll, countDown]

/-- The test of a literal character of the pattern, written out: the letter in
either case, and the Kelvin sign for `k`, the long s for `s`. -/
theorem lit_test (c x : Char) :
    (CharSet.lit c).test x =
      (x.toLower == c.toLower || (c.toLower == 'k' && x == '\u212a') ||
        (c.toLower == 's' && x == '\u017f')) := rfl

/-- One literal character of the pattern against the next character of the subject. -/
theorem matchAll_char_cons (c x : Char) (p : Nat) (rest : Text) (caps : List Capture) :
    matchAll (Regex.char c) ⟨p, x :: rest, caps⟩ =
      if (x.toLower == c.toLower || (c.toLower == 'k' && x == '\u212a') ||
        (c.toLower == 's' && x == '\u017f')) = true then [⟨p + 1, rest, caps⟩] else [] := by
  rw [← lit_test]
  by_cases h : (CharSet.lit c).test x = true
  · have h1 : min ((List.takeWhile (CharSet.lit c).test rest).length + 1) 1 = 1 := by omega
    simp only [Regex.char, matchAll, List.takeWhile_cons, h, if_true, List.length_cons, h1,
      Nat.min_def, countDown]
    simp [MState.advance, countDown]
  · simp only [Regex.char, matchAll, List.takeWhile_cons, h, if_false, List.length_nil,
      Nat.min_def, countDown]
    simp [countDown]

theorem matchAll_seq (a b : Regex) (s : MState) :
    matchAll (.seq a b) s = bindStates (matchAll a s) (matchAll b) := by
  simp only [matchAll]

theorem matchAll_alt (a b : Regex) (s : MState) :
    matchAll (.alt a b) s = matchAll a s ++ matchAll b s := by
  simp only [matchAll]

theorem matchAll_opt (r : Regex) (s : MState) : matchAll (.opt r) s = matchAll r s ++ [s] := by
  simp only [matchAll]

theorem matchAll_group (idx : Nat) (name : Text) (r : Regex) (p : Nat) (rest : Text)
    (caps : List Capture) :
    matchAll (.group idx name r) ⟨p, rest, caps⟩ =
      (matchAll r ⟨p, rest, caps⟩).map (fun s =>
        { s with caps := ⟨idx, name, rest.take (s.pos - p)⟩ :: s.caps }) := by
  simp only [matchAll]

/-- An ASCII digit is a decimal digit. -/
theorem digit_test_of_isDigit {a : Char} (ha : a.isDigit = true) : CharSet.digit.test a = true := by
  simp [CharSet.test, isDecimalDigit, ha]

/-- On ASCII characters the decimal digits are the ASCII digits. -/
theorem digit_test_of_ascii {a : Char} (ha : a.toNat < 128) : CharSet.digit.test a = a.isDigit := by
  have h : ¬ 128 ≤ a.toNat := by omega
  simp [CharSet.test, isDecimalDigit, h]

theorem isDecimalDigit_of_isDigit {a : Char} (ha : a.isDigit = true) : isDecimalDigit a = true :=
  digit_test_of_isDigit ha

theorem isDecimalDigit_of_ascii {a : Char} (ha : a.toNat < 128) : isDecimalDigit a = a.isDigit :=
  digit_test_of_ascii ha

theorem space_test_of_digit {a : Char} (ha : a.isDigit = true) : CharSet.space.test a = false := by
  have h := digit_toNat ha
  simp only [CharSet.test, isWhitespace, Bool.or_eq_false_iff, Bool.and_eq_false_iff,
    decide_eq_false_iff_not, beq_eq_false_iff_ne]
  omega

theorem isWhitespace_of_isDigit {a : Char} (ha : a.isDigit = true) : isWhitespace a = false :=
  space_test_of_digit ha

/-- A printable ASCII character other than the blank is not whitespace. -/
theorem isWhitespace_of_gt {a : Char} (h1 : 32 < a.toNat) (h2 : a.toNat < 128) :
    isWhitespace a = false := by
  simp only [isWhitespace, Bool.or_eq_false_iff, Bool.and_eq_false_iff,
    decide_eq_false_iff_not, beq_eq_false_iff_ne]
  omega

theorem isWhitespace_blank : isWhitespace ' ' = true := by decide

/-- One or two digits in a pattern against a text: the digits at its start are counted. -/
theorem matchAll_digits (lo : Nat) (p : Nat) (rest : Text) (caps : List Capture) :
    matchAll (.rep .digit lo (some 2)) ⟨p, rest, caps⟩ =
      (countDown lo (min (rest.takeWhile CharSet.digit.test).length 2)).map
        (fun k => ⟨p + k, rest.drop k, caps⟩) := by
  simp only [matchAll, MState.advance]
  rfl

theorem matchAll_spaces_nil (p : Nat) (caps : List Capture) :
    matchAll (.rep .space 0 none) ⟨p, [], caps⟩ = [⟨p, [], caps⟩] := by
  simp [matchAll, countDown, MState.advance]

end Qt


namespace Qt

theorem isNumeral_cases {t : Text} {n : Nat} (h : isNumeral t n) :
    (∃ a, t = [a] ∧ a.isDigit = true ∧ n = a.toNat - 48) ∨
    (∃ a b, t = [a, b] ∧ a.isDigit = true ∧ b.isDigit = true ∧
      n = (a.toNat - 48) * 10 + (b.toNat - 48)) := by
  obtain ⟨hlen, hdig, hval⟩ := h
  rcases hlen with h1 | h2
  · match t, h1 with
    | [a], _ =>
      have ha : a.isDigit = true := hdig a (by simp)
      left
      refine ⟨a, rfl, ha, ?_⟩
      simp [Text.digitsValue, ha] at hval
      omega
  · match t, h2 with
    | [a, b], _ =>
      have ha : a.isDigit = true := hdig a (by simp)
      have hb : b.isDigit = true := hdig b (by simp)
      right
      refine ⟨a, b, rfl, ha, hb, ?_⟩
      simp [Text.digitsValue, ha, hb] at hval
      omega

theorem QTime.hour_ofHMS {h m : Int} (h1 : 0 ≤ h) (h2 : h < 24) (m1 : 0 ≤ m) (m2 : m < 60) :
    (QTime.ofHMS h m 0 0).hour = h := by
  have hv : QTime.isValidHMS h m 0 0 = true := by simp [QTime.isValidHMS, h1, h2, m1, m2]
  have hvalid : (QTime.mk ((h * 3600 + m * 60 + 0) * 1000 + 0)).isValid = true := by
    simp only [QTime.isValid, MSECS_PER_DAY, Bool.and_eq_true, decide_eq_true_eq]
    constructor <;> omega
  simp only [QTime.ofHMS, hv, if_true, QTime.hour, hvalid]
  omega

theorem QTime.minute_ofHMS {h m : Int} (h1 : 0 ≤ h) (h2 : h < 24) (m1 : 0 ≤ m) (m2 : m < 60) :
    (QTime.ofHMS h m 0 0).minute = m := by
  have hv : QTime.isValidHMS h m 0 0 = true := by simp [QTime.isValidHMS, h1, h2, m1, m2]
  have hvalid : (QTime.mk ((h * 3600 + m * 60 + 0) * 1000 + 0)).isValid = true := by
    simp only [QTime.isValid, MSECS_PER_DAY, Bool.and_eq_true, decide_eq_true_eq]
    constructor <;> omega
  simp only [QTime.ofHMS, hv, if_true, QTime.minute, hvalid]
  omega

theorem QTime.isValid_ofHMS {h m : Int} (h1 : 0 ≤ h) (h2 : h < 24) (m1 : 0 ≤ m) (m2 : m < 60) :
    (QTime.ofHMS h m 0 0).isValid = true := by
  have hv : QTime.isValidHMS h m 0 0 = true := by simp [QTime.isValidHMS, h1, h2, m1, m2]
  simp only [QTime.ofHMS, hv, if_true, QTime.isValid, MSECS_PER_DAY, Bool.and_eq_true,
    decide_eq_true_eq]
  constructor <;> omega

/-- `toTime` of a numeral in an hour format: `h` takes one or two digits, `hh` two. -/
theorem toTime_hour {t : Text} {n : Nat} (h : isNumeral t n) (hn : n ≤ 23) :
    (toTime t ['h']).hour = n ∧ (t.length = 2 → (toTime t ['h', 'h']).hour = n) := by
  rcases isNumeral_cases h with ⟨a, rfl, ha, hv⟩ | ⟨a, b, rfl, ha, hb, hv⟩
  · have e : toTime [a] ['h'] = QTime.ofHMS (n : Int) 0 0 0 := by
      simp [toTime, parseTimeFormat, readTimeSections, readNumber, Text.digitsValue, ha, hv]
    rw [e]
    exact ⟨QTime.hour_ofHMS (by omega) (by omega) (by omega) (by omega), fun h2 => by simp at h2⟩
  · have e : toTime [a, b] ['h'] = QTime.ofHMS (n : Int) 0 0 0 := by
      simp [toTime, parseTimeFormat, readTimeSections, readNumber, Text.digitsValue, ha, hb, hv]
    have e2 : toTime [a, b] ['h', 'h'] = QTime.ofHMS (n : Int) 0 0 0 := by
      simp [toTime, parseTimeFormat, readTimeSections, readNumber, Text.digitsValue, ha, hb, hv]
    rw [e, e2]
    exact ⟨QTime.hour_ofHMS (by omega) (by omega) (by omega) (by omega),
      fun _ => QTime.hour_ofHMS (by omega) (by omega) (by omega) (by omega)⟩

/-- `toTime` of a numeral in a minute format: `m` takes one or two digits, `mm` two. -/
theorem toTime_minute {t : Text} {n : Nat} (h : isNumeral t n) (hn : n ≤ 59) :
    (toTime t ['m']).minute = n ∧ (t.length = 2 → (toTime t ['m', 'm']).minute = n) := by
  rcases isNumeral_cases h with ⟨a, rfl, ha, hv⟩ | ⟨a, b, rfl, ha, hb, hv⟩
  · have e : toTime [a] ['m'] = QTime.ofHMS 0 (n : Int) 0 0 := by
      simp [toTime, parseTimeFormat, readTimeSections, readNumber, Text.digitsValue, ha, hv]
    rw [e]
    exact ⟨QTime.minute_ofHMS (by omega) (by omega) (by omega) (by omega), fun h2 => by simp at h2⟩
  · have e : toTime [a, b] ['m'] = QTime.ofHMS 0 (n : Int) 0 0 := by
      simp [toTime, parseTimeFormat, readTimeSections, readNumber, Text.digitsValue, ha, hb, hv]
    have e2 : toTime [a, b] ['m', 'm'] = QTime.ofHMS 0 (n : Int) 0 0 := by
      simp [toTime, parseTimeFormat, readTimeSections, readNumber, Text.digitsValue, ha, hb, hv]
    rw [e, e2]
    exact ⟨QTime.minute_ofHMS (by omega) (by omega) (by omega) (by omega),
      fun _ => QTime.minute_ofHMS (by omega) (by omega) (by omega) (by omega)⟩

end Qt


namespace Expressions

open Qt

theorem InvertedTimeTerm.compiledRegex_eq (sep : String) (hourRx minRx : Regex) :
    InvertedTimeTerm.compiledRegex sep hourRx minRx =
      .seq .bol (Regex.chain (InvertedTimeTerm.headItems sep minRx ++
        InvertedTimeTerm.tailItems hourRx)) := by
  simp only [InvertedTimeTerm.compiledRegex, InvertedTimeTerm.headItems,
    InvertedTimeTerm.tailItems, List.cons_append, List.nil_append, List.append_assoc]
  rfl

/-- A compiled candidate tried on a text: the part before the hour group, then
the rest of the pattern from each of its results. -/
theorem InvTimeCandidate.try_eq (sep : String) (hourRx minRx : Regex)
    (sign hourFormat minFormat subject : Text) :
    InvTimeCandidate.try
      { regex := some (InvertedTimeTerm.compiledRegex sep hourRx minRx), sign := sign,
        hourFormat := hourFormat, minFormat := minFormat } subject =
      InvertedTimeTerm.fromStates
        (bindStates (matchAll (Regex.chain (InvertedTimeTerm.headItems sep minRx)) ⟨0, subject, []⟩)
          (matchAll (Regex.chain (InvertedTimeTerm.tailItems hourRx))))
        subject sign hourFormat minFormat := by
  simp only [InvTimeCandidate.try, InvertedTimeTerm.compiledRegex_eq, matchCompiled_bol,
    InvertedTimeTerm.fromStates]
  rw [matchAll_chain_append _ _ (by simp [InvertedTimeTerm.headItems])
    (by simp [InvertedTimeTerm.tailItems])]

theorem InvertedTimeTerm.fromStates_nil (subject sign hourFormat minFormat : Text) :
    InvertedTimeTerm.fromStates [] subject sign hourFormat minFormat = none := by
  simp [InvertedTimeTerm.fromStates, InvertedTimeTerm.fromMatch, QRegularExpressionMatch.noMatch]

/-- The part of the pattern before the hour group on a one-digit minute numeral
followed by " to ". -/
theorem InvertedTimeTerm.head_to_one (a : Char) (ha : a.isDigit = true) (rest : Text) :
    matchAll (Regex.chain (headItems " past " (Regex.rep CharSet.digit 2 (some 2))))
      ⟨0, a :: ' ' :: 't' :: 'o' :: ' ' :: rest, []⟩ = [] ∧
    matchAll (Regex.chain (headItems " past " (Regex.rep CharSet.digit 1 (some 2))))
      ⟨0, a :: ' ' :: 't' :: 'o' :: ' ' :: rest, []⟩ = [] ∧
    matchAll (Regex.chain (headItems "-past " (Regex.rep CharSet.digit 2 (some 2))))
      ⟨0, a :: ' ' :: 't' :: 'o' :: ' ' :: rest, []⟩ = [] ∧
    matchAll (Regex.chain (headItems "-past " (Regex.rep CharSet.digit 1 (some 2))))
      ⟨0, a :: ' ' :: 't' :: 'o' :: ' ' :: rest, []⟩ = [] ∧
    matchAll (Regex.chain (headItems " to " (Regex.rep CharSet.digit 2 (some 2))))
      ⟨0, a :: ' ' :: 't' :: 'o' :: ' ' :: rest, []⟩ = [] ∧
    matchAll (Regex.chain (headItems " to " (Regex.rep CharSet.digit 1 (some 2))))
      ⟨0, a :: ' ' :: 't' :: 'o' :: ' ' :: rest, []⟩ = [⟨5, rest, [⟨1, "minutes".toList, [a]⟩]⟩] := by
  have e1 : " to ".toList = [' ', 't', 'o', ' '] := rfl
  have e2 : " past ".toList = [' ', 'p', 'a', 's', 't', ' '] := rfl
  have e3 : "-past ".toList = ['-', 'p', 'a', 's', 't', ' '] := rfl
  have e4 : "at ".toList = ['a', 't', ' '] := rfl
  have e5 : "quarter".toList = ['q', 'u', 'a', 'r', 't', 'e', 'r'] := rfl
  have e6 : "half".toList = ['h', 'a', 'l', 'f'] := rfl
  refine ⟨?_, ?_, ?_, ?_, ?_, ?_⟩ <;>
  simp [InvertedTimeTerm.headItems, e1, e2, e3, e4, e5, e6, Regex.chain, Regex.text,
    Regex.anyOf, matchAll_seq, matchAll_alt, matchAll_opt, matchAll_group, matchAll_digits,
    matchAll_char_cons, matchAll_char_nil, ha, toLower_of_digit,
    digit_beq_of_not_digit, countDown, bindStates_cons, bindStates_nil,
    digit_test_of_ascii, isDecimalDigit_of_ascii, isWhitespace_of_gt, isWhitespace_blank,
    digit_test_of_isDigit ha, isDecimalDigit_of_isDigit ha, isWhitespace_of_isDigit ha]

/-- The part of the pattern before the hour group on a two-digit minute numeral
followed by " to ". -/
theorem InvertedTimeTerm.head_to_two (a b : Char) (ha : a.isDigit = true) (hb : b.isDigit = true) (rest : Text) :
    matchAll (Regex.chain (headItems " past " (Regex.rep CharSet.digit 2 (some 2))))
      ⟨0, a :: b :: ' ' :: 't' :: 'o' :: ' ' :: rest, []⟩ = [] ∧
    matchAll (Regex.chain (headItems " past " (Regex.rep CharSet.digit 1 (some 2))))
      ⟨0, a :: b :: ' ' :: 't' :: 'o' :: ' ' :: rest, []⟩ = [] ∧
    matchAll (Regex.chain (headItems "-past " (Regex.rep CharSet.digit 2 (some 2))))
      ⟨0, a :: b :: ' ' :: 't' :: 'o' :: ' ' :: rest, []⟩ = [] ∧
    matchAll (Regex.chain (headItems "-past " (Regex.rep CharSet.digit 1 (some 2))))
      ⟨0, a :: b :: ' ' :: 't' :: 'o' :: ' ' :: rest, []⟩ = [] ∧
    matchAll (Regex.chain (headItems " to " (Regex.rep CharSet.digit 2 (some 2))))
      ⟨0, a :: b :: ' ' :: 't' :: 'o' :: ' ' :: rest, []⟩ = [⟨6, rest, [⟨1, "minutes".toList, [a, b]⟩]⟩] ∧
    matchAll (Regex.chain (headItems " to " (Regex.rep CharSet.digit 1 (some 2))))
      ⟨0, a :: b :: ' ' :: 't' :: 'o' :: ' ' :: rest, []⟩ = [⟨6, rest, [⟨1, "minutes".toList, [a, b]⟩]⟩] := by
  have e1 : " to ".toList = [' ', 't', 'o', ' '] := rfl
  have e2 : " past ".toList = [' ', 'p', 'a', 's', 't', ' '] := rfl
  have e3 : "-past ".toList = ['-', 'p', 'a', 's', 't', ' '] := rfl
  have e4 : "at ".toList = ['a', 't', ' '] := rfl
  have e5 : "quarter".toList = ['q', 'u', 'a', 'r', 't', 'e', 'r'] := rfl
  have e6 : "half".toList = ['h', 'a', 'l', 'f'] := rfl
  refine ⟨?_, ?_, ?_, ?_, ?_, ?_⟩ <;>
  simp [InvertedTimeTerm.headItems, e1, e2, e3, e4, e5, e6, Regex.chain, Regex.text,
    Regex.anyOf, matchAll_seq, matchAll_alt, matchAll_opt, matchAll_group, matchAll_digits,
    matchAll_char_cons, matchAll_char_nil, ha, hb, toLower_of_digit,
    digit_beq_of_not_digit, countDown, bindStates_cons, bindStates_nil,
    digit_test_of_ascii, isDecimalDigit_of_ascii, isWhitespace_of_gt, isWhitespace_blank,
    digit_test_of_isDigit ha, isDecimalDigit_of_isDigit ha, isWhitespace_of_isDigit ha,
    digit_test_of_isDigit hb, isDecimalDigit_of_isDigit hb, isWhitespace_of_isDigit hb]

/-- The part of the pattern before the hour group on the keyword quarter
followed by " to ". -/
theorem InvertedTimeTerm.head_to_quarter (rest : Text) :
    matchAll (Regex.chain (headItems " past " (Regex.rep CharSet.digit 2 (some 2))))
      ⟨0, 'q' :: 'u' :: 'a' :: 'r' :: 't' :: 'e' :: 'r' :: ' ' :: 't' :: 'o' :: ' ' :: rest, []⟩ = [] ∧
    matchAll (Regex.chain (headItems " past " (Regex.rep CharSet.digit 1 (some 2))))
      ⟨0, 'q' :: 'u' :: 'a' :: 'r' :: 't' :: 'e' :: 'r' :: ' ' :: 't' :: 'o' :: ' ' :: rest, []⟩ = [] ∧
    matchAll (Regex.chain (headItems "-past " (Regex.rep CharSet.digit 2 (some 2))))
      ⟨0, 'q' :: 'u' :: 'a' :: 'r' :: 't' :: 'e' :: 'r' :: ' ' :: 't' :: 'o' :: ' ' :: rest, []⟩ = [] ∧
    matchAll (Regex.chain (headItems "-past " (Regex.rep CharSet.digit 1 (some 2))))
      ⟨0, 'q' :: 'u' :: 'a' :: 'r' :: 't' :: 'e' :: 'r' :: ' ' :: 't' :: 'o' :: ' ' :: rest, []⟩ = [] ∧
    matchAll (Regex.chain (headItems " to " (Regex.rep CharSet.digit 2 (some 2))))
      ⟨0, 'q' :: 'u' :: 'a' :: 'r' :: 't' :: 'e' :: 'r' :: ' ' :: 't' :: 'o' :: ' ' :: rest, []⟩ = [⟨11, rest, [⟨1, "minutes".toList, "quarter".toList⟩]⟩] ∧
    matchAll (Regex.chain (headItems " to " (Regex.rep CharSet.digit 1 (some 2))))
      ⟨0, 'q' :: 'u' :: 'a' :: 'r' :: 't' :: 'e' :: 'r' :: ' ' :: 't' :: 'o' :: ' ' :: rest, []⟩ = [⟨11, rest, [⟨1, "minutes".toList, "quarter".toList⟩]⟩] := by
  have e1 : " to ".toList = [' ', 't', 'o', ' '] := rfl
  have e2 : " past ".toList = [' ', 'p', 'a', 's', 't', ' '] := rfl
  have e3 : "-past ".toList = ['-', 'p', 'a', 's', 't', ' '] := rfl
  have e4 : "at ".toList = ['a', 't', ' '] := rfl
  have e5 : "quarter".toList = ['q', 'u', 'a', 'r', 't', 'e', 'r'] := rfl
  have e6 : "half".toList = ['h', 'a', 'l', 'f'] := rfl
  refine ⟨?_, ?_, ?_, ?_, ?_, ?_⟩ <;>
  simp [InvertedTimeTerm.headItems, e1, e2, e3, e4, e5, e6, Regex.chain, Regex.text,
    Regex.anyOf, matchAll_seq, matchAll_alt, matchAll_opt, matchAll_group, matchAll_digits,
    matchAll_char_cons, matchAll_char_nil,  toLower_of_digit,
    digit_beq_of_not_digit, countDown, bindStates_cons, bindStates_nil,
    digit_test_of_ascii, isDecimalDigit_of_ascii, isWhitespace_of_gt, isWhitespace_blank]

/-- The part of the pattern before the hour group on the keyword half
followed by " to ". -/
theorem InvertedTimeTerm.head_to_half (rest : Text) :
    matchAll (Regex.chain (headItems " past " (Regex.rep CharSet.digit 2 (some 2))))
      ⟨0, 'h' :: 'a' :: 'l' :: 'f' :: ' ' :: 't' :: 'o' :: ' ' :: rest, []⟩ = [] ∧
    matchAll (Regex.chain (headItems " past " (Regex.rep CharSet.digit 1 (some 2))))
      ⟨0, 'h' :: 'a' :: 'l' :: 'f' :: ' ' :: 't' :: 'o' :: ' ' :: rest, []⟩ = [] ∧
    matchAll (Regex.chain (headItems "-past " (Regex.rep CharSet.digit 2 (some 2))))
      ⟨0, 'h' :: 'a' :: 'l' :: 'f' :: ' ' :: 't' :: 'o' :: ' ' :: rest, []⟩ = [] ∧
    matchAll (Regex.chain (headItems "-past " (Regex.rep CharSet.digit 1 (some 2))))
      ⟨0, 'h' :: 'a' :: 'l' :: 'f' :: ' ' :: 't' :: 'o' :: ' ' :: rest, []⟩ = [] ∧
    matchAll (Regex.chain (headItems " to " (Regex.rep CharSet.digit 2 (some 2))))
      ⟨0, 'h' :: 'a' :: 'l' :: 'f' :: ' ' :: 't' :: 'o' :: ' ' :: rest, []⟩ = [⟨8, rest, [⟨1, "minutes".toList, "half".toList⟩]⟩] ∧
    matchAll (Regex.chain (headItems " to " (Regex.rep CharSet.digit 1 (some 2))))
      ⟨0, 'h' :: 'a' :: 'l' :: 'f' :: ' ' :: 't' :: 'o' :: ' ' :: rest, []⟩ = [⟨8, rest, [⟨1, "minutes".toList, "half".toList⟩]⟩] := by
  have e1 : " to ".toList = [' ', 't', 'o', ' '] := rfl
  have e2 : " past ".toList = [' ', 'p', 'a', 's', 't', ' '] := rfl
  have e3 : "-past ".toList = ['-', 'p', 'a', 's', 't', ' '] := rfl
  have e4 : "at ".toList = ['a', 't', ' '] := rfl
  have e5 : "quarter".toList = ['q', 'u', 'a', 'r', 't', 'e', 'r'] := rfl
  have e6 : "half".toList = ['h', 'a', 'l', 'f'] := rfl
  refine ⟨?_, ?_, ?_, ?_, ?_, ?_⟩ <;>
  simp [InvertedTimeTerm.headItems, e1, e2, e3, e4, e5, e6, Regex.chain, Regex.text,
    Regex.anyOf, matchAll_seq, matchAll_alt, matchAll_opt, matchAll_group, matchAll_digits,
    matchAll_char_cons, matchAll_char_nil,  toLower_of_digit,
    digit_beq_of_not_digit, countDown, bindStates_cons, bindStates_nil,
    digit_test_of_ascii, isDecimalDigit_of_ascii, isWhitespace_of_gt, isWhitespace_blank]

/-- The part of the pattern before the hour group on a one-digit minute numeral
followed by " past ". -/
theorem InvertedTimeTerm.head_past_one (a : Char) (ha : a.isDigit = true) (rest : Text) :
    matchAll (Regex.chain (headItems " past " (Regex.rep CharSet.digit 2 (some 2))))
      ⟨0, a :: ' ' :: 'p' :: 'a' :: 's' :: 't' :: ' ' :: rest, []⟩ = [] ∧
    matchAll (Regex.chain (headItems " past " (Regex.rep CharSet.digit 1 (some 2))))
      ⟨0, a :: ' ' :: 'p' :: 'a' :: 's' :: 't' :: ' ' :: rest, []⟩ = [⟨7, rest, [⟨1, "minutes".toList, [a]⟩]⟩] ∧
    matchAll (Regex.chain (headItems "-past " (Regex.rep CharSet.digit 2 (some 2))))
      ⟨0, a :: ' ' :: 'p' :: 'a' :: 's' :: 't' :: ' ' :: rest, []⟩ = [] ∧
    matchAll (Regex.chain (headItems "-past " (Regex.rep CharSet.digit 1 (some 2))))
      ⟨0, a :: ' ' :: 'p' :: 'a' :: 's' :: 't' :: ' ' :: rest, []⟩ = [] ∧
    matchAll (Regex.chain (headItems " to " (Regex.rep CharSet.digit 2 (some 2))))
      ⟨0, a :: ' ' :: 'p' :: 'a' :: 's' :: 't' :: ' ' :: rest, []⟩ = [] ∧
    matchAll (Regex.chain (headItems " to " (Regex.rep CharSet.digit 1 (some 2))))
      ⟨0, a :: ' ' :: 'p' :: 'a' :: 's' :: 't' :: ' ' :: rest, []⟩ = [] := by
  have e1 : " to ".toList = [' ', 't', 'o', ' '] := rfl
  have e2 : " past ".toList = [' ', 'p', 'a', 's', 't', ' '] := rfl
  have e3 : "-past ".toList = ['-', 'p', 'a', 's', 't', ' '] := rfl
  have e4 : "at ".toList = ['a', 't', ' '] := rfl
  have e5 : "quarter".toList = ['q', 'u', 'a', 'r', 't', 'e', 'r'] := rfl
  have e6 : "half".toList = ['h', 'a', 'l', 'f'] := rfl
  refine ⟨?_, ?_, ?_, ?_, ?_, ?_⟩ <;>
  simp [InvertedTimeTerm.headItems, e1, e2, e3, e4, e5, e6, Regex.chain, Regex.text,
    Regex.anyOf, matchAll_seq, matchAll_alt, matchAll_opt, matchAll_group, matchAll_digits,
    matchAll_char_cons, matchAll_char_nil, ha, toLower_of_digit,
    digit_beq_of_not_digit, countDown, bindStates_cons, bindStates_nil,
    digit_test_of_ascii, isDecimalDigit_of_ascii, isWhitespace_of_gt, isWhitespace_blank,
    digit_test_of_isDigit ha, isDecimalDigit_of_isDigit ha, isWhitespace_of_isDigit ha]

/-- The part of the pattern before the hour group on a two-digit minute numeral
followed by " past ". -/
theorem InvertedTimeTerm.head_past_two (a b : Char) (ha : a.isDigit = true) (hb : b.isDigit = true) (rest : Text) :
    matchAll (Regex.chain (headItems " past " (Regex.rep CharSet.digit 2 (some 2))))
      ⟨0, a :: b :: ' ' :: 'p' :: 'a' :: 's' :: 't' :: ' ' :: rest, []⟩ = [⟨8, rest, [⟨1, "minutes".toList, [a, b]⟩]⟩] ∧
    matchAll (Regex.chain (headItems " past " (Regex.rep CharSet.digit 1 (some 2))))
      ⟨0, a :: b :: ' ' :: 'p' :: 'a' :: 's' :: 't' :: ' ' :: rest, []⟩ = [⟨8, rest, [⟨1, "minutes".toList, [a, b]⟩]⟩] ∧
    matchAll (Regex.chain (headItems "-past " (Regex.rep CharSet.digit 2 (some 2))))
      ⟨0, a :: b :: ' ' :: 'p' :: 'a' :: 's' :: 't' :: ' ' :: rest, []⟩ = [] ∧
    matchAll (Regex.chain (headItems "-past " (Regex.rep CharSet.digit 1 (some 2))))
      ⟨0, a :: b :: ' ' :: 'p' :: 'a' :: 's' :: 't' :: ' ' :: rest, []⟩ = [] ∧
    matchAll (Regex.chain (headItems " to " (Regex.rep CharSet.digit 2 (some 2))))
      ⟨0, a :: b :: ' ' :: 'p' :: 'a' :: 's' :: 't' :: ' ' :: rest, []⟩ = [] ∧
    matchAll (Regex.chain (headItems " to " (Regex.rep CharSet.digit 1 (some 2))))
      ⟨0, a :: b :: ' ' :: 'p' :: 'a' :: 's' :: 't' :: ' ' :: rest, []⟩ = [] := by
  have e1 : " to ".toList = [' ', 't', 'o', ' '] := rfl
  have e2 : " past ".toList = [' ', 'p', 'a', 's', 't', ' '] := rfl
  have e3 : "-past ".toList = ['-', 'p', 'a', 's', 't', ' '] := rfl
  have e4 : "at ".toList = ['a', 't', ' '] := rfl
  have e5 : "quarter".toList = ['q', 'u', 'a', 'r', 't', 'e', 'r'] := rfl
  have e6 : "half".toList = ['h', 'a', 'l', 'f'] := rfl
  refine ⟨?_, ?_, ?_, ?_, ?_, ?_⟩ <;>
  simp [InvertedTimeTerm.headItems, e1, e2, e3, e4, e5, e6, Regex.chain, Regex.text,
    Regex.anyOf, matchAll_seq, matchAll_alt, matchAll_opt, matchAll_group, matchAll_digits,
    matchAll_char_cons, matchAll_char_nil, ha, hb, toLower_of_digit,
    digit_beq_of_not_digit, countDown, bindStates_cons, bindStates_nil,
    digit_test_of_ascii, isDecimalDigit_of_ascii, isWhitespace_of_gt, isWhitespace_blank,
    digit_test_of_isDigit ha, isDecimalDigit_of_isDigit ha, isWhitespace_of_isDigit ha,
    digit_test_of_isDigit hb, isDecimalDigit_of_isDigit hb, isWhitespace_of_isDigit hb]

/-- The part of the pattern before the hour group on the keyword quarter
followed by " past ". -/
theorem InvertedTimeTerm.head_past_quarter (rest : Text) :
    matchAll (Regex.chain (headItems " past " (Regex.rep CharSet.digit 2 (some 2))))
      ⟨0, 'q' :: 'u' :: 'a' :: 'r' :: 't' :: 'e' :: 'r' :: ' ' :: 'p' :: 'a' :: 's' :: 't' :: ' ' :: rest, []⟩ = [⟨13, rest, [⟨1, "minutes".toList, "quarter".toList⟩]⟩] ∧
    matchAll (Regex.chain (headItems " past " (Regex.rep CharSet.digit 1 (some 2))))
      ⟨0, 'q' :: 'u' :: 'a' :: 'r' :: 't' :: 'e' :: 'r' :: ' ' :: 'p' :: 'a' :: 's' :: 't' :: ' ' :: rest, []⟩ = [⟨13, rest, [⟨1, "minutes".toList, "quarter".toList⟩]⟩] ∧
    matchAll (Regex.chain (headItems "-past " (Regex.rep CharSet.digit 2 (some 2))))
      ⟨0, 'q' :: 'u' :: 'a' :: 'r' :: 't' :: 'e' :: 'r' :: ' ' :: 'p' :: 'a' :: 's' :: 't' :: ' ' :: rest, []⟩ = [] ∧
    matchAll (Regex.chain (headItems "-past " (Regex.rep CharSet.digit 1 (some 2))))
      ⟨0, 'q' :: 'u' :: 'a' :: 'r' :: 't' :: 'e' :: 'r' :: ' ' :: 'p' :: 'a' :: 's' :: 't' :: ' ' :: rest, []⟩ = [] ∧
    matchAll (Regex.chain (headItems " to " (Regex.rep CharSet.digit 2 (some 2))))
      ⟨0, 'q' :: 'u' :: 'a' :: 'r' :: 't' :: 'e' :: 'r' :: ' ' :: 'p' :: 'a' :: 's' :: 't' :: ' ' :: rest, []⟩ = [] ∧
    matchAll (Regex.chain (headItems " to " (Regex.rep CharSet.digit 1 (some 2))))
      ⟨0, 'q' :: 'u' :: 'a' :: 'r' :: 't' :: 'e' :: 'r' :: ' ' :: 'p' :: 'a' :: 's' :: 't' :: ' ' :: rest, []⟩ = [] := by
  have e1 : " to ".toList = [' ', 't', 'o', ' '] := rfl
  have e2 : " past ".toList = [' ', 'p', 'a', 's', 't', ' '] := rfl
  have e3 : "-past ".toList = ['-', 'p', 'a', 's', 't', ' '] := rfl
  have e4 : "at ".toList = ['a', 't', ' '] := rfl
  have e5 : "quarter".toList = ['q', 'u', 'a', 'r', 't', 'e', 'r'] := rfl
  have e6 : "half".toList = ['h', 'a', 'l', 'f'] := rfl
  refine ⟨?_, ?_, ?_, ?_, ?_, ?_⟩ <;>
  simp [InvertedTimeTerm.headItems, e1, e2, e3, e4, e5, e6, Regex.chain, Regex.text,
    Regex.anyOf, matchAll_seq, matchAll_alt, matchAll_opt, matchAll_group, matchAll_digits,
    matchAll_char_cons, matchAll_char_nil,  toLower_of_digit,
    digit_beq_of_not_digit, countDown, bindStates_cons, bindStates_nil,
    digit_test_of_ascii, isDecimalDigit_of_ascii, isWhitespace_of_gt, isWhitespace_blank]

/-- The part of the pattern before the hour group on the keyword half
followed by " past ". -/
theorem InvertedTimeTerm.head_past_half (rest : Text) :
    matchAll (Regex.chain (headItems " past " (Regex.rep CharSet.digit 2 (some 2))))
      ⟨0, 'h' :: 'a' :: 'l' :: 'f' :: ' ' :: 'p' :: 'a' :: 's' :: 't' :: ' ' :: rest, []⟩ = [⟨10, rest, [⟨1, "minutes".toList, "half".toList⟩]⟩] ∧
    matchAll (Regex.chain (headItems " past " (Regex.rep CharSet.digit 1 (some 2))))
      ⟨0, 'h' :: 'a' :: 'l' :: 'f' :: ' ' :: 'p' :: 'a' :: 's' :: 't' :: ' ' :: rest, []⟩ = [⟨10, rest, [⟨1, "minutes".toList, "half".toList⟩]⟩] ∧
    matchAll (Regex.chain (headItems "-past " (Regex.rep CharSet.digit 2 (some 2))))
      ⟨0, 'h' :: 'a' :: 'l' :: 'f' :: ' ' :: 'p' :: 'a' :: 's' :: 't' :: ' ' :: rest, []⟩ = [] ∧
    matchAll (Regex.chain (headItems "-past " (Regex.rep CharSet.digit 1 (some 2))))
      ⟨0, 'h' :: 'a' :: 'l' :: 'f' :: ' ' :: 'p' :: 'a' :: 's' :: 't' :: ' ' :: rest, []⟩ = [] ∧
    matchAll (Regex.chain (headItems " to " (Regex.rep CharSet.digit 2 (some 2))))
      ⟨0, 'h' :: 'a' :: 'l' :: 'f' :: ' ' :: 'p' :: 'a' :: 's' :: 't' :: ' ' :: rest, []⟩ = [] ∧
    matchAll (Regex.chain (headItems " to " (Regex.rep CharSet.digit 1 (some 2))))
      ⟨0, 'h' :: 'a' :: 'l' :: 'f' :: ' ' :: 'p' :: 'a' :: 's' :: 't' :: ' ' :: rest, []⟩ = [] := by
  have e1 : " to ".toList = [' ', 't', 'o', ' '] := rfl
  have e2 : " past ".toList = [' ', 'p', 'a', 's', 't', ' '] := rfl
  have e3 : "-past ".toList = ['-', 'p', 'a', 's', 't', ' '] := rfl
  have e4 : "at ".toList = ['a', 't', ' '] := rfl
  have e5 : "quarter".toList = ['q', 'u', 'a', 'r', 't', 'e', 'r'] := rfl
  have e6 : "half".toList = ['h', 'a', 'l', 'f'] := rfl
  refine ⟨?_, ?_, ?_, ?_, ?_, ?_⟩ <;>
  simp [InvertedTimeTerm.headItems, e1, e2, e3, e4, e5, e6, Regex.chain, Regex.text,
    Regex.anyOf, matchAll_seq, matchAll_alt, matchAll_opt, matchAll_group, matchAll_digits,
    matchAll_char_cons, matchAll_char_nil,  toLower_of_digit,
    digit_beq_of_not_digit, countDown, bindStates_cons, bindStates_nil,
    digit_test_of_ascii, isDecimalDigit_of_ascii, isWhitespace_of_gt, isWhitespace_blank]

end Expressions

namespace Expressions

open Qt

/-- The pattern from the hour group on, on a one-digit hour numeral that ends
the text. -/
theorem InvertedTimeTerm.tail_one (c : Char) (hc : c.isDigit = true) (p : Nat)
    (caps : List Capture) :
    matchAll (Regex.chain (tailItems (Regex.chain [Regex.rep CharSet.digit 2 (some 2),
      Regex.char ' ', Regex.anyOf [Regex.text "AM", Regex.text "PM"]]))) ⟨p, [c], caps⟩ = [] ∧
    matchAll (Regex.chain (tailItems (Regex.chain [Regex.rep CharSet.digit 1 (some 2),
      Regex.char ' ', Regex.anyOf [Regex.text "AM", Regex.text "PM"]]))) ⟨p, [c], caps⟩ = [] ∧
    matchAll (Regex.chain (tailItems (Regex.rep CharSet.digit 2 (some 2)))) ⟨p, [c], caps⟩ = [] ∧
    matchAll (Regex.chain (tailItems (Regex.rep CharSet.digit 1 (some 2)))) ⟨p, [c], caps⟩ =
      [⟨p + 1, [], ⟨2, "hours".toList, [c]⟩ :: caps⟩] := by
  refine ⟨?_, ?_, ?_, ?_⟩ <;>
  simp [InvertedTimeTerm.tailItems, Regex.chain, Regex.text,
    Regex.anyOf, matchAll_seq, matchAll_alt, matchAll_opt, matchAll_group, matchAll_digits,
    matchAll_spaces_nil, matchAll_char_cons, matchAll_char_nil, hc,
    countDown, bindStates_cons, bindStates_nil,
    digit_test_of_ascii, isDecimalDigit_of_ascii, isWhitespace_of_gt, isWhitespace_blank,
    digit_test_of_isDigit hc, isDecimalDigit_of_isDigit hc, isWhitespace_of_isDigit hc]

/-- The pattern from the hour group on, on a two-digit hour numeral that ends
the text. -/
theorem InvertedTimeTerm.tail_two (c d : Char) (hc : c.isDigit = true) (hd : d.isDigit = true)
    (p : Nat) (caps : List Capture) :
    matchAll (Regex.chain (tailItems (Regex.chain [Regex.rep CharSet.digit 2 (some 2),
      Regex.char ' ', Regex.anyOf [Regex.text "AM", Regex.text "PM"]]))) ⟨p, [c, d], caps⟩ = [] ∧
    matchAll (Regex.chain (tailItems (Regex.chain [Regex.rep CharSet.digit 1 (some 2),
      Regex.char ' ', Regex.anyOf [Regex.text "AM", Regex.text "PM"]]))) ⟨p, [c, d], caps⟩ = [] ∧
    matchAll (Regex.chain (tailItems (Regex.rep CharSet.digit 2 (some 2)))) ⟨p, [c, d], caps⟩ =
      [⟨p + 2, [], ⟨2, "hours".toList, [c, d]⟩ :: caps⟩] := by
  refine ⟨?_, ?_, ?_⟩ <;>
  simp [InvertedTimeTerm.tailItems, Regex.chain, Regex.text,
    Regex.anyOf, matchAll_seq, matchAll_alt, matchAll_opt, matchAll_group, matchAll_digits,
    matchAll_spaces_nil, matchAll_char_cons, matchAll_char_nil, hc, hd,
    toLower_of_digit, digit_beq_of_not_digit,
    countDown, bindStates_cons, bindStates_nil,
    digit_test_of_ascii, isDecimalDigit_of_ascii, isWhitespace_of_gt, isWhitespace_blank,
    digit_test_of_isDigit hc, isDecimalDigit_of_isDigit hc, isWhitespace_of_isDigit hc,
    digit_test_of_isDigit hd, isDecimalDigit_of_isDigit hd, isWhitespace_of_isDigit hd]

end Expressions

namespace Expressions

open Qt

theorem InvertedTimeTerm.compiledCandidates_eq :
    InvertedTimeTerm.compiledCandidates =
      InvertedTimeTerm.candidatesFor " past " ['+'] ++
        (InvertedTimeTerm.candidatesFor "-past " ['+'] ++
          InvertedTimeTerm.candidatesFor " to " ['-']) := by
  simp [InvertedTimeTerm.compiledCandidates, InvertedTimeTerm.candidatesFor]

/-- No candidate of an expression pattern matches a text on which the part
before the hour group fails. -/
theorem InvertedTimeTerm.candidatesFor_none (sep : String) (sign subject : Text)
    (h2 : matchAll (Regex.chain (headItems sep (Regex.rep CharSet.digit 2 (some 2))))
      ⟨0, subject, []⟩ = [])
    (h1 : matchAll (Regex.chain (headItems sep (Regex.rep CharSet.digit 1 (some 2))))
      ⟨0, subject, []⟩ = []) :
    (InvertedTimeTerm.candidatesFor sep sign).findSome? (fun c => c.try subject) = none := by
  simp only [InvertedTimeTerm.candidatesFor, InvertedTimeTerm.compiledHours,
    InvertedTimeTerm.compiledMinutes, List.map_cons, List.map_nil, List.flatten_cons,
    List.flatten_nil, List.cons_append, List.nil_append, List.append_nil, List.findSome?_cons,
    List.findSome?_nil, InvTimeCandidate.try_eq, h1, h2, bindStates_nil,
    InvertedTimeTerm.fromStates_nil]

/-- The first candidate of an expression pattern that matches: the pattern `hh`
for a two-digit hour and `h` otherwise, with `mm` when it matches and `m` otherwise. -/
theorem InvertedTimeTerm.candidatesFor_some (sep : String) (sign subject : Text) (s t : MState)
    (hf mf : Text) (r : InvertedTimeTerm × Nat)
    (hm1 : matchAll (Regex.chain (headItems sep (Regex.rep CharSet.digit 1 (some 2))))
      ⟨0, subject, []⟩ = [s])
    (hm2 : (matchAll (Regex.chain (headItems sep (Regex.rep CharSet.digit 2 (some 2))))
        ⟨0, subject, []⟩ = [] ∧ mf = ['m']) ∨
      (matchAll (Regex.chain (headItems sep (Regex.rep CharSet.digit 2 (some 2))))
        ⟨0, subject, []⟩ = [s] ∧ mf = ['m', 'm']))
    (ha2 : matchAll (Regex.chain (tailItems (Regex.chain [Regex.rep CharSet.digit 2 (some 2),
      Regex.char ' ', Regex.anyOf [Regex.text "AM", Regex.text "PM"]]))) s = [])
    (ha1 : matchAll (Regex.chain (tailItems (Regex.chain [Regex.rep CharSet.digit 1 (some 2),
      Regex.char ' ', Regex.anyOf [Regex.text "AM", Regex.text "PM"]]))) s = [])
    (hh : (matchAll (Regex.chain (tailItems (Regex.rep CharSet.digit 2 (some 2)))) s = [] ∧
        matchAll (Regex.chain (tailItems (Regex.rep CharSet.digit 1 (some 2)))) s = [t] ∧
        hf = ['h']) ∨
      (matchAll (Regex.chain (tailItems (Regex.rep CharSet.digit 2 (some 2)))) s = [t] ∧
        hf = ['h', 'h']))
    (hr : InvertedTimeTerm.fromStates [t] subject sign hf mf = some r) :
    (InvertedTimeTerm.candidatesFor sep sign).findSome? (fun c => c.try subject) = some r := by
  have e1 : "hh".toList = ['h', 'h'] := rfl
  have e2 : "h".toList = ['h'] := rfl
  have e3 : "mm".toList = ['m', 'm'] := rfl
  have e4 : "m".toList = ['m'] := rfl
  rcases hh with ⟨hh2, hh1, rfl⟩ | ⟨hh2, rfl⟩
  · rcases hm2 with ⟨hm2, rfl⟩ | ⟨hm2, rfl⟩ <;>
    simp only [InvertedTimeTerm.candidatesFor, InvertedTimeTerm.compiledHours,
      InvertedTimeTerm.compiledMinutes, List.map_cons, List.map_nil, List.flatten_cons,
      List.flatten_nil, List.cons_append, List.nil_append, List.append_nil, List.findSome?_cons,
      List.findSome?_nil, InvTimeCandidate.try_eq, hm1, hm2, ha1, ha2, hh2, hh1, bindStates_nil,
      bindStates_cons, InvertedTimeTerm.fromStates_nil, e1, e2, e3, e4, hr]
  · rcases hm2 with ⟨hm2, rfl⟩ | ⟨hm2, rfl⟩ <;>
    simp only [InvertedTimeTerm.candidatesFor, InvertedTimeTerm.compiledHours,
      InvertedTimeTerm.compiledMinutes, List.map_cons, List.map_nil, List.flatten_cons,
      List.flatten_nil, List.cons_append, List.nil_append, List.append_nil, List.findSome?_cons,
      List.findSome?_nil, InvTimeCandidate.try_eq, hm1, hm2, ha1, ha2, hh2, bindStates_nil,
      bindStates_cons, InvertedTimeTerm.fromStates_nil, e1, e2, e3, e4, hr]

end Expressions

namespace Expressions

open Qt

theorem InvertedTimeTerm.keywords_eq :
    InvertedTimeTerm.keywords =
      ([("quarter".toList, 15), ("half".toList, 30)], "|quarter|half".toList) := by
  decide!

/-- The groups of a match: `hours` and `minutes` by name. -/
theorem InvertedTimeTerm.capturedName_eq (n : Nat) (subject H M : Text) :
    QRegularExpressionMatch.capturedName
        { hasMatch := true, capturedStart := 0, capturedEnd := n, subject := subject,
          caps := [⟨2, "hours".toList, H⟩, ⟨1, "minutes".toList, M⟩] } "hours".toList = H ∧
      QRegularExpressionMatch.capturedName
        { hasMatch := true, capturedStart := 0, capturedEnd := n, subject := subject,
          caps := [⟨2, "hours".toList, H⟩, ⟨1, "minutes".toList, M⟩] } "minutes".toList = M := by
  constructor <;> simp [QRegularExpressionMatch.capturedName, List.find?]

/-- What `InvertedTimeTerm::parse` returns for a match with sign `-`. -/
theorem InvertedTimeTerm.fromStates_to (n : Nat) (subject H M hf mf : Text) (hours minutes : Int)
    (hH : (toTime H hf).hour = hours)
    (hM : (match InvertedTimeTerm.keywords.1.lookup M with
      | some v => v
      | none => (toTime M mf).minute) = minutes)
    (hn : n ≤ subject.length) (h1 : 0 ≤ hours) (h2 : hours ≤ 23) (m1 : 1 ≤ minutes)
    (m2 : minutes ≤ 59) :
    InvertedTimeTerm.fromStates [⟨n, [], [⟨2, "hours".toList, H⟩, ⟨1, "minutes".toList, M⟩]⟩]
        subject ['-'] hf mf =
      some (InvertedTimeTerm.create
        (QTime.ofHMS (if hours = 0 then 23 else hours - 1) (60 - minutes) 0 0), n) := by
  have hv : (QTime.ofHMS (if hours = 0 then 23 else hours - 1) (60 - minutes) 0 0).isValid
      = true := by
    apply QTime.isValid_ofHMS <;> (try split_ifs) <;> omega
  simp only [InvertedTimeTerm.fromStates, InvertedTimeTerm.fromMatch, if_true,
    (InvertedTimeTerm.capturedName_eq n subject H M).1,
    (InvertedTimeTerm.capturedName_eq n subject H M).2, hH, hM, hv,
    QRegularExpressionMatch.capturedLength, QRegularExpressionMatch.captured, List.drop_zero,
    Nat.sub_zero, List.length_take, Nat.min_eq_left hn]

/-- What `InvertedTimeTerm::parse` returns for a match with sign `+`. -/
theorem InvertedTimeTerm.fromStates_past (n : Nat) (subject H M hf mf : Text)
    (hours minutes : Int)
    (hH : (toTime H hf).hour = hours)
    (hM : (match InvertedTimeTerm.keywords.1.lookup M with
      | some v => v
      | none => (toTime M mf).minute) = minutes)
    (hn : n ≤ subject.length) (h1 : 0 ≤ hours) (h2 : hours ≤ 23) (m1 : 1 ≤ minutes)
    (m2 : minutes ≤ 59) :
    InvertedTimeTerm.fromStates [⟨n, [], [⟨2, "hours".toList, H⟩, ⟨1, "minutes".toList, M⟩]⟩]
        subject ['+'] hf mf =
      some (InvertedTimeTerm.create (QTime.ofHMS hours minutes 0 0), n) := by
  have hv : (QTime.ofHMS hours minutes 0 0).isValid = true := by
    apply QTime.isValid_ofHMS <;> omega
  have hs : ¬ (['+'] : Text) = ['-'] := by decide
  simp only [InvertedTimeTerm.fromStates, InvertedTimeTerm.fromMatch, if_true,
    (InvertedTimeTerm.capturedName_eq n subject H M).1,
    (InvertedTimeTerm.capturedName_eq n subject H M).2, hH, hM, hv, hs, if_false,
    QRegularExpressionMatch.capturedLength, QRegularExpressionMatch.captured, List.drop_zero,
    Nat.sub_zero, List.length_take, Nat.min_eq_left hn]

end Expressions

namespace Expressions

open Qt

/-- The minute of a minute text as `InvertedTimeTerm::parse` reads it: the
keyword map first, else the numeral in a format that fits it. -/
theorem InvertedTimeTerm.minute_value {M : Text} {m : Nat}
    (hM : InvertedTimeTerm.isMinuteText M m) (hm : m ≤ 59) (mf : Text)
    (hmf : isNumeral M m → mf = ['m'] ∨ (M.length = 2 ∧ mf = ['m', 'm'])) :
    (match InvertedTimeTerm.keywords.1.lookup M with
      | some v => v
      | none => (toTime M mf).minute) = (m : Int) := by
  rw [InvertedTimeTerm.keywords_eq]
  rcases hM with hnum | ⟨rfl, rfl⟩ | ⟨rfl, rfl⟩
  · have hl : List.lookup M [("quarter".toList, (15 : Int)), ("half".toList, 30)] = none := by
      rcases isNumeral_cases hnum with ⟨a, rfl, -, -⟩ | ⟨a, b, rfl, -, -, -⟩ <;>
      simp [List.lookup]
    simp only [hl]
    rcases hmf hnum with rfl | ⟨h2, rfl⟩
    · exact (toTime_minute hnum hm).1
    · exact (toTime_minute hnum hm).2 h2
  · simp [List.lookup]
  · simp [List.lookup]

end Expressions

namespace Expressions

open Qt

/-- The part of the pattern before the hour group on a minute text followed by
" to ": only the pattern with " to " matches, with the minute pattern `m`, and
with `mm` unless the text is a one-digit numeral. -/
theorem InvertedTimeTerm.head_to {M : Text} {m : Nat} (hM : InvertedTimeTerm.isMinuteText M m)
    (rest : Text) :
    matchAll (Regex.chain (headItems " past " (Regex.rep CharSet.digit 2 (some 2))))
      ⟨0, M ++ " to ".toList ++ rest, []⟩ = [] ∧
    matchAll (Regex.chain (headItems " past " (Regex.rep CharSet.digit 1 (some 2))))
      ⟨0, M ++ " to ".toList ++ rest, []⟩ = [] ∧
    matchAll (Regex.chain (headItems "-past " (Regex.rep CharSet.digit 2 (some 2))))
      ⟨0, M ++ " to ".toList ++ rest, []⟩ = [] ∧
    matchAll (Regex.chain (headItems "-past " (Regex.rep CharSet.digit 1 (some 2))))
      ⟨0, M ++ " to ".toList ++ rest, []⟩ = [] ∧
    matchAll (Regex.chain (headItems " to " (Regex.rep CharSet.digit 1 (some 2))))
      ⟨0, M ++ " to ".toList ++ rest, []⟩ =
        [⟨M.length + 4, rest, [⟨1, "minutes".toList, M⟩]⟩] ∧
    ∃ mf : Text,
      ((matchAll (Regex.chain (headItems " to " (Regex.rep CharSet.digit 2 (some 2))))
          ⟨0, M ++ " to ".toList ++ rest, []⟩ = [] ∧ mf = ['m']) ∨
        (matchAll (Regex.chain (headItems " to " (Regex.rep CharSet.digit 2 (some 2))))
          ⟨0, M ++ " to ".toList ++ rest, []⟩ =
            [⟨M.length + 4, rest, [⟨1, "minutes".toList, M⟩]⟩] ∧ mf = ['m', 'm'])) ∧
      (isNumeral M m → mf = ['m'] ∨ (M.length = 2 ∧ mf = ['m', 'm'])) := by
  rcases hM with hnum | ⟨rfl, rfl⟩ | ⟨rfl, rfl⟩
  · rcases isNumeral_cases hnum with ⟨a, rfl, ha, -⟩ | ⟨a, b, rfl, ha, hb, -⟩
    · obtain ⟨f1, f2, f3, f4, f5, f6⟩ := InvertedTimeTerm.head_to_one a ha rest
      exact ⟨f1, f2, f3, f4, f6, ['m'], Or.inl ⟨f5, rfl⟩, fun _ => Or.inl rfl⟩
    · obtain ⟨f1, f2, f3, f4, f5, f6⟩ := InvertedTimeTerm.head_to_two a b ha hb rest
      exact ⟨f1, f2, f3, f4, f6, ['m', 'm'], Or.inr ⟨f5, rfl⟩, fun _ => Or.inr ⟨rfl, rfl⟩⟩
  · obtain ⟨f1, f2, f3, f4, f5, f6⟩ := InvertedTimeTerm.head_to_quarter rest
    exact ⟨f1, f2, f3, f4, f6, ['m', 'm'], Or.inr ⟨f5, rfl⟩,
      fun h => absurd h.1 (by decide)⟩
  · obtain ⟨f1, f2, f3, f4, f5, f6⟩ := InvertedTimeTerm.head_to_half rest
    exact ⟨f1, f2, f3, f4, f6, ['m', 'm'], Or.inr ⟨f5, rfl⟩,
      fun h => absurd h.1 (by decide)⟩

/-- The part of the pattern before the hour group on a minute text followed by
" past ": the pattern with " past " matches, with the minute pattern `m`, and
with `mm` unless the text is a one-digit numeral. -/
theorem InvertedTimeTerm.head_past {M : Text} {m : Nat}
    (hM : InvertedTimeTerm.isMinuteText M m) (rest : Text) :
    matchAll (Regex.chain (headItems " past " (Regex.rep CharSet.digit 1 (some 2))))
      ⟨0, M ++ " past ".toList ++ rest, []⟩ =
        [⟨M.length + 6, rest, [⟨1, "minutes".toList, M⟩]⟩] ∧
    ∃ mf : Text,
      ((matchAll (Regex.chain (headItems " past " (Regex.rep CharSet.digit 2 (some 2))))
          ⟨0, M ++ " past ".toList ++ rest, []⟩ = [] ∧ mf = ['m']) ∨
        (matchAll (Regex.chain (headItems " past " (Regex.rep CharSet.digit 2 (some 2))))
          ⟨0, M ++ " past ".toList ++ rest, []⟩ =
            [⟨M.length + 6, rest, [⟨1, "minutes".toList, M⟩]⟩] ∧ mf = ['m', 'm'])) ∧
      (isNumeral M m → mf = ['m'] ∨ (M.length = 2 ∧ mf = ['m', 'm'])) := by
  rcases hM with hnum | ⟨rfl, rfl⟩ | ⟨rfl, rfl⟩
  · rcases isNumeral_cases hnum with ⟨a, rfl, ha, -⟩ | ⟨a, b, rfl, ha, hb, -⟩
    · obtain ⟨f1, f2, -, -, -, -⟩ := InvertedTimeTerm.head_past_one a ha rest
      exact ⟨f2, ['m'], Or.inl ⟨f1, rfl⟩, fun _ => Or.inl rfl⟩
    · obtain ⟨f1, f2, -, -, -, -⟩ := InvertedTimeTerm.head_past_two a b ha hb rest
      exact ⟨f2, ['m', 'm'], Or.inr ⟨f1, rfl⟩, fun _ => Or.inr ⟨rfl, rfl⟩⟩
  · obtain ⟨f1, f2, -, -, -, -⟩ := InvertedTimeTerm.head_past_quarter rest
    exact ⟨f2, ['m', 'm'], Or.inr ⟨f1, rfl⟩, fun h => absurd h.1 (by decide)⟩
  · obtain ⟨f1, f2, -, -, -, -⟩ := InvertedTimeTerm.head_past_half rest
    exact ⟨f2, ['m', 'm'], Or.inr ⟨f1, rfl⟩, fun h => absurd h.1 (by decide)⟩

/-- The pattern from the hour group on, on an hour numeral that ends the text:
the patterns with AM/PM fail, `hh` matches a two-digit numeral and `h` a
one-digit numeral, and the format reads the numeral. -/
theorem InvertedTimeTerm.tail_numeral {H : Text} {h : Nat} (hH : isNumeral H h) (hh : h ≤ 23)
    (p : Nat) (caps : List Capture) :
    matchAll (Regex.chain (tailItems (Regex.chain [Regex.rep CharSet.digit 2 (some 2),
      Regex.char ' ', Regex.anyOf [Regex.text "AM", Regex.text "PM"]]))) ⟨p, H, caps⟩ = [] ∧
    matchAll (Regex.chain (tailItems (Regex.chain [Regex.rep CharSet.digit 1 (some 2),
      Regex.char ' ', Regex.anyOf [Regex.text "AM", Regex.text "PM"]]))) ⟨p, H, caps⟩ = [] ∧
    ∃ hf : Text,
      ((matchAll (Regex.chain (tailItems (Regex.rep CharSet.digit 2 (some 2)))) ⟨p, H, caps⟩ = [] ∧
          matchAll (Regex.chain (tailItems (Regex.rep CharSet.digit 1 (some 2)))) ⟨p, H, caps⟩ =
            [⟨p + H.length, [], ⟨2, "hours".toList, H⟩ :: caps⟩] ∧ hf = ['h']) ∨
        (matchAll (Regex.chain (tailItems (Regex.rep CharSet.digit 2 (some 2)))) ⟨p, H, caps⟩ =
            [⟨p + H.length, [], ⟨2, "hours".toList, H⟩ :: caps⟩] ∧ hf = ['h', 'h'])) ∧
      (toTime H hf).hour = (h : Int) := by
  rcases isNumeral_cases hH with ⟨c, rfl, hc, -⟩ | ⟨c, d, rfl, hc, hd, -⟩
  · obtain ⟨f1, f2, f3, f4⟩ := InvertedTimeTerm.tail_one c hc p caps
    exact ⟨f1, f2, ['h'], Or.inl ⟨f3, f4, rfl⟩, (toTime_hour hH hh).1⟩
  · obtain ⟨f1, f2, f3⟩ := InvertedTimeTerm.tail_two c d hc hd p caps
    exact ⟨f1, f2, ['h', 'h'], Or.inr ⟨f3, rfl⟩, (toTime_hour hH hh).2 rfl⟩

/-- C8. For a minute text of value `m` in 1..59 (a numeral of one or two
digits, or the keyword `quarter` = 15 or `half` = 30) and an hour numeral of
value `h` in 0..23, `InvertedTimeTerm::parse` of "m to h" yields the time with
hour `h - 1` (23 when `h = 0`) and minute `60 - m`, and of "m past h" the time
with hour `h` and minute `m`; the whole text is consumed. -/
theorem invertedTime_to_past (M H : Text) (m h : Nat)
    (hM : InvertedTimeTerm.isMinuteText M m) (hH : isNumeral H h)
    (hm1 : 1 ≤ m) (hm2 : m ≤ 59) (hh : h ≤ 23) :
    InvertedTimeTerm.parse (M ++ " to ".toList ++ H) =
        some (InvertedTimeTerm.create
          (QTime.ofHMS (if (h : Int) = 0 then 23 else (h : Int) - 1) (60 - (m : Int)) 0 0),
          M.length + 4 + H.length) ∧
      InvertedTimeTerm.parse (M ++ " past ".toList ++ H) =
        some (InvertedTimeTerm.create (QTime.ofHMS (h : Int) (m : Int) 0 0),
          M.length + 6 + H.length) := by
  constructor
  · obtain ⟨f1, f2, f3, f4, g1, mf, g2, hmf⟩ := InvertedTimeTerm.head_to hM H
    obtain ⟨a2, a1, hf, t1, hhour⟩ :=
      InvertedTimeTerm.tail_numeral hH hh (M.length + 4) [⟨1, "minutes".toList, M⟩]
    rw [InvertedTimeTerm.parse_eq_compiled, InvertedTimeTerm.compiledCandidates_eq,
      List.findSome?_append, List.findSome?_append,
      InvertedTimeTerm.candidatesFor_none _ _ _ f1 f2,
      InvertedTimeTerm.candidatesFor_none _ _ _ f3 f4]
    simp only [Option.none_or]
    exact InvertedTimeTerm.candidatesFor_some _ _ _ _ _ hf mf _ g1 g2 a2 a1 t1
      (InvertedTimeTerm.fromStates_to _ _ H M hf mf h m hhour
        (InvertedTimeTerm.minute_value hM hm2 mf hmf)
        (by simp; omega) (by omega) (by omega) (by omega) (by omega))
  · obtain ⟨g1, mf, g2, hmf⟩ := InvertedTimeTerm.head_past hM H
    obtain ⟨a2, a1, hf, t1, hhour⟩ :=
      InvertedTimeTerm.tail_numeral hH hh (M.length + 6) [⟨1, "minutes".toList, M⟩]
    rw [InvertedTimeTerm.parse_eq_compiled, InvertedTimeTerm.compiledCandidates_eq,
      List.findSome?_append,
      InvertedTimeTerm.candidatesFor_some _ _ _ _ _ hf mf _ g1 g2 a2 a1 t1
        (InvertedTimeTerm.fromStates_past _ _ H M hf mf h m hhour
          (InvertedTimeTerm.minute_value hM hm2 mf hmf)
          (by simp; omega) (by omega) (by omega) (by omega) (by omega))]
    rfl

theorem invertedTime_to_past_witness :
    InvertedTimeTerm.isMinuteText "10".toList 10 ∧ isNumeral "4".toList 4 ∧
      InvertedTimeTerm.parse "10 to 4".toList =
        some (InvertedTimeTerm.create (QTime.ofHMS 3 50 0 0), 7) ∧
      InvertedTimeTerm.parse "10 past 4".toList =
        some (InvertedTimeTerm.create (QTime.ofHMS 4 10 0 0), 9) :=
  have hM : InvertedTimeTerm.isMinuteText "10".toList 10 :=
    Or.inl ⟨by decide, by decide, by decide⟩
  have hH : isNumeral "4".toList 4 := ⟨by decide, by decide, by decide⟩
  ⟨hM, hH, invertedTime_to_past "10".toList "4".toList 10 4 hM hH (by decide) (by decide)
    (by decide)⟩

end Expressions

namespace Expressions

open Qt

/-- C9. The regular expression of `InvertedTimeTerm::parse` matches a minute
keyword in any capitalisation, but the keyword map is looked up with the text
as captured: "Quarter past 6" and "HALF past 6" yield no term, while
"quarter past 6" and "half past 6" yield 06:15 and 06:30. The pattern for
" past " with the formats `h` and `mm` does match "Quarter past 6" and captures
"Quarter" as the minutes; the keyword map has no such key, and read as a
number the text gives the minute -1 of an invalid time. -/
theorem invertedTime_keyword_case :
    InvertedTimeTerm.parse "Quarter past 6".toList = none ∧
      InvertedTimeTerm.parse "quarter past 6".toList =
        some (InvertedTimeTerm.create (QTime.ofHMS 6 15 0 0), 14) ∧
      InvertedTimeTerm.parse "HALF past 6".toList = none ∧
      InvertedTimeTerm.parse "half past 6".toList =
        some (InvertedTimeTerm.create (QTime.ofHMS 6 30 0 0), 11) ∧
      (regexMatch (InvertedTimeTerm.regexText "%2 past %1".toList
          (InvertedTimeTerm.hourToRegex "h".toList) (InvertedTimeTerm.minToRegex "mm".toList))
        "Quarter past 6".toList).hasMatch = true ∧
      (regexMatch (InvertedTimeTerm.regexText "%2 past %1".toList
          (InvertedTimeTerm.hourToRegex "h".toList) (InvertedTimeTerm.minToRegex "mm".toList))
        "Quarter past 6".toList).capturedName "minutes".toList = "Quarter".toList ∧
      InvertedTimeTerm.keywords.1.lookup "Quarter".toList = none ∧
      InvertedTimeTerm.keywords.1.lookup "quarter".toList = some 15 ∧
      (toTime "Quarter".toList "mm".toList).minute = -1 := by
  simp only [InvertedTimeTerm.parse_eq_compiled]
  decide!

end Expressions

namespace Expressions

open Qt

theorem SequenceTerm.compile_regexText :
    compile (SequenceTerm.regexText false) = some (.seq .bol SequenceTerm.compiledPair) := by
  decide!

theorem SequenceTerm.exprCombos_eq :
    SequenceTerm.exprCombos =
      [("(?:every\\ |all\\ )".toList, true), ("(?:in\\ )?".toList, false)] := by
  decide!

theorem SequenceTerm.compile_loopPrefix :
    compile ('^' :: "(?:every\\ |all\\ )".toList) =
      some (.seq .bol (.alt (Regex.text "every ") (Regex.text "all "))) := by
  decide!

theorem SequenceTerm.compile_plainPrefix :
    compile ('^' :: "(?:in\\ )?".toList) = some (.seq .bol (.opt (Regex.text "in "))) := by
  decide!

end Expressions

namespace Qt


/-- One or more digits in a pattern against a text: the digits at its start are counted. -/
theorem matchAll_digits_plus (p : Nat) (rest : Text) (caps : List Capture) :
    matchAll (.rep .digit 1 none) ⟨p, rest, caps⟩ =
      (countDown 1 (rest.takeWhile CharSet.digit.test).length).map
        (fun k => ⟨p + k, rest.drop k, caps⟩) := by
  simp only [matchAll, MState.advance]
  rfl

/-- One space character of the pattern against the next character of the subject. -/
theorem matchAll_space_cons (x : Char) (p : Nat) (rest : Text) (caps : List Capture) :
    matchAll (.rep .space 1 (some 1)) ⟨p, x :: rest, caps⟩ =
      if CharSet.space.test x = true then [⟨p + 1, rest, caps⟩] else [] := by
  by_cases h : CharSet.space.test x = true
  · have h1 : min ((List.takeWhile CharSet.space.test rest).length + 1) 1 = 1 := by omega
    simp [matchAll, h, countDown, MState.advance, h1]
  · simp [matchAll, h, countDown]

/-- Any number of spaces in a pattern against a text: the spaces at its start are counted. -/
theorem matchAll_spaces (p : Nat) (rest : Text) (caps : List Capture) :
    matchAll (.rep .space 0 none) ⟨p, rest, caps⟩ =
      (countDown 0 (rest.takeWhile CharSet.space.test).length).map
        (fun k => ⟨p + k, rest.drop k, caps⟩) := by
  simp only [matchAll, MState.advance]
  rfl

theorem matchAll_eps (s : MState) : matchAll .eps s = [s] := by
  simp only [matchAll]

/-- `toInt` of a numeral of one or two digits. -/
theorem toInt_numeral {t : Text} {n : Nat} (h : isNumeral t n) : Text.toInt t = some (n : Int) := by
  have hval := h.2.2
  have hn : n ≤ 99 := by
    rcases isNumeral_cases h with ⟨a, -, ha, hv⟩ | ⟨a, b, -, ha, hb, hv⟩
    · have := digit_toNat ha
      omega
    · have := digit_toNat ha
      have := digit_toNat hb
      omega
  have hne : t.isEmpty = false := by
    rcases isNumeral_cases h with ⟨a, rfl, -, -⟩ | ⟨a, b, rfl, -, -, -⟩ <;> rfl
  have hsign : ∀ c : Char, c.isDigit = false → ∀ rest, t ≠ c :: rest := by
    intro c hc rest hcr
    have := h.2.1 c (by rw [hcr]; exact List.mem_cons_self _ _)
    rw [this] at hc
    exact Bool.noConfusion hc
  unfold Text.toInt
  split
  · exact absurd rfl (hsign '-' (by decide) _)
  · exact absurd rfl (hsign '+' (by decide) _)
  · simp only [hne, hval, Bool.false_eq_true, if_false]
    rw [if_pos (by constructor <;> omega)]

end Qt


namespace Expressions

open Qt

/-- One round of the loop of `SequenceTerm::parse` on a pair whose unit is
already in the sequence: `break`. -/
theorem SequenceTerm.parseLoop_duplicate (regex : Text) (looped : Bool) (expression : Text)
    (fuel offset : Nat) (sequence : Sequence) (m : QRegularExpressionMatch) (scope : Nat)
    (hm : regexMatch regex (expression.drop offset) = m) (hmatch : m.hasMatch = true)
    (hscope : (SequenceTerm.nameLookup.lookup (Text.toLower (m.captured 2))).getD InvalidScope
      = scope)
    (hdup : sequence.contains scope = true) :
    SequenceTerm.parseLoop regex looped expression (fuel + 1) offset sequence = .broke := by
  simp only [SequenceTerm.parseLoop, hm, hmatch, hscope, hdup, if_true, or_true]

/-- One round of the loop of `SequenceTerm::parse` without loop prefix on a pair
with a new unit that a conjunction follows: the pair is inserted and the loop
goes on behind the match. -/
theorem SequenceTerm.parseLoop_continue (regex : Text) (expression : Text)
    (fuel offset : Nat) (sequence : Sequence) (m : QRegularExpressionMatch) (scope : Nat)
    (numDays : Int)
    (hm : regexMatch regex (expression.drop offset) = m) (hmatch : m.hasMatch = true)
    (hscope : (SequenceTerm.nameLookup.lookup (Text.toLower (m.captured 2))).getD InvalidScope
      = scope)
    (hvalid : scope ≠ InvalidScope) (hnew : sequence.contains scope = false)
    (hnum : Text.toInt (m.captured 1) = some numDays) (hconj : m.capturedLength 3 > 0) :
    SequenceTerm.parseLoop regex false expression (fuel + 1) offset sequence =
      SequenceTerm.parseLoop regex false expression fuel (offset + m.capturedLength 0)
        (sequence.insert scope numDays) := by
  simp only [SequenceTerm.parseLoop, hm, hmatch, hscope, hvalid, hnew, hnum, hconj, if_true,
    Bool.false_and, Bool.false_eq_true, if_false, or_self]

/-- One round of the loop of `SequenceTerm::parse` without loop prefix on a pair
with a new unit that no conjunction follows: the term is returned. -/
theorem SequenceTerm.parseLoop_return (regex : Text) (expression : Text)
    (fuel offset : Nat) (sequence : Sequence) (m : QRegularExpressionMatch) (scope : Nat)
    (numDays : Int)
    (hm : regexMatch regex (expression.drop offset) = m) (hmatch : m.hasMatch = true)
    (hscope : (SequenceTerm.nameLookup.lookup (Text.toLower (m.captured 2))).getD InvalidScope
      = scope)
    (hvalid : scope ≠ InvalidScope) (hnew : sequence.contains scope = false)
    (hnum : Text.toInt (m.captured 1) = some numDays) (hconj : m.capturedLength 3 = 0) :
    SequenceTerm.parseLoop regex false expression (fuel + 1) offset sequence =
      .returned (SequenceTerm.create (sequence.insert scope numDays) false)
        (offset + m.capturedLength 0) := by
  simp only [SequenceTerm.parseLoop, hm, hmatch, hscope, hvalid, hnew, hnum, hconj, if_true,
    Bool.false_and, Bool.false_eq_true, if_false, or_self, gt_iff_lt, Nat.lt_irrefl]

end Expressions

namespace Expressions

open Qt

/-- The `<count> <unit>` pattern on a count numeral, " days and " and a
further digit: the match ends behind the space after the conjunction. -/
theorem SequenceTerm.match_days_and {a : Text} {n : Nat} (ha : isNumeral a n) (u : Char)
    (hu : u.isDigit = true) (rest : Text) :
    regexMatch (SequenceTerm.regexText false) (a ++ " days and ".toList ++ u :: rest) =
      { hasMatch := true, capturedStart := 0, capturedEnd := a.length + 10,
        subject := a ++ " days and ".toList ++ u :: rest,
        caps := [⟨3, [], " and".toList⟩, ⟨2, [], "days".toList⟩, ⟨1, [], a⟩] } := by
  unfold regexMatch
  rw [SequenceTerm.compile_regexText, matchCompiled_bol]
  rcases isNumeral_cases ha with ⟨x, rfl, hx, -⟩ | ⟨x, y, rfl, hx, hy, -⟩ <;>
  simp [SequenceTerm.compiledPair, Regex.anyOf, Regex.text, Regex.chain,
    matchAll_seq, matchAll_alt, matchAll_opt, matchAll_group, matchAll_digits_plus,
    matchAll_space_cons, matchAll_spaces, matchAll_char_cons, matchAll_char_nil, hx, hu,
    CharSet.test, toLower_of_digit, digit_beq_of_not_digit, countDown, bindStates_cons,
    bindStates_nil, matchAll_eps, *,
    digit_test_of_ascii, isDecimalDigit_of_ascii, isWhitespace_of_gt, isWhitespace_blank,
    digit_test_of_isDigit hu, isDecimalDigit_of_isDigit hu, isWhitespace_of_isDigit hu,
    digit_test_of_isDigit hx, isDecimalDigit_of_isDigit hx, isWhitespace_of_isDigit hx,
    digit_test_of_isDigit, isDecimalDigit_of_isDigit, isWhitespace_of_isDigit]

/-- The `<count> <unit>` pattern on a count numeral and " days" at the end of
the text: no conjunction is captured. -/
theorem SequenceTerm.match_days_end {b : Text} {k : Nat} (hb : isNumeral b k) :
    regexMatch (SequenceTerm.regexText false) (b ++ " days".toList) =
      { hasMatch := true, capturedStart := 0, capturedEnd := b.length + 5,
        subject := b ++ " days".toList,
        caps := [⟨4, [], []⟩, ⟨2, [], "days".toList⟩, ⟨1, [], b⟩] } := by
  unfold regexMatch
  rw [SequenceTerm.compile_regexText, matchCompiled_bol]
  rcases isNumeral_cases hb with ⟨x, rfl, hx, -⟩ | ⟨x, y, rfl, hx, hy, -⟩ <;>
  simp [SequenceTerm.compiledPair, Regex.anyOf, Regex.text, Regex.chain,
    matchAll_seq, matchAll_alt, matchAll_opt, matchAll_group, matchAll_digits_plus,
    matchAll_space_cons, matchAll_spaces, matchAll_char_cons, matchAll_char_nil, hx,
    CharSet.test, toLower_of_digit, digit_beq_of_not_digit, countDown, bindStates_cons,
    bindStates_nil, matchAll_eps, *,
    digit_test_of_ascii, isDecimalDigit_of_ascii, isWhitespace_of_gt, isWhitespace_blank,
    digit_test_of_isDigit hx, isDecimalDigit_of_isDigit hx, isWhitespace_of_isDigit hx,
    digit_test_of_isDigit, isDecimalDigit_of_isDigit, isWhitespace_of_isDigit]

/-- The `<count> <unit>` pattern on a count numeral and " hours" at the end of
the text: no conjunction is captured. -/
theorem SequenceTerm.match_hours_end {b : Text} {k : Nat} (hb : isNumeral b k) :
    regexMatch (SequenceTerm.regexText false) (b ++ " hours".toList) =
      { hasMatch := true, capturedStart := 0, capturedEnd := b.length + 6,
        subject := b ++ " hours".toList,
        caps := [⟨4, [], []⟩, ⟨2, [], "hours".toList⟩, ⟨1, [], b⟩] } := by
  unfold regexMatch
  rw [SequenceTerm.compile_regexText, matchCompiled_bol]
  rcases isNumeral_cases hb with ⟨x, rfl, hx, -⟩ | ⟨x, y, rfl, hx, hy, -⟩ <;>
  simp [SequenceTerm.compiledPair, Regex.anyOf, Regex.text, Regex.chain,
    matchAll_seq, matchAll_alt, matchAll_opt, matchAll_group, matchAll_digits_plus,
    matchAll_space_cons, matchAll_spaces, matchAll_char_cons, matchAll_char_nil, hx,
    CharSet.test, toLower_of_digit, digit_beq_of_not_digit, countDown, bindStates_cons,
    bindStates_nil, matchAll_eps, *,
    digit_test_of_ascii, isDecimalDigit_of_ascii, isWhitespace_of_gt, isWhitespace_blank,
    digit_test_of_isDigit hx, isDecimalDigit_of_isDigit hx, isWhitespace_of_isDigit hx,
    digit_test_of_isDigit, isDecimalDigit_of_isDigit, isWhitespace_of_isDigit]

/-- The loop prefix does not match a text that starts with `i`. -/
theorem SequenceTerm.loopPrefix_no_match (rest : Text) :
    (regexMatch ('^' :: "(?:every\\ |all\\ )".toList) ('i' :: rest)).hasMatch = false := by
  unfold regexMatch
  rw [SequenceTerm.compile_loopPrefix, matchCompiled_bol]
  simp [Regex.text, Regex.chain, matchAll_seq, matchAll_alt, matchAll_char_cons,
    bindStates_cons, bindStates_nil, QRegularExpressionMatch.noMatch]

/-- The plain prefix on a text that starts with "in ". -/
theorem SequenceTerm.plainPrefix_match (rest : Text) :
    regexMatch ('^' :: "(?:in\\ )?".toList) ('i' :: 'n' :: ' ' :: rest) =
      { hasMatch := true, capturedStart := 0, capturedEnd := 3,
        subject := 'i' :: 'n' :: ' ' :: rest, caps := [] } := by
  unfold regexMatch
  rw [SequenceTerm.compile_plainPrefix, matchCompiled_bol]
  simp [Regex.text, Regex.chain, matchAll_seq, matchAll_opt, matchAll_char_cons,
    bindStates_cons, bindStates_nil]

end Expressions

namespace Expressions

open Qt

theorem SequenceTerm.scope_days :
    (SequenceTerm.nameLookup.lookup (Text.toLower "days".toList)).getD InvalidScope = Day ∧
      (SequenceTerm.nameLookup.lookup (Text.toLower "hours".toList)).getD InvalidScope = Hour := by
  decide!

/-- The plain combination on "in a days": the pair is returned. -/
theorem SequenceTerm.tryCombo_single {a : Text} {n : Nat} (ha : isNumeral a n) :
    SequenceTerm.tryCombo ("in ".toList ++ a ++ " days".toList) ("(?:in\\ )?".toList, false) =
      some (SequenceTerm.create [(Day, (n : Int))] false, a.length + 8) := by
  have hE : "in ".toList ++ a ++ " days".toList = 'i' :: 'n' :: ' ' :: (a ++ " days".toList) := rfl
  have hlen : ∃ f, ("in ".toList ++ a ++ " days".toList).length + 1 = f + 1 := ⟨_, rfl⟩
  obtain ⟨f, hf⟩ := hlen
  have hstep := SequenceTerm.parseLoop_return (SequenceTerm.regexText false)
    ('i' :: 'n' :: ' ' :: (a ++ " days".toList)) f 3 [] _ Day (n : Int)
    (SequenceTerm.match_days_end ha) rfl SequenceTerm.scope_days.1 (by decide) rfl
    (toInt_numeral ha) rfl
  have hcl : QRegularExpressionMatch.capturedLength
      { hasMatch := true, capturedStart := 0, capturedEnd := a.length + 5,
        subject := a ++ " days".toList,
        caps := [⟨4, [], []⟩, ⟨2, [], "days".toList⟩, ⟨1, [], a⟩] } 0 = a.length + 5 := by
    simp [QRegularExpressionMatch.capturedLength, QRegularExpressionMatch.captured]
  rw [hcl] at hstep
  rw [hE] at hf ⊢
  unfold SequenceTerm.tryCombo
  dsimp only
  rw [SequenceTerm.plainPrefix_match, hf]
  have h3 : QRegularExpressionMatch.capturedLength
      { hasMatch := true, capturedStart := 0, capturedEnd := 3,
        subject := 'i' :: 'n' :: ' ' :: (a ++ " days".toList), caps := [] } 0 = 3 := by
    simp [QRegularExpressionMatch.capturedLength, QRegularExpressionMatch.captured]
  rw [h3, hstep, show 3 + (a.length + 5) = a.length + 8 by omega]
  rfl

/-- The plain combination on "in a days and b days": the second pair repeats the
unit, the loop breaks, nothing is returned. -/
theorem SequenceTerm.tryCombo_duplicate {a b : Text} {n k : Nat} (ha : isNumeral a n)
    (hb : isNumeral b k) :
    SequenceTerm.tryCombo ("in ".toList ++ a ++ " days and ".toList ++ b ++ " days".toList)
        ("(?:in\\ )?".toList, false) = none := by
  have hE : "in ".toList ++ a ++ " days and ".toList ++ b ++ " days".toList =
      'i' :: 'n' :: ' ' :: (a ++ " days and ".toList ++ (b ++ " days".toList)) := by
    simp only [List.append_assoc]
    rfl
  obtain ⟨u, restb, hbeq, hu⟩ : ∃ u restb, b = u :: restb ∧ u.isDigit = true := by
    rcases isNumeral_cases hb with ⟨x, rfl, hx, -⟩ | ⟨x, y, rfl, hx, -, -⟩
    · exact ⟨x, [], rfl, hx⟩
    · exact ⟨x, [y], rfl, hx⟩
  have hsub : a ++ " days and ".toList ++ (b ++ " days".toList) =
      a ++ " days and ".toList ++ u :: (restb ++ " days".toList) := by
    rw [hbeq]
    rfl
  have hm1 := SequenceTerm.match_days_and ha u hu (restb ++ " days".toList)
  rw [← hsub] at hm1
  have hcl : QRegularExpressionMatch.capturedLength
      { hasMatch := true, capturedStart := 0, capturedEnd := a.length + 10,
        subject := a ++ " days and ".toList ++ (b ++ " days".toList),
        caps := [⟨3, [], " and".toList⟩, ⟨2, [], "days".toList⟩, ⟨1, [], a⟩] } 0
      = a.length + 10 := by
    simp [QRegularExpressionMatch.capturedLength, QRegularExpressionMatch.captured]
  obtain ⟨f, hf⟩ : ∃ f, ('i' :: 'n' :: ' ' ::
      (a ++ " days and ".toList ++ (b ++ " days".toList))).length + 1 = f + 1 + 1 :=
    ⟨_, rfl⟩
  have hstep1 := SequenceTerm.parseLoop_continue (SequenceTerm.regexText false)
    ('i' :: 'n' :: ' ' :: (a ++ " days and ".toList ++ (b ++ " days".toList))) (f + 1) 3 [] _
    Day (n : Int) hm1 rfl SequenceTerm.scope_days.1 (by decide) rfl (toInt_numeral ha)
    (by simp [QRegularExpressionMatch.capturedLength, QRegularExpressionMatch.captured])
  rw [hcl] at hstep1
  have hdrop : List.drop (3 + (a.length + 10))
      ('i' :: 'n' :: ' ' :: (a ++ " days and ".toList ++ (b ++ " days".toList))) =
      b ++ " days".toList := by
    have e : 'i' :: 'n' :: ' ' :: (a ++ " days and ".toList ++ (b ++ " days".toList)) =
        ('i' :: 'n' :: ' ' :: (a ++ " days and ".toList)) ++ (b ++ " days".toList) := by
      simp only [List.cons_append, List.append_assoc]
    rw [e]
    exact List.drop_left' (by simp; omega)
  have hm2 : regexMatch (SequenceTerm.regexText false) (List.drop (3 + (a.length + 10))
      ('i' :: 'n' :: ' ' :: (a ++ " days and ".toList ++ (b ++ " days".toList)))) =
      { hasMatch := true, capturedStart := 0, capturedEnd := b.length + 5,
        subject := b ++ " days".toList,
        caps := [⟨4, [], []⟩, ⟨2, [], "days".toList⟩, ⟨1, [], b⟩] } := by
    rw [hdrop]
    exact SequenceTerm.match_days_end hb
  have hstep2 := SequenceTerm.parseLoop_duplicate (SequenceTerm.regexText false) false
    ('i' :: 'n' :: ' ' :: (a ++ " days and ".toList ++ (b ++ " days".toList))) f
    (3 + (a.length + 10)) (Sequence.insert [] Day (n : Int)) _ Day hm2 rfl
    SequenceTerm.scope_days.1 rfl
  have h3 : QRegularExpressionMatch.capturedLength
      { hasMatch := true, capturedStart := 0, capturedEnd := 3,
        subject := 'i' :: 'n' :: ' ' :: (a ++ " days and ".toList ++ (b ++ " days".toList)),
        caps := [] } 0 = 3 := by
    simp [QRegularExpressionMatch.capturedLength, QRegularExpressionMatch.captured]
  rw [hE]
  unfold SequenceTerm.tryCombo
  dsimp only
  rw [SequenceTerm.plainPrefix_match, hf, h3, hstep1, hstep2]
  rfl

/-- The plain combination on "in a days and b hours": both pairs are returned. -/
theorem SequenceTerm.tryCombo_distinct {a b : Text} {n k : Nat} (ha : isNumeral a n)
    (hb : isNumeral b k) :
    SequenceTerm.tryCombo ("in ".toList ++ a ++ " days and ".toList ++ b ++ " hours".toList)
        ("(?:in\\ )?".toList, false) = 
      some (SequenceTerm.create [(Day, (n : Int)), (Hour, (k : Int))] false,
        a.length + b.length + 19) := by
  have hE : "in ".toList ++ a ++ " days and ".toList ++ b ++ " hours".toList =
      'i' :: 'n' :: ' ' :: (a ++ " days and ".toList ++ (b ++ " hours".toList)) := by
    simp only [List.append_assoc]
    rfl
  obtain ⟨u, restb, hbeq, hu⟩ : ∃ u restb, b = u :: restb ∧ u.isDigit = true := by
    rcases isNumeral_cases hb with ⟨x, rfl, hx, -⟩ | ⟨x, y, rfl, hx, -, -⟩
    · exact ⟨x, [], rfl, hx⟩
    · exact ⟨x, [y], rfl, hx⟩
  have hsub : a ++ " days and ".toList ++ (b ++ " hours".toList) =
      a ++ " days and ".toList ++ u :: (restb ++ " hours".toList) := by
    rw [hbeq]
    rfl
  have hm1 := SequenceTerm.match_days_and ha u hu (restb ++ " hours".toList)
  rw [← hsub] at hm1
  have hcl : QRegularExpressionMatch.capturedLength
      { hasMatch := true, capturedStart := 0, capturedEnd := a.length + 10,
        subject := a ++ " days and ".toList ++ (b ++ " hours".toList),
        caps := [⟨3, [], " and".toList⟩, ⟨2, [], "days".toList⟩, ⟨1, [], a⟩] } 0
      = a.length + 10 := by
    simp [QRegularExpressionMatch.capturedLength, QRegularExpressionMatch.captured]
  obtain ⟨f, hf⟩ : ∃ f, ('i' :: 'n' :: ' ' ::
      (a ++ " days and ".toList ++ (b ++ " hours".toList))).length + 1 = f + 1 + 1 :=
    ⟨_, rfl⟩
  have hstep1 := SequenceTerm.parseLoop_continue (SequenceTerm.regexText false)
    ('i' :: 'n' :: ' ' :: (a ++ " days and ".toList ++ (b ++ " hours".toList))) (f + 1) 3 [] _
    Day (n : Int) hm1 rfl SequenceTerm.scope_days.1 (by decide) rfl (toInt_numeral ha)
    (by simp [QRegularExpressionMatch.capturedLength, QRegularExpressionMatch.captured])
  rw [hcl] at hstep1
  have hdrop : List.drop (3 + (a.length + 10))
      ('i' :: 'n' :: ' ' :: (a ++ " days and ".toList ++ (b ++ " hours".toList))) =
      b ++ " hours".toList := by
    have e : 'i' :: 'n' :: ' ' :: (a ++ " days and ".toList ++ (b ++ " hours".toList)) =
        ('i' :: 'n' :: ' ' :: (a ++ " days and ".toList)) ++ (b ++ " hours".toList) := by
      simp only [List.cons_append, List.append_assoc]
    rw [e]
    exact List.drop_left' (by simp; omega)
  have hm2 : regexMatch (SequenceTerm.regexText false) (List.drop (3 + (a.length + 10))
      ('i' :: 'n' :: ' ' :: (a ++ " days and ".toList ++ (b ++ " hours".toList)))) =
      { hasMatch := true, capturedStart := 0, capturedEnd := b.length + 6,
        subject := b ++ " hours".toList,
        caps := [⟨4, [], []⟩, ⟨2, [], "hours".toList⟩, ⟨1, [], b⟩] } := by
    rw [hdrop]
    exact SequenceTerm.match_hours_end hb
  have hcl2 : QRegularExpressionMatch.capturedLength
      { hasMatch := true, capturedStart := 0, capturedEnd := b.length + 6,
        subject := b ++ " hours".toList,
        caps := [⟨4, [], []⟩, ⟨2, [], "hours".toList⟩, ⟨1, [], b⟩] } 0 = b.length + 6 := by
    simp [QRegularExpressionMatch.capturedLength, QRegularExpressionMatch.captured]
  have hstep2 := SequenceTerm.parseLoop_return (SequenceTerm.regexText false)
    ('i' :: 'n' :: ' ' :: (a ++ " days and ".toList ++ (b ++ " hours".toList))) f
    (3 + (a.length + 10)) (Sequence.insert [] Day (n : Int)) _ Hour (k : Int) hm2 rfl
    SequenceTerm.scope_days.2 (by decide) rfl (toInt_numeral hb) rfl
  rw [hcl2] at hstep2
  have h3 : QRegularExpressionMatch.capturedLength
      { hasMatch := true, capturedStart := 0, capturedEnd := 3,
        subject := 'i' :: 'n' :: ' ' :: (a ++ " days and ".toList ++ (b ++ " hours".toList)),
        caps := [] } 0 = 3 := by
    simp [QRegularExpressionMatch.capturedLength, QRegularExpressionMatch.captured]
  rw [hE]
  unfold SequenceTerm.tryCombo
  dsimp only
  rw [SequenceTerm.plainPrefix_match, hf, h3, hstep1, hstep2]
  rw [show 3 + (a.length + 10) + (b.length + 6) = a.length + b.length + 19 by omega]
  rfl

/-- The combination with the loop prefix yields nothing on a text that starts with `i`. -/
theorem SequenceTerm.tryCombo_loop (rest : Text) :
    SequenceTerm.tryCombo ('i' :: rest) ("(?:every\\ |all\\ )".toList, true) = none := by
  unfold SequenceTerm.tryCombo
  dsimp only
  rw [SequenceTerm.loopPrefix_no_match]
  rfl

end Expressions

namespace Expressions

open Qt

/-- On a text that starts with `i`, `SequenceTerm::parse` is decided by the
combination with the plain prefix. -/
theorem SequenceTerm.parse_of_plain (rest : Text) :
    SequenceTerm.parse ('i' :: rest) =
      SequenceTerm.tryCombo ('i' :: rest) ("(?:in\\ )?".toList, false) := by
  unfold SequenceTerm.parse
  rw [SequenceTerm.exprCombos_eq]
  simp only [List.findSome?_cons, List.findSome?_nil, SequenceTerm.tryCombo_loop]
  cases SequenceTerm.tryCombo ('i' :: rest) ("(?:in\\ )?".toList, false) <;> rfl

/-- C10 (counterexample). "in 2 days and 3 days": the second pair repeats the
unit of the first, and the recognizer yields no term at all, not the sequence
of the first pair. -/
theorem sequence_duplicate_example_no_term :
    SequenceTerm.parse "in 2 days and 3 days".toList = none := by
  decide!

/-- C10 (amended). In `SequenceTerm::parse`, a `<count> <unit>` pair whose unit
is already in the sequence makes the loop break, and no term is returned: for
all counts `a` and `b` of one or two digits, "in a days and b days" yields no
term, whereas "in a days and b hours" yields both pairs and "in a days" the
single pair, each with the whole text consumed. -/
theorem sequence_duplicate_unit_no_term (a b : Text) (n k : Nat) (ha : isNumeral a n)
    (hb : isNumeral b k) :
    SequenceTerm.parse ("in ".toList ++ a ++ " days and ".toList ++ b ++ " days".toList) = none ∧
      SequenceTerm.parse ("in ".toList ++ a ++ " days and ".toList ++ b ++ " hours".toList) =
        some (SequenceTerm.create [(Day, (n : Int)), (Hour, (k : Int))] false,
          a.length + b.length + 19) ∧
      SequenceTerm.parse ("in ".toList ++ a ++ " days".toList) =
        some (SequenceTerm.create [(Day, (n : Int))] false, a.length + 8) := by
  refine ⟨?_, ?_, ?_⟩
  · rw [← SequenceTerm.tryCombo_duplicate ha hb]
    exact SequenceTerm.parse_of_plain _
  · rw [← SequenceTerm.tryCombo_distinct ha hb]
    exact SequenceTerm.parse_of_plain _
  · rw [← SequenceTerm.tryCombo_single ha]
    exact SequenceTerm.parse_of_plain _

theorem sequence_duplicate_unit_no_term_witness :
    isNumeral "2".toList 2 ∧ isNumeral "3".toList 3 ∧
      SequenceTerm.parse "in 2 days and 3 days".toList = none ∧
      SequenceTerm.parse "in 2 days and 3 hours".toList =
        some (SequenceTerm.create [(Day, 2), (Hour, 3)] false, 21) ∧
      SequenceTerm.parse "in 2 days".toList = some (SequenceTerm.create [(Day, 2)] false, 9) :=
  have ha : isNumeral "2".toList 2 := ⟨by decide, by decide, by decide⟩
  have hb : isNumeral "3".toList 3 := ⟨by decide, by decide, by decide⟩
  ⟨ha, hb, sequence_duplicate_unit_no_term "2".toList "3".toList 2 3 ha hb⟩

end Expressions
namespace Expressions

open Qt

set_option maxRecDepth 100000 in
/-- C11. In `SequenceTerm::parse`, a unit name without a count is accepted in
loop form only: for every unit name, "every " followed by the name yields the
looped sequence with count 1 for the unit, with the whole text consumed, while
"in " followed by the name, and the name alone, yield no term. -/
theorem sequence_bare_unit_loop_only (name : Text) (scope : Nat)
    (h : (name, scope) ∈ SequenceTerm.nameLookup) :
    SequenceTerm.parse ("every ".toList ++ name) =
        some (SequenceTerm.create [(scope, 1)] true, 6 + name.length) ∧
      SequenceTerm.parse ("in ".toList ++ name) = none ∧
      SequenceTerm.parse name = none := by
  have key : ∀ e ∈ SequenceTerm.nameLookup,
      SequenceTerm.parse ("every ".toList ++ e.1) =
          some (SequenceTerm.create [(e.2, 1)] true, 6 + e.1.length) ∧
        SequenceTerm.parse ("in ".toList ++ e.1) = none ∧
        SequenceTerm.parse e.1 = none := by
    decide!
  exact key (name, scope) h

theorem sequence_bare_unit_loop_only_witness :
    ("week".toList, Week) ∈ SequenceTerm.nameLookup ∧
      SequenceTerm.parse "every week".toList =
        some (SequenceTerm.create [(Week, 1)] true, 10) ∧
      SequenceTerm.parse "in week".toList = none ∧
      SequenceTerm.parse "week".toList = none :=
  have h : ("week".toList, Week) ∈ SequenceTerm.nameLookup := by decide!
  ⟨h, sequence_bare_unit_loop_only "week".toList Week h⟩

end Expressions
namespace ParserTypes

open Qt

/-- `DateParser::parseDate` returns valid dates only: for a text that no
pattern reads as a valid date it throws. -/
theorem DateParser.parseDate_valid (fromString : Text → Text → QDate) (data : Text)
    (date : QDate) (h : DateParser.parseDate fromString data = .ok date) :
    date.isValid = true := by
  unfold DateParser.parseDate at h
  split at h
  · rename_i pattern hp
    have := List.find?_some hp
    simp only [Except.ok.injEq] at h
    rw [← h]
    exact this
  · exact absurd h (by simp)

/-- The groups of a match that holds one group. -/
theorem captured_single (g k : Nat) (hk : k ≠ 0) (a b : Nat) (subject s : Text) :
    QRegularExpressionMatch.captured
        { hasMatch := true, capturedStart := a, capturedEnd := b, subject := subject,
          caps := [⟨g, [], s⟩] } k =
      if g = k then s else [] := by
  simp only [QRegularExpressionMatch.captured, hk, if_false, List.find?_cons, List.find?_nil]
  by_cases h : g = k
  · simp [h]
  · have h2 : (g == k) = false := by simpa using h
    simp [h, h2]

/-- `DateParser::parseTimePoint` by the cases of its match: today, tomorrow, a
year, no text at all, and any other text, which goes to `parseDate`. -/
theorem DateParser.parseTimePoint_cases (currentDate : QDate)
    (fromString : Text → Text → QDate) (parseDatum : Text → Except String Datum) (data : Text)
    (hn : (Text.simplified data).all (fun c => c != '\n') = true) :
    DateParser.parseTimePoint currentDate fromString parseDatum data =
      if Text.toLower (Text.simplified data) = "today".toList then
        .ok ⟨.DateMode, currentDate, none⟩
      else if Text.toLower (Text.simplified data) = "tomorrow".toList then
        .ok ⟨.DateMode, QDate.addDays currentDate 1, none⟩
      else if (Text.simplified data).length = 4 ∧
          (Text.simplified data).all Char.isDigit = true then
        .ok ⟨.YearMode, QDate.ofYMD ((Text.toInt (Text.simplified data)).getD 0) 1 1, none⟩
      else if Text.simplified data = [] then .ok TimePoint.new
      else
        match DateParser.parseDate fromString (Text.simplified data) with
        | .error e => .error e
        | .ok date =>
          if date.isValid then .ok ⟨.DateMode, date, none⟩
          else
            match parseDatum (Text.simplified data) with
            | .error e => .error e
            | .ok datum => .ok ⟨.DatumMode, QDate.null, some datum⟩ := by
  unfold DateParser.parseTimePoint
  generalize Text.simplified data = s at hn ⊢
  by_cases h1 : Text.toLower s = "today".toList
  · have hg : DateParser.parseTimePointMatch s =
        { hasMatch := true, capturedStart := 0, capturedEnd := s.length, subject := s,
          caps := [⟨1, [], s⟩] } := by
      simp only [DateParser.parseTimePointMatch, hn, h1, if_true]
    have hs : s.isEmpty = false := by
      cases s with
      | nil => exact absurd h1 (by decide)
      | cons _ _ => rfl
    simp [hg, captured_single, h1, hs, TimePoint.new]
  · by_cases h2 : Text.toLower s = "tomorrow".toList
    · have hg : DateParser.parseTimePointMatch s =
          { hasMatch := true, capturedStart := 0, capturedEnd := s.length, subject := s,
            caps := [⟨2, [], s⟩] } := by
        simp only [DateParser.parseTimePointMatch, hn, if_true, if_neg h1, if_pos h2]
      have hs : s.isEmpty = false := by
        cases s with
        | nil => exact absurd h2 (by decide)
        | cons _ _ => rfl
      simp [hg, captured_single, h1, h2, hs, TimePoint.new]
    · by_cases h3 : s.length = 4 ∧ s.all Char.isDigit = true
      · have hg : DateParser.parseTimePointMatch s =
            { hasMatch := true, capturedStart := 0, capturedEnd := s.length, subject := s,
              caps := [⟨3, [], s⟩] } := by
          simp only [DateParser.parseTimePointMatch, hn, if_true, if_neg h1, if_neg h2,
            if_pos h3]
        have hs : s.isEmpty = false := by
          cases s with
          | nil => exact absurd h3.1 (by decide)
          | cons _ _ => rfl
        have c1 := captured_single 3 1 (by decide) 0 s.length s s
        have c2 := captured_single 3 2 (by decide) 0 s.length s s
        have c3 := captured_single 3 3 (by decide) 0 s.length s s
        have c4 := captured_single 3 4 (by decide) 0 s.length s s
        simp only [show (3 : Nat) = 1 ↔ False by decide, show (3 : Nat) = 2 ↔ False by decide,
          show (3 : Nat) = 4 ↔ False by decide, if_true, if_false] at c1 c2 c3 c4
        simp only [hg, c1, c2, c3, c4, hs, if_neg h1, if_neg h2, if_pos h3, TimePoint.new,
          List.isEmpty_nil, Bool.not_true, Bool.not_false, Bool.false_eq_true, if_true, if_false]
      · have hg : DateParser.parseTimePointMatch s =
            { hasMatch := true, capturedStart := 0, capturedEnd := s.length, subject := s,
              caps := [⟨4, [], s⟩] } := by
          simp only [DateParser.parseTimePointMatch, hn, if_true, if_neg h1, if_neg h2,
            if_neg h3]
        have c1 := captured_single 4 1 (by decide) 0 s.length s s
        have c2 := captured_single 4 2 (by decide) 0 s.length s s
        have c3 := captured_single 4 3 (by decide) 0 s.length s s
        have c4 := captured_single 4 4 (by decide) 0 s.length s s
        simp only [show (4 : Nat) = 1 ↔ False by decide, show (4 : Nat) = 2 ↔ False by decide,
          show (4 : Nat) = 3 ↔ False by decide, if_true, if_false] at c1 c2 c3 c4
        by_cases hs : s = []
        · subst hs
          simp only [hg, c1, c2, c3, c4, if_neg h1, if_neg h2, if_neg h3, TimePoint.new,
            List.isEmpty_nil, Bool.not_true, Bool.false_eq_true, if_true, if_false]
        · have hs2 : s.isEmpty = false := by
            cases s with
            | nil => exact absurd rfl hs
            | cons _ _ => rfl
          simp only [hg, c1, c2, c3, c4, hs2, if_neg h1, if_neg h2, if_neg h3, if_neg hs,
            TimePoint.new, List.isEmpty_nil, Bool.not_true, Bool.not_false, Bool.false_eq_true,
            if_true, if_false]

/-- A time point that `DateParser::parseTimePoint` returns is never a datum:
the text that is neither today, tomorrow nor a year goes to `parseDate`, which
returns a valid date or throws.  It is of invalid mode only for a text without
words. -/
theorem DateParser.parseTimePoint_mode (currentDate : QDate)
    (fromString : Text → Text → QDate) (parseDatum : Text → Except String Datum) (data : Text)
    (tp : TimePoint)
    (h : DateParser.parseTimePoint currentDate fromString parseDatum data = .ok tp) :
    tp.mode ≠ .DatumMode ∧ tp.datum = none ∧
      (Text.simplified data ≠ [] → tp.mode ≠ .InvalidMode) := by
  by_cases hn : (Text.simplified data).all (fun c => c != '\n') = true
  · rw [DateParser.parseTimePoint_cases _ _ _ _ hn] at h
    split_ifs at h with h1 h2 h3 h4
    · simp only [Except.ok.injEq] at h
      rw [← h]
      exact ⟨by simp, rfl, fun _ => by simp⟩
    · simp only [Except.ok.injEq] at h
      rw [← h]
      exact ⟨by simp, rfl, fun _ => by simp⟩
    · simp only [Except.ok.injEq] at h
      rw [← h]
      exact ⟨by simp, rfl, fun _ => by simp⟩
    · simp only [Except.ok.injEq] at h
      rw [← h]
      exact ⟨by simp [TimePoint.new], rfl, fun hne => absurd h4 hne⟩
    · cases hd : DateParser.parseDate fromString (Text.simplified data) with
      | error e =>
        rw [hd] at h
        exact absurd h (by simp)
      | ok date =>
        rw [hd] at h
        have hv := DateParser.parseDate_valid _ _ _ hd
        simp only [hv, if_true, Except.ok.injEq] at h
        rw [← h]
        exact ⟨by simp, rfl, fun _ => by simp⟩
  · unfold DateParser.parseTimePoint DateParser.parseTimePointMatch at h
    simp only [hn, Bool.false_eq_true, if_false, QRegularExpressionMatch.noMatch] at h
    exact absurd h (by simp)

/-- C12, the claim at a loop from today until today, on 4 March 2024, for the
type "monday" (which `parseDatum` reads as the weekday 1), without datum and
time: `tryParseLoop` returns the loop, no error is thrown, though the `from`
point is not earlier than the `until` point. -/
theorem loop_same_date_accepted :
    DateParser.tryParseLoopMatched (QDate.ofYMD 2024 3 4) (fun _ _ => QDate.null)
        (fun data =>
          if Text.toLower data = "monday".toList then .ok ⟨.WeekDayScope, 1⟩
          else .error "Invalid datum specified")
        (fun _ => .error "Invalid time specified") DateParser.spanMap
        "monday".toList [] [] "today".toList "today".toList =
      .ok { type := some ⟨true, some ⟨.WeekDayScope, 1⟩, 0, .InvalidSpan⟩, datum := none,
            time := QTime.null,
            from_ := some ⟨.DateMode, QDate.ofYMD 2024 3 4, none⟩,
            until_ := some ⟨.DateMode, QDate.ofYMD 2024 3 4, none⟩ } ∧
    TimePoint.isLess ⟨.DateMode, QDate.ofYMD 2024 3 4, none⟩
      ⟨.DateMode, QDate.ofYMD 2024 3 4, none⟩ = false :=
  ⟨rfl, rfl⟩

/-- C12, amended. In `tryParseLoop` with both limits given, once the type, the
datum, the time and the two limits are parsed and the validation has passed:
neither limit is a datum (a text that is neither today, tomorrow nor a year
goes to `parseDate`, which returns a valid date or throws "Invalid date
specified"), and the loop is rejected with "from must be an earlier timepoint
than until" exactly when `until->isLess(from)` holds, and returned otherwise.
For two dates that is when the `until` date is strictly earlier than the `from`
date, so equal dates are accepted; where a year is compared with a date or a
year, when the year of `until` is strictly less than the year of `from`. -/
theorem loop_limits_rejected_iff (currentDate : QDate) (fromString : Text → Text → QDate)
    (parseDatum : Text → Except String Datum) (parseTime : Text → Except String QTime)
    (order : List (Text × Expression.Span)) (typeStr dateStr timeStr fromStr untilStr : Text)
    (type : Type_) (datum : Option Datum) (time : QTime) (f u : TimePoint)
    (hfrom : fromStr.isEmpty = false) (huntil : untilStr.isEmpty = false)
    (htype : DateParser.parseType parseDatum order typeStr = .ok type)
    (hdatum : (if !dateStr.isEmpty then (parseDatum dateStr).map some else .ok none) =
      .ok datum)
    (htime : (if !timeStr.isEmpty then parseTime timeStr else .ok QTime.null) = .ok time)
    (hf : DateParser.parseTimePoint currentDate fromString parseDatum fromStr = .ok f)
    (hu : DateParser.parseTimePoint currentDate fromString parseDatum untilStr = .ok u)
    (hvalid : DateParser.tryParseLoopValidate type datum time = .ok ()) :
    f.mode ≠ .DatumMode ∧ u.mode ≠ .DatumMode ∧
    (Text.simplified fromStr ≠ [] → f.mode ≠ .InvalidMode) ∧
    (Text.simplified untilStr ≠ [] → u.mode ≠ .InvalidMode) ∧
    (DateParser.tryParseLoopMatched currentDate fromString parseDatum parseTime order
        typeStr dateStr timeStr fromStr untilStr =
        .error "from must be an earlier timepoint than until" ↔
      TimePoint.isLess u f = true) ∧
    (TimePoint.isLess u f = false →
      DateParser.tryParseLoopMatched currentDate fromString parseDatum parseTime order
          typeStr dateStr timeStr fromStr untilStr =
        .ok { type := some type, datum := datum, time := time, from_ := some f,
              until_ := some u }) ∧
    (f.mode = .DateMode → u.mode = .DateMode →
      (TimePoint.isLess u f = true ↔ QDate.rawJd u.date < QDate.rawJd f.date)) ∧
    (f.mode ≠ .InvalidMode → u.mode ≠ .InvalidMode → f.mode = .YearMode ∨ u.mode = .YearMode →
      (TimePoint.isLess u f = true ↔ QDate.year u.date < QDate.year f.date)) ∧
    (∀ (data : Text) (date : QDate),
      DateParser.parseDate fromString data = .ok date → date.isValid = true) := by
  obtain ⟨hfm, -, hfi⟩ := DateParser.parseTimePoint_mode _ _ _ _ _ hf
  obtain ⟨hum, -, hui⟩ := DateParser.parseTimePoint_mode _ _ _ _ _ hu
  have hrun : DateParser.tryParseLoopMatched currentDate fromString parseDatum parseTime order
      typeStr dateStr timeStr fromStr untilStr =
      if TimePoint.isLess u f then .error "from must be an earlier timepoint than until"
      else .ok { type := some type, datum := datum, time := time, from_ := some f,
                 until_ := some u } := by
    have hdatum2 := hdatum
    simp only [Except.map] at hdatum2
    simp only [DateParser.tryParseLoopMatched, htype, hfrom, huntil, hf, hu, Bool.not_false,
      if_true, Except.map, DateParser.tryParseLoopLimits, Loop.new, hdatum2, htime, hvalid]
  refine ⟨hfm, hum, hfi, hui, ?_, ?_, ?_, ?_, DateParser.parseDate_valid fromString⟩
  · rw [hrun]
    by_cases h : TimePoint.isLess u f = true
    · simp [h]
    · simp [h]
  · intro h
    rw [hrun, h]
    rfl
  · intro hfd hud
    simp [TimePoint.isLess, hfd, hud, QDate.lt]
  · intro hfi2 hui2 hy
    have hnot : ¬ (u.mode = .DateMode ∧ f.mode = .DateMode) := by
      rintro ⟨h1, h2⟩
      rcases hy with hy | hy
      · rw [h2] at hy
        cases hy
      · rw [h1] at hy
        cases hy
    simp [TimePoint.isLess, hfi2, hui2, hfm, hum, hnot]

/-- C12 at a loop from tomorrow until today, on 4 March 2024, for the type
"monday": the `until` date is earlier than the `from` date, and the loop is
rejected. -/
theorem loop_limits_rejected_iff_witness :
    DateParser.tryParseLoopMatched (QDate.ofYMD 2024 3 4) (fun _ _ => QDate.null)
        (fun data =>
          if Text.toLower data = "monday".toList then .ok ⟨.WeekDayScope, 1⟩
          else .error "Invalid datum specified")
        (fun _ => .error "Invalid time specified") DateParser.spanMap
        "monday".toList [] [] "tomorrow".toList "today".toList =
      .error "from must be an earlier timepoint than until" ∧
    DateParser.parseTimePoint (QDate.ofYMD 2024 3 4) (fun _ _ => QDate.null)
        (fun data =>
          if Text.toLower data = "monday".toList then .ok ⟨.WeekDayScope, 1⟩
          else .error "Invalid datum specified") "tomorrow".toList =
      .ok ⟨.DateMode, QDate.ofYMD 2024 3 5, none⟩ ∧
    DateParser.parseTimePoint (QDate.ofYMD 2024 3 4) (fun _ _ => QDate.null)
        (fun data =>
          if Text.toLower data = "monday".toList then .ok ⟨.WeekDayScope, 1⟩
          else .error "Invalid datum specified") "today".toList =
      .ok ⟨.DateMode, QDate.ofYMD 2024 3 4, none⟩ ∧
    TimePoint.isLess ⟨.DateMode, QDate.ofYMD 2024 3 4, none⟩
      ⟨.DateMode, QDate.ofYMD 2024 3 5, none⟩ = true :=
  ⟨((loop_limits_rejected_iff (QDate.ofYMD 2024 3 4) (fun _ _ => QDate.null)
      (fun data =>
        if Text.toLower data = "monday".toList then .ok ⟨.WeekDayScope, 1⟩
        else .error "Invalid datum specified")
      (fun _ => .error "Invalid time specified") DateParser.spanMap
      "monday".toList [] [] "tomorrow".toList "today".toList
      ⟨true, some ⟨.WeekDayScope, 1⟩, 0, .InvalidSpan⟩ none QTime.null
      ⟨.DateMode, QDate.ofYMD 2024 3 5, none⟩ ⟨.DateMode, QDate.ofYMD 2024 3 4, none⟩
      rfl rfl rfl rfl rfl rfl rfl rfl).2.2.2.2.1).2 rfl, rfl, rfl, rfl⟩

end ParserTypes
namespace Expressions

open Qt

/-- C14 (counterexample). The looped MonthDay term of day 5 is described as
"5.", which `MonthDayTerm::parse` reads as the term of day 5 that is not looped. -/
theorem monthDay_describe_drops_loop :
    MonthDayTerm.describe (MonthDayTerm.create 5 true) = "5.".toList ∧
      MonthDayTerm.parse (MonthDayTerm.describe (MonthDayTerm.create 5 true)) =
        some (MonthDayTerm.create 5 false, 2) ∧
      MonthDayTerm.create 5 false ≠ MonthDayTerm.create 5 true := by
  decide!

/-- The round trip of `MonthDayTerm::describe` and `MonthDayTerm::parse` on the
days, as natural numbers, below 32. -/
theorem MonthDayTerm.parse_describe_nat :
    ∀ d : Fin 32, 1 ≤ d.val → ∀ looped : Bool,
      MonthDayTerm.parse (MonthDayTerm.describe (MonthDayTerm.create (d.val : Int) looped)) =
        some (MonthDayTerm.create (d.val : Int) false,
          (MonthDayTerm.describe (MonthDayTerm.create (d.val : Int) looped)).length) := by
  decide!

/-- C14 (amended). For every day `d` in 1..31, `MonthDayTerm::parse` of the
description of the MonthDay term of day `d` consumes the whole description and
yields the term of day `d` that is not looped, whether the term described was
looped or not: the day is kept, the Looped flag is kept only when it was off. -/
theorem monthDay_describe_parse (d : Int) (looped : Bool) (h1 : 1 ≤ d) (h31 : d ≤ 31) :
    MonthDayTerm.parse (MonthDayTerm.describe (MonthDayTerm.create d looped)) =
      some (MonthDayTerm.create d false,
        (MonthDayTerm.describe (MonthDayTerm.create d looped)).length) := by
  have h := MonthDayTerm.parse_describe_nat ⟨d.toNat, by omega⟩ (by show 1 ≤ d.toNat; omega) looped
  have e : ((d.toNat : Nat) : Int) = d := Int.toNat_of_nonneg (by omega)
  simp only [e] at h
  exact h

theorem monthDay_describe_parse_witness :
    MonthDayTerm.parse (MonthDayTerm.describe (MonthDayTerm.create 31 true)) =
      some (MonthDayTerm.create 31 false, 3) :=
  monthDay_describe_parse 31 true (by decide) (by decide)

end Expressions
namespace Qt

theorem digit_mem {a : Char} (ha : a.isDigit = true) : a ∈ "0123456789".toList := by
  have h := digit_toNat ha
  have e : a = Char.ofNat a.toNat := (Char.ofNat_toNat a).symm
  rw [e]
  generalize a.toNat = k at h
  obtain ⟨h1, h2⟩ := h
  interval_cases k <;> decide

end Qt

namespace Expressions

open Qt

/-- C16 (counterexample). The bare numeral "5" is not recognised by
`MonthDayTerm::parse`; with an indicator, "5." and "5th" are day 5. -/
theorem monthDay_bare_five :
    MonthDayTerm.parse "5".toList = none ∧
      MonthDayTerm.parse "5.".toList = some (MonthDayTerm.create 5 false, 2) ∧
      MonthDayTerm.parse "5th".toList = some (MonthDayTerm.create 5 false, 3) := by
  decide!

/-- What `MonthDayTerm::parse` makes of the numerals of one digit, bare and
with each indicator. -/
theorem MonthDayTerm.parse_numeral_one :
    ∀ a ∈ "0123456789".toList,
      MonthDayTerm.parse [a] = none ∧
      ∀ n ∈ (Text.digitsValue [a] 0).toList, 1 ≤ n → n ≤ 31 →
        ∀ ind ∈ [".".toList, "th".toList, "st".toList, "nd".toList, "rd".toList],
          MonthDayTerm.parse ([a] ++ ind) =
            some (MonthDayTerm.create (n : Int) false, 1 + ind.length) := by
  decide!

/-- What `MonthDayTerm::parse` makes of the numerals of two digits, bare and
with each indicator. -/
theorem MonthDayTerm.parse_numeral_two :
    ∀ a ∈ "0123456789".toList, ∀ b ∈ "0123456789".toList,
      MonthDayTerm.parse [a, b] = none ∧
      ∀ n ∈ (Text.digitsValue [a, b] 0).toList, 1 ≤ n → n ≤ 31 →
        ∀ ind ∈ [".".toList, "th".toList, "st".toList, "nd".toList, "rd".toList],
          MonthDayTerm.parse ([a, b] ++ ind) =
            some (MonthDayTerm.create (n : Int) false, 2 + ind.length) := by
  decide!

/-- C16 (amended). `MonthDayTerm::parse` recognises no bare numeral: for every
numeral of one or two digits the recognizer yields no term, and the numeral is
recognised as the day of the month, when its value is in 1..31, only with one
of the indicators ".", "th", "st", "nd", "rd" behind it. -/
theorem monthDay_needs_indicator (t : Text) (n : Nat) (h : isNumeral t n) :
    MonthDayTerm.parse t = none ∧
      (1 ≤ n → n ≤ 31 →
        ∀ ind ∈ [".".toList, "th".toList, "st".toList, "nd".toList, "rd".toList],
          MonthDayTerm.parse (t ++ ind) =
            some (MonthDayTerm.create (n : Int) false, t.length + ind.length)) := by
  have hval := h.2.2
  rcases isNumeral_cases h with ⟨a, rfl, ha, -⟩ | ⟨a, b, rfl, ha, hb, -⟩
  · obtain ⟨k1, k2⟩ := MonthDayTerm.parse_numeral_one a (digit_mem ha)
    exact ⟨k1, fun h1 h31 ind hind => k2 n (by rw [hval]; simp) h1 h31 ind hind⟩
  · obtain ⟨k1, k2⟩ := MonthDayTerm.parse_numeral_two a (digit_mem ha) b (digit_mem hb)
    exact ⟨k1, fun h1 h31 ind hind => k2 n (by rw [hval]; simp) h1 h31 ind hind⟩

theorem monthDay_needs_indicator_witness :
    isNumeral "5".toList 5 ∧ MonthDayTerm.parse "5".toList = none ∧
      MonthDayTerm.parse "5rd".toList = some (MonthDayTerm.create 5 false, 3) :=
  have h : isNumeral "5".toList 5 := ⟨by decide, by decide, by decide⟩
  ⟨h, (monthDay_needs_indicator "5".toList 5 h).1,
    (monthDay_needs_indicator "5".toList 5 h).2 (by decide) (by decide) "rd".toList (by decide)⟩

end Expressions
namespace Expressions

open Qt

/-- C18. The scope and the type that each sub-term constructor sets: Time and
InvertedTime have scope Hour|Minute and type Timepoint; MonthDay has scope
Week|Day; WeekDay has scope Day and carries the flag that asks for the cleanup
after a fixup; Month has scope Month; Year has scope Year and type
AbsoluteTimepoint; Keyword has scope Day and type Timespan; Limiter has the
empty scope and the type From or Until; MonthDay and Month have the type
LoopedTimePoint when constructed as looped and Timepoint otherwise, and so has
WeekDay next to its cleanup flag, so that each of the three tests positive for
LoopedTimePoint exactly when constructed as looped. -/
theorem constructors_scope_and_type :
    (∀ time : QTime, (TimeTerm.create time).scope = Hour ||| Minute ∧
      (TimeTerm.create time).type = Timepoint) ∧
    (∀ time : QTime, (InvertedTimeTerm.create time).scope = Hour ||| Minute ∧
      (InvertedTimeTerm.create time).type = Timepoint) ∧
    (∀ (day : Int) (looped : Bool), (MonthDayTerm.create day looped).scope = Week ||| Day ∧
      (MonthDayTerm.create day looped).type = (if looped then LoopedTimePoint else Timepoint) ∧
      testFlag (MonthDayTerm.create day looped).type LoopedTimePoint = looped) ∧
    (∀ (weekDay : Int) (looped : Bool), (WeekDayTerm.create weekDay looped).scope = Day ∧
      (WeekDayTerm.create weekDay looped).type =
        (if looped then LoopedTimePoint else Timepoint) ||| FlagNeedsFixupCleanup ∧
      testFlag (WeekDayTerm.create weekDay looped).type FlagNeedsFixupCleanup = true ∧
      testFlag (WeekDayTerm.create weekDay looped).type Timepoint = true ∧
      testFlag (WeekDayTerm.create weekDay looped).type LoopedTimePoint = looped) ∧
    (∀ (month : Int) (looped : Bool), (MonthTerm.create month looped).scope = Month ∧
      (MonthTerm.create month looped).type = (if looped then LoopedTimePoint else Timepoint) ∧
      testFlag (MonthTerm.create month looped).type LoopedTimePoint = looped) ∧
    (∀ year : Int, (YearTerm.create year).scope = Year ∧
      (YearTerm.create year).type = AbsoluteTimepoint) ∧
    (∀ days : Int, (KeywordTerm.create days).scope = Day ∧
      (KeywordTerm.create days).type = Timespan) ∧
    (∀ isFrom : Bool, (LimiterTerm.create isFrom).scope = InvalidScope ∧
      (LimiterTerm.create isFrom).type = (if isFrom then FromSubterm else UntilSubTerm)) := by
  refine ⟨fun _ => ⟨rfl, rfl⟩, fun _ => ⟨rfl, rfl⟩, fun _ looped => ⟨rfl, rfl, ?_⟩,
    fun _ looped => ⟨rfl, rfl, ?_, ?_, ?_⟩, fun _ looped => ⟨rfl, rfl, ?_⟩, fun _ => ⟨rfl, rfl⟩,
    fun _ => ⟨rfl, rfl⟩, fun _ => ⟨rfl, rfl⟩⟩ <;> cases looped <;>
  simp only [MonthDayTerm.create, WeekDayTerm.create, MonthTerm.create] <;> decide

/-- The bits of a union taken over the keys of a list, starting from `init`. -/
theorem foldl_or_testBit (l : List (Nat × Int)) (init i : Nat) :
    (l.foldl (fun scope e => scope ||| e.1) init).testBit i =
      (init.testBit i || l.any (fun e => e.1.testBit i)) := by
  induction l generalizing init with
  | nil => simp
  | cons e rest ih =>
    simp only [List.foldl_cons, ih, Nat.testBit_lor, List.any_cons, Bool.or_assoc]

/-- C19. For every sequence map, a bit is set in the scope of the constructed
SequenceTerm exactly when it is set in one of the keys of the map, so the scope
is the bitwise union of the keys; it is the empty scope for the empty map; and
the type is LoopedTimeSpan when constructed as looped and Timespan otherwise. -/
theorem sequence_scope_is_union (sequence : Sequence) (looped : Bool) :
    (∀ i : Nat, (SequenceTerm.create sequence looped).scope.testBit i =
      sequence.keys.any (fun key => key.testBit i)) ∧
    (SequenceTerm.create [] looped).scope = InvalidScope ∧
    (SequenceTerm.create sequence looped).scope =
      sequence.keys.foldr (fun key scope => key ||| scope) InvalidScope ∧
    (SequenceTerm.create sequence looped).type =
      (if looped then LoopedTimeSpan else Timespan) := by
  refine ⟨fun i => ?_, rfl, ?_, rfl⟩
  · simp only [SequenceTerm.create, foldl_or_testBit, InvalidScope, Nat.zero_testBit,
      Bool.false_or, Sequence.keys]
    induction sequence with
    | nil => rfl
    | cons e rest ih => simp only [List.any_cons, List.map_cons, ih]
  · apply Nat.eq_of_testBit_eq
    intro i
    simp only [SequenceTerm.create, foldl_or_testBit, InvalidScope, Nat.zero_testBit,
      Bool.false_or, Sequence.keys]
    induction sequence with
    | nil => simp
    | cons e rest ih => simp only [List.any_cons, List.map_cons, List.foldr_cons,
        Nat.testBit_lor, ih]

end Expressions
namespace Qt

theorem isDigit_ofNat_digit {k : Nat} (hk : k < 10) : (Char.ofNat (48 + k)).isDigit = true := by
  interval_cases k <;> decide

theorem toNat_ofNat_digit {k : Nat} (hk : k < 10) : (Char.ofNat (48 + k)).toNat - 48 = k := by
  interval_cases k <;> decide

theorem digitsValue_append (xs ys : Text) (a : Nat) :
    Text.digitsValue (xs ++ ys) a =
      (Text.digitsValue xs a).bind (fun v => Text.digitsValue ys v) := by
  induction xs generalizing a with
  | nil => rfl
  | cons c rest ih =>
    simp only [List.cons_append, Text.digitsValue]
    split
    · exact ih _
    · rfl

/-- The digits that `Text.ofNatAux` puts in front of `acc`: they are decimal
digits, read back they give the number, and there are as many as the number
needs. -/
theorem ofNatAux_spec (fuel n : Nat) (acc : Text) (h : n < fuel) :
    ∃ xs : Text, Text.ofNatAux fuel n acc = xs ++ acc ∧ (∀ c ∈ xs, c.isDigit = true) ∧
      (∀ a, Text.digitsValue xs a = some (a * 10 ^ xs.length + n)) ∧ 1 ≤ xs.length ∧
      n < 10 ^ xs.length ∧ (xs.length = 1 ∨ 10 ^ (xs.length - 1) ≤ n) := by
  induction fuel generalizing n acc with
  | zero => omega
  | succ fuel ih =>
    have hmod : n % 10 < 10 := Nat.mod_lt _ (by decide)
    by_cases h0 : n / 10 = 0
    · refine ⟨[Char.ofNat (48 + n % 10)], ?_, ?_, ?_, ?_, ?_, Or.inl rfl⟩
      · simp only [Text.ofNatAux, h0, if_true, List.singleton_append]
      · intro c hc
        rw [List.mem_singleton.1 hc]
        exact isDigit_ofNat_digit hmod
      · intro a
        have hn : n % 10 = n := by omega
        have hd := isDigit_ofNat_digit hmod
        have ht := toNat_ofNat_digit hmod
        simp only [Text.digitsValue, hd, if_true, ht, List.length_singleton, pow_one]
        rw [hn]
      · simp
      · simp only [List.length_singleton, pow_one]
        omega
    · obtain ⟨xs, e, hdig, hval, hlen, hlt, hge⟩ :=
        ih (n / 10) (Char.ofNat (48 + n % 10) :: acc) (by omega)
      refine ⟨xs ++ [Char.ofNat (48 + n % 10)], ?_, ?_, ?_, ?_, ?_, ?_⟩
      · simp only [Text.ofNatAux, h0, if_false, e, List.append_assoc, List.singleton_append]
      · intro c hc
        rcases List.mem_append.1 hc with hc | hc
        · exact hdig c hc
        · rw [List.mem_singleton.1 hc]
          exact isDigit_ofNat_digit hmod
      · intro a
        rw [digitsValue_append, hval]
        simp only [Option.some_bind, Text.digitsValue, isDigit_ofNat_digit hmod, if_true,
          toNat_ofNat_digit hmod, List.length_append, List.length_singleton, pow_succ]
        refine congrArg some ?_
        have hdm := Nat.div_add_mod n 10
        calc (a * 10 ^ xs.length + n / 10) * 10 + n % 10
            = a * (10 ^ xs.length * 10) + (10 * (n / 10) + n % 10) := by ring
          _ = a * (10 ^ xs.length * 10) + n := by rw [hdm]
      · simp
      · simp only [List.length_append, List.length_singleton, pow_succ]
        omega
      · right
        simp only [List.length_append, List.length_singleton, Nat.add_sub_cancel]
        rcases hge with h1 | hge
        · rw [h1, pow_one]
          omega
        · have : 10 ^ xs.length = 10 ^ (xs.length - 1) * 10 := by
            rw [← pow_succ]
            congr 1
            omega
          omega

/-- The decimal digits of a number: they are decimal digits, read back they give
the number, and there are at least four exactly when the number is at least 1000. -/
theorem ofNat_spec (n : Nat) :
    (∀ c ∈ Text.ofNat n, c.isDigit = true) ∧ Text.digitsValue (Text.ofNat n) 0 = some n ∧
      1 ≤ (Text.ofNat n).length ∧ (4 ≤ (Text.ofNat n).length ↔ 1000 ≤ n) := by
  obtain ⟨xs, e, hdig, hval, hlen, hlt, hge⟩ := ofNatAux_spec (n + 1) n [] (by omega)
  rw [List.append_nil] at e
  have e2 : Text.ofNat n = xs := e
  rw [e2]
  refine ⟨hdig, by rw [hval]; simp, hlen, ?_, ?_⟩
  · intro h4
    rcases hge with h1 | hge
    · omega
    · have : 10 ^ 3 ≤ 10 ^ (xs.length - 1) := Nat.pow_le_pow_right (by decide) (by omega)
      omega
  · intro h
    by_contra hlt4
    have : 10 ^ xs.length ≤ 10 ^ 3 := Nat.pow_le_pow_right (by decide) (by omega)
    omega

theorem digitsValue_zeros (k : Nat) (xs : Text) :
    Text.digitsValue (List.replicate k '0' ++ xs) 0 = Text.digitsValue xs 0 := by
  induction k with
  | zero => rfl
  | succ k ih =>
    simp only [List.replicate_succ, List.cons_append, Text.digitsValue]
    exact ih

/-- The shape of a number zero-padded to four characters: the sign of a
negative number, then decimal digits that give the absolute value; at least four
digits for a number that is not negative; for a negative number at least three,
and four or more exactly when it is at most -1000. -/
theorem argZeroPadded_spec (a : Int) :
    ∃ ds : Text, Text.argZeroPadded a 4 = (if a < 0 then '-' :: ds else ds) ∧
      (∀ c ∈ ds, c.isDigit = true) ∧ Text.digitsValue ds 0 = some a.natAbs ∧
      (0 ≤ a → 4 ≤ ds.length) ∧ (a < 0 → 3 ≤ ds.length ∧ (4 ≤ ds.length ↔ a ≤ -1000)) := by
  obtain ⟨hdig, hval, hlen, h4⟩ := ofNat_spec a.natAbs
  refine ⟨List.replicate (4 - (Text.ofNat a.natAbs).length - (if a < 0 then 1 else 0)) '0' ++
    Text.ofNat a.natAbs, ?_, ?_, ?_, ?_, ?_⟩
  · simp only [Text.argZeroPadded]
  · intro c hc
    rcases List.mem_append.1 hc with hc | hc
    · rw [(List.mem_replicate.1 hc).2]
      decide
    · exact hdig c hc
  · rw [digitsValue_zeros, hval]
  · intro h0
    have : ¬ a < 0 := by omega
    simp only [this, if_false, List.length_append, List.length_replicate]
    omega
  · intro hneg
    simp only [hneg, if_true, List.length_append, List.length_replicate]
    constructor
    · omega
    · constructor
      · intro h
        have : 4 ≤ (Text.ofNat a.natAbs).length := by omega
        have := h4.1 this
        omega
      · intro h
        have := h4.2 (by omega)
        omega

end Qt
namespace Qt

/-- An optional literal character of the pattern against the next character of
the subject: with the character first, then without. -/
theorem matchAll_optChar_cons (c x : Char) (p : Nat) (rest : Text) (caps : List Capture)
    (hk : c.toLower ≠ 'k') (hs : c.toLower ≠ 's') :
    matchAll (.rep (.lit c) 0 (some 1)) ⟨p, x :: rest, caps⟩ =
      if (x.toLower == c.toLower) = true then [⟨p + 1, rest, caps⟩, ⟨p, x :: rest, caps⟩]
      else [⟨p, x :: rest, caps⟩] := by
  have ht : (CharSet.lit c).test x = (x.toLower == c.toLower) := by
    rw [lit_test, beq_eq_false_iff_ne.mpr hk, beq_eq_false_iff_ne.mpr hs, Bool.false_and,
      Bool.false_and, Bool.or_false, Bool.or_false]
  by_cases h : (x.toLower == c.toLower) = true
  · have h1 : min ((List.takeWhile (CharSet.lit c).test rest).length + 1) 1 = 1 := by omega
    simp [matchAll, ht, h, countDown, MState.advance, h1]
  · simp [matchAll, ht, h, countDown, MState.advance]

/-- Digits in a pattern, `lo` or more, against a text: the digits at its start
are counted. -/
theorem matchAll_digits_from (lo p : Nat) (rest : Text) (caps : List Capture) :
    matchAll (.rep .digit lo none) ⟨p, rest, caps⟩ =
      (countDown lo (rest.takeWhile CharSet.digit.test).length).map
        (fun k => ⟨p + k, rest.drop k, caps⟩) := by
  simp only [matchAll, MState.advance]
  rfl

theorem countDown_head (lo n : Nat) (h1 : 1 ≤ n) (h : lo ≤ n) :
    ∃ tail, countDown lo n = n :: tail := by
  cases n with
  | zero => omega
  | succ k =>
    refine ⟨countDown lo k, ?_⟩
    simp only [countDown]
    rw [if_neg (by omega)]

/-- Digits in a pattern, `lo` or more, against a text of at least `lo` digits
and nothing else: the first result takes them all. -/
theorem matchAll_digits_all (lo p : Nat) (ds : Text) (caps : List Capture)
    (hds : ∀ c ∈ ds, c.isDigit = true) (h1 : 1 ≤ ds.length) (hlo : lo ≤ ds.length) :
    ∃ tail, matchAll (.rep .digit lo none) ⟨p, ds, caps⟩ = ⟨p + ds.length, [], caps⟩ :: tail := by
  have htw : ds.takeWhile CharSet.digit.test = ds :=
    List.takeWhile_eq_self_iff.2 (fun c hc => digit_test_of_isDigit (hds c hc))
  obtain ⟨tail, ht⟩ := countDown_head lo ds.length h1 hlo
  refine ⟨tail.map (MState.advance ⟨p, ds, caps⟩), ?_⟩
  simp only [matchAll, htw, ht, List.map_cons, MState.advance, List.drop_length]

end Qt
namespace Expressions

open Qt

theorem YearTerm.compile_yearRegexText :
    compile YearTerm.regexText = some (.seq .bol YearTerm.compiledRegex) := by
  decide!

/-- The rest of the pattern of `YearTerm::parse` behind the group, at the end
of the text. -/
theorem YearTerm.match_end (p : Nat) (caps : List Capture) :
    matchAll (.seq (.opt .eps) (.rep .space 0 none)) ⟨p, [], caps⟩ =
      [⟨p, [], caps⟩, ⟨p, [], caps⟩] := by
  simp [matchAll_seq, matchAll_opt, matchAll_eps, matchAll_spaces_nil, bindStates_cons,
    bindStates_nil]

/-- The pattern of `YearTerm::parse` on a text of four or more digits: the
first result takes the whole text. -/
theorem YearTerm.matchAll_yearDigits (ds : Text) (hds : ∀ c ∈ ds, c.isDigit = true)
    (h4 : 4 ≤ ds.length) :
    ∃ tail, matchAll YearTerm.compiledRegex ⟨0, ds, []⟩ =
      ⟨ds.length, [], [⟨1, [], ds⟩]⟩ :: tail := by
  obtain ⟨d0, ds', rfl⟩ : ∃ d0 ds', ds = d0 :: ds' := by
    cases ds with
    | nil => simp at h4
    | cons d0 ds' => exact ⟨d0, ds', rfl⟩
  have hd0 : d0.isDigit = true := hds d0 (List.mem_cons_self _ _)
  have hin : matchAll (.opt (Regex.text "in ")) ⟨0, d0 :: ds', []⟩ = [⟨0, d0 :: ds', []⟩] := by
    simp [Regex.text, Regex.chain, matchAll_seq, matchAll_opt, matchAll_char_cons, hd0,
      toLower_of_digit, digit_beq_of_not_digit, bindStates_nil]
  have hdash : matchAll (.rep (.lit '-') 0 (some 1)) ⟨0, d0 :: ds', []⟩ =
      [⟨0, d0 :: ds', []⟩] := by
    simp [matchAll_optChar_cons, hd0, toLower_of_digit, digit_beq_of_not_digit]
  obtain ⟨tail, hdig⟩ := matchAll_digits_all 4 0 (d0 :: ds') [] hds (by omega) h4
  simp only [YearTerm.compiledRegex, matchAll_seq, hin, bindStates_cons, bindStates_nil,
    List.append_nil, matchAll_group, hdash, hdig, List.map_cons, List.cons_append,
    YearTerm.match_end, Nat.zero_add, Nat.sub_zero, List.take_length]
  exact ⟨_, rfl⟩

/-- The pattern of `YearTerm::parse` on `-` and three or more digits: with four
or more digits the first result takes the whole text. -/
theorem YearTerm.matchAll_minus_digits (ds : Text) (hds : ∀ c ∈ ds, c.isDigit = true)
    (h4 : 4 ≤ ds.length) :
    ∃ tail, matchAll YearTerm.compiledRegex ⟨0, '-' :: ds, []⟩ =
      ⟨ds.length + 1, [], [⟨1, [], '-' :: ds⟩]⟩ :: tail := by
  have hin : matchAll (.opt (Regex.text "in ")) ⟨0, '-' :: ds, []⟩ = [⟨0, '-' :: ds, []⟩] := by
    simp [Regex.text, Regex.chain, matchAll_seq, matchAll_opt, matchAll_char_cons,
      bindStates_nil]
  have hdash : matchAll (.rep (.lit '-') 0 (some 1)) ⟨0, '-' :: ds, []⟩ =
      [⟨1, ds, []⟩, ⟨0, '-' :: ds, []⟩] := by
    simp [matchAll_optChar_cons]
  obtain ⟨tail, hdig⟩ := matchAll_digits_all 4 1 ds [] hds (by omega) h4
  simp only [YearTerm.compiledRegex, matchAll_seq, hin, bindStates_cons, bindStates_nil,
    List.append_nil, matchAll_group, hdash, hdig, List.map_cons, List.cons_append,
    YearTerm.match_end, List.map_append, Nat.sub_zero]
  rw [show 1 + ds.length = ds.length + 1 by omega, List.take_of_length_le (by simp)]
  exact ⟨_, rfl⟩

end Expressions
namespace Qt

/-- `toInt` of a non-empty text of digits whose value fits an `int`. -/
theorem toInt_digits {ds : Text} {v : Nat} (hds : ∀ c ∈ ds, c.isDigit = true)
    (hne : ds ≠ []) (hv : Text.digitsValue ds 0 = some v) (hr : v ≤ 2147483647) :
    Text.toInt ds = some (v : Int) := by
  have hemp : ds.isEmpty = false := by
    cases ds with
    | nil => exact absurd rfl hne
    | cons _ _ => rfl
  have hsign : ∀ c : Char, c.isDigit = false → ∀ rest, ds ≠ c :: rest := by
    intro c hc rest hcr
    have := hds c (by rw [hcr]; exact List.mem_cons_self _ _)
    rw [this] at hc
    exact Bool.noConfusion hc
  unfold Text.toInt
  split
  · exact absurd rfl (hsign '-' (by decide) _)
  · exact absurd rfl (hsign '+' (by decide) _)
  · simp only [hemp, hv, Bool.false_eq_true, if_false]
    rw [if_pos (by constructor <;> omega)]

/-- `toInt` of `-` and a non-empty text of digits whose negated value fits an `int`. -/
theorem toInt_minus_digits {ds : Text} {v : Nat} (hne : ds ≠ [])
    (hv : Text.digitsValue ds 0 = some v) (hr : v ≤ 2147483648) :
    Text.toInt ('-' :: ds) = some (-(v : Int)) := by
  have hemp : ds.isEmpty = false := by
    cases ds with
    | nil => exact absurd rfl hne
    | cons _ _ => rfl
  simp only [Text.toInt, hemp, hv, Bool.false_eq_true, if_false, if_true]
  rw [if_pos (by constructor <;> omega)]

end Qt

namespace Expressions

open Qt

/-- `YearTerm::parse` on a text of four or more digits. -/
theorem YearTerm.parse_digits (ds : Text) (v : Nat) (hds : ∀ c ∈ ds, c.isDigit = true)
    (h4 : 4 ≤ ds.length) (hv : Text.digitsValue ds 0 = some v) (hr : v ≤ 2147483647) :
    YearTerm.parse ds = some (YearTerm.create (v : Int), ds.length) := by
  obtain ⟨tail, ht⟩ := YearTerm.matchAll_yearDigits ds hds h4
  have hne : ds ≠ [] := by
    rintro rfl
    simp at h4
  unfold YearTerm.parse regexMatch
  rw [YearTerm.compile_yearRegexText, matchCompiled_bol, ht]
  simp [QRegularExpressionMatch.captured, QRegularExpressionMatch.capturedLength,
    toInt_digits hds hne hv hr]

/-- `YearTerm::parse` on `-` and four or more digits. -/
theorem YearTerm.parse_minus_digits (ds : Text) (v : Nat) (hds : ∀ c ∈ ds, c.isDigit = true)
    (h4 : 4 ≤ ds.length) (hv : Text.digitsValue ds 0 = some v) (hr : v ≤ 2147483648) :
    YearTerm.parse ('-' :: ds) = some (YearTerm.create (-(v : Int)), ds.length + 1) := by
  obtain ⟨tail, ht⟩ := YearTerm.matchAll_minus_digits ds hds h4
  have hne : ds ≠ [] := by
    rintro rfl
    simp at h4
  unfold YearTerm.parse regexMatch
  rw [YearTerm.compile_yearRegexText, matchCompiled_bol, ht]
  simp [QRegularExpressionMatch.captured, QRegularExpressionMatch.capturedLength,
    toInt_minus_digits hne hv hr]

/-- `YearTerm::parse` on `-` and three digits: no match. -/
theorem YearTerm.parse_minus_short (a b c : Char) (ha : a.isDigit = true)
    (hb : b.isDigit = true) (hc : c.isDigit = true) :
    YearTerm.parse ['-', a, b, c] = none := by
  unfold YearTerm.parse regexMatch
  rw [YearTerm.compile_yearRegexText, matchCompiled_bol]
  simp [YearTerm.compiledRegex, Regex.text, Regex.chain, matchAll_seq, matchAll_opt,
    matchAll_group, matchAll_char_cons, matchAll_optChar_cons, matchAll_digits_from, ha, hb, hc,
    digit_test_of_isDigit ha, digit_test_of_isDigit hb, digit_test_of_isDigit hc,
    countDown, bindStates_cons, bindStates_nil, QRegularExpressionMatch.noMatch]

/-- C15 (counterexample). The year -5, which `YearTerm::parse` produces from
"-0005", is described as "-005": the zero-padded width of four counts the sign.
`YearTerm::parse` needs four digits and yields no term for the description. -/
theorem year_minus_five_not_read_back :
    YearTerm.parse "-0005".toList = some (YearTerm.create (-5), 5) ∧
      YearTerm.describe (YearTerm.create (-5)) = "-005".toList ∧
      YearTerm.parse (YearTerm.describe (YearTerm.create (-5))) = none := by
  decide!

/-- C15 (amended). For every year `y` in the range of `int`, `YearTerm::parse`
of the description of the Year term of `y` yields the year `y` again, with the
whole description consumed, when `y` is not negative or at most -1000; for the
years -999 .. -1 the description has the sign and three digits, and
`YearTerm::parse` yields no term. -/
theorem year_describe_parse (y : Int) (hmin : -2147483648 ≤ y) (hmax : y ≤ 2147483647) :
    (0 ≤ y ∨ y ≤ -1000 →
      YearTerm.parse (YearTerm.describe (YearTerm.create y)) =
        some (YearTerm.create y, (YearTerm.describe (YearTerm.create y)).length)) ∧
    (-999 ≤ y → y ≤ -1 → YearTerm.parse (YearTerm.describe (YearTerm.create y)) = none) := by
  obtain ⟨ds, hshape, hds, hv, hpos, hneg⟩ := argZeroPadded_spec y
  have hdesc : YearTerm.describe (YearTerm.create y) = Text.argZeroPadded y 4 := by
    simp [YearTerm.describe, YearTerm.create, Text.arg1]
  rw [hdesc, hshape]
  constructor
  · intro hy
    by_cases h0 : y < 0
    · have hy2 : y ≤ -1000 := by omega
      simp only [h0, if_true]
      rw [YearTerm.parse_minus_digits ds y.natAbs hds ((hneg h0).2.2 hy2) hv (by omega)]
      have e : -(y.natAbs : Int) = y := by omega
      rw [e]
      rfl
    · simp only [h0, if_false]
      rw [YearTerm.parse_digits ds y.natAbs hds (hpos (by omega)) hv (by omega)]
      have e : (y.natAbs : Int) = y := by omega
      rw [e]
  · intro h1 h2
    have h0 : y < 0 := by omega
    obtain ⟨h3, h4⟩ := hneg h0
    have hlen : ds.length = 3 := by
      by_contra hne
      have := h4.1 (by omega)
      omega
    simp only [h0, if_true]
    match ds, hlen, hds with
    | [a, b, c], _, hds =>
      exact YearTerm.parse_minus_short a b c (hds a (by simp)) (hds b (by simp)) (hds c (by simp))

theorem year_describe_parse_witness :
    YearTerm.parse (YearTerm.describe (YearTerm.create 5)) = some (YearTerm.create 5, 4) ∧
      YearTerm.parse (YearTerm.describe (YearTerm.create (-999))) = none :=
  ⟨(year_describe_parse 5 (by decide) (by decide)).1 (Or.inl (by decide)),
    (year_describe_parse (-999) (by decide) (by decide)).2 (by decide) (by decide)⟩

end Expressions
namespace Expressions

open Qt

/-- The type and the scope of the term that the constructor of `DateTerm`
makes of a year flag and a loop flag that are not both set. -/
theorem DateTerm.create_flags (date : QDate) (hasYear isLooped : Bool)
    (h : DateTerm.createAsserts hasYear isLooped = true) :
    ((DateTerm.create date hasYear isLooped).type = AbsoluteTimepoint ↔ hasYear = true) ∧
    ((DateTerm.create date hasYear isLooped).type = LoopedTimePoint ↔ isLooped = true) ∧
    testFlag (DateTerm.create date hasYear isLooped).type FlagAbsolute = hasYear ∧
    testFlag (DateTerm.create date hasYear isLooped).type FlagLooped = isLooped ∧
    (DateTerm.create date hasYear isLooped).scope =
      (if hasYear then Year ||| Month ||| MonthDay else Month ||| MonthDay) ∧
    testFlag (DateTerm.create date hasYear isLooped).scope Year = hasYear := by
  cases hasYear <;> cases isLooped <;> simp only [DateTerm.create] <;> first
    | exact absurd h (by decide)
    | decide

end Expressions
namespace Expressions

open Qt

theorem DateTerm.dateCandidate_try (expression : Text) (loopCombo patternInfo : Text × Text × Bool) :
    DateTerm.tryPattern expression loopCombo patternInfo =
      (DateTerm.candidate loopCombo patternInfo).try expression := by
  unfold DateTerm.tryPattern DateCandidate.try DateTerm.candidate
  by_cases h : (loopCombo.2.2 && patternInfo.2.2) = true
  · simp [h, matchCompiled, QRegularExpressionMatch.noMatch]
  · simp [h, regexMatch]

set_option maxRecDepth 100000 in
theorem DateTerm.dateCandidates_eq : DateTerm.candidates = DateTerm.compiledCandidates := by
  decide!

/-- `DateTerm::parse` tries the compiled candidates in order. -/
theorem DateTerm.parse_eq_compiledDate (expression : Text) :
    DateTerm.parse expression =
      DateTerm.compiledCandidates.findSome? (fun c => c.try expression) := by
  rw [← DateTerm.dateCandidates_eq]
  unfold DateTerm.parse DateTerm.candidates
  rw [findSome_flatten_map]
  congr 1
  funext loopCombo
  rw [List.findSome?_map]
  congr 1
  funext patternInfo
  exact DateTerm.dateCandidate_try expression loopCombo patternInfo

end Expressions
namespace Qt

/-- One or two digits in a pattern against a text that starts with two digits. -/
theorem matchAll_digits_two (lo p : Nat) (x y : Char) (rest : Text) (caps : List Capture)
    (hx : x.isDigit = true) (hy : y.isDigit = true) :
    matchAll (.rep .digit lo (some 2)) ⟨p, x :: y :: rest, caps⟩ =
      (countDown lo 2).map (fun k => ⟨p + k, (x :: y :: rest).drop k, caps⟩) := by
  have h : ((List.takeWhile CharSet.digit.test rest).length + 1 + 1).min 2 = 2 :=
    Nat.min_eq_right (by omega)
  simp only [matchAll, MState.advance, digit_test_of_isDigit hx, digit_test_of_isDigit hy,
    List.takeWhile_cons_of_pos, List.length_cons]
  rw [h]
  rfl

/-- One or two digits in a pattern against a text that starts with no digit. -/
theorem matchAll_digits_nondigit (lo p : Nat) (x : Char) (rest : Text) (caps : List Capture)
    (hx : CharSet.digit.test x = false) (hlo : 1 ≤ lo) :
    matchAll (.rep .digit lo (some 2)) ⟨p, x :: rest, caps⟩ = [] := by
  simp only [matchAll, hx, Bool.false_eq_true, not_false_eq_true,
    List.takeWhile_cons_of_neg, List.length_nil]
  cases lo with
  | zero => omega
  | succ k => simp [countDown]

end Qt
namespace Expressions

open Qt

/-- The group of each date pattern on a text of two digits, `-` and two digits:
the four patterns of a day, `-` and a month take the whole text, the others fail. -/
theorem DateTerm.group_monthDay_text (a b c d : Char) (ha : a.isDigit = true) (hb : b.isDigit = true)
    (hc : c.isDigit = true) (hd : d.isDigit = true) :
    matchAll (.group 1 [] (Regex.chain (DateTerm.patternItems "dd. MM. yyyy".toList)))
      ⟨0, [a, b, '-', c, d], []⟩ = [] ∧
    matchAll (.group 1 [] (Regex.chain (DateTerm.patternItems "d. MM. yyyy".toList)))
      ⟨0, [a, b, '-', c, d], []⟩ = [] ∧
    matchAll (.group 1 [] (Regex.chain (DateTerm.patternItems "dd. M. yyyy".toList)))
      ⟨0, [a, b, '-', c, d], []⟩ = [] ∧
    matchAll (.group 1 [] (Regex.chain (DateTerm.patternItems "dd.MM.yyyy".toList)))
      ⟨0, [a, b, '-', c, d], []⟩ = [] ∧
    matchAll (.group 1 [] (Regex.chain (DateTerm.patternItems "d. M. yyyy".toList)))
      ⟨0, [a, b, '-', c, d], []⟩ = [] ∧
    matchAll (.group 1 [] (Regex.chain (DateTerm.patternItems "dd-MM-yyyy".toList)))
      ⟨0, [a, b, '-', c, d], []⟩ = [] ∧
    matchAll (.group 1 [] (Regex.chain (DateTerm.patternItems "dd. MM. yy".toList)))
      ⟨0, [a, b, '-', c, d], []⟩ = [] ∧
    matchAll (.group 1 [] (Regex.chain (DateTerm.patternItems "d.MM.yyyy".toList)))
      ⟨0, [a, b, '-', c, d], []⟩ = [] ∧
    matchAll (.group 1 [] (Regex.chain (DateTerm.patternItems "dd.M.yyyy".toList)))
      ⟨0, [a, b, '-', c, d], []⟩ = [] ∧
    matchAll (.group 1 [] (Regex.chain (DateTerm.patternItems "d-MM-yyyy".toList)))
      ⟨0, [a, b, '-', c, d], []⟩ = [] ∧
    matchAll (.group 1 [] (Regex.chain (DateTerm.patternItems "dd-M-yyyy".toList)))
      ⟨0, [a, b, '-', c, d], []⟩ = [] ∧
    matchAll (.group 1 [] (Regex.chain (DateTerm.patternItems "d. MM. yy".toList)))
      ⟨0, [a, b, '-', c, d], []⟩ = [] ∧
    matchAll (.group 1 [] (Regex.chain (DateTerm.patternItems "dd. M. yy".toList)))
      ⟨0, [a, b, '-', c, d], []⟩ = [] ∧
    matchAll (.group 1 [] (Regex.chain (DateTerm.patternItems "d.M.yyyy".toList)))
      ⟨0, [a, b, '-', c, d], []⟩ = [] ∧
    matchAll (.group 1 [] (Regex.chain (DateTerm.patternItems "d-M-yyyy".toList)))
      ⟨0, [a, b, '-', c, d], []⟩ = [] ∧
    matchAll (.group 1 [] (Regex.chain (DateTerm.patternItems "dd.MM.yy".toList)))
      ⟨0, [a, b, '-', c, d], []⟩ = [] ∧
    matchAll (.group 1 [] (Regex.chain (DateTerm.patternItems "d. M. yy".toList)))
      ⟨0, [a, b, '-', c, d], []⟩ = [] ∧
    matchAll (.group 1 [] (Regex.chain (DateTerm.patternItems "dd-MM-yy".toList)))
      ⟨0, [a, b, '-', c, d], []⟩ = [] ∧
    matchAll (.group 1 [] (Regex.chain (DateTerm.patternItems "d.MM.yy".toList)))
      ⟨0, [a, b, '-', c, d], []⟩ = [] ∧
    matchAll (.group 1 [] (Regex.chain (DateTerm.patternItems "dd.M.yy".toList)))
      ⟨0, [a, b, '-', c, d], []⟩ = [] ∧
    matchAll (.group 1 [] (Regex.chain (DateTerm.patternItems "d-MM-yy".toList)))
      ⟨0, [a, b, '-', c, d], []⟩ = [] ∧
    matchAll (.group 1 [] (Regex.chain (DateTerm.patternItems "dd-M-yy".toList)))
      ⟨0, [a, b, '-', c, d], []⟩ = [] ∧
    matchAll (.group 1 [] (Regex.chain (DateTerm.patternItems "dd. MM.".toList)))
      ⟨0, [a, b, '-', c, d], []⟩ = [] ∧
    matchAll (.group 1 [] (Regex.chain (DateTerm.patternItems "d.M.yy".toList)))
      ⟨0, [a, b, '-', c, d], []⟩ = [] ∧
    matchAll (.group 1 [] (Regex.chain (DateTerm.patternItems "d-M-yy".toList)))
      ⟨0, [a, b, '-', c, d], []⟩ = [] ∧
    matchAll (.group 1 [] (Regex.chain (DateTerm.patternItems "dd.MM.".toList)))
      ⟨0, [a, b, '-', c, d], []⟩ = [] ∧
    matchAll (.group 1 [] (Regex.chain (DateTerm.patternItems "d. MM.".toList)))
      ⟨0, [a, b, '-', c, d], []⟩ = [] ∧
    matchAll (.group 1 [] (Regex.chain (DateTerm.patternItems "dd. M.".toList)))
      ⟨0, [a, b, '-', c, d], []⟩ = [] ∧
    matchAll (.group 1 [] (Regex.chain (DateTerm.patternItems "d.MM.".toList)))
      ⟨0, [a, b, '-', c, d], []⟩ = [] ∧
    matchAll (.group 1 [] (Regex.chain (DateTerm.patternItems "dd.M.".toList)))
      ⟨0, [a, b, '-', c, d], []⟩ = [] ∧
    matchAll (.group 1 [] (Regex.chain (DateTerm.patternItems "d. M.".toList)))
      ⟨0, [a, b, '-', c, d], []⟩ = [] ∧
    matchAll (.group 1 [] (Regex.chain (DateTerm.patternItems "dd-MM".toList)))
      ⟨0, [a, b, '-', c, d], []⟩ = [⟨5, [], [⟨1, [], [a, b, '-', c, d]⟩]⟩] ∧
    matchAll (.group 1 [] (Regex.chain (DateTerm.patternItems "d.M.".toList)))
      ⟨0, [a, b, '-', c, d], []⟩ = [] ∧
    matchAll (.group 1 [] (Regex.chain (DateTerm.patternItems "d-MM".toList)))
      ⟨0, [a, b, '-', c, d], []⟩ = [⟨5, [], [⟨1, [], [a, b, '-', c, d]⟩]⟩] ∧
    matchAll (.group 1 [] (Regex.chain (DateTerm.patternItems "dd-M".toList)))
      ⟨0, [a, b, '-', c, d], []⟩ = [⟨5, [], [⟨1, [], [a, b, '-', c, d]⟩]⟩,
        ⟨4, [d], [⟨1, [], [a, b, '-', c]⟩]⟩] ∧
    matchAll (.group 1 [] (Regex.chain (DateTerm.patternItems "d-M".toList)))
      ⟨0, [a, b, '-', c, d], []⟩ = [⟨5, [], [⟨1, [], [a, b, '-', c, d]⟩]⟩,
        ⟨4, [d], [⟨1, [], [a, b, '-', c]⟩]⟩] := by
  refine ⟨?_, ?_, ?_, ?_, ?_, ?_, ?_, ?_, ?_, ?_, ?_, ?_, ?_, ?_, ?_, ?_, ?_, ?_, ?_, ?_, ?_, ?_, ?_, ?_, ?_, ?_, ?_, ?_, ?_, ?_, ?_, ?_, ?_, ?_, ?_, ?_⟩ <;>
  simp [DateTerm.patternItems, parseDateFormat, DateTerm.sectionItems, Regex.chain,
    matchAll_seq, matchAll_group, matchAll_digits_two, matchAll_char_cons, matchAll_char_nil,
    countDown, bindStates_cons, bindStates_nil, toLower_of_digit, digit_beq_of_not_digit, ha, hb, hc, hd]

/-- The group of each date pattern on a text that starts with three digits: every
pattern fails, none has more than two digits before its first separator. -/
theorem DateTerm.group_three_digits (a b c : Char) (rest : Text) (ha : a.isDigit = true) (hb : b.isDigit = true)
    (hc : c.isDigit = true) :
    matchAll (.group 1 [] (Regex.chain (DateTerm.patternItems "dd. MM. yyyy".toList)))
      ⟨0, a :: b :: c :: rest, []⟩ = [] ∧
    matchAll (.group 1 [] (Regex.chain (DateTerm.patternItems "d. MM. yyyy".toList)))
      ⟨0, a :: b :: c :: rest, []⟩ = [] ∧
    matchAll (.group 1 [] (Regex.chain (DateTerm.patternItems "dd. M. yyyy".toList)))
      ⟨0, a :: b :: c :: rest, []⟩ = [] ∧
    matchAll (.group 1 [] (Regex.chain (DateTerm.patternItems "dd.MM.yyyy".toList)))
      ⟨0, a :: b :: c :: rest, []⟩ = [] ∧
    matchAll (.group 1 [] (Regex.chain (DateTerm.patternItems "d. M. yyyy".toList)))
      ⟨0, a :: b :: c :: rest, []⟩ = [] ∧
    matchAll (.group 1 [] (Regex.chain (DateTerm.patternItems "dd-MM-yyyy".toList)))
      ⟨0, a :: b :: c :: rest, []⟩ = [] ∧
    matchAll (.group 1 [] (Regex.chain (DateTerm.patternItems "dd. MM. yy".toList)))
      ⟨0, a :: b :: c :: rest, []⟩ = [] ∧
    matchAll (.group 1 [] (Regex.chain (DateTerm.patternItems "d.MM.yyyy".toList)))
      ⟨0, a :: b :: c :: rest, []⟩ = [] ∧
    matchAll (.group 1 [] (Regex.chain (DateTerm.patternItems "dd.M.yyyy".toList)))
      ⟨0, a :: b :: c :: rest, []⟩ = [] ∧
    matchAll (.group 1 [] (Regex.chain (DateTerm.patternItems "d-MM-yyyy".toList)))
      ⟨0, a :: b :: c :: rest, []⟩ = [] ∧
    matchAll (.group 1 [] (Regex.chain (DateTerm.patternItems "dd-M-yyyy".toList)))
      ⟨0, a :: b :: c :: rest, []⟩ = [] ∧
    matchAll (.group 1 [] (Regex.chain (DateTerm.patternItems "d. MM. yy".toList)))
      ⟨0, a :: b :: c :: rest, []⟩ = [] ∧
    matchAll (.group 1 [] (Regex.chain (DateTerm.patternItems "dd. M. yy".toList)))
      ⟨0, a :: b :: c :: rest, []⟩ = [] ∧
    matchAll (.group 1 [] (Regex.chain (DateTerm.patternItems "d.M.yyyy".toList)))
      ⟨0, a :: b :: c :: rest, []⟩ = [] ∧
    matchAll (.group 1 [] (Regex.chain (DateTerm.patternItems "d-M-yyyy".toList)))
      ⟨0, a :: b :: c :: rest, []⟩ = [] ∧
    matchAll (.group 1 [] (Regex.chain (DateTerm.patternItems "dd.MM.yy".toList)))
      ⟨0, a :: b :: c :: rest, []⟩ = [] ∧
    matchAll (.group 1 [] (Regex.chain (DateTerm.patternItems "d. M. yy".toList)))
      ⟨0, a :: b :: c :: rest, []⟩ = [] ∧
    matchAll (.group 1 [] (Regex.chain (DateTerm.patternItems "dd-MM-yy".toList)))
      ⟨0, a :: b :: c :: rest, []⟩ = [] ∧
    matchAll (.group 1 [] (Regex.chain (DateTerm.patternItems "d.MM.yy".toList)))
      ⟨0, a :: b :: c :: rest, []⟩ = [] ∧
    matchAll (.group 1 [] (Regex.chain (DateTerm.patternItems "dd.M.yy".toList)))
      ⟨0, a :: b :: c :: rest, []⟩ = [] ∧
    matchAll (.group 1 [] (Regex.chain (DateTerm.patternItems "d-MM-yy".toList)))
      ⟨0, a :: b :: c :: rest, []⟩ = [] ∧
    matchAll (.group 1 [] (Regex.chain (DateTerm.patternItems "dd-M-yy".toList)))
      ⟨0, a :: b :: c :: rest, []⟩ = [] ∧
    matchAll (.group 1 [] (Regex.chain (DateTerm.patternItems "dd. MM.".toList)))
      ⟨0, a :: b :: c :: rest, []⟩ = [] ∧
    matchAll (.group 1 [] (Regex.chain (DateTerm.patternItems "d.M.yy".toList)))
      ⟨0, a :: b :: c :: rest, []⟩ = [] ∧
    matchAll (.group 1 [] (Regex.chain (DateTerm.patternItems "d-M-yy".toList)))
      ⟨0, a :: b :: c :: rest, []⟩ = [] ∧
    matchAll (.group 1 [] (Regex.chain (DateTerm.patternItems "dd.MM.".toList)))
      ⟨0, a :: b :: c :: rest, []⟩ = [] ∧
    matchAll (.group 1 [] (Regex.chain (DateTerm.patternItems "d. MM.".toList)))
      ⟨0, a :: b :: c :: rest, []⟩ = [] ∧
    matchAll (.group 1 [] (Regex.chain (DateTerm.patternItems "dd. M.".toList)))
      ⟨0, a :: b :: c :: rest, []⟩ = [] ∧
    matchAll (.group 1 [] (Regex.chain (DateTerm.patternItems "d.MM.".toList)))
      ⟨0, a :: b :: c :: rest, []⟩ = [] ∧
    matchAll (.group 1 [] (Regex.chain (DateTerm.patternItems "dd.M.".toList)))
      ⟨0, a :: b :: c :: rest, []⟩ = [] ∧
    matchAll (.group 1 [] (Regex.chain (DateTerm.patternItems "d. M.".toList)))
      ⟨0, a :: b :: c :: rest, []⟩ = [] ∧
    matchAll (.group 1 [] (Regex.chain (DateTerm.patternItems "dd-MM".toList)))
      ⟨0, a :: b :: c :: rest, []⟩ = [] ∧
    matchAll (.group 1 [] (Regex.chain (DateTerm.patternItems "d.M.".toList)))
      ⟨0, a :: b :: c :: rest, []⟩ = [] ∧
    matchAll (.group 1 [] (Regex.chain (DateTerm.patternItems "d-MM".toList)))
      ⟨0, a :: b :: c :: rest, []⟩ = [] ∧
    matchAll (.group 1 [] (Regex.chain (DateTerm.patternItems "dd-M".toList)))
      ⟨0, a :: b :: c :: rest, []⟩ = [] ∧
    matchAll (.group 1 [] (Regex.chain (DateTerm.patternItems "d-M".toList)))
      ⟨0, a :: b :: c :: rest, []⟩ = [] := by
  refine ⟨?_, ?_, ?_, ?_, ?_, ?_, ?_, ?_, ?_, ?_, ?_, ?_, ?_, ?_, ?_, ?_, ?_, ?_, ?_, ?_, ?_, ?_, ?_, ?_, ?_, ?_, ?_, ?_, ?_, ?_, ?_, ?_, ?_, ?_, ?_, ?_⟩ <;>
  simp [DateTerm.patternItems, parseDateFormat, DateTerm.sectionItems, Regex.chain,
    matchAll_seq, matchAll_group, matchAll_digits_two, matchAll_char_cons, matchAll_char_nil,
    countDown, bindStates_cons, bindStates_nil, toLower_of_digit, digit_beq_of_not_digit, ha, hb, hc]

/-- The group of each date pattern on a text that starts with `-`: every pattern
fails, each starts with a digit. -/
theorem DateTerm.group_minus (rest : Text) :
    matchAll (.group 1 [] (Regex.chain (DateTerm.patternItems "dd. MM. yyyy".toList)))
      ⟨0, '-' :: rest, []⟩ = [] ∧
    matchAll (.group 1 [] (Regex.chain (DateTerm.patternItems "d. MM. yyyy".toList)))
      ⟨0, '-' :: rest, []⟩ = [] ∧
    matchAll (.group 1 [] (Regex.chain (DateTerm.patternItems "dd. M. yyyy".toList)))
      ⟨0, '-' :: rest, []⟩ = [] ∧
    matchAll (.group 1 [] (Regex.chain (DateTerm.patternItems "dd.MM.yyyy".toList)))
      ⟨0, '-' :: rest, []⟩ = [] ∧
    matchAll (.group 1 [] (Regex.chain (DateTerm.patternItems "d. M. yyyy".toList)))
      ⟨0, '-' :: rest, []⟩ = [] ∧
    matchAll (.group 1 [] (Regex.chain (DateTerm.patternItems "dd-MM-yyyy".toList)))
      ⟨0, '-' :: rest, []⟩ = [] ∧
    matchAll (.group 1 [] (Regex.chain (DateTerm.patternItems "dd. MM. yy".toList)))
      ⟨0, '-' :: rest, []⟩ = [] ∧
    matchAll (.group 1 [] (Regex.chain (DateTerm.patternItems "d.MM.yyyy".toList)))
      ⟨0, '-' :: rest, []⟩ = [] ∧
    matchAll (.group 1 [] (Regex.chain (DateTerm.patternItems "dd.M.yyyy".toList)))
      ⟨0, '-' :: rest, []⟩ = [] ∧
    matchAll (.group 1 [] (Regex.chain (DateTerm.patternItems "d-MM-yyyy".toList)))
      ⟨0, '-' :: rest, []⟩ = [] ∧
    matchAll (.group 1 [] (Regex.chain (DateTerm.patternItems "dd-M-yyyy".toList)))
      ⟨0, '-' :: rest, []⟩ = [] ∧
    matchAll (.group 1 [] (Regex.chain (DateTerm.patternItems "d. MM. yy".toList)))
      ⟨0, '-' :: rest, []⟩ = [] ∧
    matchAll (.group 1 [] (Regex.chain (DateTerm.patternItems "dd. M. yy".toList)))
      ⟨0, '-' :: rest, []⟩ = [] ∧
    matchAll (.group 1 [] (Regex.chain (DateTerm.patternItems "d.M.yyyy".toList)))
      ⟨0, '-' :: rest, []⟩ = [] ∧
    matchAll (.group 1 [] (Regex.chain (DateTerm.patternItems "d-M-yyyy".toList)))
      ⟨0, '-' :: rest, []⟩ = [] ∧
    matchAll (.group 1 [] (Regex.chain (DateTerm.patternItems "dd.MM.yy".toList)))
      ⟨0, '-' :: rest, []⟩ = [] ∧
    matchAll (.group 1 [] (Regex.chain (DateTerm.patternItems "d. M. yy".toList)))
      ⟨0, '-' :: rest, []⟩ = [] ∧
    matchAll (.group 1 [] (Regex.chain (DateTerm.patternItems "dd-MM-yy".toList)))
      ⟨0, '-' :: rest, []⟩ = [] ∧
    matchAll (.group 1 [] (Regex.chain (DateTerm.patternItems "d.MM.yy".toList)))
      ⟨0, '-' :: rest, []⟩ = [] ∧
    matchAll (.group 1 [] (Regex.chain (DateTerm.patternItems "dd.M.yy".toList)))
      ⟨0, '-' :: rest, []⟩ = [] ∧
    matchAll (.group 1 [] (Regex.chain (DateTerm.patternItems "d-MM-yy".toList)))
      ⟨0, '-' :: rest, []⟩ = [] ∧
    matchAll (.group 1 [] (Regex.chain (DateTerm.patternItems "dd-M-yy".toList)))
      ⟨0, '-' :: rest, []⟩ = [] ∧
    matchAll (.group 1 [] (Regex.chain (DateTerm.patternItems "dd. MM.".toList)))
      ⟨0, '-' :: rest, []⟩ = [] ∧
    matchAll (.group 1 [] (Regex.chain (DateTerm.patternItems "d.M.yy".toList)))
      ⟨0, '-' :: rest, []⟩ = [] ∧
    matchAll (.group 1 [] (Regex.chain (DateTerm.patternItems "d-M-yy".toList)))
      ⟨0, '-' :: rest, []⟩ = [] ∧
    matchAll (.group 1 [] (Regex.chain (DateTerm.patternItems "dd.MM.".toList)))
      ⟨0, '-' :: rest, []⟩ = [] ∧
    matchAll (.group 1 [] (Regex.chain (DateTerm.patternItems "d. MM.".toList)))
      ⟨0, '-' :: rest, []⟩ = [] ∧
    matchAll (.group 1 [] (Regex.chain (DateTerm.patternItems "dd. M.".toList)))
      ⟨0, '-' :: rest, []⟩ = [] ∧
    matchAll (.group 1 [] (Regex.chain (DateTerm.patternItems "d.MM.".toList)))
      ⟨0, '-' :: rest, []⟩ = [] ∧
    matchAll (.group 1 [] (Regex.chain (DateTerm.patternItems "dd.M.".toList)))
      ⟨0, '-' :: rest, []⟩ = [] ∧
    matchAll (.group 1 [] (Regex.chain (DateTerm.patternItems "d. M.".toList)))
      ⟨0, '-' :: rest, []⟩ = [] ∧
    matchAll (.group 1 [] (Regex.chain (DateTerm.patternItems "dd-MM".toList)))
      ⟨0, '-' :: rest, []⟩ = [] ∧
    matchAll (.group 1 [] (Regex.chain (DateTerm.patternItems "d.M.".toList)))
      ⟨0, '-' :: rest, []⟩ = [] ∧
    matchAll (.group 1 [] (Regex.chain (DateTerm.patternItems "d-MM".toList)))
      ⟨0, '-' :: rest, []⟩ = [] ∧
    matchAll (.group 1 [] (Regex.chain (DateTerm.patternItems "dd-M".toList)))
      ⟨0, '-' :: rest, []⟩ = [] ∧
    matchAll (.group 1 [] (Regex.chain (DateTerm.patternItems "d-M".toList)))
      ⟨0, '-' :: rest, []⟩ = [] := by
  refine ⟨?_, ?_, ?_, ?_, ?_, ?_, ?_, ?_, ?_, ?_, ?_, ?_, ?_, ?_, ?_, ?_, ?_, ?_, ?_, ?_, ?_, ?_, ?_, ?_, ?_, ?_, ?_, ?_, ?_, ?_, ?_, ?_, ?_, ?_, ?_, ?_⟩ <;>
  simp [DateTerm.patternItems, parseDateFormat, DateTerm.sectionItems, Regex.chain,
    matchAll_seq, matchAll_group, matchAll_digits_two, matchAll_char_cons, matchAll_char_nil,
    countDown, bindStates_cons, bindStates_nil, toLower_of_digit, digit_beq_of_not_digit,
    matchAll_digits_nondigit, digit_test_of_ascii]

end Expressions
namespace Expressions

open Qt

set_option maxRecDepth 100000 in
theorem DateTerm.compiledCandidates_eq_table :
    DateTerm.compiledCandidates =
      DateTerm.patternTable.map (DateTerm.tableCandidate true) ++
        DateTerm.patternTable.map (DateTerm.tableCandidate false) := by
  decide!

/-- The loop prefixes fail on a text that starts with a digit or `-`. -/
theorem DateTerm.loopPrefix_fails (x : Char) (rest : Text)
    (hx : x.isDigit = true ∨ x = '-') :
    matchAll (DateTerm.compiledPrefix true) ⟨0, x :: rest, []⟩ = [] := by
  rcases hx with hx | rfl
  · simp [DateTerm.compiledPrefix, Regex.anyOf, Regex.text, Regex.chain, matchAll_seq,
      matchAll_alt, matchAll_char_cons, bindStates_nil, hx, toLower_of_digit,
      digit_beq_of_not_digit]
  · simp [DateTerm.compiledPrefix, Regex.anyOf, Regex.text, Regex.chain, matchAll_seq,
      matchAll_alt, matchAll_char_cons, bindStates_nil]

/-- The optional plain prefixes are passed over on a text that starts with a
digit or `-`. -/
theorem DateTerm.plainPrefix_skipped (x : Char) (rest : Text)
    (hx : x.isDigit = true ∨ x = '-') :
    matchAll (DateTerm.compiledPrefix false) ⟨0, x :: rest, []⟩ = [⟨0, x :: rest, []⟩] := by
  rcases hx with hx | rfl
  · simp [DateTerm.compiledPrefix, Regex.anyOf, Regex.text, Regex.chain, matchAll_seq,
      matchAll_alt, matchAll_opt, matchAll_char_cons, bindStates_nil, hx, toLower_of_digit,
      digit_beq_of_not_digit]
  · simp [DateTerm.compiledPrefix, Regex.anyOf, Regex.text, Regex.chain, matchAll_seq,
      matchAll_alt, matchAll_opt, matchAll_char_cons, bindStates_nil]

/-- No candidate with a loop prefix matches a text that starts with a digit or `-`. -/
theorem DateTerm.try_loop (entry : String × Bool) (x : Char) (rest : Text)
    (hx : x.isDigit = true ∨ x = '-') :
    (DateTerm.tableCandidate true entry).try (x :: rest) = none := by
  unfold DateCandidate.try DateTerm.tableCandidate
  cases entry.2
  · simp only [Bool.and_false, Bool.false_eq_true, if_false, DateTerm.compiledRegex,
      matchCompiled_bol, matchAll_seq, DateTerm.loopPrefix_fails x rest hx, bindStates_nil]
    rfl
  · simp [matchCompiled, QRegularExpressionMatch.noMatch]

/-- A candidate without loop prefix on a text that starts with a digit or `-`:
decided by the results of the group of the pattern. -/
theorem DateTerm.try_plain (entry : String × Bool) (x : Char) (rest : Text)
    (hx : x.isDigit = true ∨ x = '-') :
    (DateTerm.tableCandidate false entry).try (x :: rest) =
      DateTerm.fromStates
        (matchAll (.group 1 [] (Regex.chain (DateTerm.patternItems entry.1.toList)))
          ⟨0, x :: rest, []⟩)
        (x :: rest) entry.1.toList entry.2 := by
  unfold DateCandidate.try DateTerm.tableCandidate DateTerm.fromStates
  simp only [Bool.false_and, Bool.false_eq_true, if_false, DateTerm.compiledRegex,
    matchCompiled_bol, matchAll_seq, DateTerm.plainPrefix_skipped x rest hx, bindStates_cons,
    bindStates_nil, List.append_nil]

theorem DateTerm.fromStates_empty (subject pattern : Text) (hasYear : Bool) :
    DateTerm.fromStates [] subject pattern hasYear = none := by
  simp [DateTerm.fromStates, bindStates_nil, QRegularExpressionMatch.noMatch]

/-- The match whose first result of the group ends the text: the date is read
from the text of the group. -/
theorem DateTerm.fromStates_end (n : Nat) (t : Text) (l : List MState)
    (subject pattern : Text) (hasYear : Bool) (hn : n ≤ subject.length) :
    DateTerm.fromStates (⟨n, [], [⟨1, [], t⟩]⟩ :: l) subject pattern hasYear =
      if (toDate t pattern).isValid = true then
        some (DateTerm.create (toDate t pattern) hasYear false, n)
      else none := by
  simp [DateTerm.fromStates, bindStates_cons, YearTerm.match_end,
    QRegularExpressionMatch.captured, QRegularExpressionMatch.capturedLength, hn]

end Expressions
namespace Qt

/-- `toDate` of two digits, `-` and two digits in the four formats of a day,
`-` and a month: the first number is the day and the second the month of a date
of the year 1900. -/
theorem toDate_day_month (a b c d : Char) (ha : a.isDigit = true) (hb : b.isDigit = true)
    (hc : c.isDigit = true) (hd : d.isDigit = true) :
    toDate [a, b, '-', c, d] "dd-MM".toList =
        QDate.ofYMD 1900 (((c.toNat - 48) * 10 + (d.toNat - 48) : Nat) : Int)
          (((a.toNat - 48) * 10 + (b.toNat - 48) : Nat) : Int) ∧
      toDate [a, b, '-', c, d] "d-MM".toList =
        QDate.ofYMD 1900 (((c.toNat - 48) * 10 + (d.toNat - 48) : Nat) : Int)
          (((a.toNat - 48) * 10 + (b.toNat - 48) : Nat) : Int) ∧
      toDate [a, b, '-', c, d] "dd-M".toList =
        QDate.ofYMD 1900 (((c.toNat - 48) * 10 + (d.toNat - 48) : Nat) : Int)
          (((a.toNat - 48) * 10 + (b.toNat - 48) : Nat) : Int) ∧
      toDate [a, b, '-', c, d] "d-M".toList =
        QDate.ofYMD 1900 (((c.toNat - 48) * 10 + (d.toNat - 48) : Nat) : Int)
          (((a.toNat - 48) * 10 + (b.toNat - 48) : Nat) : Int) := by
  refine ⟨?_, ?_, ?_, ?_⟩ <;>
  simp [toDate, parseDateFormat, readDateSections, readNumber, Text.digitsValue, ha, hb, hc, hd]

end Qt

namespace Expressions

open Qt

/-- `DateTerm::parse` on a text of two digits, `-` and two digits: the text is
read as a day and a month; the term of that date of the year 1900, without
year and not looped, when it is a date, and no term otherwise. -/
theorem DateTerm.parse_monthDay_text (a b c d : Char) (ha : a.isDigit = true)
    (hb : b.isDigit = true) (hc : c.isDigit = true) (hd : d.isDigit = true) :
    DateTerm.parse [a, b, '-', c, d] =
      if (QDate.ofYMD 1900 (((c.toNat - 48) * 10 + (d.toNat - 48) : Nat) : Int)
          (((a.toNat - 48) * 10 + (b.toNat - 48) : Nat) : Int)).isValid = true then
        some (DateTerm.create
          (QDate.ofYMD 1900 (((c.toNat - 48) * 10 + (d.toNat - 48) : Nat) : Int)
            (((a.toNat - 48) * 10 + (b.toNat - 48) : Nat) : Int)) false false, 5)
      else none := by
  have hloop : List.findSome? (fun e => (DateTerm.tableCandidate true e).try [a, b, '-', c, d])
      DateTerm.patternTable = none :=
    List.findSome?_eq_none_iff.2 (fun e _ => DateTerm.try_loop e a _ (Or.inl ha))
  obtain ⟨t1, t2, t3, t4⟩ := toDate_day_month a b c d ha hb hc hd
  obtain ⟨g1, g2, g3, g4, g5, g6, g7, g8, g9, g10, g11, g12, g13, g14, g15, g16, g17, g18, g19,
    g20, g21, g22, g23, g24, g25, g26, g27, g28, g29, g30, g31, g32, g33, g34, g35, g36⟩ :=
    DateTerm.group_monthDay_text a b c d ha hb hc hd
  rw [DateTerm.parse_eq_compiledDate, DateTerm.compiledCandidates_eq_table, List.findSome?_append,
    List.findSome?_map, List.findSome?_map]
  simp only [Function.comp_def, hloop, Option.none_or, DateTerm.try_plain _ a _ (Or.inl ha)]
  simp only [DateTerm.patternTable, List.findSome?_cons, List.findSome?_nil,
    g1, g2, g3, g4, g5, g6, g7, g8, g9, g10, g11, g12, g13, g14, g15, g16, g17, g18, g19,
    g20, g21, g22, g23, g24, g25, g26, g27, g28, g29, g30, g31, g32, g33, g34, g35, g36,
    DateTerm.fromStates_empty]
  rw [DateTerm.fromStates_end 5 _ _ _ _ _ (by simp), DateTerm.fromStates_end 5 _ _ _ _ _ (by simp),
    DateTerm.fromStates_end 5 _ _ _ _ _ (by simp), DateTerm.fromStates_end 5 _ _ _ _ _ (by simp),
    t1, t2, t3, t4]
  by_cases hv : (QDate.ofYMD 1900 (((c.toNat - 48) * 10 + (d.toNat - 48) : Nat) : Int)
      (((a.toNat - 48) * 10 + (b.toNat - 48) : Nat) : Int)).isValid = true
  · simp only [hv, if_true]
  · simp only [hv, Bool.false_eq_true, if_false]

end Expressions
namespace Qt

theorem twoDigits_eq :
    ∀ n : Fin 100, Text.twoDigits n.val =
      [Char.ofNat (48 + n.val / 10), Char.ofNat (48 + n.val % 10)] := by
  decide!

/-- A number below 100 in two digits. -/
theorem twoDigits_spec (n : Nat) (h : n < 100) :
    ∃ a b : Char, Text.twoDigits n = [a, b] ∧ a.isDigit = true ∧ b.isDigit = true ∧
      (a.toNat - 48) * 10 + (b.toNat - 48) = n := by
  have h1 : n / 10 < 10 := by omega
  have h2 : n % 10 < 10 := by omega
  refine ⟨_, _, twoDigits_eq ⟨n, h⟩, isDigit_ofNat_digit h1, isDigit_ofNat_digit h2, ?_⟩
  rw [toNat_ofNat_digit h1, toNat_ofNat_digit h2]
  omega

end Qt

namespace Expressions

open Qt

/-- The description of a date term without year: the month and the day in two
digits each, with `-` between them. -/
theorem DateTerm.describe_monthDay (y m d : Int) (hv : isValidYMD y m d = true)
    (isLooped : Bool) :
    DateTerm.describe (DateTerm.create (QDate.ofYMD y m d) false isLooped) =
      Text.twoDigits m.toNat ++ '-' :: Text.twoDigits d.toNat := by
  have hs : testFlag (DateTerm.create (QDate.ofYMD y m d) false isLooped).scope Year = false := by
    simp only [DateTerm.create]
    decide
  have hvalid : (QDate.ofYMD y m d).isValid = true := by
    rw [QDate.ofYMD_of_valid hv]
    rfl
  have hfmt : parseDateFormat "MM-dd".toList = [.month 2, .literal '-', .day 2] := by decide
  simp only [DateTerm.describe, hs, Bool.false_eq_true, if_false, dateToString, hfmt]
  simp only [DateTerm.create, hvalid, if_true, List.map_cons, List.map_nil, DateSection.toText,
    QDate.month_ofYMD hv, QDate.day_ofYMD hv, List.flatten_cons, List.flatten_nil,
    List.append_nil, List.singleton_append]

/-- The description of a date term with year starts with the year: `-` for a
negative year, at least four digits otherwise. -/
theorem DateTerm.describe_year (y m d : Int) (hv : isValidYMD y m d = true)
    (isLooped : Bool) :
    (∃ rest, DateTerm.describe (DateTerm.create (QDate.ofYMD y m d) true isLooped) =
      '-' :: rest) ∨
    (∃ a b c rest, DateTerm.describe (DateTerm.create (QDate.ofYMD y m d) true isLooped) =
      a :: b :: c :: rest ∧ a.isDigit = true ∧ b.isDigit = true ∧ c.isDigit = true) := by
  have hs : testFlag (DateTerm.create (QDate.ofYMD y m d) true isLooped).scope Year = true := by
    simp only [DateTerm.create]
    decide
  have hvalid : (QDate.ofYMD y m d).isValid = true := by
    rw [QDate.ofYMD_of_valid hv]
    rfl
  have hfmt : parseDateFormat "yyyy-MM-dd".toList =
      [.year4, .literal '-', .month 2, .literal '-', .day 2] := by decide
  simp only [DateTerm.describe, hs, if_true, dateToString, hfmt]
  simp only [DateTerm.create, hvalid, if_true, List.map_cons, List.map_nil, DateSection.toText,
    QDate.year_ofYMD hv, List.flatten_cons]
  by_cases hneg : y < 0
  · left
    simp only [hneg, if_true, Text.argZeroPadded, List.cons_append]
    exact ⟨_, rfl⟩
  · right
    obtain ⟨ds, hshape, hds, -, hpos, -⟩ := argZeroPadded_spec y
    simp only [hneg, if_false] at hshape ⊢
    rw [hshape]
    have h4 := hpos (by omega)
    match ds, h4, hds with
    | a :: b :: c :: rest, _, hds =>
      exact ⟨a, b, c, _, rfl, hds a (by simp), hds b (by simp), hds c (by simp)⟩

end Expressions
namespace Expressions

open Qt

/-- `DateTerm::parse` on a text that starts with three digits or with `-`: no
pattern matches. -/
theorem DateTerm.parse_year_text (text : Text)
    (h : (∃ rest, text = '-' :: rest) ∨
      (∃ a b c rest, text = a :: b :: c :: rest ∧ a.isDigit = true ∧ b.isDigit = true ∧
        c.isDigit = true)) :
    DateTerm.parse text = none := by
  rw [DateTerm.parse_eq_compiledDate, DateTerm.compiledCandidates_eq_table, List.findSome?_append,
    List.findSome?_map, List.findSome?_map]
  rcases h with ⟨rest, rfl⟩ | ⟨a, b, c, rest, rfl, ha, hb, hc⟩
  · have hloop : List.findSome? (fun e => (DateTerm.tableCandidate true e).try ('-' :: rest))
        DateTerm.patternTable = none :=
      List.findSome?_eq_none_iff.2 (fun e _ => DateTerm.try_loop e '-' _ (Or.inr rfl))
    obtain ⟨g1, g2, g3, g4, g5, g6, g7, g8, g9, g10, g11, g12, g13, g14, g15, g16, g17, g18, g19,
      g20, g21, g22, g23, g24, g25, g26, g27, g28, g29, g30, g31, g32, g33, g34, g35, g36⟩ :=
      DateTerm.group_minus rest
    simp only [Function.comp_def, hloop, Option.none_or,
      DateTerm.try_plain _ '-' _ (Or.inr rfl)]
    simp only [DateTerm.patternTable, List.findSome?_cons, List.findSome?_nil,
      g1, g2, g3, g4, g5, g6, g7, g8, g9, g10, g11, g12, g13, g14, g15, g16, g17, g18, g19,
      g20, g21, g22, g23, g24, g25, g26, g27, g28, g29, g30, g31, g32, g33, g34, g35, g36,
      DateTerm.fromStates_empty]
  · have hloop : List.findSome?
        (fun e => (DateTerm.tableCandidate true e).try (a :: b :: c :: rest))
        DateTerm.patternTable = none :=
      List.findSome?_eq_none_iff.2 (fun e _ => DateTerm.try_loop e a _ (Or.inl ha))
    obtain ⟨g1, g2, g3, g4, g5, g6, g7, g8, g9, g10, g11, g12, g13, g14, g15, g16, g17, g18, g19,
      g20, g21, g22, g23, g24, g25, g26, g27, g28, g29, g30, g31, g32, g33, g34, g35, g36⟩ :=
      DateTerm.group_three_digits a b c rest ha hb hc
    simp only [Function.comp_def, hloop, Option.none_or, DateTerm.try_plain _ a _ (Or.inl ha)]
    simp only [DateTerm.patternTable, List.findSome?_cons, List.findSome?_nil,
      g1, g2, g3, g4, g5, g6, g7, g8, g9, g10, g11, g12, g13, g14, g15, g16, g17, g18, g19,
      g20, g21, g22, g23, g24, g25, g26, g27, g28, g29, g30, g31, g32, g33, g34, g35, g36,
      DateTerm.fromStates_empty]

/-- C13 (counterexample). The date term without year of 4 March is described
as "03-04", which `DateTerm::parse` reads as day 3 of month 4, the 3rd of
April; the description "2024-03-04" of the date term with year of 4 March 2024
matches no date pattern and yields no term. -/
theorem date_describe_not_read_back :
    DateTerm.describe (DateTerm.create (QDate.ofYMD 1900 3 4) false false) = "03-04".toList ∧
      DateTerm.parse "03-04".toList =
        some (DateTerm.create (QDate.ofYMD 1900 4 3) false false, 5) ∧
      QDate.ofYMD 1900 4 3 ≠ QDate.ofYMD 1900 3 4 ∧
      DateTerm.describe (DateTerm.create (QDate.ofYMD 2024 3 4) true false) =
        "2024-03-04".toList ∧
      DateTerm.parse "2024-03-04".toList = none := by
  decide!

/-- C13 (amended). `DateTerm::parse` does not read the description of a date
term back. The description of a term without year is the month and the day as
`MM-dd`, which the recognizer reads with the pattern `dd-MM`: for the date of
day `d` in month `m` the result is the term, without year and not looped, of
day `m` in month `d` of the year 1900 when `d` is at most 12, and no term
otherwise, so the day and the month come back only when they are equal. The
description of a term with a year, `yyyy-MM-dd`, yields no term. -/
theorem date_describe_parse (y m d : Int) (isLooped : Bool)
    (hv : isValidYMD y m d = true) :
    DateTerm.parse (DateTerm.describe (DateTerm.create (QDate.ofYMD y m d) false isLooped)) =
        (if d ≤ 12 then some (DateTerm.create (QDate.ofYMD 1900 d m) false false, 5)
          else none) ∧
      DateTerm.parse (DateTerm.describe (DateTerm.create (QDate.ofYMD y m d) true isLooped)) =
        none := by
  obtain ⟨hy, hm1, hm12, hd1, hdmax⟩ := (isValidYMD_iff_daysIn y m d).1 hv
  have hdb := daysIn_bounds y m hm1 hm12
  refine ⟨?_, DateTerm.parse_year_text _ (DateTerm.describe_year y m d hv isLooped)⟩
  obtain ⟨a, b, hmt, ha, hb, hmval⟩ := twoDigits_spec m.toNat (by omega)
  obtain ⟨c, e, hdt, hc, he, hdval⟩ := twoDigits_spec d.toNat (by omega)
  have em : ((((a.toNat - 48) * 10 + (b.toNat - 48) : Nat)) : Int) = m := by
    rw [hmval]
    omega
  have ed : ((((c.toNat - 48) * 10 + (e.toNat - 48) : Nat)) : Int) = d := by
    rw [hdval]
    omega
  rw [DateTerm.describe_monthDay y m d hv isLooped, hmt, hdt]
  show DateTerm.parse [a, b, '-', c, e] = _
  rw [DateTerm.parse_monthDay_text a b c e ha hb hc he, em, ed]
  by_cases h12 : d ≤ 12
  · have hvalid : isValidYMD 1900 d m = true := by
      rw [isValidYMD_iff_daysIn]
      have := daysIn_bounds 1900 d hd1 h12
      exact ⟨by decide, hd1, h12, hm1, by omega⟩
    have hv2 : (QDate.ofYMD 1900 d m).isValid = true := by
      rw [QDate.ofYMD_of_valid hvalid]
      rfl
    simp only [hv2, h12, if_true]
  · have hinvalid : ¬ isValidYMD 1900 d m = true := by
      rw [isValidYMD_iff_daysIn]
      rintro ⟨-, -, h, -, -⟩
      exact h12 h
    have hv2 : (QDate.ofYMD 1900 d m).isValid = false := by
      simp [QDate.ofYMD, hinvalid, QDate.isValid]
    simp only [hv2, h12, Bool.false_eq_true, if_false]

theorem date_describe_parse_witness :
    isValidYMD 1900 3 25 = true ∧
      DateTerm.parse (DateTerm.describe (DateTerm.create (QDate.ofYMD 1900 3 25) false false)) =
        none ∧
      DateTerm.parse (DateTerm.describe (DateTerm.create (QDate.ofYMD 1900 3 25) true false)) =
        none :=
  ⟨by decide, date_describe_parse 1900 3 25 false (by decide)⟩

end Expressions
namespace Qt

theorem regexEscape_append (xs ys : Text) :
    regexEscape (xs ++ ys) = regexEscape xs ++ regexEscape ys := by
  induction xs with
  | nil => rfl
  | cons c rest ih =>
    show regexEscape (c :: (rest ++ ys)) = _
    simp only [regexEscape, ih]
    split <;> rfl

theorem regexEscape_quote : regexEscape ['\''] = ['\\', '\''] := by decide

theorem length_le_regexEscape (xs : Text) : xs.length ≤ (regexEscape xs).length := by
  induction xs with
  | nil => exact Nat.le_refl _
  | cons c rest ih =>
    simp only [regexEscape]
    split <;> simp only [List.length_cons] <;> omega

theorem regexEscape_eq_nil {xs : Text} (h : regexEscape xs = []) : xs = [] := by
  cases xs with
  | nil => rfl
  | cons c rest =>
    simp only [regexEscape] at h
    split at h <;> exact absurd h (by simp)

/-- An escaped text followed by an escaped quote does not start with a quote. -/
theorem regexEscape_head (xs tail : Text) :
    ∃ h t, regexEscape xs ++ '\\' :: '\'' :: tail = h :: t ∧ h ≠ '\'' := by
  cases xs with
  | nil => exact ⟨'\\', _, rfl, by decide⟩
  | cons c rest =>
    simp only [regexEscape]
    split
    · rename_i hc
      refine ⟨c, _, rfl, ?_⟩
      rintro rfl
      exact absurd hc (by decide)
    · exact ⟨'\\', _, rfl, by decide⟩

/-- An escaped text does not start with a quote. -/
theorem regexEscape_head_ne (xs : Text) :
    regexEscape xs = [] ∨ ∃ h t, regexEscape xs = h :: t ∧ h ≠ '\'' := by
  cases xs with
  | nil => exact Or.inl rfl
  | cons c rest =>
    right
    simp only [regexEscape]
    split
    · rename_i hc
      refine ⟨c, _, rfl, ?_⟩
      rintro rfl
      exact absurd hc (by decide)
    · exact ⟨'\\', _, rfl, by decide⟩

theorem startsWith_quote_cons (c h : Char) (t : Text) (hh : h ≠ '\'') :
    Text.startsWith (c :: h :: t) ['\\', '\''] false = false := by
  simp only [Text.startsWith, Bool.false_eq_true, if_false, Bool.and_true, Bool.and_eq_false_imp,
    beq_iff_eq, beq_eq_false_iff_ne]
  intro _ h2
  exact hh h2.symm

theorem regexEscape_cons (c : Char) (rest : Text) :
    regexEscape (c :: rest) =
      if (c.isAlphanum || decide (c = '_')) = true then c :: regexEscape rest
      else '\\' :: c :: regexEscape rest := by
  simp only [regexEscape]

/-- The escaped quote that follows an escaped text without quote is the first
one from the start of the text on. -/
theorem indexOfAux_escaped (xs tail : Text) (pos : Nat) (hq : '\'' ∉ xs) :
    Text.indexOfAux ['\\', '\''] (regexEscape xs ++ '\\' :: '\'' :: tail) pos =
      some (pos + (regexEscape xs).length) := by
  induction xs generalizing pos with
  | nil => simp [regexEscape, Text.indexOfAux, Text.startsWith]
  | cons c rest ih =>
    have hc : c ≠ '\'' := fun h => hq (by rw [h]; exact List.mem_cons_self _ _)
    have hrest : '\'' ∉ rest := fun h => hq (List.mem_cons_of_mem _ h)
    obtain ⟨h, t, e, hh⟩ := regexEscape_head rest tail
    rw [regexEscape_cons]
    by_cases hal : (c.isAlphanum || decide (c = '_')) = true
    · have hcb : c ≠ '\\' := by
        rintro rfl
        exact absurd hal (by decide)
      have hs : Text.startsWith (c :: (regexEscape rest ++ '\\' :: '\'' :: tail))
          ['\\', '\''] false = false := by
        simp [Text.startsWith, Ne.symm hcb]
      simp only [hal, if_true, List.cons_append, Text.indexOfAux, hs, Bool.false_eq_true,
        if_false, ih (pos + 1) hrest, List.length_cons]
      congr 1
      omega
    · have hs1 : Text.startsWith ('\\' :: c :: (regexEscape rest ++ '\\' :: '\'' :: tail))
          ['\\', '\''] false = false := by
        simp [Text.startsWith, Ne.symm hc]
      have hs2 : Text.startsWith (c :: (regexEscape rest ++ '\\' :: '\'' :: tail))
          ['\\', '\''] false = false := by
        rw [e]
        exact startsWith_quote_cons c h t hh
      simp only [hal, Bool.false_eq_true, if_false, List.cons_append, Text.indexOfAux, hs1, hs2,
        ih (pos + 1 + 1) hrest, List.length_cons]
      congr 1
      omega

/-- No escaped quote in an escaped text without quote. -/
theorem indexOfAux_escaped_none (xs : Text) (pos : Nat) (hq : '\'' ∉ xs) :
    Text.indexOfAux ['\\', '\''] (regexEscape xs) pos = none := by
  induction xs generalizing pos with
  | nil => simp [regexEscape, Text.indexOfAux]
  | cons c rest ih =>
    have hc : c ≠ '\'' := fun h => hq (by rw [h]; exact List.mem_cons_self _ _)
    have hrest : '\'' ∉ rest := fun h => hq (List.mem_cons_of_mem _ h)
    have hs2 : Text.startsWith (c :: regexEscape rest) ['\\', '\''] false = false := by
      rcases regexEscape_head_ne rest with e | ⟨h, t, e, hh⟩
      · rw [e]
        simp [Text.startsWith]
      · rw [e]
        exact startsWith_quote_cons c h t hh
    rw [regexEscape_cons]
    by_cases hal : (c.isAlphanum || decide (c = '_')) = true
    · simp only [hal, if_true, Text.indexOfAux, hs2, Bool.false_eq_true, if_false]
      exact ih (pos + 1) hrest
    · have hs1 : Text.startsWith ('\\' :: c :: regexEscape rest) ['\\', '\''] false = false := by
        simp [Text.startsWith, Ne.symm hc]
      simp only [hal, Bool.false_eq_true, if_false, Text.indexOfAux, hs1, hs2]
      exact ih (pos + 1 + 1) hrest

end Qt

namespace Qt

/-- There is one part more than there are quotes. -/
theorem splitAux_length (s cur : Text) :
    (Text.splitAux '\'' s cur).length = s.count '\'' + 1 := by
  induction s generalizing cur with
  | nil => simp [Text.splitAux]
  | cons c rest ih =>
    by_cases hc : c = '\''
    · subst hc
      simp [Text.splitAux, ih]
    · have hc2 : ¬ (c == '\'') = true := by simpa using hc
      simp [Text.splitAux, hc, ih, List.count_cons, hc2]

/-- The escaped pattern is the escaped parts between the quotes, joined by
escaped quotes. -/
theorem regexEscape_splitAux (s cur : Text) :
    regexEscape (cur.reverse ++ s) =
      Text.join ((Text.splitAux '\'' s cur).map regexEscape) ['\\', '\''] := by
  induction s generalizing cur with
  | nil => simp [Text.splitAux, Text.join]
  | cons c rest ih =>
    by_cases hc : c = '\''
    · subst hc
      have ih0 := ih []
      simp only [List.reverse_nil, List.nil_append] at ih0
      have hne : (Text.splitAux '\'' rest []).map regexEscape ≠ [] := by
        intro h
        have hl := splitAux_length rest []
        rw [← List.length_map (Text.splitAux '\'' rest []) regexEscape, h] at hl
        simp at hl
      obtain ⟨q, qs, hq⟩ := List.exists_cons_of_ne_nil hne
      simp only [Text.splitAux, if_true, List.map_cons]
      rw [hq, Text.join, ← hq, ← ih0, regexEscape_append]
      rw [show ('\'' :: rest : Text) = ['\''] ++ rest from rfl, regexEscape_append,
        regexEscape_quote, List.append_assoc]
    · simp only [Text.splitAux, hc, if_false]
      rw [← ih (c :: cur)]
      simp

/-- No part between the quotes holds a quote. -/
theorem splitAux_no_quote (s cur : Text) (hcur : '\'' ∉ cur) :
    ∀ seg ∈ Text.splitAux '\'' s cur, '\'' ∉ seg := by
  induction s generalizing cur with
  | nil =>
    intro seg hseg
    simp only [Text.splitAux, List.mem_singleton] at hseg
    subst hseg
    simpa using hcur
  | cons c rest ih =>
    intro seg hseg
    by_cases hc : c = '\''
    · simp only [Text.splitAux, hc, if_true, List.mem_cons] at hseg
      rcases hseg with h | h
      · subst h
        simpa using hcur
      · exact ih [] (by simp) seg h
    · simp only [Text.splitAux, hc, if_false] at hseg
      refine ih (c :: cur) ?_ seg hseg
      simp only [List.mem_cons, not_or]
      exact ⟨fun h => hc h.symm, hcur⟩

theorem count_le_regexEscape (s : Text) : s.count '\'' ≤ (regexEscape s).length :=
  Nat.le_trans (List.count_le_length _ _) (length_le_regexEscape s)

theorem indexOf_append (done x sub : Text) :
    Text.indexOf (done ++ x) sub done.length = Text.indexOfAux sub x done.length := by
  simp [Text.indexOf]

theorem indexOf_append_two (done x sub : Text) (a b : Char) :
    Text.indexOf (done ++ a :: b :: x) sub (done.length + 2) =
      Text.indexOfAux sub x (done.length + 2) := by
  have h : (done ++ a :: b :: x).drop (done.length + 2) = x := by
    rw [show done ++ a :: b :: x = (done ++ [a, b]) ++ x by simp]
    rw [show done.length + 2 = (done ++ [a, b]).length by simp]
    exact List.drop_left _ _
  simp only [Text.indexOf, h]

theorem mid_append (done x y : Text) : Text.mid (done ++ (x ++ y)) done.length x.length = x := by
  simp [Text.mid]

theorem replaceAt_append (done x y r : Text) :
    Text.replaceAt (done ++ (x ++ y)) done.length x.length r = done ++ r ++ y := by
  simp [Text.replaceAt]

end Qt

namespace Expressions

open Qt

/-- Outside quotes, at a quote: the round only passes the quote. -/
theorem loop_outside_quote (replacer : Text → Text) (fuel : Nat) (pattern : Text) (a : Nat)
    (h : Text.indexOf pattern ['\\', '\''] a = some a) :
    dateTimeFormatToRegexLoop replacer (fuel + 1) pattern a false =
      dateTimeFormatToRegexLoop replacer fuel pattern (a + 2) true := by
  simp [dateTimeFormatToRegexLoop, h]

/-- Outside quotes with no quote left: the rest is replaced and the loop ends. -/
theorem loop_outside_last (replacer : Text → Text) (fuel : Nat) (pattern : Text) (a : Nat)
    (h : Text.indexOf pattern ['\\', '\''] a = none) :
    dateTimeFormatToRegexLoop replacer (fuel + 1) pattern a false =
      if pattern.length - a > 0 then
        Text.replaceAt pattern a (pattern.length - a)
          (replacer (Text.mid pattern a (pattern.length - a)))
      else pattern := by
  by_cases hl : pattern.length - a > 0
  · simp [dateTimeFormatToRegexLoop, h, hl]
  · simp [dateTimeFormatToRegexLoop, h, hl]

/-- Outside quotes with a quote further on: the text before it is replaced. -/
theorem loop_outside_next (replacer : Text → Text) (fuel : Nat) (pattern : Text) (a q : Nat)
    (h : Text.indexOf pattern ['\\', '\''] a = some q) (hq : a < q) :
    dateTimeFormatToRegexLoop replacer (fuel + 1) pattern a false =
      dateTimeFormatToRegexLoop replacer fuel
        (Text.replaceAt pattern a (q - a) (replacer (Text.mid pattern a (q - a))))
        (a + (replacer (Text.mid pattern a (q - a))).length + 2) true := by
  have h1 : ¬ q = a := by omega
  have h2 : q - a > 0 := by omega
  simp [dateTimeFormatToRegexLoop, h, h1, h2]

/-- Inside quotes with the closing quote found: both quotes are taken out. -/
theorem loop_inside (replacer : Text → Text) (fuel : Nat) (pattern : Text) (a q : Nat)
    (h : Text.indexOf pattern ['\\', '\''] a = some q) :
    dateTimeFormatToRegexLoop replacer (fuel + 1) pattern a true =
      dateTimeFormatToRegexLoop replacer fuel
        (Text.replaceAt pattern (a - 2) (q - a + 4) (Text.mid pattern a (q - a)))
        (q - 2) false := by
  simp [dateTimeFormatToRegexLoop, h]

end Expressions

namespace Expressions

open Qt

theorem join_escaped_cons (s r : Text) (rest : List Text) :
    Text.join ((s :: r :: rest).map regexEscape) ['\\', '\''] =
      regexEscape s ++ '\\' :: '\'' :: Text.join ((r :: rest).map regexEscape) ['\\', '\''] := by
  simp [Text.join]

theorem mid_quoted (done x y : Text) (a b : Char) :
    Text.mid (done ++ a :: b :: (x ++ y)) (done.length + 2) x.length = x := by
  have h : (done ++ a :: b :: (x ++ y)).drop (done.length + 2) = x ++ y := by
    rw [show done ++ a :: b :: (x ++ y) = (done ++ [a, b]) ++ (x ++ y) by simp]
    rw [show done.length + 2 = (done ++ [a, b]).length by simp]
    exact List.drop_left _ _
  simp [Text.mid, h]

theorem replaceAt_quoted (done x y : Text) (a b c d : Char) :
    Text.replaceAt (done ++ a :: b :: (x ++ c :: d :: y)) done.length (x.length + 4) x =
      done ++ x ++ y := by
  have h : (done ++ a :: b :: (x ++ c :: d :: y)).drop (done.length + (x.length + 4)) = y := by
    rw [show done ++ a :: b :: (x ++ c :: d :: y) = (done ++ [a, b] ++ x ++ [c, d]) ++ y by simp]
    rw [show done.length + (x.length + 4) = (done ++ [a, b] ++ x ++ [c, d]).length by
      simp]
    exact List.drop_left _ _
  simp [Text.replaceAt, h]

/-- The loop on the escaped segments: started outside quotes with an odd number
of segments left, or inside quotes (just after the opening quote) with an even
number left, it gives what the segments call for, after the text already done. -/
theorem loop_segments (replacer : Text → Text) (segs : List Text)
    (hq : ∀ s ∈ segs, '\'' ∉ s) :
    (segs.length % 2 = 1 → ∀ (done : Text) (fuel : Nat), segs.length ≤ fuel →
      dateTimeFormatToRegexLoop replacer fuel
        (done ++ Text.join (segs.map regexEscape) ['\\', '\'']) done.length false =
        done ++ dateTimeFormatToRegexSegments replacer segs false) ∧
    (segs.length % 2 = 0 → segs ≠ [] → ∀ (done : Text) (fuel : Nat), segs.length ≤ fuel →
      dateTimeFormatToRegexLoop replacer fuel
        (done ++ '\\' :: '\'' :: Text.join (segs.map regexEscape) ['\\', '\''])
        (done.length + 2) true =
        done ++ dateTimeFormatToRegexSegments replacer segs true) := by
  induction segs with
  | nil => exact ⟨by simp, by simp⟩
  | cons s rest ih =>
    have hs : '\'' ∉ s := hq s (List.mem_cons_self _ _)
    have ih := ih (fun x hx => hq x (List.mem_cons_of_mem _ hx))
    constructor
    · intro hodd done fuel hfuel
      obtain ⟨fuel, rfl⟩ : ∃ f, fuel = f + 1 :=
        ⟨fuel - 1, by simp only [List.length_cons] at hfuel; omega⟩
      cases rest with
      | nil =>
        have hi : Text.indexOf (done ++ regexEscape s) ['\\', '\''] done.length = none := by
          rw [indexOf_append]
          exact indexOfAux_escaped_none s _ hs
        simp only [List.map_cons, List.map_nil, Text.join]
        rw [loop_outside_last _ _ _ _ hi]
        by_cases he : s = []
        · subst he
          simp [regexEscape, dateTimeFormatToRegexSegments]
        · have hpos : 0 < (regexEscape s).length := by
            rcases Nat.eq_zero_or_pos (regexEscape s).length with h0 | h0
            · exact absurd (regexEscape_eq_nil (List.length_eq_zero.mp h0)) he
            · exact h0
          have hl : (done ++ regexEscape s).length - done.length = (regexEscape s).length := by
            simp
          rw [hl, if_pos hpos]
          have hm := mid_append done (regexEscape s) []
          have hr := replaceAt_append done (regexEscape s) []
            (replacer (regexEscape s))
          simp only [List.append_nil] at hm hr
          rw [hm, hr]
          simp [dateTimeFormatToRegexSegments, he]
      | cons r rest2 =>
        have heven : (r :: rest2).length % 2 = 0 := by
          simp only [List.length_cons] at hodd ⊢
          omega
        have hfuel2 : (r :: rest2).length ≤ fuel := by
          simp only [List.length_cons] at hfuel ⊢
          omega
        rw [join_escaped_cons]
        have hi := indexOfAux_escaped s
          (Text.join ((r :: rest2).map regexEscape) ['\\', '\'']) done.length hs
        rw [← indexOf_append] at hi
        by_cases he : s = []
        · subst he
          simp only [regexEscape, List.length_nil, Nat.add_zero, List.nil_append] at hi ⊢
          rw [loop_outside_quote _ _ _ _ hi]
          rw [ih.2 heven (List.cons_ne_nil _ _) done fuel hfuel2]
          simp [dateTimeFormatToRegexSegments]
        · have hpos : 0 < (regexEscape s).length := by
            rcases Nat.eq_zero_or_pos (regexEscape s).length with h0 | h0
            · exact absurd (regexEscape_eq_nil (List.length_eq_zero.mp h0)) he
            · exact h0
          rw [loop_outside_next _ _ _ _ _ hi (by omega)]
          rw [show done.length + (regexEscape s).length - done.length = (regexEscape s).length
            by omega]
          rw [mid_append, replaceAt_append]
          have h2 := ih.2 heven (List.cons_ne_nil _ _) (done ++ replacer (regexEscape s)) fuel
            hfuel2
          rw [List.length_append, List.append_assoc] at h2
          rw [List.append_assoc, h2]
          simp [dateTimeFormatToRegexSegments, he]
    · intro heven _ done fuel hfuel
      obtain ⟨fuel, rfl⟩ : ∃ f, fuel = f + 1 :=
        ⟨fuel - 1, by simp only [List.length_cons] at hfuel; omega⟩
      cases rest with
      | nil => simp at heven
      | cons r rest2 =>
        have hodd : (r :: rest2).length % 2 = 1 := by
          simp only [List.length_cons] at heven ⊢
          omega
        have hfuel2 : (r :: rest2).length ≤ fuel := by
          simp only [List.length_cons] at hfuel ⊢
          omega
        rw [join_escaped_cons]
        have hi := indexOfAux_escaped s
          (Text.join ((r :: rest2).map regexEscape) ['\\', '\'']) (done.length + 2) hs
        rw [← indexOf_append_two done _ _ '\\' '\''] at hi
        rw [loop_inside _ _ _ _ _ hi]
        rw [show done.length + 2 + (regexEscape s).length - (done.length + 2) =
          (regexEscape s).length by omega]
        rw [show done.length + 2 - 2 = done.length by omega]
        rw [show done.length + 2 + (regexEscape s).length - 2 =
          done.length + (regexEscape s).length by omega]
        rw [mid_quoted, replaceAt_quoted]
        have h1 := ih.1 hodd (done ++ regexEscape s) fuel hfuel2
        rw [List.length_append] at h1
        rw [h1]
        simp [dateTimeFormatToRegexSegments]

end Expressions

namespace Expressions

open Qt

/-- C20. For every format pattern whose single quotes are balanced (their
number is even) and every replacer, `dateTimeFormatToRegex` returns the
concatenation, segment by segment, of the replacer applied to the escaped
segment for the segments outside quotes and of the escaped segment for the
segments inside quotes, the quotes themselves removed; the segments are the
parts of the pattern between its quotes, an empty part outside quotes being no
segment. -/
theorem dateTimeFormatToRegex_segments (pattern : Text) (replacer : Text → Text)
    (hbalanced : pattern.count '\'' % 2 = 0) :
    dateTimeFormatToRegex pattern replacer =
      dateTimeFormatToRegexSegments replacer (Text.split pattern '\'') false := by
  have hlen : (Text.split pattern '\'').length = pattern.count '\'' + 1 :=
    splitAux_length pattern []
  have hjoin : regexEscape pattern =
      Text.join ((Text.split pattern '\'').map regexEscape) ['\\', '\''] := by
    have h := regexEscape_splitAux pattern []
    simpa using h
  have hloop := (loop_segments replacer (Text.split pattern '\'')
    (splitAux_no_quote pattern [] (by simp))).1 (by omega) []
    ((regexEscape pattern).length + 2)
    (by have := count_le_regexEscape pattern; omega)
  simp only [List.nil_append, List.length_nil] at hloop
  unfold dateTimeFormatToRegex
  simp only []
  rw [← hloop, ← hjoin]

/-- C20 at the pattern "h' oclock'" with the hour replacer of
`InvertedTimeTerm::hourToRegex`: the result is what the segments `h` (outside)
and ` oclock` (inside) call for, `\d{1,2}\ oclock`. -/
theorem dateTimeFormatToRegex_segments_witness :
    "h' oclock'".toList.count '\'' % 2 = 0 ∧
    dateTimeFormatToRegex "h' oclock'".toList
      (fun text =>
        Text.replaceAll
          (Text.replaceAll (Text.replaceAll text "hh".toList "\\d\x7b2\x7d".toList false)
            "h".toList "\\d\x7b1,2\x7d".toList false)
          "ap".toList amPmRegex true) =
      dateTimeFormatToRegexSegments
        (fun text =>
          Text.replaceAll
            (Text.replaceAll (Text.replaceAll text "hh".toList "\\d\x7b2\x7d".toList false)
              "h".toList "\\d\x7b1,2\x7d".toList false)
            "ap".toList amPmRegex true)
        (Text.split "h' oclock'".toList '\'') false ∧
    InvertedTimeTerm.hourToRegex "h' oclock'".toList = "\\d\x7b1,2\x7d\\ oclock".toList :=
  ⟨by decide, dateTimeFormatToRegex_segments _ _ (by decide), by decide⟩

end Expressions

namespace Expressions

open Qt

theorem sortByLength_perm (l : List Text) : (sortByLength l).Perm l :=
  List.perm_insertionSort _ l

theorem sortByLength_sorted (l : List Text) :
    (sortByLength l).Pairwise (fun a b => a.length ≥ b.length) := by
  haveI : IsTotal Text (fun lhs rhs => lhs.length ≥ rhs.length) :=
    ⟨fun a b => Nat.le_total b.length a.length⟩
  haveI : IsTrans Text (fun lhs rhs => lhs.length ≥ rhs.length) :=
    ⟨fun a b c hab hbc => Nat.le_trans hbc hab⟩
  exact List.sorted_insertionSort _ l

/-- C21. For every word key, `trList(key, escape, true)` is the list of the
non-empty alternatives of the word between its `|`, reordered so that the
lengths before escaping do not increase, each alternative regex-escaped when
`escape` is set: no alternative stands before a longer one of which it is a
proper prefix. A word equal to "###empty###" gives the empty list. For the
minute units the list is minutes, minute, mins, min. -/
theorem trList_sorted_longest_first (key : WordKey) (escape : Bool) :
    (∃ alternatives : List Text,
      trList key escape true =
        (if escape then alternatives.map regexEscape else alternatives) ∧
      alternatives.Perm
        (if trWordText key = "###empty###" then []
          else (Text.split (trWordText key).toList '|').filter (fun p => !p.isEmpty)) ∧
      alternatives.Pairwise (fun a b => a.length ≥ b.length) ∧
      alternatives.Pairwise (fun a b => ¬ (a <+: b ∧ a ≠ b))) ∧
    (trWordText key = "###empty###" → trList key escape true = []) ∧
    trList .SpanKeyMinute true true =
      ["minutes".toList, "minute".toList, "mins".toList, "min".toList] := by
  have hword : Text.splitSkipEmpty (trWord key false) '|' =
      (if trWordText key = "###empty###" then []
        else (Text.split (trWordText key).toList '|').filter (fun p => !p.isEmpty)) := by
    by_cases h : trWordText key = "###empty###"
    · simp [trWord, h, Text.splitSkipEmpty, Text.split, Text.splitAux]
    · have h2 : ¬ (trWordText key).toList = "###empty###".toList := by
        intro h3
        exact h (String.ext h3)
      simp only [trWord, Text.splitSkipEmpty, h2, h, if_false, Bool.false_eq_true]
  refine ⟨⟨sortByLength (Text.splitSkipEmpty (trWord key false) '|'), ?_, ?_, ?_, ?_⟩, ?_, ?_⟩
  · simp [trList]
  · rw [← hword]
    exact sortByLength_perm _
  · exact sortByLength_sorted _
  · refine (sortByLength_sorted _).imp ?_
    intro a b hab hpre
    exact hpre.2 (hpre.1.eq_of_length (Nat.le_antisymm hpre.1.length_le hab))
  · intro h
    have hs : sortByLength ([] : List Text) = [] := rfl
    cases escape <;> simp [trList, hword, h, hs]
  · decide

end Expressions

namespace Expressions

open Qt

/-- Every term that one round of the loops of `MonthDayTerm::parse` returns
holds a day in 1..31. -/
theorem MonthDayTerm.tryIndicator_day (expression : Text) (loopCombo : Text × Text × Bool)
    (indicator : Text) (term : MonthDayTerm) (consumed : Nat)
    (h : MonthDayTerm.tryIndicator expression loopCombo indicator = some (term, consumed)) :
    1 ≤ term._day ∧ term._day ≤ 31 := by
  unfold MonthDayTerm.tryIndicator at h
  simp only [] at h
  split at h
  · split at h
    · split at h
      · rename_i day _ hday
        simp only [Option.some.injEq, Prod.mk.injEq] at h
        rw [← h.1]
        exact ⟨hday.1, hday.2⟩
      · exact absurd h (by simp)
    · exact absurd h (by simp)
  · exact absurd h (by simp)

/-- What `MonthDayTerm::parse` makes of the numerals of one digit followed by
an indicator. -/
theorem MonthDayTerm.parse_indicator_one :
    ∀ a ∈ "0123456789".toList, ∀ n ∈ (Text.digitsValue [a] 0).toList,
      ∀ ind ∈ [".".toList, "th".toList, "st".toList, "nd".toList, "rd".toList],
        MonthDayTerm.parse ([a] ++ ind) =
          if 1 ≤ n ∧ n ≤ 31 then some (MonthDayTerm.create (n : Int) false, 1 + ind.length)
          else none := by
  decide!

/-- What `MonthDayTerm::parse` makes of the numerals of two digits followed by
an indicator. -/
theorem MonthDayTerm.parse_indicator_two :
    ∀ a ∈ "0123456789".toList, ∀ b ∈ "0123456789".toList,
      ∀ n ∈ (Text.digitsValue [a, b] 0).toList,
        ∀ ind ∈ [".".toList, "th".toList, "st".toList, "nd".toList, "rd".toList],
          MonthDayTerm.parse ([a, b] ++ ind) =
            if 1 ≤ n ∧ n ≤ 31 then some (MonthDayTerm.create (n : Int) false, 2 + ind.length)
            else none := by
  decide!

/-- C22. Every MonthDayTerm that `MonthDayTerm::parse` returns holds a day in
1..31; a numeral of one or two digits followed by one of the indicators ".",
"th", "st", "nd", "rd" is accepted, as the day of its value, exactly when the
value is in 1..31: the values 0 and 32..99 give no term. -/
theorem monthDay_parse_day_range :
    (∀ (expression : Text) (term : MonthDayTerm) (consumed : Nat),
      MonthDayTerm.parse expression = some (term, consumed) →
        1 ≤ term._day ∧ term._day ≤ 31) ∧
    (∀ (t : Text) (n : Nat), isNumeral t n →
      ∀ ind ∈ [".".toList, "th".toList, "st".toList, "nd".toList, "rd".toList],
        MonthDayTerm.parse (t ++ ind) =
          if 1 ≤ n ∧ n ≤ 31 then
            some (MonthDayTerm.create (n : Int) false, t.length + ind.length)
          else none) := by
  constructor
  · intro expression term consumed h
    unfold MonthDayTerm.parse at h
    obtain ⟨loopCombo, -, h⟩ := List.exists_of_findSome?_eq_some h
    obtain ⟨indicator, -, h⟩ := List.exists_of_findSome?_eq_some h
    exact MonthDayTerm.tryIndicator_day expression loopCombo indicator term consumed h
  · intro t n h ind hind
    have hval := h.2.2
    rcases isNumeral_cases h with ⟨a, rfl, ha, -⟩ | ⟨a, b, rfl, ha, hb, -⟩
    · exact MonthDayTerm.parse_indicator_one a (digit_mem ha) n (by rw [hval]; simp) ind hind
    · exact MonthDayTerm.parse_indicator_two a (digit_mem ha) b (digit_mem hb) n
        (by rw [hval]; simp) ind hind

/-- C22 at "31st", "32nd" and "0th": day 31 is a term, 32 and 0 are not. -/
theorem monthDay_parse_day_range_witness :
    MonthDayTerm.parse "31st".toList = some (MonthDayTerm.create 31 false, 4) ∧
    (1 ≤ (MonthDayTerm.create 31 false)._day ∧ (MonthDayTerm.create 31 false)._day ≤ 31) ∧
    isNumeral "32".toList 32 ∧ MonthDayTerm.parse "32nd".toList = none ∧
    isNumeral "0".toList 0 ∧ MonthDayTerm.parse "0th".toList = none :=
  have h31 : MonthDayTerm.parse "31st".toList = some (MonthDayTerm.create 31 false, 4) := by
    decide!
  have h32 : isNumeral "32".toList 32 := ⟨by decide, by decide, by decide⟩
  have h0 : isNumeral "0".toList 0 := ⟨by decide, by decide, by decide⟩
  ⟨h31, monthDay_parse_day_range.1 _ _ _ h31,
    h32, monthDay_parse_day_range.2 "32".toList 32 h32 "nd".toList (by decide),
    h0, monthDay_parse_day_range.2 "0".toList 0 h0 "th".toList (by decide)⟩

end Expressions

namespace Qt

/-- A format without year sections leaves the year as it was. -/
theorem readDateSections_year (secs : List DateSection)
    (hno : ∀ x ∈ secs, x ≠ .year2 ∧ x ≠ .year4) (s : Text) (f g : DateFields)
    (h : readDateSections secs s f = some g) : g.year = f.year := by
  induction secs generalizing s f with
  | nil =>
    simp only [readDateSections] at h
    split_ifs at h
    simp only [Option.some.injEq] at h
    rw [← h]
  | cons x rest ih =>
    have hrest : ∀ y ∈ rest, y ≠ .year2 ∧ y ≠ .year4 := fun y hy =>
      hno y (List.mem_cons_of_mem _ hy)
    have hx := hno x (List.mem_cons_self _ _)
    cases x with
    | day count =>
      simp only [readDateSections] at h
      split at h
      · exact absurd h (by simp)
      · have e := ih hrest _ _ h
        exact e
    | month count =>
      simp only [readDateSections] at h
      split at h
      · exact absurd h (by simp)
      · have e := ih hrest _ _ h
        exact e
    | year2 => exact absurd rfl hx.1
    | year4 => exact absurd rfl hx.2
    | literal c =>
      simp only [readDateSections] at h
      split at h
      · split_ifs at h
        exact ih hrest _ _ h
      · exact absurd h (by simp)

/-- A valid date read in a format without year sections is a date of the year
1900, which is not a leap year: its day exists in its month in every year. -/
theorem toDate_yearless (text format : Text)
    (hno : ∀ x ∈ parseDateFormat format, x ≠ .year2 ∧ x ≠ .year4)
    (hv : QDate.isValid (toDate text format) = true) :
    QDate.day (toDate text format) ≤ monthDays (QDate.month (toDate text format)) := by
  unfold toDate at hv ⊢
  cases h : readDateSections (parseDateFormat format) text
      { year := none, month := none, day := none } with
  | none =>
    rw [h] at hv
    exact absurd hv (by decide)
  | some g =>
    rw [h] at hv
    have hy : g.year = none := readDateSections_year _ hno _ _ _ h
    simp only [hy, Option.getD_none] at hv ⊢
    have hvalid : isValidYMD 1900 (g.month.getD 1) (g.day.getD 1) = true := by
      by_contra hc
      simp [QDate.ofYMD, hc, QDate.isValid] at hv
    rw [QDate.month_ofYMD hvalid, QDate.day_ofYMD hvalid]
    have := (isValidYMD_iff _ _ _).1 hvalid
    have hleap : isLeapYear 1900 = false := by decide
    rcases this.2.2.2.2 with h1 | h1
    · exact h1
    · rw [hleap] at h1
      exact absurd h1.2.2 (by decide)

end Qt

namespace Expressions

open Qt

theorem DateTerm.patterns_yearless :
    ∀ patternInfo ∈ DateTerm.patterns, patternInfo.2.2 = false →
      ∀ x ∈ parseDateFormat patternInfo.2.1, x ≠ .year2 ∧ x ≠ .year4 := by
  decide!

/-- A term without year that `DateTerm::parse` returns holds a valid date whose
day exists in its month in every year: a text without year is read in the year
1900, so 29 February is never returned. -/
theorem DateTerm.parse_yearless (expression : Text) (term : DateTerm) (consumed : Nat)
    (h : DateTerm.parse expression = some (term, consumed))
    (hy : testFlag term.scope Year = false) :
    term._date.isValid = true ∧ term._date.day ≤ monthDays term._date.month := by
  obtain ⟨loopCombo, -, h1⟩ := List.exists_of_findSome?_eq_some h
  obtain ⟨patternInfo, hpattern, h2⟩ := List.exists_of_findSome?_eq_some h1
  unfold DateTerm.tryPattern at h2
  by_cases hskip : (loopCombo.2.2 && patternInfo.2.2) = true
  · rw [if_pos hskip] at h2
    exact absurd h2 (by simp)
  · rw [if_neg hskip] at h2
    have hassert : DateTerm.createAsserts patternInfo.2.2 loopCombo.2.2 = true := by
      simp only [DateTerm.createAsserts]
      cases h3 : loopCombo.2.2 <;> cases h4 : patternInfo.2.2 <;> simp_all
    by_cases hm : (regexMatch (DateTerm.regexText loopCombo patternInfo) expression).hasMatch = true
    · simp only [hm, if_true] at h2
      by_cases hv : (toDate ((regexMatch (DateTerm.regexText loopCombo patternInfo)
          expression).captured 1) patternInfo.2.1).isValid = true
      · simp only [hv, if_true, Option.some.injEq, Prod.mk.injEq] at h2
        have hflag := (DateTerm.create_flags
          (toDate ((regexMatch (DateTerm.regexText loopCombo patternInfo) expression).captured 1)
            patternInfo.2.1) patternInfo.2.2 loopCombo.2.2 hassert).2.2.2.2.2
        rw [h2.1, hy] at hflag
        rw [← h2.1]
        exact ⟨hv, toDate_yearless _ _
          (DateTerm.patterns_yearless patternInfo hpattern hflag.symm) hv⟩
      · simp only [hv, Bool.false_eq_true, if_false] at h2
        exact absurd h2 (by simp)
    · simp only [hm, Bool.false_eq_true, if_false] at h2
      exact absurd h2 (by simp)

/-- A term that `WeekDayTerm::parse` returns holds a weekday in 1..7. -/
theorem WeekDayTerm.parse_weekDay (expression : Text) (term : WeekDayTerm) (consumed : Nat)
    (h : WeekDayTerm.parse expression = some (term, consumed)) :
    1 ≤ term._weekDay ∧ term._weekDay ≤ 7 := by
  obtain ⟨loopCombo, -, h1⟩ := List.exists_of_findSome?_eq_some h
  obtain ⟨long, -, h2⟩ := List.exists_of_findSome?_eq_some h1
  unfold WeekDayTerm.tryDayType at h2
  by_cases hm : (regexMatch (WeekDayTerm.regexText loopCombo long) expression).hasMatch = true
  · simp only [hm, if_true] at h2
    cases hd : toDateDayName ((regexMatch (WeekDayTerm.regexText loopCombo long)
        expression).captured 1) long with
    | none =>
      rw [hd] at h2
      exact absurd h2 (by simp [QDate.isValid])
    | some jd =>
      rw [hd] at h2
      simp only [QDate.isValid, Option.isSome_some, if_true, Option.some.injEq,
        Prod.mk.injEq] at h2
      rw [← h2.1]
      simp only [WeekDayTerm.create, QDate.dayOfWeek]
      omega
  · simp only [hm, Bool.false_eq_true, if_false] at h2
    exact absurd h2 (by simp)

/-- A term that `MonthTerm::parse` returns holds a month in 1..12. -/
theorem MonthTerm.parse_month (expression : Text) (term : MonthTerm) (consumed : Nat)
    (h : MonthTerm.parse expression = some (term, consumed)) :
    1 ≤ term._month ∧ term._month ≤ 12 := by
  obtain ⟨loopCombo, -, h1⟩ := List.exists_of_findSome?_eq_some h
  obtain ⟨long, -, h2⟩ := List.exists_of_findSome?_eq_some h1
  unfold MonthTerm.tryMonthType at h2
  by_cases hm : (regexMatch (MonthTerm.regexText loopCombo long) expression).hasMatch = true
  · simp only [hm, if_true] at h2
    cases hd : toDateMonthName ((regexMatch (MonthTerm.regexText loopCombo long)
        expression).captured 1) long with
    | none =>
      rw [hd] at h2
      exact absurd h2 (by simp [QDate.isValid])
    | some jd =>
      rw [hd] at h2
      simp only [QDate.isValid, Option.isSome_some, if_true, Option.some.injEq,
        Prod.mk.injEq] at h2
      rw [← h2.1]
      exact QDate.month_range jd
  · simp only [hm, Bool.false_eq_true, if_false] at h2
    exact absurd h2 (by simp)

/-- A term that `MonthDayTerm::parse` returns holds a day in 1..31. -/
theorem MonthDayTerm.parse_day (expression : Text) (term : MonthDayTerm) (consumed : Nat)
    (h : MonthDayTerm.parse expression = some (term, consumed)) :
    1 ≤ term._day ∧ term._day ≤ 31 := by
  unfold MonthDayTerm.parse at h
  obtain ⟨loopCombo, -, h⟩ := List.exists_of_findSome?_eq_some h
  obtain ⟨indicator, -, h⟩ := List.exists_of_findSome?_eq_some h
  exact MonthDayTerm.tryIndicator_day expression loopCombo indicator term consumed h

/-- C5, the claim at a Date sub-term without year that holds 29 February, from
2023-03-01T00:00: 2023 has no 29 February, so apply stores the null date, which
is not after the reference instant, and fixup (one year more) keeps it. -/
theorem yearless_leap_day_not_fixed :
    (QDateTime.mk (QDate.ofYMD 2023 3 1) (QTime.ofHMS 0 0 0 0)).isValid = true ∧
    testFlag (DateTerm.create (QDate.ofYMD 2024 2 29) false false).scope Year = false ∧
    (DateTerm.create (QDate.ofYMD 2024 2 29) false false)._date.isValid = true ∧
    (DateTerm.create (QDate.ofYMD 2024 2 29) false false)._date.month = 2 ∧
    (DateTerm.create (QDate.ofYMD 2024 2 29) false false)._date.day = 29 ∧
    ((DateTerm.create (QDate.ofYMD 2024 2 29) false false).apply
      ⟨QDate.ofYMD 2023 3 1, QTime.ofHMS 0 0 0 0⟩ false).date = QDate.null ∧
    ¬ ((⟨QDate.ofYMD 2023 3 1, QTime.ofHMS 0 0 0 0⟩ : QDateTime) <
      (DateTerm.create (QDate.ofYMD 2024 2 29) false false).apply
        ⟨QDate.ofYMD 2023 3 1, QTime.ofHMS 0 0 0 0⟩ false) ∧
    ((DateTerm.create (QDate.ofYMD 2024 2 29) false false).fixup
      ((DateTerm.create (QDate.ofYMD 2024 2 29) false false).apply
        ⟨QDate.ofYMD 2023 3 1, QTime.ofHMS 0 0 0 0⟩ false)).date = QDate.null ∧
    ¬ ((⟨QDate.ofYMD 2023 3 1, QTime.ofHMS 0 0 0 0⟩ : QDateTime) <
      (DateTerm.create (QDate.ofYMD 2024 2 29) false false).fixup
        ((DateTerm.create (QDate.ofYMD 2024 2 29) false false).apply
          ⟨QDate.ofYMD 2023 3 1, QTime.ofHMS 0 0 0 0⟩ false)) := by
  decide

/-- C5, amended. For every valid reference instant `since` and a single Time,
InvertedTime, WeekDay (weekday in 1..7, unfenced), MonthDay (day ≥ 1), Month
(month in 1..12) or year-less Date sub-term whose date is valid and whose day
exists in its month in every year: if apply(since) is not strictly after
`since`, one fixup applied to it yields an instant strictly after `since`.
Every sub-term that the recognizers return meets these conditions; a year-less
date is read in the year 1900, so it is never 29 February. -/
theorem single_fixup_suffices (since : QDateTime) (hs : since.isValid = true) (fenced : Bool)
    (tt : TimeTerm) (it : InvertedTimeTerm) (wd : WeekDayTerm) (md : MonthDayTerm)
    (mt : MonthTerm) (dterm : DateTerm)
    (hwd : 1 ≤ wd._weekDay ∧ wd._weekDay ≤ 7) (hmd : 1 ≤ md._day)
    (hmt : 1 ≤ mt._month ∧ mt._month ≤ 12)
    (hd1 : testFlag dterm.scope Year = false) (hd2 : dterm._date.isValid = true)
    (hd3 : dterm._date.day ≤ monthDays dterm._date.month) :
    (¬ since < tt.apply since fenced → since < tt.fixup (tt.apply since fenced)) ∧
    (¬ since < it.apply since fenced → since < it.fixup (it.apply since fenced)) ∧
    (¬ since < wd.apply since false → since < wd.fixup (wd.apply since false)) ∧
    (¬ since < md.apply since fenced → since < md.fixup (md.apply since fenced)) ∧
    (¬ since < mt.apply since fenced → since < mt.fixup (mt.apply since fenced)) ∧
    (¬ since < dterm.apply since fenced → since < dterm.fixup (dterm.apply since fenced)) ∧
    (∀ (expression : Text) (term : WeekDayTerm) (consumed : Nat),
      WeekDayTerm.parse expression = some (term, consumed) →
        1 ≤ term._weekDay ∧ term._weekDay ≤ 7) ∧
    (∀ (expression : Text) (term : MonthDayTerm) (consumed : Nat),
      MonthDayTerm.parse expression = some (term, consumed) → 1 ≤ term._day) ∧
    (∀ (expression : Text) (term : MonthTerm) (consumed : Nat),
      MonthTerm.parse expression = some (term, consumed) →
        1 ≤ term._month ∧ term._month ≤ 12) ∧
    (∀ (expression : Text) (term : DateTerm) (consumed : Nat),
      DateTerm.parse expression = some (term, consumed) →
        testFlag term.scope Year = false →
          term._date.isValid = true ∧ term._date.day ≤ monthDays term._date.month) := by
  obtain ⟨a, b, c, d, e, f⟩ :=
    fixup_after_apply since hs fenced tt it wd md mt dterm hwd hmd hmt hd1 hd2 hd3
  exact ⟨a, b, c, d, e, f, WeekDayTerm.parse_weekDay,
    fun expression term consumed h => (MonthDayTerm.parse_day expression term consumed h).1,
    MonthTerm.parse_month, DateTerm.parse_yearless⟩

/-- C5, witness: "the 31st" from 2024-03-31T00:01: apply gives the reference
instant itself (not strictly after it), one fixup gives 2024-04-30T00:01. -/
theorem single_fixup_suffices_witness :
    ¬ ((⟨QDate.ofYMD 2024 3 31, QTime.ofHMS 0 1 0 0⟩ : QDateTime) <
        (MonthDayTerm.create 31 true).apply ⟨QDate.ofYMD 2024 3 31, QTime.ofHMS 0 1 0 0⟩ false) ∧
    (⟨QDate.ofYMD 2024 3 31, QTime.ofHMS 0 1 0 0⟩ : QDateTime) <
      (MonthDayTerm.create 31 true).fixup
        ((MonthDayTerm.create 31 true).apply
          ⟨QDate.ofYMD 2024 3 31, QTime.ofHMS 0 1 0 0⟩ false) :=
  ⟨by decide,
    (single_fixup_suffices ⟨QDate.ofYMD 2024 3 31, QTime.ofHMS 0 1 0 0⟩ (by decide) false
      (TimeTerm.create (QTime.ofHMS 9 0 0 0)) (InvertedTimeTerm.create (QTime.ofHMS 3 50 0 0))
      (WeekDayTerm.create 1 true) (MonthDayTerm.create 31 true) (MonthTerm.create 2 true)
      (DateTerm.create (QDate.ofYMD 1900 12 24) false true)
      (by decide) (by decide) (by decide) (by decide) (by decide) (by decide)).2.2.2.1
      (by decide)⟩

end Expressions

namespace Qt

theorem toLower_toNat (x : Char) :
    x.toLower.toNat = if 65 ≤ x.toNat ∧ x.toNat ≤ 90 then x.toNat + 32 else x.toNat := by
  by_cases h : 65 ≤ x.toNat ∧ x.toNat ≤ 90
  · rw [if_pos h]
    have e : x = Char.ofNat x.toNat := (Char.ofNat_toNat x).symm
    rw [e]
    generalize x.toNat = k at h
    obtain ⟨h1, h2⟩ := h
    interval_cases k <;> decide
  · rw [if_neg h]
    simp only [Char.toLower]
    rw [if_neg h]

/-- A character that a case-insensitive `-` of a pattern matches is `-`. -/
theorem toLower_beq_dash (x : Char) : (x.toLower == '-'.toLower) = decide (x = '-') := by
  by_cases h : x = '-'
  · subst h
    decide
  · have h1 := toLower_toNat x
    simp only [h, decide_False, beq_eq_false_iff_ne]
    intro h2
    rw [h2] at h1
    have h3 : ('-' : Char).toLower.toNat = 45 := by decide
    rw [h3] at h1
    split at h1
    · omega
    · exact h (by
        have e : x = Char.ofNat x.toNat := (Char.ofNat_toNat x).symm
        rw [e, ← h1])

theorem countDown_zero_head (n : Nat) : ∃ tail, countDown 0 n = n :: tail := by
  cases n with
  | zero => exact ⟨[], rfl⟩
  | succ k => exact ⟨countDown 0 k, by simp [countDown]⟩

theorem countDown_lt (lo n : Nat) (h : n < lo) : countDown lo n = [] := by
  cases n with
  | zero =>
    simp only [countDown]
    rw [if_neg (by omega)]
  | succ k =>
    simp only [countDown]
    rw [if_pos h]

/-- An optional literal character of the pattern at the end of the subject. -/
theorem matchAll_optChar_nil (c : Char) (p : Nat) (caps : List Capture) :
    matchAll (.rep (.lit c) 0 (some 1)) ⟨p, [], caps⟩ = [⟨p, [], caps⟩] := by
  simp [matchAll, countDown, MState.advance]

/-- Digits in a pattern, `lo` or more, against a text with fewer digits at its start. -/
theorem matchAll_digits_short (lo p : Nat) (rest : Text) (caps : List Capture)
    (h : (rest.takeWhile CharSet.digit.test).length < lo) :
    matchAll (.rep .digit lo none) ⟨p, rest, caps⟩ = [] := by
  rw [matchAll_digits_from, countDown_lt _ _ h]
  rfl

/-- Digits in a pattern, `lo` or more, against a text with that many digits
at its start: the first result takes them all. -/
theorem matchAll_digits_head (lo p : Nat) (rest : Text) (caps : List Capture)
    (h1 : 1 ≤ (rest.takeWhile CharSet.digit.test).length)
    (h : lo ≤ (rest.takeWhile CharSet.digit.test).length) :
    ∃ tail, matchAll (.rep .digit lo none) ⟨p, rest, caps⟩ =
      ⟨p + (rest.takeWhile CharSet.digit.test).length,
        rest.drop (rest.takeWhile CharSet.digit.test).length, caps⟩ :: tail := by
  rw [matchAll_digits_from]
  obtain ⟨tail, ht⟩ := countDown_head lo _ h1 h
  rw [ht]
  exact ⟨_, rfl⟩

/-- Any number of spaces in a pattern: the first result takes all the spaces
at the start of the text. -/
theorem matchAll_spaces_head (p : Nat) (rest : Text) (caps : List Capture) :
    ∃ tail, matchAll (.rep .space 0 none) ⟨p, rest, caps⟩ =
      ⟨p + (rest.takeWhile CharSet.space.test).length,
        rest.drop (rest.takeWhile CharSet.space.test).length, caps⟩ :: tail := by
  rw [matchAll_spaces]
  obtain ⟨tail, ht⟩ := countDown_zero_head (rest.takeWhile CharSet.space.test).length
  rw [ht]
  exact ⟨_, rfl⟩

theorem bindStates_head (l : List MState) (f : MState → List MState) (x y : MState)
    (hl : ∃ tail, l = x :: tail) (hf : ∃ tail, f x = y :: tail) :
    ∃ tail, bindStates l f = y :: tail := by
  obtain ⟨t1, rfl⟩ := hl
  obtain ⟨t2, h2⟩ := hf
  exact ⟨t2 ++ bindStates t1 f, by rw [bindStates_cons, h2]; rfl⟩

end Qt

namespace Expressions

open Qt

/-- The rest of the pattern of `YearTerm::parse` behind the group: the first
result takes the whitespace at the start of the text. -/
theorem YearTerm.match_rest (p : Nat) (t : Text) (caps : List Capture) :
    ∃ tail, matchAll (.seq (.opt .eps) (.rep .space 0 none)) ⟨p, t, caps⟩ =
      ⟨p + (t.takeWhile CharSet.space.test).length,
        t.drop (t.takeWhile CharSet.space.test).length, caps⟩ :: tail := by
  obtain ⟨tail, ht⟩ := matchAll_spaces_head p t caps
  simp only [matchAll_seq, matchAll_opt, matchAll_eps, List.singleton_append, bindStates_cons,
    bindStates_nil, ht, List.cons_append]
  exact ⟨_, rfl⟩

/-- The optional `-` of the pattern against a text that does not start with `-`. -/
theorem YearTerm.match_sign_plain (p : Nat) (t : Text) (caps : List Capture)
    (h : t.head? ≠ some '-') :
    matchAll (.rep (.lit '-') 0 (some 1)) ⟨p, t, caps⟩ = [⟨p, t, caps⟩] := by
  cases t with
  | nil => exact matchAll_optChar_nil '-' p caps
  | cons x t =>
    have hx : ¬ x = '-' := by
      intro hx
      exact h (by rw [hx]; rfl)
    rw [matchAll_optChar_cons _ _ _ _ _ (by decide) (by decide), toLower_beq_dash]
    simp [hx]

/-- The optional `-` of the pattern against a text that starts with `-`: with
the sign first, then without. -/
theorem YearTerm.match_sign_minus (p : Nat) (t : Text) (caps : List Capture) :
    matchAll (.rep (.lit '-') 0 (some 1)) ⟨p, '-' :: t, caps⟩ =
      [⟨p + 1, t, caps⟩, ⟨p, '-' :: t, caps⟩] := by
  rw [matchAll_optChar_cons _ _ _ _ _ (by decide) (by decide), toLower_beq_dash]
  simp

/-- The pattern of `YearTerm::parse` behind the prefix, on a text without sign:
it matches when the text starts with four digits or more, and the first result
takes all the digits at its start and the whitespace behind them. -/
theorem YearTerm.matchAfter_plain (p : Nat) (t : Text) (h : t.head? ≠ some '-') :
    (4 ≤ (t.takeWhile CharSet.digit.test).length →
      ∃ tail, matchAll (.seq (.group 1 [] (.seq (.rep (.lit '-') 0 (some 1)) (.rep .digit 4 none)))
          (.seq (.opt .eps) (.rep .space 0 none))) ⟨p, t, []⟩ =
        ⟨p + (t.takeWhile CharSet.digit.test).length +
            ((t.drop (t.takeWhile CharSet.digit.test).length).takeWhile CharSet.space.test).length,
          (t.drop (t.takeWhile CharSet.digit.test).length).drop
            ((t.drop (t.takeWhile CharSet.digit.test).length).takeWhile CharSet.space.test).length,
          [⟨1, [], t.take (t.takeWhile CharSet.digit.test).length⟩]⟩ :: tail) ∧
    ((t.takeWhile CharSet.digit.test).length < 4 →
      matchAll (.seq (.group 1 [] (.seq (.rep (.lit '-') 0 (some 1)) (.rep .digit 4 none)))
          (.seq (.opt .eps) (.rep .space 0 none))) ⟨p, t, []⟩ = []) := by
  constructor
  · intro h4
    obtain ⟨tail, hd⟩ := matchAll_digits_head 4 p t [] (by exact Nat.le_trans (by decide) h4) h4
    obtain ⟨tail2, hr⟩ := YearTerm.match_rest (p + (t.takeWhile CharSet.digit.test).length)
      (t.drop (t.takeWhile CharSet.digit.test).length)
      [⟨1, [], t.take (t.takeWhile CharSet.digit.test).length⟩]
    rw [matchAll_seq, matchAll_group, matchAll_seq, YearTerm.match_sign_plain p t [] h,
      bindStates_cons, bindStates_nil, List.append_nil, hd, List.map_cons, bindStates_cons]
    simp only [Nat.add_sub_cancel_left]
    rw [hr]
    exact ⟨_, rfl⟩
  · intro h4
    rw [matchAll_seq, matchAll_group, matchAll_seq, YearTerm.match_sign_plain p t [] h,
      bindStates_cons, bindStates_nil, List.append_nil, matchAll_digits_short 4 p t [] h4]
    rfl

/-- The pattern of `YearTerm::parse` behind the prefix, on a text with the
sign: it matches when four digits or more follow the sign. -/
theorem YearTerm.matchAfter_minus (p : Nat) (t : Text) :
    (4 ≤ (t.takeWhile CharSet.digit.test).length →
      ∃ tail, matchAll (.seq (.group 1 [] (.seq (.rep (.lit '-') 0 (some 1)) (.rep .digit 4 none)))
          (.seq (.opt .eps) (.rep .space 0 none))) ⟨p, '-' :: t, []⟩ =
        ⟨p + 1 + (t.takeWhile CharSet.digit.test).length +
            ((t.drop (t.takeWhile CharSet.digit.test).length).takeWhile CharSet.space.test).length,
          (t.drop (t.takeWhile CharSet.digit.test).length).drop
            ((t.drop (t.takeWhile CharSet.digit.test).length).takeWhile CharSet.space.test).length,
          [⟨1, [], '-' :: t.take (t.takeWhile CharSet.digit.test).length⟩]⟩ :: tail) ∧
    ((t.takeWhile CharSet.digit.test).length < 4 →
      matchAll (.seq (.group 1 [] (.seq (.rep (.lit '-') 0 (some 1)) (.rep .digit 4 none)))
          (.seq (.opt .eps) (.rep .space 0 none))) ⟨p, '-' :: t, []⟩ = []) := by
  have hdash : matchAll (.rep .digit 4 none) ⟨p, '-' :: t, []⟩ = [] :=
    matchAll_digits_short 4 p ('-' :: t) [] (by simp [digit_test_of_ascii])
  constructor
  · intro h4
    obtain ⟨tail, hd⟩ := matchAll_digits_head 4 (p + 1) t []
      (by exact Nat.le_trans (by decide) h4) h4
    obtain ⟨tail2, hr⟩ := YearTerm.match_rest (p + 1 + (t.takeWhile CharSet.digit.test).length)
      (t.drop (t.takeWhile CharSet.digit.test).length)
      [⟨1, [], '-' :: t.take (t.takeWhile CharSet.digit.test).length⟩]
    rw [matchAll_seq, matchAll_group, matchAll_seq, YearTerm.match_sign_minus,
      bindStates_cons, bindStates_cons, bindStates_nil, List.append_nil, hdash, List.append_nil,
      hd, List.map_cons, bindStates_cons]
    simp only [show p + 1 + (t.takeWhile CharSet.digit.test).length - p =
      (t.takeWhile CharSet.digit.test).length + 1 by omega, List.take_succ_cons]
    rw [hr]
    exact ⟨_, rfl⟩
  · intro h4
    rw [matchAll_seq, matchAll_group, matchAll_seq, YearTerm.match_sign_minus,
      bindStates_cons, bindStates_cons, bindStates_nil, List.append_nil, hdash, List.append_nil,
      matchAll_digits_short 4 (p + 1) t [] h4]
    rfl

end Expressions

namespace Expressions

open Qt

/-- `YearTerm::parse` when the pattern matches: the year is read off the group. -/
theorem YearTerm.parse_of_match (expression : Text) (q : Nat) (r cap : Text)
    (h : ∃ tail, matchAll YearTerm.compiledRegex ⟨0, expression, []⟩ =
      ⟨q, r, [⟨1, [], cap⟩]⟩ :: tail) (hq : q ≤ expression.length) :
    YearTerm.parse expression =
      match Text.toInt cap with
      | some year => some (YearTerm.create year, q)
      | none => none := by
  obtain ⟨tail, ht⟩ := h
  unfold YearTerm.parse regexMatch
  rw [YearTerm.compile_yearRegexText, matchCompiled_bol, ht]
  simp [QRegularExpressionMatch.captured, QRegularExpressionMatch.capturedLength,
    Nat.min_eq_left hq]

/-- `YearTerm::parse` when the pattern does not match. -/
theorem YearTerm.parse_of_noMatch (expression : Text)
    (h : matchAll YearTerm.compiledRegex ⟨0, expression, []⟩ = []) :
    YearTerm.parse expression = none := by
  unfold YearTerm.parse regexMatch
  rw [YearTerm.compile_yearRegexText, matchCompiled_bol, h]
  simp [QRegularExpressionMatch.noMatch]

theorem take_length_takeWhile (p : Char → Bool) (l : Text) :
    l.take (l.takeWhile p).length = l.takeWhile p := by
  induction l with
  | nil => rfl
  | cons x l ih =>
    by_cases hx : p x = true
    · simp [List.takeWhile_cons, hx, ih]
    · simp [List.takeWhile_cons, hx]

/-- A text with a character that is no ASCII digit has no value. -/
theorem digitsValue_not_all (ds : Text) (acc : Nat) (h : ¬ ds.all Char.isDigit = true) :
    Text.digitsValue ds acc = none := by
  induction ds generalizing acc with
  | nil => simp at h
  | cons c ds ih =>
    by_cases hc : c.isDigit = true
    · simp only [Text.digitsValue, hc, if_true]
      apply ih
      intro hall
      exact h (by simp [hc, hall])
    · simp [Text.digitsValue, hc]

/-- `toInt` refuses a `-` followed by a character that is no ASCII digit. -/
theorem toInt_minus_not_all (ds : Text) (h : ¬ ds.all Char.isDigit = true) :
    Text.toInt ('-' :: ds) = none := by
  have hne : ds.isEmpty = false := by
    cases ds with
    | nil => simp at h
    | cons _ _ => rfl
  simp only [Text.toInt, hne, Bool.false_eq_true, if_false, digitsValue_not_all ds 0 h]

/-- `toInt` refuses a run of decimal digits that are not all ASCII digits. -/
theorem toInt_run_not_all (t : Text)
    (h : ¬ (t.takeWhile CharSet.digit.test).all Char.isDigit = true) :
    Text.toInt (t.takeWhile CharSet.digit.test) = none := by
  have hmem : ∀ c ∈ t.takeWhile CharSet.digit.test, CharSet.digit.test c = true :=
    fun c hc => List.mem_takeWhile_imp hc
  generalize t.takeWhile CharSet.digit.test = ds at h hmem
  cases ds with
  | nil => simp at h
  | cons c ds =>
    have hc := hmem c (List.mem_cons_self _ _)
    have h1 : c ≠ '-' := by
      rintro rfl
      simp [digit_test_of_ascii] at hc
    have h2 : c ≠ '+' := by
      rintro rfl
      simp [digit_test_of_ascii] at hc
    have hv := digitsValue_not_all (c :: ds) 0 h
    unfold Text.toInt
    split
    · rename_i heq
      simp only [List.cons.injEq] at heq
      exact absurd heq.1 h1
    · rename_i heq
      simp only [List.cons.injEq] at heq
      exact absurd heq.1 h2
    · simp [hv]

/-- The pattern behind the prefix against a text, and what the words of the
specification call for there. -/
theorem YearTerm.matchAfter_spec (p : Nat) (t : Text) :
    (∃ tail q r cap,
      matchAll (.seq (.group 1 [] (.seq (.rep (.lit '-') 0 (some 1)) (.rep .digit 4 none)))
          (.seq (.opt .eps) (.rep .space 0 none))) ⟨p, t, []⟩ = ⟨q, r, [⟨1, [], cap⟩]⟩ :: tail ∧
      q ≤ p + t.length ∧
      YearTerm.parseSpecAfter p t =
        match Text.toInt cap with
        | some year => some (YearTerm.create year, q)
        | none => none) ∨
    (matchAll (.seq (.group 1 [] (.seq (.rep (.lit '-') 0 (some 1)) (.rep .digit 4 none)))
          (.seq (.opt .eps) (.rep .space 0 none))) ⟨p, t, []⟩ = [] ∧
      YearTerm.parseSpecAfter p t = none) := by
  have hlen : ∀ w : Text,
      (w.takeWhile CharSet.digit.test).length +
        ((w.drop (w.takeWhile CharSet.digit.test).length).takeWhile CharSet.space.test).length ≤
          w.length := by
    intro w
    have h1 := (List.takeWhile_prefix (l := w) CharSet.digit.test).length_le
    have h2 := (List.takeWhile_prefix (l := w.drop (w.takeWhile CharSet.digit.test).length)
      CharSet.space.test).length_le
    rw [List.length_drop] at h2
    omega
  by_cases hm : t.head? = some '-'
  · obtain ⟨t', rfl⟩ : ∃ t', t = '-' :: t' := by
      cases t with
      | nil => simp at hm
      | cons x t' =>
        simp only [List.head?_cons, Option.some.injEq] at hm
        exact ⟨t', by rw [hm]⟩
    by_cases h4 : 4 ≤ (t'.takeWhile CharSet.digit.test).length
    · left
      obtain ⟨tail, ht⟩ := (YearTerm.matchAfter_minus p t').1 h4
      refine ⟨tail, _, _, _, ht, ?_, ?_⟩
      · have := hlen t'
        simp only [List.length_cons]
        omega
      · simp only [YearTerm.parseSpecAfter, List.head?_cons, if_true, List.drop_succ_cons,
          List.drop_zero, h4, Nat.add_comm 1, List.take_succ_cons, true_and]
        by_cases hall : (List.takeWhile CharSet.digit.test t').all Char.isDigit = true
        · rw [if_pos hall]
        · rw [if_neg hall, take_length_takeWhile, toInt_minus_not_all _ hall]
    · right
      refine ⟨(YearTerm.matchAfter_minus p t').2 (by omega), ?_⟩
      simp only [YearTerm.parseSpecAfter, List.head?_cons, if_true, List.drop_succ_cons,
        List.drop_zero, h4, false_and, if_false]
  · by_cases h4 : 4 ≤ (t.takeWhile CharSet.digit.test).length
    · left
      obtain ⟨tail, ht⟩ := (YearTerm.matchAfter_plain p t hm).1 h4
      refine ⟨tail, _, _, _, ht, ?_, ?_⟩
      · have := hlen t
        omega
      · simp only [YearTerm.parseSpecAfter, hm, if_false, List.drop_zero, h4, true_and,
          Nat.zero_add, Nat.add_zero]
        by_cases hall : (List.takeWhile CharSet.digit.test t).all Char.isDigit = true
        · rw [if_pos hall]
        · rw [if_neg hall, take_length_takeWhile, toInt_run_not_all _ hall]
    · right
      refine ⟨(YearTerm.matchAfter_plain p t hm).2 (by omega), ?_⟩
      simp only [YearTerm.parseSpecAfter, hm, if_false, List.drop_zero, h4, false_and]

end Expressions

namespace Expressions

open Qt

/-- A character that the `i` of the prefix matches is no digit and no `-`. -/
theorem YearTerm.leading_char {a : Char} (h : a.toLower = 'i') :
    CharSet.digit.test a = false ∧ a ≠ '-' := by
  have h1 := toLower_toNat a
  rw [h] at h1
  have h2 : ('i' : Char).toNat = 105 := by decide
  rw [h2] at h1
  have hascii : a.toNat < 128 := by
    split at h1 <;> omega
  constructor
  · rw [digit_test_of_ascii hascii]
    cases hd : a.isDigit with
    | false => rfl
    | true =>
      have := digit_toNat hd
      split at h1 <;> omega
  · rintro rfl
    revert h1
    decide

/-- The prefix "in " of the pattern against a text. -/
theorem YearTerm.match_leading (expression : Text) :
    matchAll (Regex.text "in ") ⟨0, expression, []⟩ =
      if Text.startsWith expression "in ".toList true then [⟨3, expression.drop 3, []⟩]
      else [] := by
  have e1 : Regex.text "in " = .seq (Regex.char 'i') (.seq (Regex.char 'n') (Regex.char ' ')) :=
    rfl
  have e2 : "in ".toList = ['i', 'n', ' '] := rfl
  rw [e1, e2]
  match expression with
  | [] => simp [matchAll_seq, matchAll_char_nil, bindStates_nil, Text.startsWith]
  | [a] =>
    by_cases ha : a.toLower = 'i'
    · have ha2 : 'i' = a.toLower := ha.symm
      simp [matchAll_seq, matchAll_char_cons, matchAll_char_nil, bindStates_cons, bindStates_nil,
        Text.startsWith, ha, ha2]
    · have ha2 : ¬ 'i' = a.toLower := fun h => ha h.symm
      simp [matchAll_seq, matchAll_char_cons, matchAll_char_nil, bindStates_cons, bindStates_nil,
        Text.startsWith, ha, ha2]
  | [a, b] =>
    by_cases ha : a.toLower = 'i'
    · have ha2 : 'i' = a.toLower := ha.symm
      by_cases hb : b.toLower = 'n'
      · have hb2 : 'n' = b.toLower := hb.symm
        simp [matchAll_seq, matchAll_char_cons, matchAll_char_nil, bindStates_cons, bindStates_nil,
          Text.startsWith, ha, ha2, hb, hb2]
      · have hb2 : ¬ 'n' = b.toLower := fun h => hb h.symm
        simp [matchAll_seq, matchAll_char_cons, matchAll_char_nil, bindStates_cons, bindStates_nil,
          Text.startsWith, ha, ha2, hb, hb2]
    · have ha2 : ¬ 'i' = a.toLower := fun h => ha h.symm
      simp [matchAll_seq, matchAll_char_cons, matchAll_char_nil, bindStates_cons, bindStates_nil,
        Text.startsWith, ha, ha2]
  | a :: b :: c :: r =>
    by_cases ha : a.toLower = 'i'
    · have ha2 : 'i' = a.toLower := ha.symm
      by_cases hb : b.toLower = 'n'
      · have hb2 : 'n' = b.toLower := hb.symm
        by_cases hc : c.toLower = ' '
        · have hc2 : ' ' = c.toLower := hc.symm
          simp [matchAll_seq, matchAll_char_cons, matchAll_char_nil, bindStates_cons, bindStates_nil,
            Text.startsWith, ha, ha2, hb, hb2, hc, hc2]
        · have hc2 : ¬ ' ' = c.toLower := fun h => hc h.symm
          simp [matchAll_seq, matchAll_char_cons, matchAll_char_nil, bindStates_cons, bindStates_nil,
            Text.startsWith, ha, ha2, hb, hb2, hc, hc2]
      · have hb2 : ¬ 'n' = b.toLower := fun h => hb h.symm
        simp [matchAll_seq, matchAll_char_cons, matchAll_char_nil, bindStates_cons, bindStates_nil,
          Text.startsWith, ha, ha2, hb, hb2]
    · have ha2 : ¬ 'i' = a.toLower := fun h => ha h.symm
      simp [matchAll_seq, matchAll_char_cons, matchAll_char_nil, bindStates_cons, bindStates_nil,
        Text.startsWith, ha, ha2]

end Expressions

namespace Expressions

open Qt

/-- `YearTerm::parse` and the words of the specification agree on every text. -/
theorem YearTerm.parse_eq_parseSpec (expression : Text) :
    YearTerm.parse expression = YearTerm.parseSpec expression := by
  have hR : YearTerm.compiledRegex =
      .seq (.opt (Regex.text "in "))
        (.seq (.group 1 [] (.seq (.rep (.lit '-') 0 (some 1)) (.rep .digit 4 none)))
          (.seq (.opt .eps) (.rep .space 0 none))) := rfl
  by_cases hs : Text.startsWith expression "in ".toList true = true
  · have hall : matchAll YearTerm.compiledRegex ⟨0, expression, []⟩ =
        matchAll (.seq (.group 1 [] (.seq (.rep (.lit '-') 0 (some 1)) (.rep .digit 4 none)))
            (.seq (.opt .eps) (.rep .space 0 none))) ⟨3, expression.drop 3, []⟩ ++
          matchAll (.seq (.group 1 [] (.seq (.rep (.lit '-') 0 (some 1)) (.rep .digit 4 none)))
            (.seq (.opt .eps) (.rep .space 0 none))) ⟨0, expression, []⟩ := by
      rw [hR, matchAll_seq, matchAll_opt, YearTerm.match_leading, if_pos hs]
      simp only [List.singleton_append, bindStates_cons, bindStates_nil, List.append_nil]
    obtain ⟨a, rest, rfl, ha⟩ : ∃ a rest, expression = a :: rest ∧ a.toLower = 'i' := by
      cases expression with
      | nil => simp [Text.startsWith] at hs
      | cons a rest =>
        refine ⟨a, rest, rfl, ?_⟩
        have e2 : "in ".toList = ['i', 'n', ' '] := rfl
        rw [e2] at hs
        simp only [Text.startsWith, if_true, Bool.and_eq_true, beq_iff_eq] at hs
        exact hs.1.symm
    obtain ⟨hdig, hdash⟩ := YearTerm.leading_char ha
    have hnone := (YearTerm.matchAfter_plain 0 (a :: rest)
      (by simp only [List.head?_cons, ne_eq, Option.some.injEq]; exact hdash)).2
      (by simp [List.takeWhile, hdig])
    have hlen : 3 + ((a :: rest).drop 3).length = (a :: rest).length := by
      have e2 : "in ".toList = ['i', 'n', ' '] := rfl
      rw [e2] at hs
      match rest, hs with
      | b :: c :: r, _ => simp; omega
      | [b], hs => simp [Text.startsWith] at hs
      | [], hs => simp [Text.startsWith] at hs
    rw [hnone, List.append_nil] at hall
    rw [YearTerm.parseSpec, if_pos hs]
    rcases YearTerm.matchAfter_spec 3 ((a :: rest).drop 3) with
      ⟨tail, q, r, cap, hm, hq, hspec⟩ | ⟨hm, hspec⟩
    · rw [hspec]
      exact YearTerm.parse_of_match _ q r cap ⟨tail, by rw [hall, hm]⟩ (by omega)
    · rw [hspec]
      exact YearTerm.parse_of_noMatch _ (by rw [hall, hm])
  · have hall : matchAll YearTerm.compiledRegex ⟨0, expression, []⟩ =
        matchAll (.seq (.group 1 [] (.seq (.rep (.lit '-') 0 (some 1)) (.rep .digit 4 none)))
            (.seq (.opt .eps) (.rep .space 0 none))) ⟨0, expression, []⟩ := by
      rw [hR, matchAll_seq, matchAll_opt, YearTerm.match_leading, if_neg hs]
      simp only [List.nil_append, bindStates_cons, bindStates_nil, List.append_nil]
    rw [YearTerm.parseSpec, if_neg hs]
    rcases YearTerm.matchAfter_spec 0 expression with
      ⟨tail, q, r, cap, hm, hq, hspec⟩ | ⟨hm, hspec⟩
    · rw [hspec]
      exact YearTerm.parse_of_match _ q r cap ⟨tail, by rw [hall, hm]⟩ (by omega)
    · rw [hspec]
      exact YearTerm.parse_of_noMatch _ (by rw [hall, hm])

/-- C23, the claim at "2024" followed by the Arabic-Indic digit two (U+0662):
the text starts with four ASCII digits of value 2024, which fits an `int`, and
with five decimal digits in the sense of `\d`; the pattern takes all five,
`toInt` refuses them, and `YearTerm::parse` returns no term, where the claim
calls for the year 2024. -/
theorem year_unicode_digit_no_term :
    YearTerm.parse "2024\u0662".toList = none ∧
    "2024\u0662".toList.takeWhile Char.isDigit = "2024".toList ∧
    Text.toInt "2024".toList = some 2024 ∧
    "2024\u0662".toList.takeWhile CharSet.digit.test = "2024\u0662".toList ∧
    Text.toInt "2024\u0662".toList = none ∧
    YearTerm.parse "2024".toList = some (YearTerm.create 2024, 4) := by
  refine ⟨by decide!, by decide!, by decide!, by decide!, by decide!, by decide!⟩

/-- C23, amended. `YearTerm::parse` accepts a text exactly when, behind the
optional prefix "in " (in letters of either case), it starts with an optional
`-` and at least four decimal digits (characters with the Unicode property Nd,
as `\d` matches them), every one of them an ASCII digit, whose value fits an
`int`; it returns that integer and consumes the prefix, the sign, all the
digits at that place and the whitespace behind them (as `\s` matches it): on
every text it returns what `YearTerm.parseSpec` calls for. "in 2024  x" is the
year 2024 with 9 characters consumed, "2024" with a no-break space behind it
the year 2024 with 5 characters consumed, "-00051" the year -51; "123",
"in 123 ", a year beyond the range of `int` and four digits followed by a
digit of another script give no term. -/
theorem year_parse_accepts (expression : Text) :
    YearTerm.parse expression = YearTerm.parseSpec expression ∧
    YearTerm.parse "in 2024  x".toList = some (YearTerm.create 2024, 9) ∧
    YearTerm.parse "2024\u00a0x".toList = some (YearTerm.create 2024, 5) ∧
    YearTerm.parse "-00051".toList = some (YearTerm.create (-51), 6) ∧
    YearTerm.parse "123".toList = none ∧
    YearTerm.parse "in 123 ".toList = none ∧
    YearTerm.parse "2147483648".toList = none ∧
    YearTerm.parse "2024\uff11".toList = none :=
  ⟨YearTerm.parse_eq_parseSpec expression, by decide!, by decide!, by decide!, by decide!,
    by decide!, by decide!, by decide!⟩

end Expressions

namespace Expressions

open Qt

/-- Fenced or unfenced `WeekDayTerm::apply` on a valid instant that already
falls on the weekday of the term: nothing changes, and the assertions hold. -/
theorem WeekDayTerm.apply_same_day (wd : WeekDayTerm) (jd : Int) {t : QTime}
    (ht : t.isValid = true) (fenced : Bool) (h : jd % 7 + 1 = wd._weekDay) :
    wd.applyChecked ⟨some jd, t⟩ fenced = (⟨some jd, t⟩, true) := by
  simp [WeekDayTerm.applyChecked, QDate.addDays, QDate.dayOfWeek, ← h,
    QDateTime.setDate_mk _ _ ht]

/-- `WeekDayTerm::apply` on a valid instant, for a weekday in 1..7: a valid
instant on that weekday, at the same time of day. -/
theorem WeekDayTerm.apply_weekday_mk (wd : WeekDayTerm) (jd : Int) {t : QTime}
    (ht : t.isValid = true) (fenced : Bool) (h1 : 1 ≤ wd._weekDay) (h7 : wd._weekDay ≤ 7) :
    ∃ jd2 : Int, wd.apply ⟨some jd, t⟩ fenced = ⟨some jd2, t⟩ ∧ jd2 % 7 + 1 = wd._weekDay := by
  simp only [WeekDayTerm.apply, WeekDayTerm.applyChecked, QDate.addDays, QDate.dayOfWeek,
    QDateTime.setDate_mk _ _ ht]
  split_ifs
  · exact ⟨_, rfl, by omega⟩
  · exact ⟨_, rfl, by omega⟩
  · exact ⟨_, rfl, by omega⟩

/-- C26. For every valid instant with ISO day-of-week `k` and every weekday
`w` in 1..7, `WeekDayTerm(w)::apply` with `applyFenced = false` returns the
instant shifted by exactly `w - k` days: a valid instant whose day-of-week is
`w`, in the same Monday-to-Sunday week (the Monday of its week is the Monday of
the week of the input), at the same time of day, and every assertion of
`apply` holds. -/
theorem weekDay_apply_unfenced_week (w : Int) (looped : Bool) (dt : QDateTime)
    (hdt : dt.isValid = true) (h1 : 1 ≤ w) (h7 : w ≤ 7) :
    (WeekDayTerm.create w looped).apply dt false = dt.addDays (w - dt.date.dayOfWeek) ∧
    ((WeekDayTerm.create w looped).apply dt false).isValid = true ∧
    ((WeekDayTerm.create w looped).apply dt false).date.dayOfWeek = w ∧
    ((WeekDayTerm.create w looped).apply dt false).date.addDays
        (1 - ((WeekDayTerm.create w looped).apply dt false).date.dayOfWeek) =
      dt.date.addDays (1 - dt.date.dayOfWeek) ∧
    ((WeekDayTerm.create w looped).apply dt false).time = dt.time ∧
    (WeekDayTerm.create w looped).applyAsserts dt false = true := by
  obtain ⟨jd, hjd, ht⟩ := (QDateTime.isValid_iff dt).1 hdt
  obtain ⟨date, t⟩ := dt
  simp only at hjd ht
  subst hjd
  have hw : (WeekDayTerm.create w looped)._weekDay = w := rfl
  rw [WeekDayTerm.apply_unfenced_mk _ jd ht, hw, QDateTime.addDays_mk _ _ ht]
  refine ⟨rfl, QDateTime.isValid_mk _ ht, ?_, ?_, rfl, ?_⟩
  · simp only [QDate.dayOfWeek]
    omega
  · simp only [QDate.dayOfWeek, QDate.addDays, Option.some.injEq]
    omega
  · simp only [WeekDayTerm.applyAsserts, WeekDayTerm.applyChecked, hw, QDate.addDays,
      QDate.dayOfWeek, Bool.false_and, Bool.false_eq_true, if_false, Bool.true_and, beq_iff_eq]
    omega

/-- C26 at Wednesday 2024-01-03T08:00 and w = 1: Monday 2024-01-01T08:00. -/
theorem weekDay_apply_unfenced_week_witness :
    (QDateTime.mk (QDate.ofYMD 2024 1 3) (QTime.ofHMS 8 0 0 0)).isValid = true ∧
    (QDate.ofYMD 2024 1 3).dayOfWeek = 3 ∧
    (WeekDayTerm.create 1 false).apply ⟨QDate.ofYMD 2024 1 3, QTime.ofHMS 8 0 0 0⟩ false =
      ⟨QDate.ofYMD 2024 1 1, QTime.ofHMS 8 0 0 0⟩ ∧
    ((WeekDayTerm.create 1 false).apply
      ⟨QDate.ofYMD 2024 1 3, QTime.ofHMS 8 0 0 0⟩ false).date.dayOfWeek = 1 :=
  ⟨by decide, by decide, by decide,
    (weekDay_apply_unfenced_week 1 false ⟨QDate.ofYMD 2024 1 3, QTime.ofHMS 8 0 0 0⟩
      (by decide) (by decide) (by decide)).2.2.1⟩

end Expressions

namespace Expressions

open Qt

/-- The fenced `WeekDayTerm::apply` on a valid instant, for a weekday in 1..7:
every assertion holds exactly when the date stored is in the month of the
input. -/
theorem WeekDayTerm.applyAsserts_fenced_iff (wd : WeekDayTerm) (jd : Int) {t : QTime}
    (ht : t.isValid = true) (h1 : 1 ≤ wd._weekDay) (h7 : wd._weekDay ≤ 7) :
    wd.applyAsserts ⟨some jd, t⟩ true = true ↔
      (wd.apply ⟨some jd, t⟩ true).date.month = QDate.month (some jd) := by
  simp only [WeekDayTerm.applyAsserts, WeekDayTerm.apply, WeekDayTerm.applyChecked,
    QDate.addDays, QDate.dayOfWeek, QDateTime.setDate_mk _ _ ht, Bool.true_and,
    Bool.and_eq_true, decide_eq_true_eq, beq_iff_eq]
  split_ifs with ha hb
  · simp only [beq_iff_eq, QDate.dayOfWeek]
    exact ⟨fun h => h.1, fun h => ⟨h, by omega⟩⟩
  · simp only [beq_iff_eq, QDate.dayOfWeek]
    exact ⟨fun h => h.1, fun h => ⟨h, by omega⟩⟩
  · simp only [QDate.dayOfWeek]
    exact ⟨fun _ => by omega, fun _ => ⟨trivial, by omega⟩⟩

/-- C25. For every valid instant and weekday `w` in 1..7:
`WeekDayTerm(w)::fixupCleanup` leaves an instant that falls on weekday `w` as it
is, without reaching an assertion, and runs the fenced apply of the term
otherwise.  Every assertion on its path holds exactly when the date it stores is
in the month of the input, and where they hold it returns a valid instant whose
ISO day-of-week is `w`, at the same time of day.  At Monday 2024-12-30T00:00 and
`w` = 7 the assertion behind the shift by 7 days fails: the date stored is
2025-01-12. -/
theorem weekDay_fixupCleanup_snaps (w : Int) (looped : Bool) (dt : QDateTime)
    (hdt : dt.isValid = true) (h1 : 1 ≤ w) (h7 : w ≤ 7) :
    (dt.date.dayOfWeek = w →
      (WeekDayTerm.create w looped).fixupCleanupChecked dt = (dt, true)) ∧
    (dt.date.dayOfWeek ≠ w →
      (WeekDayTerm.create w looped).fixupCleanupChecked dt =
        (WeekDayTerm.create w looped).applyChecked dt true) ∧
    ((WeekDayTerm.create w looped).fixupCleanupAsserts dt = true ↔
      ((WeekDayTerm.create w looped).fixupCleanup dt).date.month = dt.date.month) ∧
    ((WeekDayTerm.create w looped).fixupCleanupAsserts dt = true →
      ((WeekDayTerm.create w looped).fixupCleanup dt).date.dayOfWeek = w ∧
      ((WeekDayTerm.create w looped).fixupCleanup dt).isValid = true ∧
      (dt.date.dayOfWeek = w → (WeekDayTerm.create w looped).fixupCleanup dt = dt) ∧
      (dt.date.dayOfWeek ≠ w →
        (WeekDayTerm.create w looped).fixupCleanup dt =
          (WeekDayTerm.create w looped).apply dt true ∧
        (WeekDayTerm.create w looped).applyAsserts dt true = true) ∧
      ((WeekDayTerm.create w looped).fixupCleanup dt).time = dt.time) ∧
    (QDate.ofYMD 2024 12 30).dayOfWeek = 1 ∧
    (WeekDayTerm.create 7 false).fixupCleanupChecked
        ⟨QDate.ofYMD 2024 12 30, QTime.ofHMS 0 0 0 0⟩ =
      (⟨QDate.ofYMD 2025 1 12, QTime.ofHMS 0 0 0 0⟩, false) := by
  obtain ⟨jd, hjd, ht⟩ := (QDateTime.isValid_iff dt).1 hdt
  obtain ⟨date, t⟩ := dt
  simp only at hjd ht
  subst hjd
  have hw : (WeekDayTerm.create w looped)._weekDay = w := rfl
  refine ⟨?_, ?_, ?_, ?_, by decide, by decide⟩
  · intro hsame
    simp [WeekDayTerm.fixupCleanupChecked, hw, hsame]
  · intro hne
    simp [WeekDayTerm.fixupCleanupChecked, hw, hne]
  · by_cases hsame : QDate.dayOfWeek (some jd) = w
    · simp [WeekDayTerm.fixupCleanupAsserts, WeekDayTerm.fixupCleanup,
        WeekDayTerm.fixupCleanupChecked, hw, hsame]
    · have e : (WeekDayTerm.create w looped).fixupCleanupChecked ⟨some jd, t⟩ =
          (WeekDayTerm.create w looped).applyChecked ⟨some jd, t⟩ true := by
        simp [WeekDayTerm.fixupCleanupChecked, hw, hsame]
      simp only [WeekDayTerm.fixupCleanupAsserts, WeekDayTerm.fixupCleanup, e]
      exact WeekDayTerm.applyAsserts_fenced_iff _ jd ht (by rw [hw]; exact h1)
        (by rw [hw]; exact h7)
  · intro hassert
    by_cases hsame : QDate.dayOfWeek (some jd) = w
    · have e : (WeekDayTerm.create w looped).fixupCleanup ⟨some jd, t⟩ = ⟨some jd, t⟩ := by
        simp [WeekDayTerm.fixupCleanup, WeekDayTerm.fixupCleanupChecked, hw, hsame]
      rw [e]
      exact ⟨hsame, QDateTime.isValid_mk _ ht, fun _ => rfl, fun h => absurd hsame h, rfl⟩
    · have e : (WeekDayTerm.create w looped).fixupCleanupChecked ⟨some jd, t⟩ =
          (WeekDayTerm.create w looped).applyChecked ⟨some jd, t⟩ true := by
        simp [WeekDayTerm.fixupCleanupChecked, hw, hsame]
      have e1 : (WeekDayTerm.create w looped).fixupCleanup ⟨some jd, t⟩ =
          (WeekDayTerm.create w looped).apply ⟨some jd, t⟩ true := by
        simp only [WeekDayTerm.fixupCleanup, e, WeekDayTerm.apply]
      have e2 : (WeekDayTerm.create w looped).applyAsserts ⟨some jd, t⟩ true = true := by
        simpa only [WeekDayTerm.fixupCleanupAsserts, e, WeekDayTerm.applyAsserts] using hassert
      obtain ⟨jd2, h2, hd2⟩ := WeekDayTerm.apply_weekday_mk (WeekDayTerm.create w looped) jd ht
        true (by rw [hw]; exact h1) (by rw [hw]; exact h7)
      rw [e1, h2]
      exact ⟨by simpa [QDate.dayOfWeek, hw] using hd2, QDateTime.isValid_mk _ ht,
        fun h => absurd h hsame, fun _ => ⟨rfl, e2⟩, rfl⟩

/-- C25 at Wednesday 2024-01-31T08:00 and w = 5: the Friday of that week is in
February, so the fenced apply gives Friday 2024-01-26T08:00 and its assertions
hold; a Friday is left as it is. -/
theorem weekDay_fixupCleanup_snaps_witness :
    (QDateTime.mk (QDate.ofYMD 2024 1 31) (QTime.ofHMS 8 0 0 0)).isValid = true ∧
    (WeekDayTerm.create 5 false).fixupCleanupChecked
        ⟨QDate.ofYMD 2024 1 31, QTime.ofHMS 8 0 0 0⟩ =
      (⟨QDate.ofYMD 2024 1 26, QTime.ofHMS 8 0 0 0⟩, true) ∧
    (WeekDayTerm.create 5 false).fixupCleanupChecked
        ⟨QDate.ofYMD 2024 1 26, QTime.ofHMS 8 0 0 0⟩ =
      (⟨QDate.ofYMD 2024 1 26, QTime.ofHMS 8 0 0 0⟩, true) ∧
    ((WeekDayTerm.create 5 false).fixupCleanup
      ⟨QDate.ofYMD 2024 1 31, QTime.ofHMS 8 0 0 0⟩).date.dayOfWeek = 5 :=
  ⟨by decide, by decide, by decide,
    ((weekDay_fixupCleanup_snaps 5 false ⟨QDate.ofYMD 2024 1 31, QTime.ofHMS 8 0 0 0⟩
      (by decide) (by decide) (by decide)).2.2.2.1 (by decide)).1⟩

end Expressions

namespace Qt

/-- Setting the same date twice is setting it once. -/
theorem QDateTime.setDate_setDate (dt : QDateTime) (d : QDate) :
    (dt.setDate d).setDate d = dt.setDate d := by
  obtain ⟨date, t⟩ := dt
  have h0 : (QTime.mk 0).isValid = true := by decide
  have hn : QTime.null.isValid = false := by decide
  cases d <;> by_cases ht : t.isValid = true <;>
    simp [QDateTime.setDate, QDateTime.setDateTime, QDate.isValid, ht, h0, hn]

/-- Setting the same time twice is setting it once. -/
theorem QDateTime.setTime_setTime (dt : QDateTime) (t : QTime) :
    (dt.setTime t).setTime t = dt.setTime t := by
  obtain ⟨date, t0⟩ := dt
  have h0 : (QTime.mk 0).isValid = true := by decide
  have hn : QTime.null.isValid = false := by decide
  cases date <;> by_cases ht : t.isValid = true <;>
    simp [QDateTime.setTime, QDateTime.setDateTime, QDate.isValid, ht, h0, hn]

theorem QDateTime.date_setDate (dt : QDateTime) (d : QDate) : (dt.setDate d).date = d := rfl

/-- A date built in the year of a date built from the same month and day in
some year is that date. -/
theorem QDate.ofYMD_year_ofYMD (y m d : Int) :
    QDate.ofYMD (QDate.year (QDate.ofYMD y m d)) m d = QDate.ofYMD y m d := by
  by_cases h : isValidYMD y m d = true
  · rw [QDate.year_ofYMD h]
  · have e : QDate.ofYMD y m d = none := by simp [QDate.ofYMD, h]
    rw [e]
    simp [QDate.ofYMD, QDate.year, isValidYMD]

end Qt

namespace Expressions

open Qt

theorem MonthDayTerm.apply_twice (md : MonthDayTerm) (dt : QDateTime) (f : Bool) :
    md.apply (md.apply dt f) f = md.apply dt f := by
  obtain ⟨date, t⟩ := dt
  cases date with
  | none =>
    have e : QDate.ofYMD 0 0 (min md._day 0) = none := by simp [QDate.ofYMD, isValidYMD]
    simp only [MonthDayTerm.apply, QDate.year, QDate.month, QDate.daysInMonth,
      QDateTime.date_setDate, e]
    exact QDateTime.setDate_setDate _ _
  | some jd =>
    by_cases hd : 1 ≤ md._day
    · have hv := QDate.isValid_clamped (QDate.year_ne_zero jd) (QDate.month_range jd).1
        (QDate.month_range jd).2 hd
      simp only [MonthDayTerm.apply, QDateTime.date_setDate, QDate.daysInMonth_some]
      have e : QDate.daysInMonth (QDate.ofYMD (QDate.year (some jd)) (QDate.month (some jd))
          (min md._day (daysIn (QDate.year (some jd)) (QDate.month (some jd))))) =
          daysIn (QDate.year (some jd)) (QDate.month (some jd)) := by
        have h1 := QDate.year_ofYMD hv
        have h2 := QDate.month_ofYMD hv
        rw [QDate.ofYMD_of_valid hv] at h1 h2 ⊢
        rw [QDate.daysInMonth_some, h1, h2]
      rw [e, QDate.year_ofYMD hv, QDate.month_ofYMD hv]
      exact QDateTime.setDate_setDate _ _
    · have hdim := daysIn_bounds (QDate.year (some jd)) (QDate.month (some jd))
        (QDate.month_range jd).1 (QDate.month_range jd).2
      have hinv : isValidYMD (QDate.year (some jd)) (QDate.month (some jd))
          (min md._day (daysIn (QDate.year (some jd)) (QDate.month (some jd)))) ≠ true := by
        intro hvalid
        have := (isValidYMD_iff_daysIn _ _ _).1 hvalid
        omega
      have e : QDate.ofYMD (QDate.year (some jd)) (QDate.month (some jd))
          (min md._day (daysIn (QDate.year (some jd)) (QDate.month (some jd)))) = none := by
        simp [QDate.ofYMD, hinv]
      have e0 : QDate.ofYMD 0 0 (min md._day 0) = none := by simp [QDate.ofYMD, isValidYMD]
      simp only [MonthDayTerm.apply, QDateTime.date_setDate, QDate.daysInMonth_some, e]
      simp only [QDate.year, QDate.month, QDate.daysInMonth, e0]
      exact QDateTime.setDate_setDate _ _

theorem WeekDayTerm.apply_again (wd : WeekDayTerm) (dt : QDateTime) (hdt : dt.isValid = true)
    (f : Bool) (h1 : 1 ≤ wd._weekDay) (h7 : wd._weekDay ≤ 7) :
    wd.apply (wd.apply dt f) f = wd.apply dt f := by
  obtain ⟨jd, hjd, ht⟩ := (QDateTime.isValid_iff dt).1 hdt
  obtain ⟨date, t⟩ := dt
  simp only at hjd ht
  subst hjd
  obtain ⟨jd2, h2, hd2⟩ := WeekDayTerm.apply_weekday_mk wd jd ht f h1 h7
  rw [h2]
  simp only [WeekDayTerm.apply, WeekDayTerm.apply_same_day wd jd2 ht f hd2]

/-- `WeekDayTerm::apply` on the result of an apply whose assertions hold: the
same instant again, and the assertions hold again. -/
theorem WeekDayTerm.applyChecked_again (wd : WeekDayTerm) (dt : QDateTime)
    (hdt : dt.isValid = true) (f : Bool) (h1 : 1 ≤ wd._weekDay) (h7 : wd._weekDay ≤ 7) :
    wd.applyChecked (wd.apply dt f) f = (wd.apply dt f, true) := by
  obtain ⟨jd, hjd, ht⟩ := (QDateTime.isValid_iff dt).1 hdt
  obtain ⟨date, t⟩ := dt
  simp only at hjd ht
  subst hjd
  obtain ⟨jd2, h2, hd2⟩ := WeekDayTerm.apply_weekday_mk wd jd ht f h1 h7
  rw [h2]
  exact WeekDayTerm.apply_same_day wd jd2 ht f hd2

/-- The unfenced `WeekDayTerm::apply` on a valid instant, for a weekday in 1..7:
its assertion holds. -/
theorem WeekDayTerm.applyAsserts_unfenced (wd : WeekDayTerm) (dt : QDateTime)
    (hdt : dt.isValid = true) (h1 : 1 ≤ wd._weekDay) (h7 : wd._weekDay ≤ 7) :
    wd.applyAsserts dt false = true := by
  obtain ⟨jd, hjd, ht⟩ := (QDateTime.isValid_iff dt).1 hdt
  obtain ⟨date, t⟩ := dt
  simp only at hjd ht
  subst hjd
  simp only [WeekDayTerm.applyAsserts, WeekDayTerm.applyChecked, QDate.addDays,
    QDate.dayOfWeek, Bool.false_and, Bool.false_eq_true, if_false, Bool.true_and, beq_iff_eq]
  omega

/-- C27. `apply` is idempotent for every sub-term that sets a part of the
instant: for every valid instant `dt` and each of Time, InvertedTime, Date (with
or without year), MonthDay, Month and Year, applying the term to the result of
applying it gives that result.  For WeekDay (weekday in 1..7) the same holds
wherever the assertions of the first apply hold, and then those of the second
hold too; unfenced they always hold.  The fenced apply of Sunday to Monday
2024-12-30T00:00 and that of Monday to Wednesday 2025-01-01T00:00 fail their
assertion. -/
theorem apply_idempotent (dt : QDateTime) (hdt : dt.isValid = true) (fenced : Bool) :
    (∀ term : TimeTerm, term.apply (term.apply dt fenced) fenced = term.apply dt fenced) ∧
    (∀ term : InvertedTimeTerm,
      term.apply (term.apply dt fenced) fenced = term.apply dt fenced) ∧
    (∀ term : DateTerm, term.apply (term.apply dt fenced) fenced = term.apply dt fenced) ∧
    (∀ term : MonthDayTerm, term.apply (term.apply dt fenced) fenced = term.apply dt fenced) ∧
    (∀ term : WeekDayTerm, 1 ≤ term._weekDay → term._weekDay ≤ 7 →
      term.applyAsserts dt fenced = true →
      term.applyChecked (term.apply dt fenced) fenced = (term.apply dt fenced, true)) ∧
    (∀ term : WeekDayTerm, 1 ≤ term._weekDay → term._weekDay ≤ 7 →
      term.applyAsserts dt false = true) ∧
    (∀ term : MonthTerm, term.apply (term.apply dt fenced) fenced = term.apply dt fenced) ∧
    (∀ term : YearTerm, term.apply (term.apply dt fenced) fenced = term.apply dt fenced) ∧
    (WeekDayTerm.create 7 false).applyChecked
        ⟨QDate.ofYMD 2024 12 30, QTime.ofHMS 0 0 0 0⟩ true =
      (⟨QDate.ofYMD 2025 1 12, QTime.ofHMS 0 0 0 0⟩, false) ∧
    (WeekDayTerm.create 1 false).applyChecked
        ⟨QDate.ofYMD 2025 1 1, QTime.ofHMS 0 0 0 0⟩ true =
      (⟨QDate.ofYMD 2024 12 23, QTime.ofHMS 0 0 0 0⟩, false) := by
  refine ⟨?_, ?_, ?_, ?_, ?_, ?_, ?_, ?_, by decide, by decide⟩
  · intro term
    exact QDateTime.setTime_setTime dt term._time
  · intro term
    exact QDateTime.setTime_setTime dt term._time
  · intro term
    by_cases hy : testFlag term.scope Year = true
    · simp only [DateTerm.apply, hy, if_true]
      exact QDateTime.setDate_setDate _ _
    · simp only [DateTerm.apply, hy, Bool.false_eq_true, if_false, QDateTime.date_setDate,
        QDate.ofYMD_year_ofYMD]
      exact QDateTime.setDate_setDate _ _
  · intro term
    exact MonthDayTerm.apply_twice term dt fenced
  · intro term h1 h7 _
    exact WeekDayTerm.applyChecked_again term dt hdt fenced h1 h7
  · intro term h1 h7
    exact WeekDayTerm.applyAsserts_unfenced term dt hdt h1 h7
  · intro term
    simp only [MonthTerm.apply, QDateTime.date_setDate, QDate.ofYMD_year_ofYMD]
    exact QDateTime.setDate_setDate _ _
  · intro term
    simp only [YearTerm.apply]
    exact QDateTime.setDate_setDate _ _

/-- C27 at 2024-01-31T08:00: the 29 February without year, day 31, Friday
fenced (its assertions hold), and the month April, each applied twice. -/
theorem apply_idempotent_witness :
    (QDateTime.mk (QDate.ofYMD 2024 1 31) (QTime.ofHMS 8 0 0 0)).isValid = true ∧
    (DateTerm.create (QDate.ofYMD 2024 2 29) false false).apply
        ((DateTerm.create (QDate.ofYMD 2024 2 29) false false).apply
          ⟨QDate.ofYMD 2024 1 31, QTime.ofHMS 8 0 0 0⟩ true) true =
      (DateTerm.create (QDate.ofYMD 2024 2 29) false false).apply
        ⟨QDate.ofYMD 2024 1 31, QTime.ofHMS 8 0 0 0⟩ true ∧
    (WeekDayTerm.create 5 false).applyAsserts
        ⟨QDate.ofYMD 2024 1 31, QTime.ofHMS 8 0 0 0⟩ true = true ∧
    (WeekDayTerm.create 5 false).applyChecked ((WeekDayTerm.create 5 false).apply
        ⟨QDate.ofYMD 2024 1 31, QTime.ofHMS 8 0 0 0⟩ true) true =
      ((WeekDayTerm.create 5 false).apply ⟨QDate.ofYMD 2024 1 31, QTime.ofHMS 8 0 0 0⟩ true,
        true) ∧
    (WeekDayTerm.create 5 false).apply ⟨QDate.ofYMD 2024 1 31, QTime.ofHMS 8 0 0 0⟩ true =
      ⟨QDate.ofYMD 2024 1 26, QTime.ofHMS 8 0 0 0⟩ ∧
    (MonthTerm.create 4 false).apply ⟨QDate.ofYMD 2024 1 31, QTime.ofHMS 8 0 0 0⟩ true =
      ⟨QDate.ofYMD 2024 4 1, QTime.ofHMS 8 0 0 0⟩ :=
  have hdt : (QDateTime.mk (QDate.ofYMD 2024 1 31) (QTime.ofHMS 8 0 0 0)).isValid = true := by
    decide
  ⟨hdt,
    (apply_idempotent ⟨QDate.ofYMD 2024 1 31, QTime.ofHMS 8 0 0 0⟩ hdt true).2.2.1 _,
    by decide,
    (apply_idempotent ⟨QDate.ofYMD 2024 1 31, QTime.ofHMS 8 0 0 0⟩ hdt true).2.2.2.2.1 _
      (by decide) (by decide) (by decide),
    by decide, by decide⟩

end Expressions

namespace Expressions

open Qt

/-- A sequence of Minute and Hour entries is applied the same way fenced and
unfenced. -/
theorem SequenceTerm.applyLoop_minute_hour (seq : Sequence)
    (h : ∀ e ∈ seq, e.1 = Minute ∨ e.1 = Hour) (dt : QDateTime) :
    SequenceTerm.applyLoop true seq dt = SequenceTerm.applyLoop false seq dt := by
  induction seq generalizing dt with
  | nil => rfl
  | cons e rest ih =>
    have he : SequenceTerm.applyEntry true dt e = SequenceTerm.applyEntry false dt e := by
      rcases h e (List.mem_cons_self _ _) with hk | hk
      · simp [SequenceTerm.applyEntry, hk]
      · have hne : ¬ Hour = Minute := by decide
        simp [SequenceTerm.applyEntry, hk, hne]
    simp only [SequenceTerm.applyLoop, he]
    cases SequenceTerm.applyEntry false dt e with
    | none => rfl
    | some dt2 => exact ih (fun x hx => h x (List.mem_cons_of_mem _ hx)) dt2

/-- C28. `SequenceTerm::apply` with `applyFenced = true` adds one unit less than
the stored count for the Day, Week, Month and Year entries (count - 1 days,
weeks of 7 days, months, years) and the full stored count for the Minute and
Hour entries, as the unfenced apply does; for a sequence of Minute and Hour
entries only, the fenced and the unfenced result are equal. -/
theorem sequence_apply_fenced (dt : QDateTime) (count : Int) :
    SequenceTerm.applyEntry true dt (Day, count) = some (dt.addDays (count - 1)) ∧
    SequenceTerm.applyEntry true dt (Week, count) = some (dt.addDays ((count - 1) * 7)) ∧
    SequenceTerm.applyEntry true dt (Month, count) = some (dt.addMonths (count - 1)) ∧
    SequenceTerm.applyEntry true dt (Year, count) = some (dt.addYears (count - 1)) ∧
    SequenceTerm.applyEntry true dt (Minute, count) = some (dt.addSecs (count * 60)) ∧
    SequenceTerm.applyEntry true dt (Hour, count) = some (dt.addSecs (count * 3600)) ∧
    SequenceTerm.applyEntry false dt (Minute, count) = some (dt.addSecs (count * 60)) ∧
    SequenceTerm.applyEntry false dt (Hour, count) = some (dt.addSecs (count * 3600)) ∧
    (∀ (seq : Sequence) (looped : Bool), (∀ e ∈ seq, e.1 = Minute ∨ e.1 = Hour) →
      (SequenceTerm.create seq looped).apply dt true =
        (SequenceTerm.create seq looped).apply dt false) := by
  have h1 : ¬ Hour = Minute := by decide
  have h2 : ¬ Day = Minute := by decide
  have h3 : ¬ Day = Hour := by decide
  have h4 : ¬ Week = Minute := by decide
  have h5 : ¬ Week = Hour := by decide
  have h6 : ¬ Week = Day := by decide
  have h7 : ¬ Month = Minute := by decide
  have h8 : ¬ Month = Hour := by decide
  have h9 : ¬ Month = Day := by decide
  have h10 : ¬ Month = Week := by decide
  have h11 : ¬ Year = Minute := by decide
  have h12 : ¬ Year = Hour := by decide
  have h13 : ¬ Year = Day := by decide
  have h14 : ¬ Year = Week := by decide
  have h15 : ¬ Year = Month := by decide
  refine ⟨?_, ?_, ?_, ?_, ?_, ?_, ?_, ?_, ?_⟩
  · simp [SequenceTerm.applyEntry, h2, h3]
  · simp [SequenceTerm.applyEntry, h4, h5, h6]
  · simp [SequenceTerm.applyEntry, h7, h8, h9, h10]
  · simp [SequenceTerm.applyEntry, h11, h12, h13, h14, h15]
  · simp [SequenceTerm.applyEntry]
  · simp [SequenceTerm.applyEntry, h1]
  · simp [SequenceTerm.applyEntry]
  · simp [SequenceTerm.applyEntry, h1]
  · intro seq looped h
    exact SequenceTerm.applyLoop_minute_hour seq h dt

/-- C28 at 2024-01-01T10:00: {Hour: 2, Minute: 20} gives 12:20 fenced as
unfenced; {Day: 3} fenced gives two days later, 2024-01-03T10:00. -/
theorem sequence_apply_fenced_witness :
    (SequenceTerm.create [(Hour, 2), (Minute, 20)] false).apply
        ⟨QDate.ofYMD 2024 1 1, QTime.ofHMS 10 0 0 0⟩ true =
      (SequenceTerm.create [(Hour, 2), (Minute, 20)] false).apply
        ⟨QDate.ofYMD 2024 1 1, QTime.ofHMS 10 0 0 0⟩ false ∧
    (SequenceTerm.create [(Hour, 2), (Minute, 20)] false).apply
        ⟨QDate.ofYMD 2024 1 1, QTime.ofHMS 10 0 0 0⟩ true =
      some ⟨QDate.ofYMD 2024 1 1, QTime.ofHMS 12 20 0 0⟩ ∧
    (SequenceTerm.create [(Day, 3)] false).apply
        ⟨QDate.ofYMD 2024 1 1, QTime.ofHMS 10 0 0 0⟩ true =
      some ⟨QDate.ofYMD 2024 1 3, QTime.ofHMS 10 0 0 0⟩ :=
  ⟨(sequence_apply_fenced ⟨QDate.ofYMD 2024 1 1, QTime.ofHMS 10 0 0 0⟩ 0).2.2.2.2.2.2.2.2
      [(Hour, 2), (Minute, 20)] false (by decide),
    by decide, by decide⟩

end Expressions

namespace Qt

/-- A time with a minute outside 0..59 is not valid. -/
theorem QTime.ofHMS_invalid_minute (h m : Int) (hm : m < 0 ∨ 60 ≤ m) :
    (QTime.ofHMS h m 0 0).isValid = false := by
  have hv : QTime.isValidHMS h m 0 0 = false := by
    simp only [QTime.isValidHMS, Bool.and_eq_false_iff, decide_eq_false_iff_not]
    omega
  simp only [QTime.ofHMS, hv, Bool.false_eq_true, if_false]
  decide

/-- The hour and the minute of a valid time are in range. -/
theorem QTime.range_of_valid {t : QTime} (ht : t.isValid = true) :
    0 ≤ t.hour ∧ t.hour ≤ 23 ∧ 0 ≤ t.minute ∧ t.minute ≤ 59 := by
  have h := ht
  simp only [QTime.isValid, MSECS_PER_DAY, Bool.and_eq_true, decide_eq_true_eq] at h
  simp only [QTime.hour, QTime.minute, ht, if_true]
  omega

/-- `toTime` of a numeral in a minute format, for the values 0 and 60..99: the
minute 0, or the minute -1 of the null time. -/
theorem toTime_minute_out {t : Text} {n : Nat} (h : isNumeral t n) (mf : Text)
    (hmf : mf = ['m'] ∨ mf = ['m', 'm']) :
    (n = 0 → (toTime t mf).minute = 0 ∨ (toTime t mf).minute = -1) ∧
    (60 ≤ n → (toTime t mf).minute = -1) := by
  have hnull : QTime.null.minute = -1 := by decide
  rcases isNumeral_cases h with ⟨a, rfl, ha, hv⟩ | ⟨a, b, rfl, ha, hb, hv⟩
  · have hr := digit_toNat ha
    rcases hmf with rfl | rfl
    · have e : toTime [a] ['m'] = QTime.ofHMS 0 (n : Int) 0 0 := by
        simp [toTime, parseTimeFormat, readTimeSections, readNumber, Text.digitsValue, ha, hv]
      rw [e]
      refine ⟨fun h0 => Or.inl ?_, fun h60 => by omega⟩
      rw [QTime.minute_ofHMS (by omega) (by omega) (by omega) (by omega), h0]
      rfl
    · have e : toTime [a] ['m', 'm'] = QTime.null := by
        simp [toTime, parseTimeFormat, readTimeSections, readNumber, ha]
      rw [e]
      exact ⟨fun _ => Or.inr hnull, fun _ => hnull⟩
  · have e : toTime [a, b] mf = QTime.ofHMS 0 (n : Int) 0 0 := by
      rcases hmf with rfl | rfl <;>
      simp [toTime, parseTimeFormat, readTimeSections, readNumber, Text.digitsValue, ha, hb, hv]
    rw [e]
    refine ⟨fun h0 => Or.inl ?_, fun h60 => ?_⟩
    · rw [QTime.minute_ofHMS (by omega) (by omega) (by omega) (by omega), h0]
      rfl
    · have hi := QTime.ofHMS_invalid_minute 0 (n : Int) (Or.inr (by omega))
      simp only [QTime.minute, hi, Bool.false_eq_true, if_false]

end Qt

namespace Expressions

open Qt

/-- Every term that `InvertedTimeTerm::parse` makes of a match holds a valid time. -/
theorem InvertedTimeTerm.fromMatch_valid (m : QRegularExpressionMatch)
    (sign hourFormat minFormat : Text) (term : InvertedTimeTerm) (consumed : Nat)
    (h : InvertedTimeTerm.fromMatch m sign hourFormat minFormat = some (term, consumed)) :
    term._time.isValid = true := by
  unfold InvertedTimeTerm.fromMatch at h
  by_cases hm : m.hasMatch = true
  · simp only [hm, if_true, Option.ite_none_right_eq_some, Option.some.injEq,
      Prod.mk.injEq] at h
    rw [← h.2.1]
    exact h.1
  · simp only [hm, Bool.false_eq_true, if_false] at h
    exact absurd h (by simp)

/-- Every term that `InvertedTimeTerm::parse` returns holds a valid time. -/
theorem InvertedTimeTerm.parse_valid (expression : Text) (term : InvertedTimeTerm)
    (consumed : Nat) (h : InvertedTimeTerm.parse expression = some (term, consumed)) :
    term._time.isValid = true := by
  unfold InvertedTimeTerm.parse at h
  simp only [] at h
  obtain ⟨exprPattern, -, h⟩ := List.exists_of_findSome?_eq_some h
  obtain ⟨hourPattern, -, h⟩ := List.exists_of_findSome?_eq_some h
  obtain ⟨minPattern, -, h⟩ := List.exists_of_findSome?_eq_some h
  unfold InvertedTimeTerm.tryPattern at h
  split at h
  · exact InvertedTimeTerm.fromMatch_valid _ _ _ _ term consumed h
  · exact absurd h (by simp)

/-- A match whose minute text gives a minute outside 0..59 yields no term. -/
theorem InvertedTimeTerm.fromStates_out (n : Nat) (r : Text) (tail : List MState)
    (subject H M sign hf mf : Text) (minutes : Int)
    (hM : (match InvertedTimeTerm.keywords.1.lookup M with
      | some v => v
      | none => (toTime M mf).minute) = minutes)
    (hto : sign = ['-'] → minutes ≤ 0 ∨ 60 < minutes)
    (hpast : ¬ sign = ['-'] → minutes < 0 ∨ 60 ≤ minutes) :
    InvertedTimeTerm.fromStates
        (⟨n, r, [⟨2, "hours".toList, H⟩, ⟨1, "minutes".toList, M⟩]⟩ :: tail)
        subject sign hf mf = none := by
  by_cases hs : sign = ['-']
  · have hv := QTime.ofHMS_invalid_minute
      (if (toTime H hf).hour = 0 then 23 else (toTime H hf).hour - 1) (60 - minutes)
      (by have := hto hs; omega)
    simp only [InvertedTimeTerm.fromStates, InvertedTimeTerm.fromMatch, if_true,
      (InvertedTimeTerm.capturedName_eq n subject H M).1,
      (InvertedTimeTerm.capturedName_eq n subject H M).2, hM, hs, hv, Bool.false_eq_true,
      if_false]
  · have hv := QTime.ofHMS_invalid_minute (toTime H hf).hour minutes (hpast hs)
    simp only [InvertedTimeTerm.fromStates, InvertedTimeTerm.fromMatch, if_true,
      (InvertedTimeTerm.capturedName_eq n subject H M).1,
      (InvertedTimeTerm.capturedName_eq n subject H M).2, hM, hs, hv, Bool.false_eq_true,
      if_false]

/-- The pattern from the hour group on with the hour format `h`, on a two-digit
hour numeral that ends the text: both digits first, then the first digit alone. -/
theorem InvertedTimeTerm.tail_two_short (c d : Char) (hc : c.isDigit = true)
    (hd : d.isDigit = true) (p : Nat) (caps : List Capture) :
    ∃ tail, matchAll (Regex.chain (tailItems (Regex.rep CharSet.digit 1 (some 2))))
        ⟨p, [c, d], caps⟩ = ⟨p + 2, [], ⟨2, "hours".toList, [c, d]⟩ :: caps⟩ :: tail := by
  simp [InvertedTimeTerm.tailItems, Regex.chain, Regex.text,
    Regex.anyOf, matchAll_seq, matchAll_alt, matchAll_opt, matchAll_group, matchAll_digits,
    matchAll_spaces_nil, matchAll_spaces, matchAll_char_cons, matchAll_char_nil, hc, hd,
    toLower_of_digit, digit_beq_of_not_digit, space_test_of_digit,
    digit_test_of_isDigit hc, digit_test_of_isDigit hd,
    countDown, bindStates_cons, bindStates_nil]

end Expressions

namespace Expressions

open Qt

/-- No candidate of an expression pattern yields a term when every match of
the rest of the pattern gives a time that is not valid. -/
theorem InvertedTimeTerm.candidatesFor_out (sep : String) (sign subject : Text) (s : MState)
    (hm1 : matchAll (Regex.chain (headItems sep (Regex.rep CharSet.digit 1 (some 2))))
      ⟨0, subject, []⟩ = [s])
    (hm2 : matchAll (Regex.chain (headItems sep (Regex.rep CharSet.digit 2 (some 2))))
        ⟨0, subject, []⟩ = [] ∨
      matchAll (Regex.chain (headItems sep (Regex.rep CharSet.digit 2 (some 2))))
        ⟨0, subject, []⟩ = [s])
    (ht : ∀ hourRx ∈ [Regex.chain [Regex.rep CharSet.digit 2 (some 2), Regex.char ' ',
          Regex.anyOf [Regex.text "AM", Regex.text "PM"]],
        Regex.chain [Regex.rep CharSet.digit 1 (some 2), Regex.char ' ',
          Regex.anyOf [Regex.text "AM", Regex.text "PM"]],
        Regex.rep CharSet.digit 2 (some 2), Regex.rep CharSet.digit 1 (some 2)],
      ∀ hf mf : Text, mf = ['m'] ∨ mf = ['m', 'm'] →
        InvertedTimeTerm.fromStates (matchAll (Regex.chain (tailItems hourRx)) s)
          subject sign hf mf = none) :
    (InvertedTimeTerm.candidatesFor sep sign).findSome? (fun c => c.try subject) = none := by
  have e3 : "mm".toList = ['m', 'm'] := rfl
  have e4 : "m".toList = ['m'] := rfl
  have k1 := fun hf => ht _ (List.mem_cons_self _ _) hf ['m'] (Or.inl rfl)
  have k2 := fun hf => ht _ (List.mem_cons_self _ _) hf ['m', 'm'] (Or.inr rfl)
  have k3 := fun hf => ht _ (List.mem_cons_of_mem _ (List.mem_cons_self _ _)) hf ['m']
    (Or.inl rfl)
  have k4 := fun hf => ht _ (List.mem_cons_of_mem _ (List.mem_cons_self _ _)) hf ['m', 'm']
    (Or.inr rfl)
  have k5 := fun hf => ht _ (List.mem_cons_of_mem _ (List.mem_cons_of_mem _
    (List.mem_cons_self _ _))) hf ['m'] (Or.inl rfl)
  have k6 := fun hf => ht _ (List.mem_cons_of_mem _ (List.mem_cons_of_mem _
    (List.mem_cons_self _ _))) hf ['m', 'm'] (Or.inr rfl)
  have k7 := fun hf => ht _ (List.mem_cons_of_mem _ (List.mem_cons_of_mem _
    (List.mem_cons_of_mem _ (List.mem_cons_self _ _)))) hf ['m'] (Or.inl rfl)
  have k8 := fun hf => ht _ (List.mem_cons_of_mem _ (List.mem_cons_of_mem _
    (List.mem_cons_of_mem _ (List.mem_cons_self _ _)))) hf ['m', 'm'] (Or.inr rfl)
  rcases hm2 with hm2 | hm2 <;>
  simp only [InvertedTimeTerm.candidatesFor, InvertedTimeTerm.compiledHours,
    InvertedTimeTerm.compiledMinutes, List.map_cons, List.map_nil, List.flatten_cons,
    List.flatten_nil, List.cons_append, List.nil_append, List.append_nil, List.findSome?_cons,
    List.findSome?_nil, InvTimeCandidate.try_eq, hm1, hm2, bindStates_nil, bindStates_cons,
    InvertedTimeTerm.fromStates_nil, e3, e4, k1, k2, k3, k4, k5, k6, k7, k8]

/-- The matches of the rest of the pattern, behind a minute numeral whose
minute is out of range, on an hour numeral: none yields a term. -/
theorem InvertedTimeTerm.tail_out {M H : Text} {m h : Nat} (hM : isNumeral M m)
    (hH : isNumeral H h) (p : Nat) (subject sign : Text)
    (hto : sign = ['-'] → m = 0 ∨ 60 ≤ m) (hpast : ¬ sign = ['-'] → 60 ≤ m) :
    ∀ hourRx ∈ [Regex.chain [Regex.rep CharSet.digit 2 (some 2), Regex.char ' ',
          Regex.anyOf [Regex.text "AM", Regex.text "PM"]],
        Regex.chain [Regex.rep CharSet.digit 1 (some 2), Regex.char ' ',
          Regex.anyOf [Regex.text "AM", Regex.text "PM"]],
        Regex.rep CharSet.digit 2 (some 2), Regex.rep CharSet.digit 1 (some 2)],
      ∀ hf mf : Text, mf = ['m'] ∨ mf = ['m', 'm'] →
        InvertedTimeTerm.fromStates
          (matchAll (Regex.chain (tailItems hourRx)) ⟨p, H, [⟨1, "minutes".toList, M⟩]⟩)
          subject sign hf mf = none := by
  intro hourRx hrx hf mf hmf
  have hlook : List.lookup M InvertedTimeTerm.keywords.1 = none := by
    rw [InvertedTimeTerm.keywords_eq]
    rcases isNumeral_cases hM with ⟨a, rfl, -, -⟩ | ⟨a, b, rfl, -, -, -⟩ <;>
    simp [List.lookup]
  have hmin := toTime_minute_out hM mf hmf
  have hbad : ∀ (n : Nat) (r X : Text) (tail : List MState),
      InvertedTimeTerm.fromStates
        (⟨n, r, [⟨2, "hours".toList, X⟩, ⟨1, "minutes".toList, M⟩]⟩ :: tail)
        subject sign hf mf = none := by
    intro n r X tail
    refine InvertedTimeTerm.fromStates_out n r tail subject X M sign hf mf
      (toTime M mf).minute (by simp only [hlook]) ?_ ?_
    · intro hs
      rcases hto hs with h0 | h60
      · rcases hmin.1 h0 with e | e <;> omega
      · have := hmin.2 h60
        omega
    · intro hs
      have := hmin.2 (hpast hs)
      omega
  simp only [List.mem_cons, List.mem_singleton, List.mem_nil_iff, or_false] at hrx
  rcases isNumeral_cases hH with ⟨c, rfl, hc, -⟩ | ⟨c, d, rfl, hc, hd, -⟩
  · obtain ⟨f1, f2, f3, f4⟩ := InvertedTimeTerm.tail_one c hc p [⟨1, "minutes".toList, M⟩]
    rcases hrx with rfl | rfl | rfl | rfl
    · rw [f1]
      exact InvertedTimeTerm.fromStates_nil _ _ _ _
    · rw [f2]
      exact InvertedTimeTerm.fromStates_nil _ _ _ _
    · rw [f3]
      exact InvertedTimeTerm.fromStates_nil _ _ _ _
    · rw [f4]
      exact hbad _ _ _ _
  · obtain ⟨f1, f2, f3⟩ := InvertedTimeTerm.tail_two c d hc hd p [⟨1, "minutes".toList, M⟩]
    obtain ⟨tail, f4⟩ := InvertedTimeTerm.tail_two_short c d hc hd p
      [⟨1, "minutes".toList, M⟩]
    rcases hrx with rfl | rfl | rfl | rfl
    · rw [f1]
      exact InvertedTimeTerm.fromStates_nil _ _ _ _
    · rw [f2]
      exact InvertedTimeTerm.fromStates_nil _ _ _ _
    · rw [f3]
      exact hbad _ _ _ _
    · rw [f4]
      exact hbad _ _ _ _

end Expressions

namespace Expressions

open Qt

/-- `InvertedTimeTerm::parse` on "m to h" for a minute numeral of value 0 or of
value 60 and more: no term. -/
theorem InvertedTimeTerm.parse_to_out {M H : Text} {m h : Nat} (hM : isNumeral M m)
    (hH : isNumeral H h) (hm : m = 0 ∨ 60 ≤ m) :
    InvertedTimeTerm.parse (M ++ " to ".toList ++ H) = none := by
  have htail := fun p subject => InvertedTimeTerm.tail_out hM hH p subject ['-']
    (fun _ => hm) (fun hs => absurd rfl hs)
  rw [InvertedTimeTerm.parse_eq_compiled, InvertedTimeTerm.compiledCandidates_eq,
    List.findSome?_append, List.findSome?_append]
  rcases isNumeral_cases hM with ⟨a, rfl, ha, -⟩ | ⟨a, b, rfl, ha, hb, -⟩
  · obtain ⟨f1, f2, f3, f4, f5, f6⟩ := InvertedTimeTerm.head_to_one a ha H
    have e : [a] ++ " to ".toList ++ H = a :: ' ' :: 't' :: 'o' :: ' ' :: H := rfl
    rw [e, InvertedTimeTerm.candidatesFor_none _ _ _ f1 f2,
      InvertedTimeTerm.candidatesFor_none _ _ _ f3 f4,
      InvertedTimeTerm.candidatesFor_out " to " ['-'] _ _ f6 (Or.inl f5) (htail _ _)]
    rfl
  · obtain ⟨f1, f2, f3, f4, f5, f6⟩ := InvertedTimeTerm.head_to_two a b ha hb H
    have e : [a, b] ++ " to ".toList ++ H = a :: b :: ' ' :: 't' :: 'o' :: ' ' :: H := rfl
    rw [e, InvertedTimeTerm.candidatesFor_none _ _ _ f1 f2,
      InvertedTimeTerm.candidatesFor_none _ _ _ f3 f4,
      InvertedTimeTerm.candidatesFor_out " to " ['-'] _ _ f6 (Or.inr f5) (htail _ _)]
    rfl

/-- `InvertedTimeTerm::parse` on "m past h" for a minute numeral of value 60
and more: no term. -/
theorem InvertedTimeTerm.parse_past_out {M H : Text} {m h : Nat} (hM : isNumeral M m)
    (hH : isNumeral H h) (hm : 60 ≤ m) :
    InvertedTimeTerm.parse (M ++ " past ".toList ++ H) = none := by
  have htail := fun p subject => InvertedTimeTerm.tail_out hM hH p subject ['+']
    (fun hs => absurd hs (by decide)) (fun _ => hm)
  rw [InvertedTimeTerm.parse_eq_compiled, InvertedTimeTerm.compiledCandidates_eq,
    List.findSome?_append, List.findSome?_append]
  rcases isNumeral_cases hM with ⟨a, rfl, ha, hv⟩ | ⟨a, b, rfl, ha, hb, -⟩
  · have := digit_toNat ha
    omega
  · obtain ⟨f1, f2, f3, f4, f5, f6⟩ := InvertedTimeTerm.head_past_two a b ha hb H
    have e : [a, b] ++ " past ".toList ++ H =
        a :: b :: ' ' :: 'p' :: 'a' :: 's' :: 't' :: ' ' :: H := rfl
    rw [e, InvertedTimeTerm.candidatesFor_out " past " ['+'] _ _ f2 (Or.inr f1) (htail _ _),
      InvertedTimeTerm.candidatesFor_none _ _ _ f3 f4,
      InvertedTimeTerm.candidatesFor_none _ _ _ f5 f6]
    rfl

/-- C29. Every InvertedTimeTerm that `InvertedTimeTerm::parse` returns holds a
valid time, with the hour in 0..23 and the minute in 0..59. In particular, for
a minute numeral and an hour numeral of one or two digits, "m to h" with the
minute value 0, which would give the minute 60, yields no term, and "m to h"
and "m past h" with a minute value of 60 or more yield no term. -/
theorem invertedTime_parse_valid :
    (∀ (expression : Text) (term : InvertedTimeTerm) (consumed : Nat),
      InvertedTimeTerm.parse expression = some (term, consumed) →
        term._time.isValid = true ∧ 0 ≤ term._time.hour ∧ term._time.hour ≤ 23 ∧
          0 ≤ term._time.minute ∧ term._time.minute ≤ 59) ∧
    (∀ (M H : Text) (m h : Nat), isNumeral M m → isNumeral H h →
      (m = 0 ∨ 60 ≤ m → InvertedTimeTerm.parse (M ++ " to ".toList ++ H) = none) ∧
      (60 ≤ m → InvertedTimeTerm.parse (M ++ " past ".toList ++ H) = none)) := by
  constructor
  · intro expression term consumed h
    have hv := InvertedTimeTerm.parse_valid expression term consumed h
    exact ⟨hv, QTime.range_of_valid hv⟩
  · intro M H m h hM hH
    exact ⟨InvertedTimeTerm.parse_to_out hM hH, InvertedTimeTerm.parse_past_out hM hH⟩

/-- C29 at "10 to 4" (03:50, a valid time), "0 to 4" and "60 past 4" (no term). -/
theorem invertedTime_parse_valid_witness :
    InvertedTimeTerm.parse "10 to 4".toList =
      some (InvertedTimeTerm.create (QTime.ofHMS 3 50 0 0), 7) ∧
    (InvertedTimeTerm.create (QTime.ofHMS 3 50 0 0))._time.isValid = true ∧
    isNumeral "0".toList 0 ∧ isNumeral "60".toList 60 ∧ isNumeral "4".toList 4 ∧
    InvertedTimeTerm.parse "0 to 4".toList = none ∧
    InvertedTimeTerm.parse "60 past 4".toList = none :=
  have h10 : InvertedTimeTerm.parse "10 to 4".toList =
      some (InvertedTimeTerm.create (QTime.ofHMS 3 50 0 0), 7) := by
    simp only [InvertedTimeTerm.parse_eq_compiled]
    decide!
  have h0 : isNumeral "0".toList 0 := ⟨by decide, by decide, by decide⟩
  have h60 : isNumeral "60".toList 60 := ⟨by decide, by decide, by decide⟩
  have h4 : isNumeral "4".toList 4 := ⟨by decide, by decide, by decide⟩
  ⟨h10, (invertedTime_parse_valid.1 _ _ _ h10).1, h0, h60, h4,
    (invertedTime_parse_valid.2 "0".toList "4".toList 0 4 h0 h4).1 (Or.inl rfl),
    (invertedTime_parse_valid.2 "60".toList "4".toList 60 4 h60 h4).2 (by decide)⟩

end Expressions

namespace Qt

/-- A literal text of the pattern against a text that starts with it, in
letters of either case. -/
theorem matchAll_text_append (kw k : List Char) (hne : kw ≠ [])
    (h : k.map Char.toLower = kw.map Char.toLower) (p : Nat) (rest : Text)
    (caps : List Capture) :
    matchAll (Regex.chain (kw.map Regex.char)) ⟨p, k ++ rest, caps⟩ =
      [⟨p + k.length, rest, caps⟩] := by
  induction kw generalizing k p with
  | nil => exact absurd rfl hne
  | cons c kw ih =>
    cases k with
    | nil => simp at h
    | cons x k =>
      simp only [List.map_cons, List.cons.injEq] at h
      obtain ⟨hx, hk⟩ := h
      have hxc : (x.toLower == c.toLower) = true := by
        rw [beq_iff_eq]
        exact hx
      cases kw with
      | nil =>
        have hk0 : k = [] := by
          cases k with
          | nil => rfl
          | cons _ _ => simp at hk
        subst hk0
        simp only [List.map_cons, List.map_nil, Regex.chain, List.cons_append, List.nil_append,
          matchAll_char_cons, hxc, Bool.true_or, if_true, List.length_singleton]
      | cons c2 kw =>
        simp only [List.map_cons, Regex.chain, List.cons_append, matchAll_seq,
          matchAll_char_cons, hxc, Bool.true_or, if_true, bindStates_cons, bindStates_nil,
          List.append_nil]
        have h2 := ih k (List.cons_ne_nil _ _) hk (p + 1)
        simp only [List.map_cons] at h2
        rw [h2]
        simp only [List.length_cons]
        rw [show p + 1 + k.length = p + (k.length + 1) by omega]

/-- A literal text of the pattern, whose first letter is neither `k` nor `s`,
against a text with another first character. -/
theorem matchAll_text_mismatch (c : Char) (kw : List Char) (x : Char)
    (hk : c.toLower ≠ 'k') (hs : c.toLower ≠ 's')
    (h : ¬ x.toLower = c.toLower) (p : Nat) (rest : Text) (caps : List Capture) :
    matchAll (Regex.chain ((c :: kw).map Regex.char)) ⟨p, x :: rest, caps⟩ = [] := by
  have hxc : (x.toLower == c.toLower) = false := beq_eq_false_iff_ne.mpr h
  cases kw with
  | nil =>
    simp only [List.map_cons, List.map_nil, Regex.chain, matchAll_char_cons, hxc,
      beq_eq_false_iff_ne.mpr hk, beq_eq_false_iff_ne.mpr hs, Bool.false_and, Bool.or_false,
      Bool.false_eq_true, if_false]
  | cons c2 kw =>
    simp only [List.map_cons, Regex.chain, matchAll_seq, matchAll_char_cons, hxc,
      beq_eq_false_iff_ne.mpr hk, beq_eq_false_iff_ne.mpr hs, Bool.false_and, Bool.or_false,
      Bool.false_eq_true, if_false, bindStates_nil]

end Qt

namespace Expressions

open Qt

theorem LimiterTerm.compile_from :
    compile (LimiterTerm.regexText .LimiterFromPrefix) =
      some (.seq .bol (.seq (Regex.text "from") (.rep .space 0 none))) := by
  decide!

theorem LimiterTerm.compile_until :
    compile (LimiterTerm.regexText .LimiterUntilPrefix) =
      some (.seq .bol (.seq (.alt (Regex.text "until") (Regex.text "to"))
        (.rep .space 0 none))) := by
  decide!

/-- What `LimiterTerm::parse` makes of a match of one of its two patterns. -/
theorem LimiterTerm.tryType_of_match (expression : Text) (type : WordKey × Bool) (r : Regex)
    (q : Nat) (rest : Text) (hc : compile (LimiterTerm.regexText type.1) = some (.seq .bol r))
    (h : ∃ tail, matchAll r ⟨0, expression, []⟩ = ⟨q, rest, []⟩ :: tail)
    (hq : q ≤ expression.length) :
    LimiterTerm.tryType expression type = some (LimiterTerm.create type.2, q) := by
  obtain ⟨tail, ht⟩ := h
  unfold LimiterTerm.tryType regexMatch
  rw [hc, matchCompiled_bol, ht]
  simp [QRegularExpressionMatch.captured, QRegularExpressionMatch.capturedLength,
    Nat.min_eq_left hq]

theorem LimiterTerm.tryType_of_noMatch (expression : Text) (type : WordKey × Bool) (r : Regex)
    (hc : compile (LimiterTerm.regexText type.1) = some (.seq .bol r))
    (h : matchAll r ⟨0, expression, []⟩ = []) :
    LimiterTerm.tryType expression type = none := by
  unfold LimiterTerm.tryType regexMatch
  rw [hc, matchCompiled_bol, h]
  simp [QRegularExpressionMatch.noMatch]

theorem LimiterTerm.spaces_le (k rest : Text) :
    k.length + (rest.takeWhile CharSet.space.test).length ≤ (k ++ rest).length := by
  have h := (List.takeWhile_prefix (l := rest) CharSet.space.test).length_le
  rw [List.length_append]
  omega

/-- A text whose lower case is a text without `k` has no Kelvin sign: its lower
case is that of its ASCII letters. -/
theorem toLower_eq_map (k kw : Text) (hkw : 'k' ∉ kw) (h : Text.toLower k = kw) :
    k.map Char.toLower = kw := by
  induction k generalizing kw with
  | nil => exact h
  | cons x k ih =>
    cases kw with
    | nil => exact absurd h (by simp [Text.toLower])
    | cons c kw =>
      simp only [Text.toLower, List.map_cons, List.cons.injEq] at h
      have hc : c ≠ 'k' := fun e => hkw (by rw [e]; exact List.mem_cons_self _ _)
      have hx : x.toLower = c := by
        have h1 := h.1
        unfold Text.lowerChar at h1
        split_ifs at h1 with hk
        · exact absurd h1.symm hc
        · exact h1
      rw [List.map_cons, hx, ih kw (fun hmem => hkw (List.mem_cons_of_mem _ hmem)) h.2]

/-- `LimiterTerm::parse` on a text that starts with "from". -/
theorem LimiterTerm.parse_from (k rest : Text) (hk : Text.toLower k = "from".toList) :
    LimiterTerm.parse (k ++ rest) =
      some (LimiterTerm.create true, 4 + (rest.takeWhile CharSet.space.test).length) := by
  have hk2 : k.map Char.toLower = "from".toList.map Char.toLower :=
    toLower_eq_map k _ (by decide) hk
  have hlen : k.length = 4 := by
    have := congrArg List.length hk2
    simpa using this
  obtain ⟨tail, hs⟩ := matchAll_spaces_head (0 + k.length) rest []
  have hm : ∃ tail, matchAll (.seq (Regex.text "from") (.rep .space 0 none)) ⟨0, k ++ rest, []⟩ =
      ⟨4 + (rest.takeWhile CharSet.space.test).length,
        rest.drop (rest.takeWhile CharSet.space.test).length, []⟩ :: tail := by
    rw [matchAll_seq, show Regex.text "from" = Regex.chain ("from".toList.map Regex.char) from rfl,
      matchAll_text_append _ k (by decide) hk2, bindStates_cons, bindStates_nil,
      List.append_nil, hs, hlen]
    exact ⟨tail, rfl⟩
  have h1 := LimiterTerm.tryType_of_match (k ++ rest) (.LimiterFromPrefix, true) _ _ _
    LimiterTerm.compile_from hm (by have := LimiterTerm.spaces_le k rest; omega)
  simp only [LimiterTerm.parse, List.findSome?_cons, h1]

/-- `LimiterTerm::parse` on a text that starts with "until". -/
theorem LimiterTerm.parse_until (k rest : Text) (hk : Text.toLower k = "until".toList) :
    LimiterTerm.parse (k ++ rest) =
      some (LimiterTerm.create false, 5 + (rest.takeWhile CharSet.space.test).length) := by
  have hk2 : k.map Char.toLower = "until".toList.map Char.toLower :=
    toLower_eq_map k _ (by decide) hk
  have hlen : k.length = 5 := by
    have := congrArg List.length hk2
    simpa using this
  obtain ⟨x, k', rfl⟩ : ∃ x k', k = x :: k' := by
    cases k with
    | nil => simp at hlen
    | cons x k' => exact ⟨x, k', rfl⟩
  have hx : x.toLower = 'u' := by
    have := congrArg List.head? hk2
    simpa using this
  obtain ⟨tail, hs⟩ := matchAll_spaces_head (0 + (x :: k').length) rest []
  have hfrom : matchAll (.seq (Regex.text "from") (.rep .space 0 none))
      ⟨0, x :: k' ++ rest, []⟩ = [] := by
    rw [matchAll_seq, show Regex.text "from" = Regex.chain (('f' :: "rom".toList).map Regex.char)
      from rfl, List.cons_append,
      matchAll_text_mismatch 'f' _ x (by decide) (by decide) (by rw [hx]; decide), bindStates_nil]
  have hm : ∃ tail, matchAll (.seq (.alt (Regex.text "until") (Regex.text "to"))
      (.rep .space 0 none)) ⟨0, x :: k' ++ rest, []⟩ =
      ⟨5 + (rest.takeWhile CharSet.space.test).length,
        rest.drop (rest.takeWhile CharSet.space.test).length, []⟩ :: tail := by
    rw [matchAll_seq, matchAll_alt,
      show Regex.text "until" = Regex.chain ("until".toList.map Regex.char) from rfl,
      matchAll_text_append _ (x :: k') (by decide) hk2, List.singleton_append, bindStates_cons,
      hs, hlen]
    exact ⟨_, rfl⟩
  have h0 := LimiterTerm.tryType_of_noMatch (x :: k' ++ rest) (.LimiterFromPrefix, true) _
    LimiterTerm.compile_from hfrom
  have h1 := LimiterTerm.tryType_of_match (x :: k' ++ rest) (.LimiterUntilPrefix, false) _ _ _
    LimiterTerm.compile_until hm (by have := LimiterTerm.spaces_le (x :: k') rest; omega)
  simp only [LimiterTerm.parse, List.findSome?_cons, h0, h1]

/-- `LimiterTerm::parse` on a text that starts with "to". -/
theorem LimiterTerm.parse_to (k rest : Text) (hk : Text.toLower k = "to".toList) :
    LimiterTerm.parse (k ++ rest) =
      some (LimiterTerm.create false, 2 + (rest.takeWhile CharSet.space.test).length) := by
  have hk2 : k.map Char.toLower = "to".toList.map Char.toLower :=
    toLower_eq_map k _ (by decide) hk
  have hlen : k.length = 2 := by
    have := congrArg List.length hk2
    simpa using this
  obtain ⟨x, k', rfl⟩ : ∃ x k', k = x :: k' := by
    cases k with
    | nil => simp at hlen
    | cons x k' => exact ⟨x, k', rfl⟩
  have hx : x.toLower = 't' := by
    have := congrArg List.head? hk2
    simpa using this
  obtain ⟨tail, hs⟩ := matchAll_spaces_head (0 + (x :: k').length) rest []
  have hfrom : matchAll (.seq (Regex.text "from") (.rep .space 0 none))
      ⟨0, x :: k' ++ rest, []⟩ = [] := by
    rw [matchAll_seq, show Regex.text "from" = Regex.chain (('f' :: "rom".toList).map Regex.char)
      from rfl, List.cons_append,
      matchAll_text_mismatch 'f' _ x (by decide) (by decide) (by rw [hx]; decide), bindStates_nil]
  have huntil : matchAll (Regex.text "until") ⟨0, x :: k' ++ rest, []⟩ = [] := by
    rw [show Regex.text "until" = Regex.chain (('u' :: "ntil".toList).map Regex.char)
      from rfl, List.cons_append,
      matchAll_text_mismatch 'u' _ x (by decide) (by decide) (by rw [hx]; decide)]
  have hm : ∃ tail, matchAll (.seq (.alt (Regex.text "until") (Regex.text "to"))
      (.rep .space 0 none)) ⟨0, x :: k' ++ rest, []⟩ =
      ⟨2 + (rest.takeWhile CharSet.space.test).length,
        rest.drop (rest.takeWhile CharSet.space.test).length, []⟩ :: tail := by
    rw [matchAll_seq, matchAll_alt, huntil, List.nil_append,
      show Regex.text "to" = Regex.chain ("to".toList.map Regex.char) from rfl,
      matchAll_text_append _ (x :: k') (by decide) hk2, bindStates_cons, bindStates_nil,
      List.append_nil, hs, hlen]
    exact ⟨_, rfl⟩
  have h0 := LimiterTerm.tryType_of_noMatch (x :: k' ++ rest) (.LimiterFromPrefix, true) _
    LimiterTerm.compile_from hfrom
  have h1 := LimiterTerm.tryType_of_match (x :: k' ++ rest) (.LimiterUntilPrefix, false) _ _ _
    LimiterTerm.compile_until hm (by have := LimiterTerm.spaces_le (x :: k') rest; omega)
  simp only [LimiterTerm.parse, List.findSome?_cons, h0, h1]

/-- C30. `LimiterTerm::parse` has no word boundary behind its keyword: every
text that begins, in letters of either case, with "to", "until" or "from" gives
a limiter, Until for "to" and "until" and From for "from", and the characters
consumed are the keyword and the whitespace that follows it (what `\s` matches
under `UseUnicodePropertiesOption`, so also a no-break space), whatever comes
next. So "tomorrow" and "today" are Until limiters that consume 2 characters,
and "tomorrow" is also the Keyword sub-term of one day, 8 characters consumed. -/
theorem limiter_no_word_boundary (keyword rest : Text) :
    (Text.toLower keyword = "to".toList →
      LimiterTerm.parse (keyword ++ rest) =
        some (LimiterTerm.create false, 2 + (rest.takeWhile CharSet.space.test).length)) ∧
    (Text.toLower keyword = "until".toList →
      LimiterTerm.parse (keyword ++ rest) =
        some (LimiterTerm.create false, 5 + (rest.takeWhile CharSet.space.test).length)) ∧
    (Text.toLower keyword = "from".toList →
      LimiterTerm.parse (keyword ++ rest) =
        some (LimiterTerm.create true, 4 + (rest.takeWhile CharSet.space.test).length)) ∧
    (LimiterTerm.create false).type = UntilSubTerm ∧
    (LimiterTerm.create true).type = FromSubterm ∧
    LimiterTerm.parse "tomorrow".toList = some (LimiterTerm.create false, 2) ∧
    LimiterTerm.parse "today".toList = some (LimiterTerm.create false, 2) ∧
    KeywordTerm.parse "tomorrow".toList = some (KeywordTerm.create 1, 8) ∧
    LimiterTerm.parse "to\u00a0x".toList = some (LimiterTerm.create false, 3) ∧
    LimiterTerm.parse "from\u2003\u3000x".toList = some (LimiterTerm.create true, 6) :=
  ⟨LimiterTerm.parse_to keyword rest, LimiterTerm.parse_until keyword rest,
    LimiterTerm.parse_from keyword rest, rfl, rfl, by decide!, by decide!, by decide!,
    by decide!, by decide!⟩

/-- C30 at "To  morrow" (keyword "To", two spaces behind it): an Until limiter
that consumes 4 characters. -/
theorem limiter_no_word_boundary_witness :
    Text.toLower "To".toList = "to".toList ∧
    LimiterTerm.parse "To  morrow".toList = some (LimiterTerm.create false, 4) :=
  ⟨by decide, (limiter_no_word_boundary "To".toList "  morrow".toList).1 (by decide)⟩

end Expressions

/-! # Progress of the recognizers -/

namespace Qt

theorem mem_bindStates {l : List MState} {f : MState → List MState} {t : MState} :
    t ∈ bindStates l f ↔ ∃ u ∈ l, t ∈ f u := by
  induction l with
  | nil => simp [bindStates]
  | cons s rest ih => simp [bindStates, ih]

theorem mem_countDown {min n k : Nat} (h : k ∈ countDown min n) : min ≤ k ∧ k ≤ n := by
  induction n with
  | zero =>
    simp only [countDown] at h
    split_ifs at h with h0
    · simp at h; omega
    · simp at h
  | succ n ih =>
    simp only [countDown] at h
    split_ifs at h with hlt
    · simp at h
    · rcases List.mem_cons.1 h with h | h
      · omega
      · have := ih h; omega

theorem countDown_zero_cons (n : Nat) : ∃ l, countDown 0 n = n :: l := by
  cases n with
  | zero => exact ⟨[], by simp [countDown]⟩
  | succ n => exact ⟨countDown 0 n, by simp [countDown]⟩

theorem MState.Reaches.trans {s u t : MState} (h1 : MState.Reaches s u) (h2 : MState.Reaches u t) :
    MState.Reaches s t := by
  obtain ⟨a1, b1, c1⟩ := h1
  obtain ⟨a2, b2, c2⟩ := h2
  refine ⟨by omega, ?_, ?_⟩
  · rw [c1, List.length_drop] at b2; omega
  · rw [c2, c1, List.drop_drop]
    congr 1; omega

/-- Every state a pattern leads to lies further on in the subject, by at least
the least length of the pattern. -/
theorem matchAll_reaches (r : Regex) (s t : MState) (h : t ∈ matchAll r s) :
    MState.Reaches s t ∧ s.pos + Regex.minLength r ≤ t.pos := by
  induction r generalizing s t with
  | eps =>
    simp only [matchAll, List.mem_singleton] at h
    subst h
    exact ⟨⟨le_refl _, by simp, by simp⟩, by simp [Regex.minLength]⟩
  | bol =>
    simp only [matchAll] at h
    split_ifs at h
    · simp only [List.mem_singleton] at h
      subst h
      exact ⟨⟨le_refl _, by simp, by simp⟩, by simp [Regex.minLength]⟩
    · simp at h
  | rep cs min max =>
    simp only [matchAll, List.mem_map] at h
    obtain ⟨k, hk, rfl⟩ := h
    have hk2 := mem_countDown hk
    have hrun : (List.takeWhile cs.test s.rest).length ≤ s.rest.length :=
      (List.takeWhile_prefix (l := s.rest) cs.test).length_le
    have hkl : k ≤ s.rest.length := by
      cases max with
      | none => simp only at hk2; omega
      | some m =>
        simp only at hk2
        have : Nat.min (List.takeWhile cs.test s.rest).length m ≤
            (List.takeWhile cs.test s.rest).length := Nat.min_le_left _ _
        omega
    simp only [MState.advance, MState.Reaches, Regex.minLength]
    refine ⟨⟨by omega, by omega, ?_⟩, by omega⟩
    congr 1; omega
  | seq a b iha ihb =>
    simp only [matchAll] at h
    obtain ⟨u, hu, ht⟩ := mem_bindStates.1 h
    have h1 := iha s u hu
    have h2 := ihb u t ht
    exact ⟨h1.1.trans h2.1, by simp only [Regex.minLength]; omega⟩
  | alt a b iha ihb =>
    simp only [matchAll, List.mem_append] at h
    rcases h with h | h
    · have h1 := iha s t h
      exact ⟨h1.1, by
        have : Nat.min (Regex.minLength a) (Regex.minLength b) ≤ Regex.minLength a :=
          Nat.min_le_left _ _
        simp only [Regex.minLength]; omega⟩
    · have h1 := ihb s t h
      exact ⟨h1.1, by
        have : Nat.min (Regex.minLength a) (Regex.minLength b) ≤ Regex.minLength b :=
          Nat.min_le_right _ _
        simp only [Regex.minLength]; omega⟩
  | opt r ih =>
    simp only [matchAll, List.mem_append, List.mem_singleton] at h
    rcases h with h | h
    · exact ⟨(ih s t h).1, by have := (ih s t h).1.1; simp only [Regex.minLength]; omega⟩
    · subst h
      exact ⟨⟨le_refl _, by simp, by simp⟩, by simp [Regex.minLength]⟩
  | group idx name r ih =>
    simp only [matchAll, List.mem_map] at h
    obtain ⟨u, hu, rfl⟩ := h
    have h1 := ih s u hu
    exact ⟨h1.1, by simpa only [Regex.minLength] using h1.2⟩

theorem head_drop_takeWhile (p : Char → Bool) (l : Text) (c : Char)
    (h : (l.drop (l.takeWhile p).length).head? = some c) : p c = false := by
  induction l with
  | nil => simp at h
  | cons x rest ih =>
    by_cases hx : p x = true
    · simp only [List.takeWhile_cons, hx, if_true, List.length_cons, List.drop_succ_cons] at h
      exact ih h
    · have hx2 : p x = false := by simpa using hx
      simp only [List.takeWhile_cons, hx2, Bool.false_eq_true, if_false, List.length_nil,
        List.drop_zero, List.head?_cons, Option.some.injEq] at h
      subst h
      exact hx2

theorem bindStates_eq_cons {l : List MState} {f : MState → List MState} {t : MState}
    {rest : List MState} (h : bindStates l f = t :: rest) :
    ∃ u ∈ l, ∃ rest2, f u = t :: rest2 := by
  induction l with
  | nil => simp [bindStates] at h
  | cons s l ih =>
    simp only [bindStates] at h
    cases hf : f s with
    | nil =>
      rw [hf, List.nil_append] at h
      obtain ⟨u, hu, r2, h2⟩ := ih h
      exact ⟨u, List.mem_cons_of_mem _ hu, r2, h2⟩
    | cons x xs =>
      rw [hf, List.cons_append] at h
      have hx : x = t := (List.cons.inj h).1
      subst hx
      exact ⟨s, List.mem_cons_self _ _, xs, hf⟩

/-- The preferred match of a pattern that ends in `\s*` leaves no whitespace
at the start of the rest. -/
theorem matchAll_head_spaces (r : Regex) (hr : Regex.endsWithSpaces r = true) (s t : MState)
    (rest : List MState) (h : matchAll r s = t :: rest) :
    ∀ c, t.rest.head? = some c → CharSet.space.test c = false := by
  induction r generalizing s t rest with
  | eps => simp [Regex.endsWithSpaces] at hr
  | bol => simp [Regex.endsWithSpaces] at hr
  | rep cs min max =>
    cases cs with
    | lit c => simp [Regex.endsWithSpaces] at hr
    | digit => simp [Regex.endsWithSpaces] at hr
    | space =>
      cases min with
      | succ n => simp [Regex.endsWithSpaces] at hr
      | zero =>
        cases max with
        | some m => simp [Regex.endsWithSpaces] at hr
        | none =>
          simp only [matchAll] at h
          obtain ⟨l, hl⟩ := countDown_zero_cons (List.takeWhile CharSet.space.test s.rest).length
          rw [hl, List.map_cons] at h
          have ht : t = s.advance (List.takeWhile CharSet.space.test s.rest).length :=
            ((List.cons.inj h).1).symm
          subst ht
          intro c hc
          exact head_drop_takeWhile _ _ _ hc
  | seq a b _ ihb =>
    simp only [Regex.endsWithSpaces] at hr
    simp only [matchAll] at h
    obtain ⟨u, _, r2, h2⟩ := bindStates_eq_cons h
    exact ihb hr u t r2 h2
  | alt a b _ _ => simp [Regex.endsWithSpaces] at hr
  | opt r _ => simp [Regex.endsWithSpaces] at hr
  | group idx name r _ => simp [Regex.endsWithSpaces] at hr

/-- A match of an anchored pattern that takes at least one character and ends
in `\s*` makes progress. -/
theorem progress_of_match (r : Option Regex) (hr : Regex.progressOk r = true) (expression : Text)
    (h : (matchCompiled r expression).hasMatch = true) :
    Progress expression ((matchCompiled r expression).capturedLength 0) := by
  unfold Regex.progressOk at hr
  split at hr
  · simp [matchCompiled, QRegularExpressionMatch.noMatch] at h
  · rename_i r2
    simp only [Bool.and_eq_true, decide_eq_true_eq] at hr
    rw [matchCompiled_bol] at h ⊢
    cases hm : matchAll r2 ⟨0, expression, []⟩ with
    | nil => rw [hm] at h; simp [QRegularExpressionMatch.noMatch] at h
    | cons t rest =>
      simp only []
      have h1 := matchAll_reaches r2 _ t (by rw [hm]; exact List.mem_cons_self _ _)
      have h2 := matchAll_head_spaces r2 hr.2 _ t rest hm
      obtain ⟨⟨_, b, c⟩, d⟩ := h1
      simp only [Nat.sub_zero, Nat.zero_add] at b c d
      have hlen : (QRegularExpressionMatch.capturedLength
          { hasMatch := true, capturedStart := 0, capturedEnd := t.pos, subject := expression,
            caps := t.caps } 0) = t.pos := by
        simp [QRegularExpressionMatch.capturedLength, QRegularExpressionMatch.captured, b]
      rw [hlen]
      exact ⟨by omega, b, by rw [← c]; exact h2⟩
  · simp at hr

end Qt

namespace Qt

theorem searchFrom_subject (r : Regex) (subject : Text) (fuel offset : Nat) :
    (searchFrom r subject fuel offset).subject = subject := by
  induction fuel generalizing offset with
  | zero => rfl
  | succ n ih =>
    simp only [searchFrom]
    split
    · rfl
    · exact ih _

/-- A match never takes more characters than the subject has. -/
theorem capturedLength_le (pattern subject : Text) :
    (regexMatch pattern subject).capturedLength 0 ≤ subject.length := by
  have hs : (regexMatch pattern subject).subject = subject := by
    unfold regexMatch matchCompiled
    split
    · rfl
    · exact searchFrom_subject _ _ _ _
  simp only [QRegularExpressionMatch.capturedLength, QRegularExpressionMatch.captured, if_true,
    hs, List.length_take, List.length_drop]
  omega

theorem progress_of_regexMatch (pattern expression : Text)
    (hp : Regex.progressOk (compile pattern) = true)
    (h : (regexMatch pattern expression).hasMatch = true) :
    Progress expression ((regexMatch pattern expression).capturedLength 0) :=
  progress_of_match _ hp expression h

end Qt

namespace Expressions

open Qt

/-! ## Time -/

theorem TimeTerm.time_patterns_progressOk :
    ∀ p ∈ trList .TimePattern false true,
      Regex.progressOk (compile (TimeTerm.regexText p)) = true := by
  decide!

theorem TimeTerm.time_parse_progress (expression : Text) (t : TimeTerm) (n : Nat)
    (h : TimeTerm.parse expression = some (t, n)) : Progress expression n := by
  unfold TimeTerm.parse at h
  obtain ⟨p, hp, h⟩ := List.exists_of_findSome?_eq_some h
  unfold TimeTerm.tryPattern at h
  simp only [] at h
  split_ifs at h with hm hv
  simp only [Option.some.injEq, Prod.mk.injEq] at h
  rw [← h.2]
  exact progress_of_regexMatch _ _ (TimeTerm.time_patterns_progressOk p hp) hm

/-! ## Date -/

theorem DateTerm.date_candidates_progressOk :
    ∀ c ∈ DateTerm.compiledCandidates, Regex.progressOk c.regex = true := by
  decide!

theorem DateTerm.date_parse_progress (expression : Text) (t : DateTerm) (n : Nat)
    (h : DateTerm.parse expression = some (t, n)) : Progress expression n := by
  rw [DateTerm.parse_eq_compiledDate] at h
  obtain ⟨c, hc, h⟩ := List.exists_of_findSome?_eq_some h
  unfold DateCandidate.try at h
  simp only [] at h
  split_ifs at h with hm hv
  simp only [Option.some.injEq, Prod.mk.injEq] at h
  rw [← h.2]
  exact progress_of_match _ (DateTerm.date_candidates_progressOk c hc) _ hm

/-! ## InvertedTime -/

theorem InvertedTimeTerm.invertedTime_candidates_progressOk :
    ∀ c ∈ InvertedTimeTerm.compiledCandidates, Regex.progressOk c.regex = true := by
  decide!

theorem InvertedTimeTerm.invertedTime_parse_progress (expression : Text) (t : InvertedTimeTerm) (n : Nat)
    (h : InvertedTimeTerm.parse expression = some (t, n)) : Progress expression n := by
  rw [InvertedTimeTerm.parse_eq_compiled] at h
  obtain ⟨c, hc, h⟩ := List.exists_of_findSome?_eq_some h
  unfold InvTimeCandidate.try InvertedTimeTerm.fromMatch at h
  by_cases hm : (matchCompiled c.regex expression).hasMatch = true
  · simp only [hm, if_true, Option.ite_none_right_eq_some, Option.some.injEq,
      Prod.mk.injEq] at h
    rw [← h.2.2]
    exact progress_of_match _ (InvertedTimeTerm.invertedTime_candidates_progressOk c hc) _ hm
  · simp [hm] at h

/-! ## MonthDay -/

theorem MonthDayTerm.monthDay_patterns_progressOk :
    ∀ loopCombo ∈ MonthDayTerm.exprCombos, ∀ indicator ∈ MonthDayTerm.indicators,
      Regex.progressOk
        (compile ('^' :: loopCombo.1 ++ indicator ++ loopCombo.2.1 ++ "\\s*".toList)) = true := by
  decide!

theorem MonthDayTerm.monthDay_parse_progress (expression : Text) (t : MonthDayTerm) (n : Nat)
    (h : MonthDayTerm.parse expression = some (t, n)) : Progress expression n := by
  unfold MonthDayTerm.parse at h
  obtain ⟨loopCombo, hc, h⟩ := List.exists_of_findSome?_eq_some h
  obtain ⟨indicator, hi, h⟩ := List.exists_of_findSome?_eq_some h
  unfold MonthDayTerm.tryIndicator at h
  simp only [] at h
  split_ifs at h with hm
  split at h
  · split_ifs at h
    simp only [Option.some.injEq, Prod.mk.injEq] at h
    rw [← h.2]
    exact progress_of_regexMatch _ _ (MonthDayTerm.monthDay_patterns_progressOk loopCombo hc indicator hi) hm
  · exact absurd h (by simp)

/-! ## WeekDay -/

theorem WeekDayTerm.weekDay_patterns_progressOk :
    ∀ loopCombo ∈ WeekDayTerm.exprCombos, ∀ long ∈ [true, false],
      Regex.progressOk (compile (WeekDayTerm.regexText loopCombo long)) = true := by
  decide!

theorem WeekDayTerm.weekDay_parse_progress (expression : Text) (t : WeekDayTerm) (n : Nat)
    (h : WeekDayTerm.parse expression = some (t, n)) : Progress expression n := by
  unfold WeekDayTerm.parse at h
  obtain ⟨loopCombo, hc, h⟩ := List.exists_of_findSome?_eq_some h
  obtain ⟨long, hl, h⟩ := List.exists_of_findSome?_eq_some h
  unfold WeekDayTerm.tryDayType at h
  simp only [] at h
  split_ifs at h with hm hv
  simp only [Option.some.injEq, Prod.mk.injEq] at h
  rw [← h.2]
  exact progress_of_regexMatch _ _ (WeekDayTerm.weekDay_patterns_progressOk loopCombo hc long hl) hm

/-! ## Month -/

theorem MonthTerm.month_patterns_progressOk :
    ∀ loopCombo ∈ MonthTerm.exprCombos, ∀ long ∈ [true, false],
      Regex.progressOk (compile (MonthTerm.regexText loopCombo long)) = true := by
  decide!

theorem MonthTerm.month_parse_progress (expression : Text) (t : MonthTerm) (n : Nat)
    (h : MonthTerm.parse expression = some (t, n)) : Progress expression n := by
  unfold MonthTerm.parse at h
  obtain ⟨loopCombo, hc, h⟩ := List.exists_of_findSome?_eq_some h
  obtain ⟨long, hl, h⟩ := List.exists_of_findSome?_eq_some h
  unfold MonthTerm.tryMonthType at h
  simp only [] at h
  split_ifs at h with hm hv
  simp only [Option.some.injEq, Prod.mk.injEq] at h
  rw [← h.2]
  exact progress_of_regexMatch _ _ (MonthTerm.month_patterns_progressOk loopCombo hc long hl) hm

/-! ## Year -/

theorem YearTerm.year_pattern_progressOk : Regex.progressOk (compile YearTerm.regexText) = true := by
  decide!

theorem YearTerm.year_parse_progress (expression : Text) (t : YearTerm) (n : Nat)
    (h : YearTerm.parse expression = some (t, n)) : Progress expression n := by
  unfold YearTerm.parse at h
  simp only [] at h
  split_ifs at h with hm
  split at h
  · simp only [Option.some.injEq, Prod.mk.injEq] at h
    rw [← h.2]
    exact progress_of_regexMatch _ _ YearTerm.year_pattern_progressOk hm
  · exact absurd h (by simp)

/-! ## Keyword -/

theorem KeywordTerm.keyword_patterns_progressOk :
    ∀ info ∈ trList .KeywordDayspan false true,
      ∀ keyword value, Text.split info ':' = [keyword, value] →
        Regex.progressOk (compile ('^' :: regexEscape keyword ++ "\\s*".toList)) = true := by
  intro info hinfo
  have hl : trList .KeywordDayspan false true = ["tomorrow:1".toList, "today:0".toList] := by
    decide!
  rw [hl] at hinfo
  simp only [List.mem_cons, List.mem_singleton, List.not_mem_nil, or_false] at hinfo
  rcases hinfo with rfl | rfl
  · intro keyword value h
    have hs : Text.split "tomorrow:1".toList ':' = ["tomorrow".toList, "1".toList] := by decide!
    rw [hs] at h
    obtain ⟨rfl, -⟩ := List.cons.inj h
    decide!
  · intro keyword value h
    have hs : Text.split "today:0".toList ':' = ["today".toList, "0".toList] := by decide!
    rw [hs] at h
    obtain ⟨rfl, -⟩ := List.cons.inj h
    decide!

theorem KeywordTerm.keyword_parse_progress (expression : Text) (t : KeywordTerm) (n : Nat)
    (h : KeywordTerm.parse expression = some (t, n)) : Progress expression n := by
  unfold KeywordTerm.parse at h
  obtain ⟨info, hi, h⟩ := List.exists_of_findSome?_eq_some h
  unfold KeywordTerm.tryInfo at h
  split at h
  · rename_i keyword value hs
    simp only [] at h
    split_ifs at h with hm
    simp only [Option.some.injEq, Prod.mk.injEq] at h
    rw [← h.2]
    exact progress_of_regexMatch _ _ (KeywordTerm.keyword_patterns_progressOk info hi keyword value hs) hm
  · exact absurd h (by simp)

/-! ## Limiter -/

theorem LimiterTerm.limiter_patterns_progressOk :
    ∀ type ∈ [(WordKey.LimiterFromPrefix, true), (WordKey.LimiterUntilPrefix, false)],
      Regex.progressOk (compile (LimiterTerm.regexText type.1)) = true := by
  decide!

theorem LimiterTerm.limiter_parse_progress (expression : Text) (t : LimiterTerm) (n : Nat)
    (h : LimiterTerm.parse expression = some (t, n)) : Progress expression n := by
  unfold LimiterTerm.parse at h
  obtain ⟨type, ht, h⟩ := List.exists_of_findSome?_eq_some h
  unfold LimiterTerm.tryType at h
  simp only [] at h
  split_ifs at h with hm
  simp only [Option.some.injEq, Prod.mk.injEq] at h
  rw [← h.2]
  exact progress_of_regexMatch _ _ (LimiterTerm.limiter_patterns_progressOk type ht) hm

end Expressions

namespace Expressions

open Qt

/-! ## Sequence -/

theorem SequenceTerm.sequence_regex_progressOk (looped : Bool) :
    Regex.progressOk (compile (SequenceTerm.regexText looped)) = true := by
  cases looped <;> decide!

set_option linter.unusedTactic false in
/-- Every round of the loop of `SequenceTerm::parse` moves the offset on by at
least one character and keeps it within the text; the offset returned is not
followed by whitespace. -/
theorem SequenceTerm.sequence_parseLoop_progress (regex : Text)
    (hr : Regex.progressOk (compile regex) = true) (looped : Bool) (expression : Text)
    (fuel : Nat) :
    ∀ (offset : Nat) (sequence : Sequence) (term : SequenceTerm) (n : Nat),
      offset ≤ expression.length →
      SequenceTerm.parseLoop regex looped expression fuel offset sequence = .returned term n →
      offset + 1 ≤ n ∧ n ≤ expression.length ∧
        ∀ c, (expression.drop n).head? = some c → CharSet.space.test c = false := by
  induction fuel with
  | zero =>
    intro offset sequence term n _ h
    simp [SequenceTerm.parseLoop] at h
  | succ fuel ih =>
    intro offset sequence term n hoff h
    simp only [SequenceTerm.parseLoop] at h
    by_cases hm : (regexMatch regex (List.drop offset expression)).hasMatch = true
    · have hp := progress_of_regexMatch regex _ hr hm
      obtain ⟨p1, p2, p3⟩ := hp
      rw [List.length_drop] at p2
      rw [List.drop_drop] at p3
      simp only [hm, if_true] at h
      split_ifs at h with hsc
      all_goals first
        | (simp only [reduceCtorEq] at h; done)
        | (split at h
           all_goals first
             | (simp only [reduceCtorEq] at h; done)
             | exact (fun this => ⟨by omega, this.2.1, this.2.2⟩) (ih _ _ term n (by omega) h)
             | (simp only [SequenceTerm.LoopExit.returned.injEq] at h
                obtain ⟨-, rfl⟩ := h
                exact ⟨by omega, by omega, p3⟩))
    · simp [hm] at h

theorem SequenceTerm.sequence_parse_progress (expression : Text) (t : SequenceTerm) (n : Nat)
    (h : SequenceTerm.parse expression = some (t, n)) : Progress expression n := by
  unfold SequenceTerm.parse at h
  obtain ⟨loopCombo, -, h⟩ := List.exists_of_findSome?_eq_some h
  unfold SequenceTerm.tryCombo at h
  simp only [] at h
  split_ifs at h
  split at h
  · rename_i term consumed hloop
    simp only [Option.some.injEq, Prod.mk.injEq] at h
    obtain ⟨-, rfl⟩ := h
    have := SequenceTerm.sequence_parseLoop_progress _ (SequenceTerm.sequence_regex_progressOk loopCombo.2)
      loopCombo.2 expression _ _ _ term consumed (capturedLength_le _ _) hloop
    exact ⟨by omega, this.2.1, this.2.2⟩
  · exact absurd h (by simp)

/-- C31. Progress: whenever one of the recognizers (Time, Date, InvertedTime,
MonthDay, WeekDay, Month, Year, Sequence, Keyword, Limiter) returns a sub-term
for a text, its consumed length is at least 1 and at most the length of the
text, the consumed characters are the first characters of the text, and the
text left after them does not start with whitespace; hence an offset advanced
by the consumed length strictly increases and never passes the end. -/
theorem recognizers_progress (expression : Text) (consumed : Nat)
    (h : Recognized expression consumed) :
    1 ≤ consumed ∧ consumed ≤ expression.length ∧
      (expression.take consumed).length = consumed ∧
      expression.take consumed ++ expression.drop consumed = expression ∧
      (∀ c, (expression.drop consumed).head? = some c → CharSet.space.test c = false) ∧
      ∀ offset total : Nat, offset + expression.length = total →
        offset < offset + consumed ∧ offset + consumed ≤ total := by
  have hp : Progress expression consumed := by
    rcases h with ⟨t, h⟩ | ⟨t, h⟩ | ⟨t, h⟩ | ⟨t, h⟩ | ⟨t, h⟩ | ⟨t, h⟩ | ⟨t, h⟩ | ⟨t, h⟩ |
      ⟨t, h⟩ | ⟨t, h⟩
    · exact TimeTerm.time_parse_progress _ _ _ h
    · exact DateTerm.date_parse_progress _ _ _ h
    · exact InvertedTimeTerm.invertedTime_parse_progress _ _ _ h
    · exact MonthDayTerm.monthDay_parse_progress _ _ _ h
    · exact WeekDayTerm.weekDay_parse_progress _ _ _ h
    · exact MonthTerm.month_parse_progress _ _ _ h
    · exact YearTerm.year_parse_progress _ _ _ h
    · exact SequenceTerm.sequence_parse_progress _ _ _ h
    · exact KeywordTerm.keyword_parse_progress _ _ _ h
    · exact LimiterTerm.limiter_parse_progress _ _ _ h
  obtain ⟨h1, h2, h3⟩ := hp
  refine ⟨h1, h2, ?_, List.take_append_drop _ _, h3, ?_⟩
  · rw [List.length_take]; omega
  · intro offset total ht
    omega

theorem recognizers_progress_witness :
    Recognized "every Monday  at 10".toList 14 ∧
      (1 ≤ 14 ∧ 14 ≤ "every Monday  at 10".toList.length ∧
        ("every Monday  at 10".toList.take 14).length = 14 ∧
        "every Monday  at 10".toList.take 14 ++ "every Monday  at 10".toList.drop 14 =
          "every Monday  at 10".toList ∧
        (∀ c, ("every Monday  at 10".toList.drop 14).head? = some c →
          CharSet.space.test c = false) ∧
        ∀ offset total : Nat, offset + "every Monday  at 10".toList.length = total →
          offset < offset + 14 ∧ offset + 14 ≤ total) :=
  have h : Recognized "every Monday  at 10".toList 14 :=
    Or.inr (Or.inr (Or.inr (Or.inr (Or.inl ⟨WeekDayTerm.create 1 true, by decide!⟩))))
  ⟨h, recognizers_progress _ _ h⟩

end Expressions

/-! # The next date with a given day of the month -/

namespace Qt

namespace QDate

/-- The Julian day grows with the day of the month, one by one. -/
theorem julianDayFromDate_day (y m d d2 : Int) :
    julianDayFromDate y m d2 = julianDayFromDate y m d + (d2 - d) := by
  simp only [julianDayFromDate]
  omega

theorem monthAfter_ne_zero {y m : Int} (hy : y ≠ 0) : (monthAfter y m).1 ≠ 0 := by
  simp only [monthAfter]
  split_ifs
  · exact nextYear_ne_zero _
  · exact hy

theorem monthAfter_range {y m : Int} (hm1 : 1 ≤ m) (hm2 : m ≤ 12) :
    1 ≤ (monthAfter y m).2 ∧ (monthAfter y m).2 ≤ 12 := by
  simp only [monthAfter]
  split_ifs
  · simp
  · simp only []; omega

theorem not_ymdLt_of_jd_le {y1 m1 d1 y2 m2 d2 : Int}
    (h1 : isValidYMD y1 m1 d1 = true) (h2 : isValidYMD y2 m2 d2 = true)
    (hle : julianDayFromDate y1 m1 d1 ≤ julianDayFromDate y2 m2 d2) :
    ¬ ymdLt y2 m2 d2 y1 m1 d1 := fun hlt => by
  have := julianDayFromDate_lt h2 h1 hlt
  omega

theorem jd_le_of_not_ymdLt {y1 m1 d1 y2 m2 d2 : Int}
    (h1 : isValidYMD y1 m1 d1 = true) (h2 : isValidYMD y2 m2 d2 = true)
    (hn : ¬ ymdLt y1 m1 d1 y2 m2 d2) :
    julianDayFromDate y2 m2 d2 ≤ julianDayFromDate y1 m1 d1 := by
  by_cases heq : y1 = y2 ∧ m1 = m2 ∧ d1 = d2
  · obtain ⟨rfl, rfl, rfl⟩ := heq
    exact le_refl _
  · have hlt : ymdLt y2 m2 d2 y1 m1 d1 := by
      simp only [ymdLt] at hn ⊢
      omega
    exact le_of_lt (julianDayFromDate_lt h2 h1 hlt)

/-- A month that is shorter than `v <= 31` days is followed by one of 31 days. -/
theorem daysIn_monthAfter {y m v : Int} (hm1 : 1 ≤ m) (hm2 : m ≤ 12) (hlt : daysIn y m < v)
    (h31 : v ≤ 31) : v ≤ daysIn (monthAfter y m).1 (monthAfter y m).2 := by
  simp only [daysIn, monthDays, monthAfter] at hlt ⊢
  interval_cases m <;> simp at hlt ⊢ <;> omega

theorem isValid_first {y m : Int} (hy : y ≠ 0) (hm1 : 1 ≤ m) (hm2 : m ≤ 12) :
    isValidYMD y m 1 = true := by
  rw [isValidYMD_iff_daysIn]
  have := daysIn_bounds y m hm1 hm2
  exact ⟨hy, hm1, hm2, le_refl _, by omega⟩

theorem isValid_last {y m : Int} (hy : y ≠ 0) (hm1 : 1 ≤ m) (hm2 : m ≤ 12) :
    isValidYMD y m (daysIn y m) = true := by
  rw [isValidYMD_iff_daysIn]
  have := daysIn_bounds y m hm1 hm2
  exact ⟨hy, hm1, hm2, by omega, le_refl _⟩

/-- The first day of a month is the day after the last day of the month before. -/
theorem jd_first_of_next {y m : Int} (hy : y ≠ 0) (hm1 : 1 ≤ m) (hm2 : m ≤ 12) :
    julianDayFromDate (monthAfter y m).1 (monthAfter y m).2 1 =
      julianDayFromDate y m (daysIn y m) + 1 := by
  have vD := isValid_last hy hm1 hm2
  have vN := isValid_first (monthAfter_ne_zero (m := m) hy) (monthAfter_range (y := y) hm1 hm2).1
    (monthAfter_range (y := y) hm1 hm2).2
  have hb := daysIn_bounds y m hm1 hm2
  have hlt : julianDayFromDate y m (daysIn y m) <
      julianDayFromDate (monthAfter y m).1 (monthAfter y m).2 1 := by
    apply julianDayFromDate_lt vD vN
    have := lt_nextYear y
    simp only [ymdLt, monthAfter]
    split_ifs
    · left; exact this
    · right; exact ⟨rfl, Or.inl (by omega)⟩
  generalize hx : julianDayFromDate y m (daysIn y m) + 1 = x at *
  have hv := getDate_valid x
  have hj := jd_getDate x
  generalize getDateFromJulianDay x = pd at hv hj
  obtain ⟨y2, m2, d2⟩ := pd
  simp only at hv hj
  have hA : ¬ ymdLt y2 m2 d2 y m (daysIn y m) := not_ymdLt_of_jd_le vD hv (by omega)
  have hB : ¬ ymdLt (monthAfter y m).1 (monthAfter y m).2 1 y2 m2 d2 :=
    not_ymdLt_of_jd_le hv vN (by omega)
  have hC := (isValidYMD_iff_daysIn _ _ _).1 hv
  have hne : ¬ (y2 = y ∧ m2 = m) := by
    rintro ⟨rfl, rfl⟩
    simp only [ymdLt, true_and, lt_self_iff_false, false_or, not_lt] at hA
    have : d2 = daysIn y2 m2 := by omega
    rw [this] at hj
    omega
  have heq : y2 = (monthAfter y m).1 ∧ m2 = (monthAfter y m).2 ∧ d2 = 1 := by
    obtain ⟨c1, c2, c3, c4, c5⟩ := hC
    simp only [ymdLt, monthAfter, nextYear] at hA hB ⊢
    clear hlt vN vD hv hj hx
    split_ifs at hB ⊢ <;> simp only [] at hB ⊢ <;> omega
  obtain ⟨e1, e2, e3⟩ := heq
  rw [← e1, ← e2, ← hj, e3]

theorem daysInMonth_jd {y m d : Int} (h : isValidYMD y m d = true) :
    daysInMonth (some (julianDayFromDate y m d)) = daysIn y m := by
  rw [daysInMonth_some, ← ofYMD_of_valid h, year_ofYMD h, month_ofYMD h]

theorem day_jd {y m d : Int} (h : isValidYMD y m d = true) :
    day (some (julianDayFromDate y m d)) = d := by
  rw [← ofYMD_of_valid h, day_ofYMD h]

theorem addMonths_one_jd {y m d : Int} (h : isValidYMD y m d = true) :
    addMonths (some (julianDayFromDate y m d)) 1 =
      ofYMD (monthAfter y m).1 (monthAfter y m).2
        (min d (daysIn (monthAfter y m).1 (monthAfter y m).2)) := by
  rw [addMonths_one_eq, ← ofYMD_of_valid h, year_ofYMD h, month_ofYMD h, day_ofYMD h]

end QDate

end Qt

namespace ParserTypes

open Qt Qt.QDate

/-- The loop and the last step of the `DayScope` case of `Datum::nextDate`
from a day `d0 <= v` of a month: the day `v` of this month when it has one, of
the next month otherwise; two tests of the loop condition are enough. -/
theorem Datum.nextDate_dayTail {Y M d0 v : Int} (fuel : Nat)
    (hvalid : isValidYMD Y M d0 = true) (hd0 : d0 ≤ v) (h31 : v ≤ 31) (hfuel : 2 ≤ fuel) :
    (match Datum.nextDateDayLoop v fuel (some (julianDayFromDate Y M d0)) with
      | none => none
      | some wDate => some (QDate.addDays wDate (v - QDate.day wDate))) =
      some (some (julianDayFromDate
        (if v ≤ daysIn Y M then (Y, M) else monthAfter Y M).1
        (if v ≤ daysIn Y M then (Y, M) else monthAfter Y M).2 v)) ∧
    isValidYMD (if v ≤ daysIn Y M then (Y, M) else monthAfter Y M).1
      (if v ≤ daysIn Y M then (Y, M) else monthAfter Y M).2 v = true := by
  obtain ⟨fuel, rfl⟩ : ∃ k, fuel = k + 2 := ⟨fuel - 2, by omega⟩
  have hC := (isValidYMD_iff_daysIn _ _ _).1 hvalid
  obtain ⟨c1, c2, c3, c4, c5⟩ := hC
  by_cases hv : v ≤ daysIn Y M
  · simp only [hv, if_true]
    have hnot : ¬ daysIn Y M < v := by omega
    refine ⟨?_, ?_⟩
    · simp only [Datum.nextDateDayLoop, daysInMonth_jd hvalid, hnot, if_false, QDate.addDays,
        day_jd hvalid]
      rw [julianDayFromDate_day Y M d0 v]
    · rw [isValidYMD_iff_daysIn]
      exact ⟨c1, c2, c3, by omega, hv⟩
  · simp only [hv, if_false]
    have hlt : daysIn Y M < v := by omega
    have hN := daysIn_monthAfter c2 c3 hlt h31
    have hmin : min d0 (daysIn (monthAfter Y M).1 (monthAfter Y M).2) = d0 := by
      apply min_eq_left; omega
    have vN : isValidYMD (monthAfter Y M).1 (monthAfter Y M).2 d0 = true := by
      rw [isValidYMD_iff_daysIn]
      exact ⟨monthAfter_ne_zero c1, (monthAfter_range c2 c3).1, (monthAfter_range c2 c3).2, c4,
        by omega⟩
    have hnot : ¬ daysIn (monthAfter Y M).1 (monthAfter Y M).2 < v := by omega
    refine ⟨?_, ?_⟩
    · simp only [Datum.nextDateDayLoop, daysInMonth_jd hvalid, hlt, if_true,
        addMonths_one_jd hvalid, hmin, ofYMD_of_valid vN, daysInMonth_jd vN, hnot, if_false,
        QDate.addDays, day_jd vN]
      rw [julianDayFromDate_day _ _ d0 v]
    · rw [isValidYMD_iff_daysIn]
      exact ⟨monthAfter_ne_zero c1, (monthAfter_range c2 c3).1, (monthAfter_range c2 c3).2,
        by omega, hN⟩

/-- A date with the day `v` that is not before `w` and not after any later
date with the day `v`, given as (year, month), is the earliest one. -/
theorem Datum.earliest_of_ymd (w v Y M : Int) (hvalid : isValidYMD Y M v = true)
    (hge : ¬ ymdLt Y M v (QDate.year (some w)) (QDate.month (some w)) (QDate.day (some w)))
    (hmin : ∀ ye me : Int, isValidYMD ye me v = true →
      ¬ ymdLt ye me v (QDate.year (some w)) (QDate.month (some w)) (QDate.day (some w)) →
      ¬ ymdLt ye me v Y M v) :
    w ≤ julianDayFromDate Y M v ∧ QDate.day (some (julianDayFromDate Y M v)) = v ∧
      ∀ e : Int, w ≤ e → QDate.day (some e) = v → julianDayFromDate Y M v ≤ e := by
  have hw := jd_getDate w
  have vw := getDate_valid w
  refine ⟨?_, day_jd hvalid, ?_⟩
  · have := jd_le_of_not_ymdLt hvalid vw hge
    rw [hw] at this
    exact this
  · intro e he hday
    have hej := jd_getDate e
    have ve := getDate_valid e
    rw [QDate.day_some] at hday
    rw [hday] at hej ve
    have h1 : ¬ ymdLt (getDateFromJulianDay e).year (getDateFromJulianDay e).month v
        (QDate.year (some w)) (QDate.month (some w)) (QDate.day (some w)) :=
      not_ymdLt_of_jd_le vw ve (by
        rw [QDate.year_some, QDate.month_some, QDate.day_some, hw, hej]; exact he)
    have h2 := hmin _ _ ve h1
    have := jd_le_of_not_ymdLt ve hvalid h2
    rw [hej] at this
    exact this

end ParserTypes

namespace Qt

namespace QDate

theorem year_jd {y m d : Int} (h : isValidYMD y m d = true) :
    year (some (julianDayFromDate y m d)) = y := by
  rw [← ofYMD_of_valid h, year_ofYMD h]

theorem month_jd {y m d : Int} (h : isValidYMD y m d = true) :
    month (some (julianDayFromDate y m d)) = m := by
  rw [← ofYMD_of_valid h, month_ofYMD h]

/-- The month after, as linear facts: the next month of the year, or January
of the year after (1 after -1). -/
theorem monthAfter_cases (y m : Int) :
    (m ≠ 12 ∧ (monthAfter y m).1 = y ∧ (monthAfter y m).2 = m + 1) ∨
      (m = 12 ∧ (monthAfter y m).2 = 1 ∧
        ((y = -1 ∧ (monthAfter y m).1 = 1) ∨ (y ≠ -1 ∧ (monthAfter y m).1 = y + 1))) := by
  by_cases h12 : m = 12
  · by_cases hy : y = -1
    · simp [monthAfter, nextYear, h12, hy]
    · simp [monthAfter, nextYear, h12, hy]
  · simp [monthAfter, h12]

end QDate

end Qt

namespace ParserTypes

open Qt Qt.QDate

/-- C32. For every valid date (of Julian day `w`) and every value `v` in
1..31, `Datum::nextDate` with scope `DayScope` terminates (two tests of the
loop condition are enough) and returns the earliest date `d >= w` whose
day-of-month is `v`, skipping months that have fewer than `v` days. -/
theorem nextDate_day_earliest (w v : Int) (fuel : Nat) (h1 : 1 ≤ v) (h31 : v ≤ 31)
    (hfuel : 2 ≤ fuel) :
    ∃ d : Int, Datum.nextDate ⟨.DayScope, v⟩ fuel (some w) = some (some d) ∧
      Datum.nextDateAsserts ⟨.DayScope, v⟩ = true ∧
      w ≤ d ∧ QDate.day (some d) = v ∧
      ∀ e : Int, w ≤ e → QDate.day (some e) = v → d ≤ e := by
  have ha : Datum.nextDateAsserts ⟨.DayScope, v⟩ = true := by
    simp [Datum.nextDateAsserts]; omega
  obtain ⟨y, m, d, hvalid, rfl⟩ : ∃ y m d : Int, isValidYMD y m d = true ∧
      w = julianDayFromDate y m d :=
    ⟨_, _, _, getDate_valid w, (jd_getDate w).symm⟩
  obtain ⟨c1, c2, c3, c4, c5⟩ := (isValidYMD_iff_daysIn _ _ _).1 hvalid
  have hN := monthAfter_cases y m
  have hNy := monthAfter_ne_zero (m := m) c1
  have hNm := monthAfter_range (y := y) c2 c3
  simp only [Datum.nextDate, day_jd hvalid, daysInMonth_jd hvalid]
  by_cases hd : d ≤ v
  · have hnot : ¬ d > v := by omega
    simp only [hnot, if_false]
    obtain ⟨hres, hT⟩ := Datum.nextDate_dayTail fuel hvalid hd h31 hfuel
    rw [hres]
    refine ⟨_, rfl, ha, ?_⟩
    apply Datum.earliest_of_ymd _ v _ _ hT
    · rw [year_jd hvalid, month_jd hvalid, day_jd hvalid]
      by_cases hv : v ≤ daysIn y m
      · simp only [hv, if_true, ymdLt]; omega
      · simp only [hv, if_false, ymdLt]
        generalize (monthAfter y m).1 = ny at *
        generalize (monthAfter y m).2 = nm at *
        omega
    · intro ye me hve hnlt
      rw [year_jd hvalid, month_jd hvalid, day_jd hvalid] at hnlt
      obtain ⟨e1, e2, e3, e4, e5⟩ := (isValidYMD_iff_daysIn _ _ _).1 hve
      by_cases hv : v ≤ daysIn y m
      · simp only [hv, if_true, ymdLt] at hnlt ⊢; omega
      · simp only [hv, if_false]
        by_cases hym : ye = y ∧ me = m
        · obtain ⟨rfl, rfl⟩ := hym
          omega
        · simp only [ymdLt] at hnlt ⊢
          generalize (monthAfter y m).1 = ny at *
          generalize (monthAfter y m).2 = nm at *
          omega
  · have hgt : d > v := by omega
    simp only [hgt, if_true]
    have vN := isValid_first hNy hNm.1 hNm.2
    have hfirst : julianDayFromDate y m d + (daysIn y m - d + 1) =
        julianDayFromDate (monthAfter y m).1 (monthAfter y m).2 1 := by
      rw [jd_first_of_next c1 c2 c3, julianDayFromDate_day y m d (daysIn y m)]
      ring
    have hadd : QDate.addDays (some (julianDayFromDate y m d)) (daysIn y m - d + 1) =
        some (julianDayFromDate (monthAfter y m).1 (monthAfter y m).2 1) :=
      congrArg some hfirst
    rw [hadd]
    obtain ⟨hres, hT⟩ := Datum.nextDate_dayTail fuel vN h1 h31 hfuel
    rw [hres]
    refine ⟨_, rfl, ha, ?_⟩
    have hN2 := monthAfter_cases (monthAfter y m).1 (monthAfter y m).2
    clear hfirst hres hadd
    apply Datum.earliest_of_ymd _ v _ _ hT
    · rw [year_jd hvalid, month_jd hvalid, day_jd hvalid]
      by_cases hv : v ≤ daysIn (monthAfter y m).1 (monthAfter y m).2
      · simp only [hv, if_true, ymdLt]
        generalize (monthAfter y m).1 = ny at *
        generalize (monthAfter y m).2 = nm at *
        omega
      · simp only [hv, if_false, ymdLt]
        generalize (monthAfter (monthAfter y m).1 (monthAfter y m).2).1 = ny2 at *
        generalize (monthAfter (monthAfter y m).1 (monthAfter y m).2).2 = nm2 at *
        generalize (monthAfter y m).1 = ny at *
        generalize (monthAfter y m).2 = nm at *
        omega
    · intro ye me hve hnlt
      rw [year_jd hvalid, month_jd hvalid, day_jd hvalid] at hnlt
      obtain ⟨e1, e2, e3, e4, e5⟩ := (isValidYMD_iff_daysIn _ _ _).1 hve
      by_cases hv : v ≤ daysIn (monthAfter y m).1 (monthAfter y m).2
      · simp only [hv, if_true, ymdLt] at hnlt ⊢
        generalize (monthAfter y m).1 = ny at *
        generalize (monthAfter y m).2 = nm at *
        omega
      · simp only [hv, if_false]
        by_cases hym : ye = (monthAfter y m).1 ∧ me = (monthAfter y m).2
        · obtain ⟨rfl, rfl⟩ := hym
          omega
        · simp only [ymdLt] at hnlt ⊢
          generalize (monthAfter (monthAfter y m).1 (monthAfter y m).2).1 = ny2 at *
          generalize (monthAfter (monthAfter y m).1 (monthAfter y m).2).2 = nm2 at *
          generalize (monthAfter y m).1 = ny at *
          generalize (monthAfter y m).2 = nm at *
          omega

theorem nextDate_day_earliest_witness :
    (1 : Int) ≤ 30 ∧ (30 : Int) ≤ 31 ∧ 2 ≤ 2 ∧
      (∃ d : Int, Datum.nextDate ⟨.DayScope, 30⟩ 2 (some 2459976) = some (some d) ∧
        Datum.nextDateAsserts ⟨.DayScope, 30⟩ = true ∧
        2459976 ≤ d ∧ QDate.day (some d) = 30 ∧
        ∀ e : Int, 2459976 ≤ e → QDate.day (some e) = 30 → d ≤ e) ∧
      QDate.ofYMD 2023 1 31 = some 2459976 ∧
      Datum.nextDate ⟨.DayScope, 30⟩ 2 (QDate.ofYMD 2023 1 31) = some (QDate.ofYMD 2023 3 30) ∧
      Datum.nextDate ⟨.DayScope, 31⟩ 2 (QDate.ofYMD 2023 2 15) = some (QDate.ofYMD 2023 3 31) :=
  ⟨by decide, by decide, by decide,
    nextDate_day_earliest 2459976 30 2 (by decide) (by decide) (by decide),
    by decide!, by decide!, by decide!⟩

end ParserTypes

/-! # The basic types of the date parser -/

namespace ParserTypes

open Qt

/-- C36. `validateSpanDatum` raises an error exactly in these cases and accepts
every other combination: the span is `InvalidSpan`; the span is Minute or Hour
and a valid time is given; the span is Minute, Hour or Day and a datum is
given; the span is Week and a datum of scope Day, Month or MonthDay (the scopes
greater than `WeekDayScope`) is given; the span is Month and a datum of scope
Month or MonthDay (the scopes greater than `DayScope`) is given.  A Year span
is accepted with any datum and time. -/
theorem validateSpanDatum_error_iff (span : Expression.Span) (datum : Option Datum)
    (time : QTime) :
    ((∃ msg, DateParser.validateSpanDatum span datum time = .error msg) ↔
      (span = .InvalidSpan ∨
        ((span = .MinuteSpan ∨ span = .HourSpan) ∧ time.isValid = true) ∨
        ((span = .MinuteSpan ∨ span = .HourSpan ∨ span = .DaySpan) ∧ datum.isSome = true) ∨
        (span = .WeekSpan ∧ ∃ d, datum = some d ∧ d.scope.toInt > Datum.Scope.WeekDayScope.toInt ∧
          (d.scope = .DayScope ∨ d.scope = .MonthScope ∨ d.scope = .MonthDayScope)) ∨
        (span = .MonthSpan ∧ ∃ d, datum = some d ∧ d.scope.toInt > Datum.Scope.DayScope.toInt ∧
          (d.scope = .MonthScope ∨ d.scope = .MonthDayScope)))) ∧
    ((¬ ∃ msg, DateParser.validateSpanDatum span datum time = .error msg) ↔
      DateParser.validateSpanDatum span datum time = .ok ()) ∧
    DateParser.validateSpanDatum .YearSpan datum time = .ok () := by
  refine ⟨?_, ?_, rfl⟩
  · cases span <;> cases datum with
    | none =>
      by_cases ht : time.isValid = true <;>
        simp [DateParser.validateSpanDatum, ht]
    | some d =>
      obtain ⟨scope, value⟩ := d
      by_cases ht : time.isValid = true <;> cases scope <;>
        simp [DateParser.validateSpanDatum, ht, Datum.Scope.toInt]
  · cases h : DateParser.validateSpanDatum span datum time with
    | error e => simp
    | ok u => simp

/-- C33. For every valid date (of Julian day `w`) and every value `v` in 1..7,
`Datum::nextDate` with scope `WeekDayScope` returns the earliest date `d >= w`
whose ISO day-of-week is `v`, so that `0 <= d - w <= 6`, and `d = w` when `w`
already falls on weekday `v`. -/
theorem nextDate_weekDay_earliest (w v : Int) (fuel : Nat) (h1 : 1 ≤ v) (h7 : v ≤ 7) :
    ∃ d : Int, Datum.nextDate ⟨.WeekDayScope, v⟩ fuel (some w) = some (some d) ∧
      Datum.nextDateAsserts ⟨.WeekDayScope, v⟩ = true ∧
      w ≤ d ∧ d - w ≤ 6 ∧ QDate.dayOfWeek (some d) = v ∧
      (∀ e : Int, w ≤ e → QDate.dayOfWeek (some e) = v → d ≤ e) ∧
      (QDate.dayOfWeek (some w) = v → d = w) := by
  have ha : Datum.nextDateAsserts ⟨.WeekDayScope, v⟩ = true := by
    simp [Datum.nextDateAsserts]; omega
  simp only [Datum.nextDate, QDate.dayOfWeek, QDate.addDays]
  split_ifs with hgt
  · refine ⟨_, rfl, ha, by omega, by omega, by omega, ?_, by omega⟩
    intro e he hv
    omega
  · refine ⟨_, rfl, ha, by omega, by omega, by omega, ?_, by omega⟩
    intro e he hv
    omega

theorem nextDate_weekDay_earliest_witness :
    (1 : Int) ≤ 5 ∧ (5 : Int) ≤ 7 ∧
      ∃ d : Int, Datum.nextDate ⟨.WeekDayScope, 5⟩ 0 (some 2459991) = some (some d) ∧
        Datum.nextDateAsserts ⟨.WeekDayScope, 5⟩ = true ∧
        2459991 ≤ d ∧ d - 2459991 ≤ 6 ∧ QDate.dayOfWeek (some d) = 5 ∧
        (∀ e : Int, 2459991 ≤ e → QDate.dayOfWeek (some e) = 5 → d ≤ e) ∧
        (QDate.dayOfWeek (some 2459991) = 5 → d = 2459991) :=
  ⟨by decide, by decide, nextDate_weekDay_earliest 2459991 5 0 (by decide) (by decide)⟩

theorem shiftMonth_masked (m : Nat) (hm : m ≤ 12) : (m <<< 16) &&& 0xFF00 = 0 := by
  interval_cases m <;> rfl

theorem maskDay (d : Nat) (hd : d ≤ 31) : d &&& 0x00FF = d := by
  interval_cases d <;> rfl

/-- C34, the code at every month and day: the value that `parseDatum` stores
for a month-day is the day alone, because `(date.month() << 16) & 0xFF00` is 0
for every month; `Datum::nextDate` reads the month 0 from it, its assertion
`month > 0` fails, and a release build returns the null date. -/
theorem monthDay_value_loses_month (jd : Int) :
    1 ≤ QDate.month (some jd) ∧ QDate.month (some jd) ≤ 12 ∧
      1 ≤ QDate.day (some jd) ∧ QDate.day (some jd) ≤ 31 ∧
      DateParser.monthDayValue (some jd) = QDate.day (some jd) ∧
      Datum.monthOfValue (DateParser.monthDayValue (some jd)) = 0 ∧
      Datum.dayOfValue (DateParser.monthDayValue (some jd)) = QDate.day (some jd) ∧
      Datum.nextDateAsserts (DateParser.monthDayDatum (some jd)) = false ∧
      ∀ (fuel : Nat) (wDate : QDate),
        Datum.nextDate (DateParser.monthDayDatum (some jd)) fuel wDate = some QDate.null := by
  have hm := QDate.month_range jd
  have hd := QDate.day_range jd
  have hb := daysIn_bounds (QDate.year (some jd)) (QDate.month (some jd)) hm.1 hm.2
  have hv : DateParser.monthDayValue (some jd) = QDate.day (some jd) := by
    simp only [DateParser.monthDayValue]
    rw [shiftMonth_masked _ (by omega), maskDay _ (by omega), Nat.zero_or]
    omega
  have hmo : Datum.monthOfValue (DateParser.monthDayValue (some jd)) = 0 := by
    rw [hv]; simp only [Datum.monthOfValue]; omega
  have hdy : Datum.dayOfValue (DateParser.monthDayValue (some jd)) = QDate.day (some jd) := by
    rw [hv]; simp only [Datum.dayOfValue]; omega
  refine ⟨hm.1, hm.2, hd.1, by omega, hv, hmo, hdy, ?_, ?_⟩
  · simp [Datum.nextDateAsserts, DateParser.monthDayDatum, hmo]
  · intro fuel wDate
    have hinv : ∀ y d : Int, QDate.ofYMD y 0 d = QDate.null := by
      intro y d
      simp [QDate.ofYMD, isValidYMD, QDate.null]
    simp only [Datum.nextDate, DateParser.monthDayDatum, hmo, hinv, ite_self]

/-- The only entry of `spanMap` whose pattern matches in "weeks" is that of the week. -/
theorem spanMap_weeks :
    ∀ entry ∈ DateParser.spanMap,
      (regexMatch entry.1 (Text.simplified "weeks".toList)).hasMatch = true →
        entry.2 = Expression.Span.WeekSpan := by
  decide!

theorem parseSpan_weeks (order : List (Text × Expression.Span))
    (horder : order.Perm DateParser.spanMap) :
    DateParser.parseSpan order "weeks".toList = .ok .WeekSpan := by
  unfold DateParser.parseSpan
  simp only []
  cases hf : order.find?
      (fun entry => (regexMatch entry.1 (Text.simplified "weeks".toList)).hasMatch) with
  | none =>
    have hmem : ("(?:week|weeks)".toList, Expression.Span.WeekSpan) ∈ order :=
      horder.mem_iff.2 (by decide)
    have := List.find?_eq_none.1 hf _ hmem
    exact absurd (by decide!) this
  | some entry =>
    have h1 := List.find?_some hf
    have h2 := horder.mem_iff.1 (List.mem_of_find?_eq_some hf)
    simp only []
    rw [spanMap_weeks entry h2 h1]

/-- C35, the code at the failing input: for the text "2 weeks" `parseType`
returns a Type with `isDatum = true` and no datum (count 2, span Week),
whatever the iteration order of `spanMap`; `tryParseLoop` therefore validates
it with `validateDatumDatum`, which rejects it with "Invalid datum" for every
datum and time of the loop, while `validateSpanDatum` accepts a Week span
without a datum; and every Type that `parseType` returns has
`isDatum = true`. -/
theorem parseType_count_unit (parseDatum : Text → Except String Datum)
    (order : List (Text × Expression.Span)) (horder : order.Perm DateParser.spanMap) :
    DateParser.parseType parseDatum order "2 weeks".toList =
        .ok { isDatum := true, datum := none, count := 2, span := .WeekSpan } ∧
      (∀ (datum : Option Datum) (time : QTime),
        DateParser.tryParseLoopValidate
          { isDatum := true, datum := none, count := 2, span := .WeekSpan } datum time =
            .error "Invalid datum") ∧
      (∀ time : QTime, DateParser.validateSpanDatum .WeekSpan none time = .ok ()) ∧
      ∀ (data : Text) (type : Type_),
        DateParser.parseType parseDatum order data = .ok type → type.isDatum = true := by
  refine ⟨?_, ?_, ?_, ?_⟩
  · have hm : DateParser.parseTypeMatch (Text.simplified "2 weeks".toList) =
        { hasMatch := true, capturedStart := 0, capturedEnd := 7, subject := "2 weeks".toList,
          caps := [⟨1, [], "2".toList⟩, ⟨2, [], "weeks".toList⟩] } := by decide!
    unfold DateParser.parseType
    simp only [hm]
    have h2 : QRegularExpressionMatch.captured
        { hasMatch := true, capturedStart := 0, capturedEnd := 7, subject := "2 weeks".toList,
          caps := [⟨1, [], "2".toList⟩, ⟨2, [], "weeks".toList⟩] } 2 = "weeks".toList := by
      decide!
    have h1 : QRegularExpressionMatch.captured
        { hasMatch := true, capturedStart := 0, capturedEnd := 7, subject := "2 weeks".toList,
          caps := [⟨1, [], "2".toList⟩, ⟨2, [], "weeks".toList⟩] } 1 = "2".toList := by
      decide!
    have h3 : (Text.toInt "2".toList).getD 0 = 2 := by decide!
    rw [h2, h1, parseSpan_weeks order horder, h3]
    rfl
  · intro datum time
    rfl
  · intro time
    rfl
  · intro data type h
    unfold DateParser.parseType at h
    simp only [] at h
    split_ifs at h
    · split at h
      · exact absurd h (by simp)
      · simp only [Except.ok.injEq] at h
        rw [← h]
    · split at h
      · exact absurd h (by simp)
      · simp only [Except.ok.injEq] at h
        rw [← h]

theorem parseType_count_unit_witness :
    DateParser.spanMap.Perm DateParser.spanMap ∧
      (DateParser.parseType (fun _ => .error "no datum") DateParser.spanMap "2 weeks".toList =
          .ok { isDatum := true, datum := none, count := 2, span := .WeekSpan } ∧
        (∀ (datum : Option Datum) (time : QTime),
          DateParser.tryParseLoopValidate
            { isDatum := true, datum := none, count := 2, span := .WeekSpan } datum time =
              .error "Invalid datum") ∧
        (∀ time : QTime, DateParser.validateSpanDatum .WeekSpan none time = .ok ()) ∧
        ∀ (data : Text) (type : Type_),
          DateParser.parseType (fun _ => .error "no datum") DateParser.spanMap data = .ok type →
            type.isDatum = true) :=
  ⟨List.Perm.refl _, parseType_count_unit _ _ (List.Perm.refl _)⟩

end ParserTypes
